import Mathlib

/-!
Verification development for `unusedunexport`

A shallow embedding of `src/unexport/unusedunexport.go`, an analyzer that reports unused
unexported functions, results, arguments, structs, fields and other package-level
definitions of one Go package.

Modelling conventions

* A Go `map[K]V` is an association list `GoMap K V` with at most one pair per key.
  `GoMap.set` is the Go assignment `m[k] = v` (an existing key keeps its place, a new key is
  appended), `GoMap.erase` is `delete(m, k)`, `GoMap.lookup` is the comma-ok read.  The
  iteration order of a Go map is unspecified, so every statement about the diagnostics is
  about membership and multiplicity, never about order.
* The registries hold pointers to entries (`*functionEntry`, `*structEntry`); a write through
  such a pointer is a `GoMap.modify` at the key the pointer was read from.
* `intsets.Sparse` and `stringset.Set` are finite sets (`Finset Nat`, `Finset String`).
* `token.Pos` is a natural number.
* The syntax tree and the SSA form are inputs of the analyzer produced by `go/parser`,
  `go/types` and `go/ssa`; they are modelled by the data the analyzer reads from them.
  `TypesInfo.ObjectOf` is carried by each identifier (`Ident.typesObj`); the referrers of an
  SSA value are carried by the instruction that defines the value.
* `unicode.IsUpper` and `unicode.ToLower` are parameters of the development.
-/

namespace Unusedunexport

/-! ## Go maps -/

/-- A Go map, as the list of its key/value pairs. -/
abbrev GoMap (κ : Type) (ν : Type) := List (κ × ν)

namespace GoMap

variable {κ ν : Type} [DecidableEq κ]

/-- The read `v, ok := m[k]`. -/
def lookup : GoMap κ ν → κ → Option ν
  | [], _ => none
  | (k0, v) :: rest, k => if k0 = k then some v else lookup rest k

/-- The assignment `m[k] = v`. -/
def set : GoMap κ ν → κ → ν → GoMap κ ν
  | [], k, v => [(k, v)]
  | (k0, v0) :: rest, k, v => if k0 = k then (k0, v) :: rest else (k0, v0) :: set rest k v

/-- The statement `delete(m, k)`. -/
def erase : GoMap κ ν → κ → GoMap κ ν
  | [], _ => []
  | (k0, v0) :: rest, k => if k0 = k then erase rest k else (k0, v0) :: erase rest k

/-- A write through the pointer stored at key `k`: the value at `k`, when there is one, is
replaced by `f` of it. -/
def modify : GoMap κ ν → κ → (ν → ν) → GoMap κ ν
  | [], _, _ => []
  | (k0, v0) :: rest, k, f => if k0 = k then (k0, f v0) :: rest else (k0, v0) :: modify rest k f

/-- The keys of the map, in list order. -/
def keys (m : GoMap κ ν) : List κ := m.map Prod.fst

end GoMap

/-! ## Data model (lines 30-97 of the source) -/

/-- A `token.Pos`. -/
abbrev Pos := Nat

/-- The struct `functionEntry`. -/
structure FunctionEntry where
  fullName : String
  referenced : Bool
  pos : Pos
  unusedResults : Finset Nat
  unusedArguments : Finset String
  passedAsArgument : Bool

/-- The struct `structEntry`. -/
structure StructEntry where
  fullName : String
  referenced : Bool
  exported : Bool
  pos : Pos
  unusedFields : GoMap Nat Pos

/-- The struct `executionMetadata` (its `pass` field is the input, see `Pass`). -/
structure ExecutionMetadata where
  functionRegistry : GoMap String FunctionEntry
  structRegistry : GoMap String StructEntry
  receiverPositions : GoMap Pos Bool
  otherUnusedDefinitions : GoMap Pos String

/-- The function `newExecutionMetadata`. -/
def newExecutionMetadata : ExecutionMetadata :=
  { functionRegistry := [], structRegistry := [], receiverPositions := [],
    otherUnusedDefinitions := [] }

/-- The map `ignoredFunctions`. -/
def ignoredFunctions : GoMap String Bool := [("main", true), ("init", true)]

/-! ## Type-checker objects and syntax tree -/

/-- A `*types.Func`: its `Name()`, `FullName()` and `Pos()`. -/
structure TypesFunc where
  name : String
  fullName : String
  pos : Pos

/-- A `types.Object` as returned by `TypesInfo.ObjectOf`: a `*types.Func`, a
`*types.TypeName` (with `Type().String()`), or any other object. -/
inductive TypesObject where
  | func (f : TypesFunc)
  | typeName (typeString : String) (pos : Pos)
  | other (pos : Pos)

/-- The method `Pos()` of a `types.Object`. -/
def TypesObject.Pos : TypesObject → Pos
  | .func f => f.pos
  | .typeName _ p => p
  | .other p => p

/-- An `*ast.Ident`: `Name`, `Pos()`, the position of its syntactic `Obj` (`none` when `Obj`
is nil) and the result of `TypesInfo.ObjectOf` (`none` when nil). -/
structure Ident where
  name : String
  pos : Pos
  astObj : Option Pos
  typesObj : Option TypesObject

/-- An `*ast.Field` of a parameter or result list: only its `Names` are read (an empty list
is the nil slice of an unnamed parameter or result). -/
structure SigField where
  names : List Ident

/-- An `*ast.FuncType`: `Params.List` and `Results` (`none` when `Results` is nil). -/
structure FuncType where
  params : List SigField
  results : Option (List SigField)

/-- An `*ast.Field` of a struct body, of an interface body or of a receiver list: `Names`
(the empty list is nil: an embedded field or embedded interface), `Type.Pos()`, and the type
itself when it is an `*ast.FuncType`. -/
structure Field where
  names : List Ident
  typePos : Pos
  funcType : Option FuncType

/-- The `Type` of an `*ast.TypeSpec`, as far as the analyzer distinguishes it. -/
inductive TypeExpr where
  | structType (fields : Option (List Field))
  | interfaceType (methods : List Field)
  | other

/-- An `ast.Spec`. -/
inductive Spec where
  | typeSpec (name : Ident) (typ : TypeExpr)
  | valueSpec (names : List Ident)
  | other

/-- An `*ast.FuncDecl`: `Name`, `Recv` (`none` when nil, else `Recv.List`), `Type`. -/
structure FuncDecl where
  name : Ident
  recv : Option (List Field)
  typ : FuncType

/-- An `ast.Decl`. -/
inductive Decl where
  | genDecl (specs : List Spec)
  | funcDecl (fn : FuncDecl)
  | other

/-- An `*ast.File`: its `Decls`, and the identifiers that `ast.Inspect` visits in it. -/
structure File where
  decls : List Decl
  idents : List Ident

/-! ## SSA form -/

/-- An `ssa.Value` used as an operand: a `*ssa.Function` (with its `Object()`, which is a
`*types.Func` or nil), a `*ssa.MakeClosure` (with its `Fn`), or any other value. -/
inductive Value where
  | function (object : Option TypesFunc)
  | makeClosure (fn : Value)
  | other

/-- A Go type as seen through `String()` and the type assertion to `*types.Pointer`: a
pointer type (`*types.Pointer`) with its element type, a defined type (`*types.Named`) with
its `String()` and its `Underlying()`, or another type given by its `String()` (a type whose
underlying type plays no role is written this way too). -/
inductive GoType where
  | pointer (elem : GoType)
  | named (string : String) (underlying : GoType)
  | other (string : String)

/-- The method `String()` of a type. -/
def GoType.String : GoType → String
  | .pointer elem => "*" ++ elem.String
  | .named s _ => s
  | .other s => s

/-- An instruction that is only counted, never inspected. -/
abbrev AnyInstr := Unit

/-- An instruction found in a referrer list: an `*ssa.Extract` (with `Index` and its own
`Referrers()`), an `*ssa.Store` (with the identity of the value in `Addr`), or another one. -/
inductive Referrer where
  | extract (index : Nat) (referrers : Option (List AnyInstr))
  | store (addr : Nat)
  | other

/-- An `*ssa.CallCommon`: `Value`, `Method` (`none` when nil), `Args`, and
`Signature().Results().Len()`. -/
structure CallCommon where
  value : Value
  method : Option TypesFunc
  args : List Value
  numResults : Nat

/-- An `ssa.Instruction` of a block.  A `*ssa.FieldAddr` carries its own identity `id`, the
type of `X`, `Field` and its `Referrers()`; a `*ssa.Call` carries its `Referrers()`; every
instruction of another kind (a store, a map update, a return, ...) carries its operands,
which the analyzer never reads. -/
inductive Instr where
  | call (cc : CallCommon) (referrers : Option (List Referrer))
  | defer (cc : CallCommon)
  | go (cc : CallCommon)
  | changeType (x : Value)
  | fieldAddr (id : Nat) (xType : GoType) (field : Nat) (referrers : Option (List Referrer))
  | other (operands : List Value)

/-- An `*ssa.Parameter`: `Name()` and `Referrers()`. -/
structure Parameter where
  name : String
  referrers : Option (List AnyInstr)

/-- An `*ssa.Function` that is scanned: `Object()`, `Params`, `Blocks` (each block is its
`Instrs`) and `AnonFuncs`. -/
inductive Function where
  | mk (object : Option TypesFunc) (params : List Parameter) (blocks : List (List Instr))
      (anonFuncs : List Function)

/-- The method `Object()` of a function. -/
def Function.object : Function → Option TypesFunc
  | .mk o _ _ _ => o

/-- The field `Params` of a function. -/
def Function.params : Function → List Parameter
  | .mk _ ps _ _ => ps

/-- The field `Blocks` of a function. -/
def Function.blocks : Function → List (List Instr)
  | .mk _ _ bs _ => bs

/-- The field `AnonFuncs` of a function. -/
def Function.anonFuncs : Function → List Function
  | .mk _ _ _ as => as

/-- The input of `run`: `pass.Files`, `ssainput.Pkg.Func("init")` and `ssainput.SrcFuncs`. -/
structure Pass where
  files : List File
  initFunc : Option Function
  srcFuncs : List Function

/-! ## Diagnostics -/

/-- The message of a `Reportf` call, one constructor per format string of `reportErrors`. -/
inductive Message where
  | structNotUsed (fullName : String)
  | fieldNotUsed
  | functionNotUsed (fullName : String)
  | unusedReturns (fullName : String) (indexes : Finset Nat)
  | unusedArguments (fullName : String) (names : Finset String)
  | otherNotUsed (name : String)

/-- One call of `pass.Reportf`. -/
structure Diagnostic where
  pos : Pos
  message : Message

/-! ## Library functions -/

section Operations

variable (unicodeIsUpper : Char → Bool) (unicodeToLower : Char → Char)

/-- The function `token.IsExported` behind `(*ast.Ident).IsExported`: the first rune of the
name is upper case (the empty name decodes to `utf8.RuneError`, which is not). -/
def IsExported (name : String) : Bool :=
  match name.data with
  | [] => false
  | ch :: _ => unicodeIsUpper ch

/-- The function `strings.ToLower`, rune by rune. -/
def ToLower (s : String) : String := ⟨s.data.map unicodeToLower⟩

/-- The function `strings.HasPrefix`. -/
def HasPrefix (s pre : String) : Bool := pre.data.isPrefixOf s.data

/-- The method `(*ast.FieldList).NumFields`: the number of names, an unnamed entry counting
as one; `0` for the nil list. -/
def NumFields : Option (List SigField) → Nat
  | none => 0
  | some l => l.foldl (fun n g => n + (if g.names.length = 0 then 1 else g.names.length)) 0

/-- The method `(*ssa.CallCommon).StaticCallee`: the called `*ssa.Function`, given by its
`Object()`, when the callee is a function or a closure over one; `none` for nil.  In SSA
form the `Fn` of a closure is always a function, so the last case is that of a callee that
is neither. -/
def StaticCallee (cc : CallCommon) : Option (Option TypesFunc) :=
  match cc.value with
  | .function object => some object
  | .makeClosure (.function object) => some object
  | _ => none

/-! ## Registration (lines 335-494) -/

/-- The function `shouldSkipFunction`. -/
def shouldSkipFunction (fn : FuncDecl) : Bool :=
  let funcName := fn.name.name
  if (ignoredFunctions.lookup funcName).getD false then true
  else
    let lowerCase := ToLower unicodeToLower funcName
    if HasPrefix lowerCase "_cgo" || HasPrefix lowerCase "_cfunc_" then true else false

/-- The function `registerFunction`. -/
def registerFunction (em : ExecutionMetadata) (funcObj : TypesFunc) (numResults : Nat)
    (_params : List SigField) : ExecutionMetadata :=
  let functionEntry : FunctionEntry :=
    { fullName := funcObj.fullName
      referenced := false
      pos := funcObj.pos
      unusedResults := (List.range numResults).foldl (fun s i => insert i s) ∅
      unusedArguments := ∅
      passedAsArgument := false }
  { em with functionRegistry := em.functionRegistry.set funcObj.fullName functionEntry }

/-- The function `registerInterfaceMethod`. -/
def registerInterfaceMethod (em : ExecutionMetadata) (funcType : FuncType) (n : Ident) :
    ExecutionMetadata :=
  match n.typesObj with
  | some (.func funcObj) =>
    let numResults := match funcType.results with
      | some list => list.length
      | none => 0
    registerFunction em funcObj numResults []
  | _ => em

/-- The inner loop of `registerStruct` over the names of one field. -/
def registerFieldNames (names : List Ident) (st : Nat × GoMap Nat Pos) : Nat × GoMap Nat Pos :=
  names.foldl (fun st name =>
    let idx := st.1
    if IsExported unicodeIsUpper name.name then (idx + 1, st.2)
    else (idx + 1, st.2.set idx name.pos)) st

/-- The loop of `registerStruct` over `inter.Fields.List`: the state is `fieldIndex` and
`se.unusedFields`. -/
def registerFields (fields : List Field) (st : Nat × GoMap Nat Pos) : Nat × GoMap Nat Pos :=
  fields.foldl (fun st field =>
    match field.names with
    | [] => (st.1 + 1, st.2)
    | names => registerFieldNames unicodeIsUpper names st) st

/-- The function `registerStruct`. -/
def registerStruct (em : ExecutionMetadata) (specName : Ident) (fields : Option (List Field)) :
    ExecutionMetadata :=
  match specName.typesObj with
  | some (.typeName fullName _) =>
    let se : StructEntry :=
      { fullName := fullName
        referenced := false
        exported := IsExported unicodeIsUpper specName.name
        pos := specName.pos
        unusedFields := match fields with
          | some list => (registerFields unicodeIsUpper list (0, [])).2
          | none => [] }
    { em with structRegistry := em.structRegistry.set fullName se }
  | _ => em

/-- The state of the first loop of `registerPackageUnexportedDefinitions`: the metadata and
the local map `interfaceMethods`. -/
abbrev RegState := ExecutionMetadata × GoMap String Bool

/-- The loop over `m.Names` for one method `m` of an interface whose type is a function
type. -/
def registerMethodNames (funcType : FuncType) (names : List Ident) (st : RegState) : RegState :=
  names.foldl (fun st n =>
    if IsExported unicodeIsUpper n.name then st
    else (registerInterfaceMethod st.1 funcType n, st.2.set n.name true)) st

/-- The loop over `inter.Methods.List`. -/
def registerMethods (methods : List Field) (st : RegState) : RegState :=
  methods.foldl (fun st m =>
    match m.funcType with
    | some funcType => registerMethodNames unicodeIsUpper funcType m.names st
    | none => st) st

/-- The loop over `spec.Names` of a value specification. -/
def registerValueNames (names : List Ident) (em : ExecutionMetadata) : ExecutionMetadata :=
  names.foldl (fun em name =>
    if !IsExported unicodeIsUpper name.name && name.name != "_" then
      { em with otherUnusedDefinitions := em.otherUnusedDefinitions.set name.pos name.name }
    else em) em

/-- The body of the loop over `gen.Specs` (lines 347-380). -/
def registerSpec (st : RegState) : Spec → RegState
  | .typeSpec name (.structType fields) => (registerStruct unicodeIsUpper st.1 name fields, st.2)
  | .typeSpec name (.interfaceType methods) =>
    let em := if !IsExported unicodeIsUpper name.name then
        { st.1 with otherUnusedDefinitions := st.1.otherUnusedDefinitions.set name.pos name.name }
      else st.1
    registerMethods unicodeIsUpper methods (em, st.2)
  | .typeSpec _ .other => st
  | .valueSpec names => (registerValueNames unicodeIsUpper names st.1, st.2)
  | .other => st

/-- The body of the first loop over `file.Decls` (lines 341-381). -/
def registerGenDecl (st : RegState) : Decl → RegState
  | .genDecl specs => specs.foldl (registerSpec unicodeIsUpper) st
  | _ => st

/-- The body of the second loop over `file.Decls` (lines 386-411). -/
def registerFuncDecl (interfaceMethods : GoMap String Bool) (em : ExecutionMetadata) :
    Decl → ExecutionMetadata
  | .funcDecl fn =>
    if IsExported unicodeIsUpper fn.name.name then em
    else if shouldSkipFunction unicodeToLower fn then em
    else
      match fn.name.typesObj with
      | some (.func funcObj) =>
        let funcName := funcObj.name
        if fn.recv.isSome && (interfaceMethods.lookup funcName).getD false then em
        else
          let em := registerFunction em funcObj (NumFields fn.typ.results) fn.typ.params
          match fn.recv with
          | some (first :: _) =>
            { em with receiverPositions := em.receiverPositions.set first.typePos true }
          | _ => em
      | _ => em
  | _ => em

/-- The first pair of loops of `registerPackageUnexportedDefinitions` (lines 340-383). -/
def registerGenDecls (files : List File) (st : RegState) : RegState :=
  files.foldl (fun st file => file.decls.foldl (registerGenDecl unicodeIsUpper) st) st

/-- The second pair of loops of `registerPackageUnexportedDefinitions` (lines 385-412). -/
def registerFuncDecls (files : List File) (interfaceMethods : GoMap String Bool)
    (em : ExecutionMetadata) : ExecutionMetadata :=
  files.foldl (fun em file =>
    file.decls.foldl (registerFuncDecl unicodeIsUpper unicodeToLower interfaceMethods) em) em

/-- The function `registerPackageUnexportedDefinitions`. -/
def registerPackageUnexportedDefinitions (files : List File) (em : ExecutionMetadata) :
    ExecutionMetadata :=
  let st := registerGenDecls unicodeIsUpper files (em, [])
  registerFuncDecls unicodeIsUpper unicodeToLower files st.2 st.1

/-! ## Flow scan (lines 172-333) -/

/-- The function `markFunctionPassedAsArgument`. -/
def markFunctionPassedAsArgument (em : ExecutionMetadata) (funcObj : TypesFunc) :
    ExecutionMetadata :=
  { em with functionRegistry := em.functionRegistry.modify funcObj.fullName (fun fe =>
      { fe with referenced := true, unusedResults := ∅, unusedArguments := ∅,
                passedAsArgument := true }) }

/-- The value of `funcObj` at line 260 for one argument of `checkFunctionParameter`: the
declared function of a `*ssa.Function` argument or of a closure made directly over one. -/
def argumentFunction : Value → Option TypesFunc
  | .function object => object
  | .makeClosure (.function object) => object
  | _ => none

/-- The function `checkFunctionParameter`. -/
def checkFunctionParameter (em : ExecutionMetadata) (cc : CallCommon) : ExecutionMetadata :=
  cc.args.foldl (fun em arg =>
    match argumentFunction arg with
    | some funcObj => markFunctionPassedAsArgument em funcObj
    | none => em) em

/-- The value of `funName` in `retrieveRegisteredFunctionEntry` (lines 282-292); `none` is
the `default` case. -/
def calleeName (cc : CallCommon) : Option String :=
  match StaticCallee cc with
  | some (some object) => some object.fullName
  | _ =>
    match cc.method with
    | some m => some m.fullName
    | none => none

/-- The function `retrieveRegisteredFunctionEntry`: the new metadata, and the key of the
returned entry (`none` when the second result is false). -/
def retrieveRegisteredFunctionEntry (em : ExecutionMetadata) (cc : CallCommon) :
    ExecutionMetadata × Option String :=
  match calleeName cc with
  | none => (em, none)
  | some funName =>
    match em.functionRegistry.lookup funName with
    | none => (em, none)
    | some _ =>
      ({ em with functionRegistry :=
          em.functionRegistry.modify funName (fun fe => { fe with referenced := true }) },
        some funName)

/-- The loop of `findUsedResults` over the referrers of a call with several results. -/
def findUsedExtracts (used : List Nat) : List Referrer → List Nat
  | [] => used
  | .extract index extractRefs :: rest =>
    match extractRefs with
    | some l => if l.length > 0 then findUsedExtracts (used ++ [index]) rest
                else findUsedExtracts used rest
    | none => findUsedExtracts used rest
  | _ :: rest => findUsedExtracts used rest

/-- The function `findUsedResults`, for a call with the given number of results and
referrers. -/
def findUsedResults (numReturns : Nat) (refs : Option (List Referrer)) : List Nat :=
  match numReturns with
  | 0 => []
  | 1 =>
    match refs with
    | some l => if l.length > 0 then [0] else []
    | none => []
  | _ =>
    match refs with
    | none => []
    | some l => findUsedExtracts [] l

/-- The loop at lines 217-224 over the referrers of the field address `id`: whether the
field is deleted from `unusedFields`. -/
def fieldIsUsed (id : Nat) : List Referrer → Bool
  | [] => false
  | .store addr :: rest => if addr = id then fieldIsUsed id rest else true
  | _ :: _ => true

/-- The value of `xTypeName` at line 210: the string of the type of `v.X`, or of its element
type when it is a pointer. -/
def fieldAddrTypeName : GoType → String
  | .pointer elem => elem.String
  | .named s u => GoType.String (.named s u)
  | .other s => GoType.String (.other s)

/-- One case of the `switch` of `checkRegisteredFunctionAndFieldsUsages` (lines 175-226). -/
def checkInstr (em : ExecutionMetadata) : Instr → ExecutionMetadata
  | .call cc refs =>
    let em := checkFunctionParameter em cc
    match retrieveRegisteredFunctionEntry em cc with
    | (em, none) => em
    | (em, some key) =>
      (findUsedResults cc.numResults refs).foldl (fun em resIndex =>
        { em with functionRegistry := em.functionRegistry.modify key (fun fe =>
            { fe with unusedResults := fe.unusedResults.erase resIndex }) }) em
  | .defer cc => (retrieveRegisteredFunctionEntry (checkFunctionParameter em cc) cc).1
  | .go cc => (retrieveRegisteredFunctionEntry (checkFunctionParameter em cc) cc).1
  | .changeType x =>
    match x with
    | .function (some funcObj) => markFunctionPassedAsArgument em funcObj
    | _ => em
  | .fieldAddr id xType field refs =>
    let xTypeName := fieldAddrTypeName xType
    match em.structRegistry.lookup xTypeName with
    | none => em
    | some _ =>
      match refs with
      | none => em
      | some l =>
        if fieldIsUsed id l then
          { em with structRegistry := em.structRegistry.modify xTypeName (fun se =>
              { se with unusedFields := se.unusedFields.erase field }) }
        else em
  | .other _ => em

mutual
/-- The function `checkRegisteredFunctionAndFieldsUsages`. -/
def checkRegisteredFunctionAndFieldsUsages (em : ExecutionMetadata) : Function → ExecutionMetadata
  | .mk _ _ blocks anonFuncs =>
    checkAnonFuncs (blocks.foldl (fun em block => block.foldl checkInstr em) em) anonFuncs
/-- The loop over `fn.AnonFuncs` (lines 231-233). -/
def checkAnonFuncs (em : ExecutionMetadata) : List Function → ExecutionMetadata
  | [] => em
  | anon :: rest => checkAnonFuncs (checkRegisteredFunctionAndFieldsUsages em anon) rest
end

/-! ## The function `run` (lines 100-170) -/

/-- The condition at line 125: `param.Referrers()` is nil or empty. -/
def paramUnreferenced (param : Parameter) : Bool :=
  match param.referrers with
  | none => true
  | some l => decide (l.length = 0)

/-- The loop over `fn.Params` (lines 124-128), writing through the entry at `key`. -/
def checkParams (em : ExecutionMetadata) (key : String) (params : List Parameter) :
    ExecutionMetadata :=
  params.foldl (fun em param =>
    if paramUnreferenced param then
      { em with functionRegistry := em.functionRegistry.modify key (fun fe =>
          { fe with unusedArguments := insert param.name fe.unusedArguments }) }
    else em) em

/-- The unused-parameter step of `run` for one function (lines 118-128). -/
def checkUnusedParams (em : ExecutionMetadata) (fnObj : TypesFunc) (params : List Parameter) :
    ExecutionMetadata :=
  match em.functionRegistry.lookup fnObj.fullName with
  | none => em
  | some fe => if fe.passedAsArgument then em else checkParams em fnObj.fullName params

/-- The body of the loop over `ssainput.SrcFuncs` (lines 109-129). -/
def runSrcFunc (em : ExecutionMetadata) (fn : Function) : ExecutionMetadata :=
  match fn.object with
  | none => em
  | some fnObj =>
    checkUnusedParams (checkRegisteredFunctionAndFieldsUsages em fn) fnObj fn.params

/-- The closure `visit` of `run`, applied to an identifier (other nodes change nothing). -/
def visit (em : ExecutionMetadata) (n : Ident) : ExecutionMetadata :=
  if n.astObj = some n.pos then em
  else
    match n.typesObj with
    | none => em
    | some identObj =>
      let fallback : ExecutionMetadata :=
        { em with otherUnusedDefinitions := em.otherUnusedDefinitions.erase identObj.Pos }
      match identObj with
      | .typeName typeString _ =>
        match em.structRegistry.lookup typeString with
        | some _ =>
          if (em.receiverPositions.lookup n.pos).getD false then em
          else { em with structRegistry :=
                  em.structRegistry.modify typeString (fun se => { se with referenced := true }) }
        | none => fallback
      | _ => fallback

/-- The diagnostics of `reportErrors` for one struct entry (lines 498-504). -/
def reportStruct (se : StructEntry) : List Diagnostic :=
  (if !se.referenced && !se.exported then [⟨se.pos, .structNotUsed se.fullName⟩] else [])
    ++ se.unusedFields.map (fun kv => ⟨kv.2, .fieldNotUsed⟩)

/-- The diagnostics of `reportErrors` for one function entry (lines 508-515). -/
def reportFunction (fe : FunctionEntry) : List Diagnostic :=
  if !fe.referenced then [⟨fe.pos, .functionNotUsed fe.fullName⟩]
  else if !decide (fe.unusedResults = ∅) then
    [⟨fe.pos, .unusedReturns fe.fullName fe.unusedResults⟩]
  else if !decide (fe.unusedArguments = ∅) then
    [⟨fe.pos, .unusedArguments fe.fullName fe.unusedArguments⟩]
  else []

/-- The function `reportErrors`: the diagnostics it reports. -/
def reportErrors (em : ExecutionMetadata) : List Diagnostic :=
  (em.structRegistry.map (fun kv => reportStruct kv.2)).flatten
    ++ (em.functionRegistry.map (fun kv => reportFunction kv.2)).flatten
    ++ em.otherUnusedDefinitions.map (fun kv => ⟨kv.1, .otherNotUsed kv.2⟩)

/-- The flow scan of `run` (lines 104-129), from the registered metadata. -/
def runFlow (pass : Pass) (em : ExecutionMetadata) : ExecutionMetadata :=
  let em := match pass.initFunc with
    | some initFunc => checkRegisteredFunctionAndFieldsUsages em initFunc
    | none => em
  pass.srcFuncs.foldl runSrcFunc em

/-- The syntax scan of `run` (lines 131-166). -/
def runSyntax (pass : Pass) (em : ExecutionMetadata) : ExecutionMetadata :=
  pass.files.foldl (fun em f => f.idents.foldl visit em) em

/-- The metadata that `run` hands to `reportErrors`. -/
def finalMetadata (pass : Pass) : ExecutionMetadata :=
  runSyntax pass (runFlow pass
    (registerPackageUnexportedDefinitions unicodeIsUpper unicodeToLower pass.files
      newExecutionMetadata))

/-- The function `run`: the diagnostics reported for a package. -/
def run (pass : Pass) : List Diagnostic :=
  reportErrors (finalMetadata unicodeIsUpper unicodeToLower pass)

end Operations

/-! ## The scans as sequences of steps

The flow scan and the syntax scan of `run` are folds of single steps over the instructions,
functions and identifiers of the package.  The definitions below name the steps, list them
in the order `run` performs them, and describe what one step does to a single registry
entry; the theorems further down prove that these descriptions agree with the code. -/

/-- One step of the scans of `run`: the `switch` on one instruction, the unused-parameter
step for one source function, or `visit` on one identifier. -/
inductive Step where
  | instr (i : Instr)
  | params (fnObj : TypesFunc) (ps : List Parameter)
  | ident (n : Ident)

/-- The effect of one step on the metadata. -/
def applyStep (em : ExecutionMetadata) : Step → ExecutionMetadata
  | .instr i => checkInstr em i
  | .params fnObj ps => checkUnusedParams em fnObj ps
  | .ident n => visit em n

mutual
/-- The instructions that `checkRegisteredFunctionAndFieldsUsages` visits for a function, in
order: its blocks, then its anonymous functions. -/
def functionInstrs : Function → List Instr
  | .mk _ _ blocks anonFuncs => blocks.flatten ++ anonInstrs anonFuncs
/-- The instructions visited for a list of anonymous functions. -/
def anonInstrs : List Function → List Instr
  | [] => []
  | anon :: rest => functionInstrs anon ++ anonInstrs rest
end

/-- The steps of one iteration of the loop over `ssainput.SrcFuncs`. -/
def srcFuncSteps (fn : Function) : List Step :=
  match fn.object with
  | none => []
  | some fnObj => (functionInstrs fn).map Step.instr ++ [Step.params fnObj fn.params]

/-- The steps of the flow scan of `run`. -/
def flowSteps (pass : Pass) : List Step :=
  (match pass.initFunc with
    | some initFunc => (functionInstrs initFunc).map Step.instr
    | none => [])
  ++ (pass.srcFuncs.map srcFuncSteps).flatten

/-- The steps of the syntax scan of `run`. -/
def syntaxSteps (pass : Pass) : List Step :=
  (pass.files.map (fun f => f.idents.map Step.ident)).flatten

/-- The instructions scanned by `run`: those of the package initializer and of every source
function that has a declared object. -/
def scannedInstrs (pass : Pass) : List Instr :=
  (match pass.initFunc with
    | some initFunc => functionInstrs initFunc
    | none => [])
  ++ (pass.srcFuncs.map (fun fn =>
        match fn.object with
        | none => []
        | some _ => functionInstrs fn)).flatten

/-- The writes of `markFunctionPassedAsArgument` to an entry. -/
def escalate (fe : FunctionEntry) : FunctionEntry :=
  { fe with referenced := true, unusedResults := ∅, unusedArguments := ∅,
            passedAsArgument := true }

/-- Whether `checkFunctionParameter` escalates the function named `name` for this argument. -/
def argEscalates (name : String) (arg : Value) : Bool :=
  match argumentFunction arg with
  | some funcObj => decide (funcObj.fullName = name)
  | none => false

/-- Whether the callee of a call, defer or go instruction resolves to `name`. -/
def resolvesTo (name : String) (cc : CallCommon) : Bool :=
  decide (calleeName cc = some name)

/-- The effect of `checkFunctionParameter` on the entry named `name`. -/
def argsEntry (name : String) (fe : FunctionEntry) (args : List Value) : FunctionEntry :=
  args.foldl (fun fe arg => if argEscalates name arg then escalate fe else fe) fe

/-- The effect of `retrieveRegisteredFunctionEntry` on the entry named `name`. -/
def retrieveEntry (name : String) (fe : FunctionEntry) (cc : CallCommon) : FunctionEntry :=
  if resolvesTo name cc then { fe with referenced := true } else fe

/-- The effect of the loop at lines 183-185 on an entry. -/
def removeResults (fe : FunctionEntry) (used : List Nat) : FunctionEntry :=
  used.foldl (fun fe resIndex => { fe with unusedResults := fe.unusedResults.erase resIndex }) fe

/-- The effect of the loop at lines 124-128 on an entry. -/
def paramsEntry (fe : FunctionEntry) (params : List Parameter) : FunctionEntry :=
  params.foldl (fun fe param =>
    if paramUnreferenced param then
      { fe with unusedArguments := insert param.name fe.unusedArguments }
    else fe) fe

/-- The effect of one instruction on the function entry named `name`. -/
def instrEntry (name : String) (fe : FunctionEntry) : Instr → FunctionEntry
  | .call cc refs =>
    let fe := retrieveEntry name (argsEntry name fe cc.args) cc
    if resolvesTo name cc then removeResults fe (findUsedResults cc.numResults refs) else fe
  | .defer cc => retrieveEntry name (argsEntry name fe cc.args) cc
  | .go cc => retrieveEntry name (argsEntry name fe cc.args) cc
  | .changeType (.function (some funcObj)) =>
    if funcObj.fullName = name then escalate fe else fe
  | _ => fe

/-- The effect of one step on the function entry named `name`. -/
def stepEntry (name : String) (fe : FunctionEntry) : Step → FunctionEntry
  | .instr i => instrEntry name fe i
  | .params fnObj ps =>
    if fnObj.fullName = name then (if fe.passedAsArgument then fe else paramsEntry fe ps)
    else fe
  | .ident _ => fe

/-- The effect of one step on the struct entry named `name`; `receiverPositions` is the map
of the metadata, which no step changes. -/
def stepStruct (receiverPositions : GoMap Pos Bool) (name : String) (se : StructEntry) :
    Step → StructEntry
  | .instr (.fieldAddr id xType field (some l)) =>
    if fieldAddrTypeName xType = name ∧ fieldIsUsed id l = true then
      { se with unusedFields := se.unusedFields.erase field }
    else se
  | .ident n =>
    if n.astObj = some n.pos then se
    else
      match n.typesObj with
      | some (.typeName typeString _) =>
        if typeString = name ∧ (receiverPositions.lookup n.pos).getD false = false then
          { se with referenced := true }
        else se
      | _ => se
  | _ => se

/-- Whether an instruction escalates the function named `name`: the function is an
argument of a call, defer or go instruction, or the operand of a `ChangeType`. -/
def instrEscalates (name : String) : Instr → Bool
  | .call cc _ => cc.args.any (argEscalates name)
  | .defer cc => cc.args.any (argEscalates name)
  | .go cc => cc.args.any (argEscalates name)
  | .changeType (.function (some funcObj)) => decide (funcObj.fullName = name)
  | _ => false

/-- Whether an instruction is a call, defer or go whose callee resolves to `name`. -/
def instrReferences (name : String) : Instr → Bool
  | .call cc _ => resolvesTo name cc
  | .defer cc => resolvesTo name cc
  | .go cc => resolvesTo name cc
  | _ => false

/-- The entry that `registerFunction` stores for a function object and a number of
results. -/
def freshEntry (funcObj : TypesFunc) (numResults : Nat) : FunctionEntry :=
  { fullName := funcObj.fullName
    referenced := false
    pos := funcObj.pos
    unusedResults := Finset.range numResults
    unusedArguments := ∅
    passedAsArgument := false }

/-! ## Declarations of a package -/

/-- The function declarations of a file. -/
def fileFuncDecls (file : File) : List FuncDecl :=
  (file.decls.map (fun d =>
    match d with
    | .funcDecl fn => [fn]
    | _ => [])).flatten

/-- The top-level function declarations of the package. -/
def funcDecls (files : List File) : List FuncDecl :=
  (files.map fileFuncDecls).flatten

/-- The methods of one interface body that are declared with a function type, one pair per
name. -/
def methodIdents (methods : List Field) : List (FuncType × Ident) :=
  (methods.map (fun m =>
    match m.funcType with
    | some funcType => m.names.map (fun n => (funcType, n))
    | none => [])).flatten

/-- The interface methods declared by one specification. -/
def specMethodIdents : Spec → List (FuncType × Ident)
  | .typeSpec _ (.interfaceType methods) => methodIdents methods
  | _ => []

/-- The interface methods declared by one declaration. -/
def declMethodIdents : Decl → List (FuncType × Ident)
  | .genDecl specs => (specs.map specMethodIdents).flatten
  | _ => []

/-- The methods of the interface types declared at top level in the package, with their
function types. -/
def interfaceMethodIdents (files : List File) : List (FuncType × Ident) :=
  (files.map (fun file => (file.decls.map declMethodIdents).flatten)).flatten

/-- The identifiers declared by one specification: the name of a type, the names of the
fields of a struct type, the names of the methods of an interface type, the names of a
value specification. -/
def specIdents : Spec → List Ident
  | .typeSpec name (.structType (some fields)) => name :: (fields.map (fun f => f.names)).flatten
  | .typeSpec name (.structType none) => [name]
  | .typeSpec name (.interfaceType methods) => name :: (methods.map (fun m => m.names)).flatten
  | .typeSpec name .other => [name]
  | .valueSpec names => names
  | .other => []

/-- The identifiers declared by one declaration. -/
def declIdents : Decl → List Ident
  | .genDecl specs => (specs.map specIdents).flatten
  | .funcDecl fn => [fn.name]
  | .other => []

/-- The identifiers that the top-level declarations of the package declare. -/
def declaredIdents (files : List File) : List Ident :=
  (files.map (fun file => (file.decls.map declIdents).flatten)).flatten

/-! ## Registration as a sequence of events

`registerPackageUnexportedDefinitions` is a nest of loops whose bodies write to the metadata
in four ways.  The definitions below name these writes and list them in the order in which
the loops perform them; the theorems further down prove that folding the writes over the
metadata is what the function computes. -/

/-- One write of the registration: a call of `registerFunction`, a call of `registerStruct`,
an assignment to `otherUnusedDefinitions`, or an assignment to `receiverPositions`. -/
inductive RegEvent where
  | function (funcObj : TypesFunc) (numResults : Nat) (params : List SigField)
  | struct (specName : Ident) (fields : Option (List Field))
  | other (pos : Pos) (name : String)
  | receiver (pos : Pos)

section Events

variable (unicodeIsUpper : Char → Bool) (unicodeToLower : Char → Char)

/-- The effect of one write on the metadata. -/
def applyRegEvent (em : ExecutionMetadata) : RegEvent → ExecutionMetadata
  | .function funcObj numResults params => registerFunction em funcObj numResults params
  | .struct specName fields => registerStruct unicodeIsUpper em specName fields
  | .other pos name =>
    { em with otherUnusedDefinitions := em.otherUnusedDefinitions.set pos name }
  | .receiver pos => { em with receiverPositions := em.receiverPositions.set pos true }

/-- The number of results that `registerInterfaceMethod` passes to `registerFunction`. -/
def interfaceMethodNumResults (funcType : FuncType) : Nat :=
  match funcType.results with
  | some list => list.length
  | none => 0

/-- The writes of `registerInterfaceMethod` for one name of an interface method. -/
def methodNameEvents (funcType : FuncType) (n : Ident) : List RegEvent :=
  if IsExported unicodeIsUpper n.name then []
  else
    match n.typesObj with
    | some (.func funcObj) =>
      [RegEvent.function funcObj (interfaceMethodNumResults funcType) []]
    | _ => []

/-- The names that one name of an interface method adds to `interfaceMethods`. -/
def methodNameNames (n : Ident) : List String :=
  if IsExported unicodeIsUpper n.name then [] else [n.name]

/-- The writes for one entry of `inter.Methods.List`. -/
def methodEvents (m : Field) : List RegEvent :=
  match m.funcType with
  | some funcType => (m.names.map (methodNameEvents unicodeIsUpper funcType)).flatten
  | none => []

/-- The names that one entry of `inter.Methods.List` adds to `interfaceMethods`. -/
def methodNames (m : Field) : List String :=
  match m.funcType with
  | some _ => (m.names.map (methodNameNames unicodeIsUpper)).flatten
  | none => []

/-- The write for one name of a value specification. -/
def valueNameEvents (name : Ident) : List RegEvent :=
  if !IsExported unicodeIsUpper name.name && name.name != "_" then
    [RegEvent.other name.pos name.name]
  else []

/-- The writes for one specification of a general declaration. -/
def specEvents : Spec → List RegEvent
  | .typeSpec name (.structType fields) => [RegEvent.struct name fields]
  | .typeSpec name (.interfaceType methods) =>
    (if !IsExported unicodeIsUpper name.name then [RegEvent.other name.pos name.name] else [])
      ++ (methods.map (methodEvents unicodeIsUpper)).flatten
  | .typeSpec _ .other => []
  | .valueSpec names => (names.map (valueNameEvents unicodeIsUpper)).flatten
  | .other => []

/-- The names that one specification adds to `interfaceMethods`. -/
def specNames : Spec → List String
  | .typeSpec _ (.interfaceType methods) => (methods.map (methodNames unicodeIsUpper)).flatten
  | _ => []

/-- The writes of the first loop for one declaration. -/
def genDeclEvents : Decl → List RegEvent
  | .genDecl specs => (specs.map (specEvents unicodeIsUpper)).flatten
  | _ => []

/-- The names that one declaration adds to `interfaceMethods`. -/
def genDeclNames : Decl → List String
  | .genDecl specs => (specs.map (specNames unicodeIsUpper)).flatten
  | _ => []

/-- The names of the unexported interface methods of the package: what the first loop puts
in `interfaceMethods`. -/
def interfaceMethodNames (files : List File) : List String :=
  (files.map (fun file => (file.decls.map (genDeclNames unicodeIsUpper)).flatten)).flatten

/-- The writes of the first loop. -/
def genEvents (files : List File) : List RegEvent :=
  (files.map (fun file => (file.decls.map (genDeclEvents unicodeIsUpper)).flatten)).flatten

/-- The condition under which the second loop registers a function declaration whose name
resolves to the function object `funcObj` (lines 388-403). -/
def isRegistered (interfaceMethods : List String) (fn : FuncDecl) (funcObj : TypesFunc) : Bool :=
  !IsExported unicodeIsUpper fn.name.name
    && !shouldSkipFunction unicodeToLower fn
    && !(fn.recv.isSome && decide (funcObj.name ∈ interfaceMethods))

/-- The writes of the second loop for one declaration, given the names in
`interfaceMethods`. -/
def funcDeclEvents (interfaceMethods : List String) : Decl → List RegEvent
  | .funcDecl fn =>
    match fn.name.typesObj with
    | some (.func funcObj) =>
      if isRegistered unicodeIsUpper unicodeToLower interfaceMethods fn funcObj then
        RegEvent.function funcObj (NumFields fn.typ.results) fn.typ.params ::
          (match fn.recv with
            | some (first :: _) => [RegEvent.receiver first.typePos]
            | _ => [])
      else []
    | _ => []
  | _ => []

/-- The writes of the second loop. -/
def funcEvents (files : List File) : List RegEvent :=
  (files.map (fun file =>
    (file.decls.map
      (funcDeclEvents unicodeIsUpper unicodeToLower
        (interfaceMethodNames unicodeIsUpper files))).flatten)).flatten

/-- The writes of `registerPackageUnexportedDefinitions`, in order. -/
def registrationEvents (files : List File) : List RegEvent :=
  genEvents unicodeIsUpper files ++ funcEvents unicodeIsUpper unicodeToLower files

/-- The two components of the state of the first loop after a list of writes and a list of
names added to `interfaceMethods`. -/
def regPair (events : List RegEvent) (names : List String) (st : RegState) : RegState :=
  (events.foldl (applyRegEvent unicodeIsUpper) st.1, names.foldl (fun m n => m.set n true) st.2)

end Events

/-! ## Vocabulary of the statements -/

/-- The state of an entry that `markFunctionPassedAsArgument` has written. -/
def IsEscalated (fe : FunctionEntry) : Prop :=
  fe.referenced = true ∧ fe.unusedResults = ∅ ∧ fe.unusedArguments = ∅ ∧
    fe.passedAsArgument = true

/-- Two metadata agree outside the function registry. -/
def SameOutsideFunctions (a b : ExecutionMetadata) : Prop :=
  a.structRegistry = b.structRegistry ∧ a.receiverPositions = b.receiverPositions ∧
    a.otherUnusedDefinitions = b.otherUnusedDefinitions

/-- The entry that `registerStruct` stores for a type specification whose name resolves to
a type name with the string `fullName`. -/
def freshStruct (unicodeIsUpper : Char → Bool) (specName : Ident)
    (fields : Option (List Field)) (fullName : String) : StructEntry :=
  { fullName := fullName
    referenced := false
    exported := IsExported unicodeIsUpper specName.name
    pos := specName.pos
    unusedFields := match fields with
      | some list => (registerFields unicodeIsUpper list (0, [])).2
      | none => [] }

/-- Where a write of the registration comes from, relative to a list of declared
identifiers: a function entry from an unexported identifier that resolves to the function
object, a struct entry from a type name whose field names are declared too, an entry of
`otherUnusedDefinitions` from an unexported identifier at that position. -/
def EventFrom (unicodeIsUpper : Char → Bool) (ids : List Ident) : RegEvent → Prop
  | .function funcObj _ _ =>
    ∃ n ∈ ids, IsExported unicodeIsUpper n.name = false ∧ n.typesObj = some (.func funcObj)
  | .struct specName fields =>
    specName ∈ ids ∧ ∀ list, fields = some list → ∀ field ∈ list, ∀ name ∈ field.names, name ∈ ids
  | .other pos _ => ∃ n ∈ ids, IsExported unicodeIsUpper n.name = false ∧ pos = n.pos
  | .receiver _ => True

/-- A position is the position of an unexported declared identifier, or of the function
object that such an identifier resolves to. -/
def UnexportedDeclPos (unicodeIsUpper : Char → Bool) (ids : List Ident) (pos : Pos) : Prop :=
  ∃ n ∈ ids, IsExported unicodeIsUpper n.name = false ∧
    (pos = n.pos ∨ ∃ f, n.typesObj = some (.func f) ∧ pos = f.pos)

/-- The function that a diagnostic of the loop over the function registry is about. -/
def Message.functionName : Message → Option String
  | .functionNotUsed fullName => some fullName
  | .unusedReturns fullName _ => some fullName
  | .unusedArguments fullName _ => some fullName
  | _ => none

/-- The function registry is a Go map (no key twice) in which every entry is stored under
its own full name, as `registerFunction` stores it. -/
def FunctionRegistryWF (m : GoMap String FunctionEntry) : Prop :=
  m.keys.Nodup ∧ ∀ kv ∈ m, kv.2.fullName = kv.1

/-! ## Example packages -/

/-- The identifier `int`, resolved to the universe type. -/
def identInt (pos : Pos) : Ident := ⟨"int", pos, none, some (.typeName "int" 0)⟩

/-- The declaring identifier of a variable, field, parameter or result. -/
def identVar (name : String) (pos : Pos) : Ident := ⟨name, pos, some pos, some (.other pos)⟩

/-- The files of the package
`package p; type iface interface { m() (a, b int) }; func f() (a, b int) { return 1, 2 }`,
an interface method and a function that both declare the grouped results `(a, b int)`; the
positions are those of the file written with one declaration per line. -/
def groupedResultsFiles : List File :=
  [{ decls :=
      [.genDecl
        [.typeSpec ⟨"iface", 17, some 17, some (.typeName "p.iface" 17)⟩
          (.interfaceType
            [{ names := [⟨"m", 36, some 36, some (.func ⟨"m", "(p.iface).m", 36⟩)⟩]
               typePos := 37
               funcType := some
                 { params := []
                   results := some [⟨[identVar "a" 41, identVar "b" 44]⟩] } }])],
       .funcDecl
        { name := ⟨"f", 59, some 59, some (.func ⟨"f", "p.f", 59⟩)⟩
          recv := none
          typ :=
            { params := []
              results := some [⟨[identVar "a" 64, identVar "b" 67]⟩] } }]
     idents :=
      [⟨"p", 9, none, none⟩,
       ⟨"iface", 17, some 17, some (.typeName "p.iface" 17)⟩,
       ⟨"m", 36, some 36, some (.func ⟨"m", "(p.iface).m", 36⟩)⟩,
       identVar "a" 41, identVar "b" 44, identInt 46,
       ⟨"f", 59, some 59, some (.func ⟨"f", "p.f", 59⟩)⟩,
       identVar "a" 64, identVar "b" 67, identInt 69] }]

/-- The function object of `f` in the example package. -/
def exF : TypesFunc := ⟨"f", "p.f", 118⟩

/-- The function object of `g` in the example package. -/
def exG : TypesFunc := ⟨"g", "p.g", 155⟩

/-- The function object of the method `T.m` in the example package. -/
def exTm : TypesFunc := ⟨"m", "(p.T).m", 91⟩

/-- The function object of the interface method `iface.m` in the example package. -/
def exIm : TypesFunc := ⟨"m", "(p.iface).m", 36⟩

/-- The function object of `Exported` in the example package. -/
def exExported : TypesFunc := ⟨"Exported", "p.Exported", 168⟩

/-- The declaration of the method `func (t T) m() int` in the example package. -/
def exTmDecl : FuncDecl :=
  { name := ⟨"m", 91, none, some (.func exTm)⟩
    recv := some [{ names := [identVar "t" 86], typePos := 88, funcType := none }]
    typ := { params := [], results := some [⟨[]⟩] } }

/-- The declaration of `func f() (int, int)` in the example package. -/
def exFDecl : FuncDecl :=
  { name := ⟨"f", 118, some 118, some (.func exF)⟩
    recv := none
    typ := { params := [], results := some [⟨[]⟩, ⟨[]⟩] } }

/-- The declaration of `func g()` in the example package. -/
def exGDecl : FuncDecl :=
  { name := ⟨"g", 155, some 155, some (.func exG)⟩
    recv := none
    typ := { params := [], results := none } }

/-- The declaration of `func Exported()` in the example package. -/
def exExportedDecl : FuncDecl :=
  { name := ⟨"Exported", 168, some 168, some (.func exExported)⟩
    recv := none
    typ := { params := [], results := none } }

/-- A use of the type `T` of the example package at a position. -/
def identT (pos : Pos) : Ident := ⟨"T", pos, some 52, some (.typeName "p.T" 52)⟩

/-- The file of the example package

    package p

    type iface interface {
        m() int
    }

    type T struct {
        x int
        Y int
    }

    func (t T) m() int { return 1 }

    func f() (int, int) { return 1, 2 }

    func g() {}

    func Exported() {
        a, _ := f()
        _, b := f()
        println(a, b)
        var t T
        t.x = 1
    }

with the positions of the file as written with one tab of indentation. -/
def exampleFile : File :=
  { decls :=
      [.genDecl
        [.typeSpec ⟨"iface", 17, some 17, some (.typeName "p.iface" 17)⟩
          (.interfaceType
            [{ names := [⟨"m", 36, some 36, some (.func exIm)⟩]
               typePos := 37
               funcType := some { params := [], results := some [⟨[]⟩] } }])],
       .genDecl
        [.typeSpec (identT 52)
          (.structType (some
            [{ names := [identVar "x" 64], typePos := 66, funcType := none },
             { names := [identVar "Y" 71], typePos := 73, funcType := none }]))],
       .funcDecl exTmDecl,
       .funcDecl exFDecl,
       .funcDecl exGDecl,
       .funcDecl exExportedDecl]
    idents :=
      [⟨"p", 9, none, none⟩,
       ⟨"iface", 17, some 17, some (.typeName "p.iface" 17)⟩,
       ⟨"m", 36, some 36, some (.func exIm)⟩, identInt 40,
       identT 52, identVar "x" 64, identInt 66, identVar "Y" 71, identInt 73,
       identVar "t" 86, identT 88, ⟨"m", 91, none, some (.func exTm)⟩, identInt 95,
       ⟨"f", 118, some 118, some (.func exF)⟩, identInt 123, identInt 128,
       ⟨"g", 155, some 155, some (.func exG)⟩,
       ⟨"Exported", 168, some 168, some (.func exExported)⟩,
       identVar "a" 182, ⟨"_", 185, none, some (.other 185)⟩,
       ⟨"f", 190, some 118, some (.func exF)⟩,
       ⟨"_", 195, none, some (.other 195)⟩, identVar "b" 198,
       ⟨"f", 203, some 118, some (.func exF)⟩,
       ⟨"println", 208, none, some (.other 0)⟩,
       ⟨"a", 216, some 182, some (.other 182)⟩, ⟨"b", 219, some 198, some (.other 198)⟩,
       identVar "t" 227, identT 229,
       ⟨"t", 232, some 227, some (.other 227)⟩, ⟨"x", 234, none, some (.other 64)⟩] }

/-- A call of `f` in the body of `Exported`. -/
def exCallF : CallCommon :=
  { value := .function (some exF), method := none, args := [], numResults := 2 }

/-- The SSA form of `Exported` in the example package: the two calls of `f` with the
extraction of result 0 and of result 1, the call of `println`, and the address of `t.x`
that is only stored to. -/
def exExportedFn : Function :=
  .mk (some exExported) []
    [[.other [],
      .call exCallF (some [.extract 0 (some [()])]),
      .other [.other],
      .call exCallF (some [.extract 1 (some [()])]),
      .other [.other],
      .call { value := .other, method := none, args := [.other, .other], numResults := 0 }
        (some []),
      .fieldAddr 7 (.pointer (.other "p.T")) 0 (some [.store 7]),
      .other [.other, .other],
      .other []]]
    []

/-- The example package as the input of `run`. -/
def examplePass : Pass :=
  { files := [exampleFile]
    initFunc := some (.mk none [] [[.other []]] [])
    srcFuncs :=
      [.mk (some exTm) [⟨"t", some []⟩] [[.other [.other]]] [],
       .mk (some exF) [] [[.other [.other, .other]]] [],
       .mk (some exG) [] [[.other []]] [],
       exExportedFn] }

/-- The metadata of the example package after registration. -/
def exampleRegistered : ExecutionMetadata :=
  registerPackageUnexportedDefinitions Char.isUpper Char.toLower examplePass.files
    newExecutionMetadata

/-- The entry of `f` in the example package after registration. -/
def exFEntry : FunctionEntry :=
  { fullName := "p.f", referenced := false, pos := 118, unusedResults := insert 1 (insert 0 ∅),
    unusedArguments := ∅, passedAsArgument := false }

/-- The entry of `g` in the example package, which no step changes. -/
def exGEntry : FunctionEntry :=
  { fullName := "p.g", referenced := false, pos := 155, unusedResults := ∅,
    unusedArguments := ∅, passedAsArgument := false }

/-- The entry of the struct `T` in the example package after registration. -/
def exTEntry : StructEntry :=
  { fullName := "p.T", referenced := false, exported := true, pos := 52,
    unusedFields := [(0, 64)] }

/-! ## Vocabulary of the statements about structs and other definitions -/

/-- The fields of a struct type in the order in which `go/types` numbers them (the index
that `ssa.FieldAddr.Field` refers to): one slot per name of a field line, and one slot,
`none`, per embedded field. -/
def fieldSlots : Option (List Field) → List (Option Ident)
  | none => []
  | some fields =>
    (fields.map (fun field =>
      match field.names with
      | [] => [none]
      | names => names.map some)).flatten

/-- The body of the loops of `registerStruct` for one slot: the state is `fieldIndex` and
`se.unusedFields`. -/
def slotStep (unicodeIsUpper : Char → Bool) (st : Nat × GoMap Nat Pos) :
    Option Ident → Nat × GoMap Nat Pos
  | none => (st.1 + 1, st.2)
  | some name =>
    if IsExported unicodeIsUpper name.name then (st.1 + 1, st.2)
    else (st.1 + 1, st.2.set st.1 name.pos)

/-- The position under which a slot is tracked: that of its name when the slot is a named,
unexported field. -/
def trackedPos (unicodeIsUpper : Char → Bool) : Option (Option Ident) → Option Pos
  | some (some name) => if IsExported unicodeIsUpper name.name then none else some name.pos
  | _ => none

/-- The struct that a diagnostic of the loop over the struct registry is about. -/
def Message.structName : Message → Option String
  | .structNotUsed fullName => some fullName
  | _ => none

/-- Whether a message is the field message. -/
def Message.isField : Message → Bool
  | .fieldNotUsed => true
  | _ => false

/-- The struct registry is a Go map (no key twice) in which every entry is stored under its
own full name, as `registerStruct` stores it. -/
def StructRegistryWF (m : GoMap String StructEntry) : Prop :=
  m.keys.Nodup ∧ ∀ kv ∈ m, kv.2.fullName = kv.1

/-- The identifiers that `ast.Inspect` visits in the files of the package. -/
def packageIdents (pass : Pass) : List Ident :=
  (pass.files.map (fun f => f.idents)).flatten

/-- Whether `visit` sets `referenced` of the struct named `name` at an identifier: it is
not a declaring occurrence, it resolves to a type name with that type string, and its
position is not in `receiverPositions`. -/
def identMarksStruct (receiverPositions : GoMap Pos Bool) (name : String) (n : Ident) : Bool :=
  !decide (n.astObj = some n.pos) &&
    (match n.typesObj with
      | some (.typeName typeString _) => decide (typeString = name)
      | _ => false) &&
    !((receiverPositions.lookup n.pos).getD false)

/-- The key that `visit` deletes from `otherUnusedDefinitions` at an identifier, given the
keys of the struct registry: the position of the object it resolves to, unless it is a
declaring occurrence, resolves to nothing, or resolves to the type name of a registered
struct. -/
def identErases (structKeys : List String) (n : Ident) : Option Pos :=
  if n.astObj = some n.pos then none
  else
    match n.typesObj with
    | none => none
    | some (.typeName typeString pos) => if typeString ∈ structKeys then none else some pos
    | some identObj => some identObj.Pos

/-- The names of the value specifications (variables and constants) of one declaration. -/
def declValueIdents : Decl → List Ident
  | .genDecl specs =>
    (specs.map (fun spec =>
      match spec with
      | .valueSpec names => names
      | _ => [])).flatten
  | _ => []

/-- The names of the interface types of one declaration. -/
def declInterfaceIdents : Decl → List Ident
  | .genDecl specs =>
    (specs.map (fun spec =>
      match spec with
      | .typeSpec name (.interfaceType _) => [name]
      | _ => [])).flatten
  | _ => []

/-- The names of the package-level variables and constants. -/
def valueIdents (files : List File) : List Ident :=
  (files.map (fun file => (file.decls.map declValueIdents).flatten)).flatten

/-- The names of the interface types declared at package level. -/
def interfaceIdents (files : List File) : List Ident :=
  (files.map (fun file => (file.decls.map declInterfaceIdents).flatten)).flatten

/-- The struct type specifications of one declaration: the name and the field list. -/
def declStructSpecs : Decl → List (Ident × Option (List Field))
  | .genDecl specs =>
    (specs.map (fun spec =>
      match spec with
      | .typeSpec name (.structType fields) => [(name, fields)]
      | _ => [])).flatten
  | _ => []

/-- The struct type declarations of the package: those of the general declarations in
`file.Decls`, which are the ones that the registration visits. -/
def structSpecs (files : List File) : List (Ident × Option (List Field)) :=
  (files.map (fun file => (file.decls.map declStructSpecs).flatten)).flatten

/-- The result indexes that an instruction consumes for the function named `name`: those
that `findUsedResults` returns when it is an `ssa.Call` whose callee resolves to `name`. -/
def instrConsumes (name : String) : Instr → Finset Nat
  | .call cc refs =>
    if resolvesTo name cc then (findUsedResults cc.numResults refs).toFinset else ∅
  | _ => ∅

/-- The names of the parameters of a list that have no referrer. -/
def unreferencedNames (params : List Parameter) : Finset String :=
  ((params.filter paramUnreferenced).map (fun p => p.name)).toFinset

/-- The effect on an entry of a step that escalates it or not (`e`), references it or not
(`r`), consumes the results `used` and, when `ps` is given, is the unused-parameter step
of its function with the unreferenced parameter names `ps`. -/
def actEntry (e r : Bool) (used : Finset Nat) (ps : Option (Finset String))
    (fe : FunctionEntry) : FunctionEntry :=
  if e then escalate fe
  else
    { fe with
      referenced := fe.referenced || r
      unusedResults := fe.unusedResults \ used
      unusedArguments :=
        match ps with
        | none => fe.unusedArguments
        | some names => if fe.passedAsArgument then fe.unusedArguments
                        else fe.unusedArguments ∪ names }

/-- The four parameters of `actEntry` for a step and a function name. -/
def stepAct (name : String) : Step → Bool × Bool × Finset Nat × Option (Finset String)
  | .instr i => (instrEscalates name i, instrReferences name i, instrConsumes name i, none)
  | .params fnObj ps =>
    (false, false, ∅, if fnObj.fullName = name then some (unreferencedNames ps) else none)
  | .ident _ => (false, false, ∅, none)

/-! ## Example packages for the struct registry -/

/-- The name of the struct `S` in the declaration

    type Base struct{}

    type S struct {
        a, B int
        Base
        c int
    }

of a package `p`, at its position in the file written with one tab of indentation. -/
def exSName : Ident := ⟨"S", 37, some 37, some (.typeName "p.S" 37)⟩

/-- The field list of the struct `S`: the line `a, B int`, the embedded `Base`, the line
`c int`. -/
def exSFields : List Field :=
  [{ names := [identVar "a" 49, identVar "B" 52], typePos := 54, funcType := none },
   { names := [], typePos := 59, funcType := none },
   { names := [identVar "c" 65], typePos := 67, funcType := none }]

/-- The file that declares `Base` and `S`. -/
def exSFile : File :=
  { decls :=
      [.genDecl [.typeSpec ⟨"Base", 17, some 17, some (.typeName "p.Base" 17)⟩
        (.structType (some []))],
       .genDecl [.typeSpec exSName (.structType (some exSFields))]]
    idents :=
      [⟨"p", 9, none, none⟩,
       ⟨"Base", 17, some 17, some (.typeName "p.Base" 17)⟩,
       exSName, identVar "a" 49, identVar "B" 52, identInt 54,
       ⟨"Base", 59, some 17, some (.typeName "p.Base" 17)⟩,
       identVar "c" 65, identInt 67] }

/-- The function object of the method `m` of the struct `t` in the receiver examples. -/
def exRecvM (fullName : String) (pos : Pos) : TypesFunc := ⟨"m", fullName, pos⟩

/-- The package

    package p

    type t struct{}

    func (u t) m() {}

whose struct `t` is mentioned only in its declaration and in the value receiver of its
unexported method. -/
def valueReceiverPass : Pass :=
  { files :=
      [{ decls :=
          [.genDecl [.typeSpec ⟨"t", 17, some 17, some (.typeName "p.t" 17)⟩
            (.structType (some []))],
           .funcDecl
            { name := ⟨"m", 40, none, some (.func (exRecvM "(p.t).m" 40))⟩
              recv := some [{ names := [identVar "u" 35], typePos := 37, funcType := none }]
              typ := { params := [], results := none } }]
         idents :=
          [⟨"p", 9, none, none⟩,
           ⟨"t", 17, some 17, some (.typeName "p.t" 17)⟩,
           identVar "u" 35,
           ⟨"t", 37, some 17, some (.typeName "p.t" 17)⟩,
           ⟨"m", 40, none, some (.func (exRecvM "(p.t).m" 40))⟩] }]
    initFunc := some (.mk none [] [[.other []]] [])
    srcFuncs := [.mk (some (exRecvM "(p.t).m" 40)) [⟨"u", some []⟩] [[.other []]] []] }

/-- The package

    package p

    type t struct{}

    func (u *t) m() {}

whose struct `t` is mentioned only in its declaration and in the pointer receiver of its
unexported method: the receiver type `*t` starts at the star, position 37, and the
identifier `t` follows it at position 38. -/
def pointerReceiverPass : Pass :=
  { files :=
      [{ decls :=
          [.genDecl [.typeSpec ⟨"t", 17, some 17, some (.typeName "p.t" 17)⟩
            (.structType (some []))],
           .funcDecl
            { name := ⟨"m", 41, none, some (.func (exRecvM "(*p.t).m" 41))⟩
              recv := some [{ names := [identVar "u" 35], typePos := 37, funcType := none }]
              typ := { params := [], results := none } }]
         idents :=
          [⟨"p", 9, none, none⟩,
           ⟨"t", 17, some 17, some (.typeName "p.t" 17)⟩,
           identVar "u" 35,
           ⟨"t", 38, some 17, some (.typeName "p.t" 17)⟩,
           ⟨"m", 41, none, some (.func (exRecvM "(*p.t).m" 41))⟩] }]
    initFunc := some (.mk none [] [[.other []]] [])
    srcFuncs := [.mk (some (exRecvM "(*p.t).m" 41)) [⟨"u", some []⟩] [[.other []]] []] }

/-! ## Example packages for function values, parameters and interface methods -/

/-- The package

    package p

    type iface interface {
        m() int
    }

    func Use(i iface) {
        i.m()
    }

whose interface method `m` is called through the interface with its result dropped: the
call has the interface value as `Value`, the method as `Method`, and no referrer.  The
positions are those of the file written with one tab of indentation. -/
def interfaceCallPass : Pass :=
  { files :=
      [{ decls :=
          [.genDecl
            [.typeSpec ⟨"iface", 17, some 17, some (.typeName "p.iface" 17)⟩
              (.interfaceType
                [{ names := [⟨"m", 36, some 36, some (.func exIm)⟩]
                   typePos := 37
                   funcType := some { params := [], results := some [⟨[]⟩] } }])],
           .funcDecl
            { name := ⟨"Use", 52, some 52, some (.func ⟨"Use", "p.Use", 52⟩)⟩
              recv := none
              typ := { params := [⟨[identVar "i" 56]⟩], results := none } }]
         idents :=
          [⟨"p", 9, none, none⟩,
           ⟨"iface", 17, some 17, some (.typeName "p.iface" 17)⟩,
           ⟨"m", 36, some 36, some (.func exIm)⟩, identInt 40,
           ⟨"Use", 52, some 52, some (.func ⟨"Use", "p.Use", 52⟩)⟩,
           identVar "i" 56,
           ⟨"iface", 58, some 17, some (.typeName "p.iface" 17)⟩,
           ⟨"i", 68, some 56, some (.other 56)⟩,
           ⟨"m", 70, none, some (.func exIm)⟩] }]
    initFunc := some (.mk none [] [[.other []]] [])
    srcFuncs :=
      [.mk (some ⟨"Use", "p.Use", 52⟩) [⟨"i", some [()]⟩]
        [[.call { value := .other, method := some exIm, args := [], numResults := 1 }
            (some []),
          .other []]] []] }

/-- The function object of `q` in the package of `parameterPass`. -/
def exQ : TypesFunc := ⟨"q", "p.q", 17⟩

/-- The entry of `q` after registration. -/
def exQEntry : FunctionEntry :=
  { fullName := "p.q", referenced := false, pos := 17, unusedResults := insert 0 ∅,
    unusedArguments := ∅, passedAsArgument := false }

/-- The package

    package p

    func q(a int, b int) int {
        return b
    }

    func Use() int {
        return q(1, 2)
    }

whose function `q` never reads its parameter `a`; the positions are those of the file
written with one tab of indentation. -/
def parameterPass : Pass :=
  { files :=
      [{ decls :=
          [.funcDecl
            { name := ⟨"q", 17, some 17, some (.func exQ)⟩
              recv := none
              typ := { params := [⟨[identVar "a" 19]⟩, ⟨[identVar "b" 26]⟩]
                       results := some [⟨[]⟩] } },
           .funcDecl
            { name := ⟨"Use", 57, some 57, some (.func ⟨"Use", "p.Use", 57⟩)⟩
              recv := none
              typ := { params := [], results := some [⟨[]⟩] } }]
         idents :=
          [⟨"p", 9, none, none⟩,
           ⟨"q", 17, some 17, some (.func exQ)⟩,
           identVar "a" 19, identInt 21, identVar "b" 26, identInt 28, identInt 33,
           ⟨"b", 47, some 26, some (.other 26)⟩,
           ⟨"Use", 57, some 57, some (.func ⟨"Use", "p.Use", 57⟩)⟩, identInt 63,
           ⟨"q", 77, some 17, some (.func exQ)⟩] }]
    initFunc := some (.mk none [] [[.other []]] [])
    srcFuncs :=
      [.mk (some exQ) [⟨"a", some []⟩, ⟨"b", some [()]⟩] [[.other [.other]]] [],
       .mk (some ⟨"Use", "p.Use", 57⟩) []
        [[.call { value := .function (some exQ), method := none, args := [.other, .other],
                  numResults := 1 } (some [.other]),
          .other [.other]]] []] }

/-! ## Vocabulary and example packages for the statements about the whole scan -/

/-- The usage state of `after` is that of `before` moved forward: every function entry of
`before` is still there with `referenced` and `passedAsArgument` not reset and with
`unusedResults` a subset of what it was, every struct entry of `before` is still there with
`referenced` not reset and with `unusedFields` a subset of what it was, and
`otherUnusedDefinitions` is a subset of what it was. -/
def UsageMonotone (before after : ExecutionMetadata) : Prop :=
  (∀ name fe, before.functionRegistry.lookup name = some fe →
    ∃ fe2, after.functionRegistry.lookup name = some fe2 ∧
      (fe.referenced = true → fe2.referenced = true) ∧
      (fe.passedAsArgument = true → fe2.passedAsArgument = true) ∧
      fe2.unusedResults ⊆ fe.unusedResults) ∧
  (∀ name se, before.structRegistry.lookup name = some se →
    ∃ se2, after.structRegistry.lookup name = some se2 ∧
      (se.referenced = true → se2.referenced = true) ∧
      ∀ f ∈ se2.unusedFields, f ∈ se.unusedFields) ∧
  (∀ kv ∈ after.otherUnusedDefinitions, kv ∈ before.otherUnusedDefinitions)

/-- The function object of `compute` in the package of `initializerPass`. -/
def exCompute : TypesFunc := ⟨"compute", "p.compute", 17⟩

/-- The package

    package p

    func compute() int { return 1 }

    var v = compute()

whose function `compute` is called only from the initializer of the variable `v`, which is
never read.  The package initializer calls `compute` and stores the result to `v`. -/
def initializerPass : Pass :=
  { files :=
      [{ decls :=
          [.funcDecl
            { name := ⟨"compute", 17, some 17, some (.func exCompute)⟩
              recv := none
              typ := { params := [], results := some [⟨[]⟩] } },
           .genDecl [.valueSpec [identVar "v" 49]]]
         idents :=
          [⟨"p", 9, none, none⟩,
           ⟨"compute", 17, some 17, some (.func exCompute)⟩, identInt 27,
           identVar "v" 49,
           ⟨"compute", 53, some 17, some (.func exCompute)⟩] }]
    initFunc := some (.mk none []
      [[.other [],
        .call { value := .function (some exCompute), method := none, args := [],
                numResults := 1 } (some [.store 1]),
        .other [.other, .other],
        .other []]] [])
    srcFuncs := [.mk (some exCompute) [] [[.other [.other]]] []] }

/-- The function object of `d` in the package of `deferGoPass`. -/
def exD : TypesFunc := ⟨"d", "p.d", 17⟩

/-- The function object of `r` in the package of `deferGoPass`. -/
def exR : TypesFunc := ⟨"r", "p.r", 35⟩

/-- The entry of `d` after registration. -/
def exDEntry : FunctionEntry :=
  { fullName := "p.d", referenced := false, pos := 17, unusedResults := ∅,
    unusedArguments := ∅, passedAsArgument := false }

/-- The entry of `r` after registration. -/
def exREntry : FunctionEntry :=
  { fullName := "p.r", referenced := false, pos := 35, unusedResults := insert 0 ∅,
    unusedArguments := ∅, passedAsArgument := false }

/-- The package

    package p

    func d(x int) {}

    func r() int { return 1 }

    func Use() {
        defer d(1)
        go r()
    }

whose function `d`, without results and with a parameter it never reads, is called only by
a `defer`, and whose function `r`, with one result, is called only by a `go`.  The positions
are those of the file written with one tab of indentation. -/
def deferGoPass : Pass :=
  { files :=
      [{ decls :=
          [.funcDecl
            { name := ⟨"d", 17, some 17, some (.func exD)⟩
              recv := none
              typ := { params := [⟨[identVar "x" 19]⟩], results := none } },
           .funcDecl
            { name := ⟨"r", 35, some 35, some (.func exR)⟩
              recv := none
              typ := { params := [], results := some [⟨[]⟩] } },
           .funcDecl
            { name := ⟨"Use", 62, some 62, some (.func ⟨"Use", "p.Use", 62⟩)⟩
              recv := none
              typ := { params := [], results := none } }]
         idents :=
          [⟨"p", 9, none, none⟩,
           ⟨"d", 17, some 17, some (.func exD)⟩, identVar "x" 19, identInt 21,
           ⟨"r", 35, some 35, some (.func exR)⟩, identInt 39,
           ⟨"Use", 62, some 62, some (.func ⟨"Use", "p.Use", 62⟩)⟩,
           ⟨"d", 77, some 17, some (.func exD)⟩,
           ⟨"r", 86, some 35, some (.func exR)⟩] }]
    initFunc := some (.mk none [] [[.other []]] [])
    srcFuncs :=
      [.mk (some exD) [⟨"x", some []⟩] [[.other []]] [],
       .mk (some exR) [] [[.other [.other]]] [],
       .mk (some ⟨"Use", "p.Use", 62⟩) []
        [[.defer { value := .function (some exD), method := none, args := [.other],
                   numResults := 0 },
          .go { value := .function (some exR), method := none, args := [], numResults := 1 },
          .other [],
          .other []]] []] }

/-- The function object of the concrete method `T.m` in the package of
`concreteMethodPass`. -/
def exConcreteM : TypesFunc := ⟨"m", "(p.T).m", 75⟩

/-- The package

    package p

    type iface interface {
        m() int
    }

    type T struct{}

    func (t T) m() int { return 1 }

    func Use() int {
        var t T
        return t.m()
    }

whose interface method `m` is never invoked through the interface, while the concrete
method of the same name is called.  The positions are those of the file written with one
tab of indentation. -/
def concreteMethodPass : Pass :=
  { files :=
      [{ decls :=
          [.genDecl
            [.typeSpec ⟨"iface", 17, some 17, some (.typeName "p.iface" 17)⟩
              (.interfaceType
                [{ names := [⟨"m", 36, some 36, some (.func exIm)⟩]
                   typePos := 37
                   funcType := some { params := [], results := some [⟨[]⟩] } }])],
           .genDecl
            [.typeSpec ⟨"T", 52, some 52, some (.typeName "p.T" 52)⟩ (.structType (some []))],
           .funcDecl
            { name := ⟨"m", 75, none, some (.func exConcreteM)⟩
              recv := some [{ names := [identVar "t" 70], typePos := 72, funcType := none }]
              typ := { params := [], results := some [⟨[]⟩] } },
           .funcDecl
            { name := ⟨"Use", 102, some 102, some (.func ⟨"Use", "p.Use", 102⟩)⟩
              recv := none
              typ := { params := [], results := some [⟨[]⟩] } }]
         idents :=
          [⟨"p", 9, none, none⟩,
           ⟨"iface", 17, some 17, some (.typeName "p.iface" 17)⟩,
           ⟨"m", 36, some 36, some (.func exIm)⟩, identInt 40,
           ⟨"T", 52, some 52, some (.typeName "p.T" 52)⟩,
           identVar "t" 70,
           ⟨"T", 72, some 52, some (.typeName "p.T" 52)⟩,
           ⟨"m", 75, none, some (.func exConcreteM)⟩, identInt 79,
           ⟨"Use", 102, some 102, some (.func ⟨"Use", "p.Use", 102⟩)⟩, identInt 108,
           identVar "t" 119,
           ⟨"T", 121, some 52, some (.typeName "p.T" 52)⟩,
           ⟨"t", 131, some 119, some (.other 119)⟩,
           ⟨"m", 133, none, some (.func exConcreteM)⟩] }]
    initFunc := some (.mk none [] [[.other []]] [])
    srcFuncs :=
      [.mk (some exConcreteM) [⟨"t", some []⟩] [[.other [.other]]] [],
       .mk (some ⟨"Use", "p.Use", 102⟩) []
        [[.other [],
          .call { value := .function (some exConcreteM), method := none, args := [.other],
                  numResults := 1 } (some [.other]),
          .other [.other]]] []] }

/-- The function object of a function of the package of `recursionPass`. -/
def exRec (name : String) (pos : Pos) : TypesFunc := ⟨name, "p." ++ name, pos⟩

/-- A call without arguments and results of a function of the package of `recursionPass`,
whose value is dropped. -/
def exRecCall (name : String) (pos : Pos) : Instr :=
  .call { value := .function (some (exRec name pos)), method := none, args := [],
          numResults := 0 } (some [])

/-- The package

    package p

    func c() { c() }

    func e() { f() }

    func f() {}

whose function `c` is called only from its own body and whose function `f` is called only
from `e`, which nothing calls. -/
def recursionPass : Pass :=
  { files :=
      [{ decls :=
          [.funcDecl
            { name := ⟨"c", 17, some 17, some (.func (exRec "c" 17))⟩
              recv := none
              typ := { params := [], results := none } },
           .funcDecl
            { name := ⟨"e", 35, some 35, some (.func (exRec "e" 35))⟩
              recv := none
              typ := { params := [], results := none } },
           .funcDecl
            { name := ⟨"f", 53, some 53, some (.func (exRec "f" 53))⟩
              recv := none
              typ := { params := [], results := none } }]
         idents :=
          [⟨"p", 9, none, none⟩,
           ⟨"c", 17, some 17, some (.func (exRec "c" 17))⟩,
           ⟨"c", 23, some 17, some (.func (exRec "c" 17))⟩,
           ⟨"e", 35, some 35, some (.func (exRec "e" 35))⟩,
           ⟨"f", 41, some 53, some (.func (exRec "f" 53))⟩,
           ⟨"f", 53, some 53, some (.func (exRec "f" 53))⟩] }]
    initFunc := some (.mk none [] [[.other []]] [])
    srcFuncs :=
      [.mk (some (exRec "c" 17)) [] [[exRecCall "c" 17, .other []]] [],
       .mk (some (exRec "e" 35)) [] [[exRecCall "f" 53, .other []]] [],
       .mk (some (exRec "f" 53)) [] [[.other []]] []] }

/-- The function object of `f` in the package of `blankParameterPass`. -/
def exBlankF : TypesFunc := ⟨"f", "p.f", 17⟩

/-- The entry of `f` in the package of `blankParameterPass` after registration. -/
def exBlankFEntry : FunctionEntry :=
  { fullName := "p.f", referenced := false, pos := 17, unusedResults := ∅,
    unusedArguments := ∅, passedAsArgument := false }

/-- The package

    package p

    func f(_ int) {}

    func Use() {
        f(1)
    }

whose function `f` is called directly and has a blank parameter.  The positions are those of
the file written with one tab of indentation. -/
def blankParameterPass : Pass :=
  { files :=
      [{ decls :=
          [.funcDecl
            { name := ⟨"f", 17, some 17, some (.func exBlankF)⟩
              recv := none
              typ := { params := [⟨[⟨"_", 19, none, some (.other 19)⟩]⟩], results := none } },
           .funcDecl
            { name := ⟨"Use", 35, some 35, some (.func ⟨"Use", "p.Use", 35⟩)⟩
              recv := none
              typ := { params := [], results := none } }]
         idents :=
          [⟨"p", 9, none, none⟩,
           ⟨"f", 17, some 17, some (.func exBlankF)⟩,
           ⟨"_", 19, none, some (.other 19)⟩, identInt 21,
           ⟨"Use", 35, some 35, some (.func ⟨"Use", "p.Use", 35⟩)⟩,
           ⟨"f", 44, some 17, some (.func exBlankF)⟩] }]
    initFunc := some (.mk none [] [[.other []]] [])
    srcFuncs :=
      [.mk (some exBlankF) [⟨"_", some []⟩] [[.other []]] [],
       .mk (some ⟨"Use", "p.Use", 35⟩) []
        [[.call { value := .function (some exBlankF), method := none, args := [.other],
                  numResults := 0 } (some []),
          .other []]] []] }

/-! ## The struct that a field address belongs to -/

/-- Specification-level definition, written from the words of the field claim and not from
the analyzer: the struct whose field an `ssa.FieldAddr` addresses.  By the typing rule of
the instruction the type of `X` is the struct itself ("directly"), or a pointer to it, or a
defined type whose underlying type is a pointer to it ("through one pointer level"); the
result is the type string of the struct.  It is compared with `fieldAddrTypeName`, the name
the analyzer computes. -/
def specAddressedStruct : GoType → String
  | .pointer elem => elem.String
  | .named _ (.pointer elem) => elem.String
  | t => t.String

/-- The type `T` of the packages `namedPointerPass` and `plainPointerPass`. -/
def exStructT : GoType := .named "p.T" (.other "struct\x7bx int\x7d")

/-- The declarations of `T` and its field `x` shared by `namedPointerPass` and
`plainPointerPass`. -/
def exStructTDecl : Decl :=
  .genDecl
    [.typeSpec ⟨"T", 17, some 17, some (.typeName "p.T" 17)⟩
      (.structType (some [{ names := [identVar "x" 29], typePos := 31, funcType := none }]))]

/-- The entry of `T` after registration of the packages `namedPointerPass` and
`plainPointerPass`. -/
def exStructTEntry : StructEntry :=
  { fullName := "p.T", pos := 17, exported := true, referenced := false,
    unusedFields := [(0, 29)] }

/-- The package

    package p

    type T struct {
        x int
    }

    type PT *T

    func Read(p PT) int {
        return p.x
    }

whose field `x` is read through a value of the defined pointer type `PT`: the body of `Read`
takes the address of `p.x`, loads from it and returns the value.  The selector `p.x` is
shorthand for `(*p).x`; the `ssa.FieldAddr` is built on the value `p` itself, which keeps its
declared type `PT`, a `*types.Named` whose underlying type is the pointer type `*T`.  The positions are those of the file written with one tab of
indentation. -/
def namedPointerPass : Pass :=
  { files :=
      [{ decls :=
          [exStructTDecl,
           .genDecl [.typeSpec ⟨"PT", 43, some 43, some (.typeName "p.PT" 43)⟩ .other],
           .funcDecl
            { name := ⟨"Read", 55, some 55, some (.func ⟨"Read", "p.Read", 55⟩)⟩
              recv := none
              typ := { params := [⟨[identVar "p" 60]⟩], results := some [⟨[]⟩] } }]
         idents :=
          [⟨"p", 9, none, none⟩,
           ⟨"T", 17, some 17, some (.typeName "p.T" 17)⟩, identVar "x" 29, identInt 31,
           ⟨"PT", 43, some 43, some (.typeName "p.PT" 43)⟩,
           ⟨"T", 47, some 17, some (.typeName "p.T" 17)⟩,
           ⟨"Read", 55, some 55, some (.func ⟨"Read", "p.Read", 55⟩)⟩,
           identVar "p" 60,
           ⟨"PT", 62, some 43, some (.typeName "p.PT" 43)⟩, identInt 66,
           ⟨"p", 80, some 60, some (.other 60)⟩,
           ⟨"x", 82, none, some (.other 29)⟩] }]
    initFunc := some (.mk none [] [[.other []]] [])
    srcFuncs :=
      [.mk (some ⟨"Read", "p.Read", 55⟩) [⟨"p", some [()]⟩]
        [[.fieldAddr 1 (.named "p.PT" (.pointer exStructT)) 0 (some [.other]),
          .other [.other],
          .other [.other]]] []] }

/-- The package

    package p

    type T struct {
        x int
    }

    func Read(p *T) int {
        return p.x
    }

which reads the field `x` through a value of the pointer type `*T`. -/
def plainPointerPass : Pass :=
  { files :=
      [{ decls :=
          [exStructTDecl,
           .funcDecl
            { name := ⟨"Read", 43, some 43, some (.func ⟨"Read", "p.Read", 43⟩)⟩
              recv := none
              typ := { params := [⟨[identVar "p" 48]⟩], results := some [⟨[]⟩] } }]
         idents :=
          [⟨"p", 9, none, none⟩,
           ⟨"T", 17, some 17, some (.typeName "p.T" 17)⟩, identVar "x" 29, identInt 31,
           ⟨"Read", 43, some 43, some (.func ⟨"Read", "p.Read", 43⟩)⟩,
           identVar "p" 48,
           ⟨"T", 51, some 17, some (.typeName "p.T" 17)⟩, identInt 54,
           ⟨"p", 68, some 48, some (.other 48)⟩,
           ⟨"x", 70, none, some (.other 29)⟩] }]
    initFunc := some (.mk none [] [[.other []]] [])
    srcFuncs :=
      [.mk (some ⟨"Read", "p.Read", 43⟩) [⟨"p", some [()]⟩]
        [[.fieldAddr 1 (.pointer exStructT) 0 (some [.other]),
          .other [.other],
          .other [.other]]] []] }

/-! ## An example package with a callback -/

namespace GoMap

variable {κ ν : Type} [DecidableEq κ]

theorem lookup_modify (m : GoMap κ ν) (k k1 : κ) (f : ν → ν) :
    (m.modify k f).lookup k1 = if k = k1 then (m.lookup k1).map f else m.lookup k1 := by
  induction m with
  | nil => simp [modify, lookup]
  | cons p rest ih =>
    obtain ⟨k0, v0⟩ := p
    by_cases h0 : k0 = k
    · by_cases h1 : k = k1
      · subst h0; subst h1; simp [modify, lookup]
      · subst h0; simp [modify, lookup, h1]
    · by_cases h1 : k = k1
      · subst h1; simp [modify, lookup, h0, ih]
      · simp [modify, lookup, h0, h1, ih]

theorem lookup_set (m : GoMap κ ν) (k k1 : κ) (v : ν) :
    (m.set k v).lookup k1 = if k = k1 then some v else m.lookup k1 := by
  induction m with
  | nil => simp [set, lookup]
  | cons p rest ih =>
    obtain ⟨k0, v0⟩ := p
    by_cases h0 : k0 = k
    · by_cases h1 : k = k1
      · subst h0; subst h1; simp [set, lookup]
      · subst h0; simp [set, lookup, h1]
    · by_cases h1 : k = k1
      · subst h1; simp [set, lookup, h0, ih]
      · simp [set, lookup, h0, h1, ih]

theorem lookup_erase (m : GoMap κ ν) (k k1 : κ) :
    (m.erase k).lookup k1 = if k = k1 then none else m.lookup k1 := by
  induction m with
  | nil => simp [erase, lookup]
  | cons p rest ih =>
    obtain ⟨k0, v0⟩ := p
    by_cases h0 : k0 = k
    · by_cases h1 : k = k1
      · subst h0; subst h1; simp [erase, lookup, ih]
      · subst h0; simp [erase, lookup, h1, ih]
    · by_cases h1 : k = k1
      · subst h1; simp [erase, lookup, h0, ih]
      · simp [erase, lookup, h0, h1, ih]

theorem keys_modify (m : GoMap κ ν) (k : κ) (f : ν → ν) : (m.modify k f).keys = m.keys := by
  induction m with
  | nil => rfl
  | cons p rest ih =>
    obtain ⟨k0, v0⟩ := p
    by_cases h0 : k0 = k
    · simp [modify, keys, h0]
    · simp only [modify, h0, if_false, keys, List.map_cons] at ih ⊢
      rw [ih]

theorem mem_keys_set (m : GoMap κ ν) (k k1 : κ) (v : ν) :
    k1 ∈ (m.set k v).keys ↔ k1 = k ∨ k1 ∈ m.keys := by
  induction m with
  | nil => simp [set, keys]
  | cons p rest ih =>
    obtain ⟨k0, v0⟩ := p
    by_cases h0 : k0 = k
    · subst h0; simp [set, keys]
    · simp only [keys] at ih
      simp [set, keys, h0, ih]
      tauto

theorem nodup_keys_set (m : GoMap κ ν) (k : κ) (v : ν) (h : m.keys.Nodup) :
    (m.set k v).keys.Nodup := by
  induction m with
  | nil => simp [set, keys]
  | cons p rest ih =>
    obtain ⟨k0, v0⟩ := p
    by_cases h0 : k0 = k
    · simpa [set, keys, h0] using h
    · have h1 : k0 ∉ keys rest ∧ (keys rest).Nodup := by simpa [keys] using h
      have h2 := ih h1.2
      have h3 : k0 ∉ keys (set rest k v) := by
        rw [mem_keys_set]; intro hc; rcases hc with hc | hc
        · exact h0 hc
        · exact h1.1 hc
      simp only [set, h0, if_false, keys, List.map_cons, List.nodup_cons]
      exact ⟨h3, h2⟩

theorem lookup_eq_none_iff (m : GoMap κ ν) (k : κ) : m.lookup k = none ↔ k ∉ m.keys := by
  induction m with
  | nil => simp [lookup, keys]
  | cons p rest ih =>
    obtain ⟨k0, v0⟩ := p
    by_cases h0 : k0 = k
    · simp [lookup, keys, h0]
    · simp only [keys] at ih
      simp only [lookup, h0, if_false, ih, keys, List.map_cons, List.mem_cons, not_or]
      exact ⟨fun h => ⟨fun hc => h0 hc.symm, h⟩, fun h => h.2⟩

theorem mem_of_lookup (m : GoMap κ ν) (k : κ) (v : ν) (h : m.lookup k = some v) :
    (k, v) ∈ m := by
  induction m with
  | nil => simp [lookup] at h
  | cons p rest ih =>
    obtain ⟨k0, v0⟩ := p
    by_cases h0 : k0 = k
    · simp [lookup, h0] at h; simp [h0, h]
    · simp [lookup, h0] at h; exact List.mem_cons_of_mem _ (ih h)

theorem lookup_of_mem (m : GoMap κ ν) (k : κ) (v : ν) (hn : m.keys.Nodup) (h : (k, v) ∈ m) :
    m.lookup k = some v := by
  induction m with
  | nil => simp at h
  | cons p rest ih =>
    obtain ⟨k0, v0⟩ := p
    have h1 : k0 ∉ keys rest ∧ (keys rest).Nodup := by simpa [keys] using hn
    rcases List.mem_cons.1 h with h | h
    · injection h with ha hb; subst ha; subst hb; simp [lookup]
    · have hk : k ∈ keys rest := List.mem_map.2 ⟨(k, v), h, rfl⟩
      have h0 : k0 ≠ k := fun hc => h1.1 (hc ▸ hk)
      simp [lookup, h0, ih h1.2 h]

end GoMap

/-! ## The scans are folds of steps -/

mutual
theorem checkRegistered_eq_foldl (em : ExecutionMetadata) : (fn : Function) →
    checkRegisteredFunctionAndFieldsUsages em fn = (functionInstrs fn).foldl checkInstr em
  | .mk _ _ blocks anonFuncs => by
    simp only [checkRegisteredFunctionAndFieldsUsages, functionInstrs, List.foldl_append,
      List.foldl_flatten]
    exact checkAnonFuncs_eq_foldl _ anonFuncs
theorem checkAnonFuncs_eq_foldl (em : ExecutionMetadata) : (l : List Function) →
    checkAnonFuncs em l = (anonInstrs l).foldl checkInstr em
  | [] => by simp [checkAnonFuncs, anonInstrs]
  | anon :: rest => by
    simp only [checkAnonFuncs, anonInstrs, List.foldl_append]
    rw [checkRegistered_eq_foldl em anon]
    exact checkAnonFuncs_eq_foldl _ rest
end

theorem foldl_instr_steps (em : ExecutionMetadata) (l : List Instr) :
    (l.map Step.instr).foldl applyStep em = l.foldl checkInstr em := by
  rw [List.foldl_map]; rfl

theorem runSrcFunc_eq_foldl (em : ExecutionMetadata) (fn : Function) :
    runSrcFunc em fn = (srcFuncSteps fn).foldl applyStep em := by
  unfold runSrcFunc srcFuncSteps
  cases fn.object with
  | none => rfl
  | some fnObj =>
    simp only [List.foldl_append, foldl_instr_steps, List.foldl_cons, List.foldl_nil, applyStep,
      checkRegistered_eq_foldl]

theorem runFlow_eq_foldl (pass : Pass) (em : ExecutionMetadata) :
    runFlow pass em = (flowSteps pass).foldl applyStep em := by
  unfold runFlow flowSteps
  rw [List.foldl_append, List.foldl_flatten, List.foldl_map]
  have h : (fun (em : ExecutionMetadata) (fn : Function) =>
      List.foldl applyStep em (srcFuncSteps fn)) = runSrcFunc := by
    funext em fn; exact (runSrcFunc_eq_foldl em fn).symm
  rw [h]
  cases pass.initFunc with
  | none => rfl
  | some initFunc => simp only [foldl_instr_steps, checkRegistered_eq_foldl]

theorem runSyntax_eq_foldl (pass : Pass) (em : ExecutionMetadata) :
    runSyntax pass em = (syntaxSteps pass).foldl applyStep em := by
  unfold runSyntax syntaxSteps
  rw [List.foldl_flatten, List.foldl_map]
  congr 1
  funext em f
  rw [List.foldl_map]; rfl

theorem finalMetadata_eq_foldl (unicodeIsUpper : Char → Bool) (unicodeToLower : Char → Char)
    (pass : Pass) :
    finalMetadata unicodeIsUpper unicodeToLower pass =
      (flowSteps pass ++ syntaxSteps pass).foldl applyStep
        (registerPackageUnexportedDefinitions unicodeIsUpper unicodeToLower pass.files
          newExecutionMetadata) := by
  unfold finalMetadata
  rw [List.foldl_append, runSyntax_eq_foldl, runFlow_eq_foldl]

/-! ## What one step does to a function entry -/

theorem lookup_markFunctionPassedAsArgument (em : ExecutionMetadata) (funcObj : TypesFunc)
    (name : String) :
    (markFunctionPassedAsArgument em funcObj).functionRegistry.lookup name =
      (em.functionRegistry.lookup name).map
        (fun fe => if funcObj.fullName = name then escalate fe else fe) := by
  simp only [markFunctionPassedAsArgument, GoMap.lookup_modify]
  by_cases h : funcObj.fullName = name
  · simp [h, escalate]
  · simp [h]

theorem lookup_checkFunctionParameter_args (args : List Value) (em : ExecutionMetadata)
    (name : String) :
    (args.foldl (fun em arg =>
        match argumentFunction arg with
        | some funcObj => markFunctionPassedAsArgument em funcObj
        | none => em) em).functionRegistry.lookup name =
      (em.functionRegistry.lookup name).map (fun fe => argsEntry name fe args) := by
  induction args generalizing em with
  | nil => simp [argsEntry]
  | cons arg rest ih =>
    have hcons : ∀ fe, argsEntry name fe (arg :: rest) =
        argsEntry name (if argEscalates name arg then escalate fe else fe) rest := fun _ => rfl
    simp only [List.foldl_cons, hcons]
    rw [ih]
    cases harg : argumentFunction arg with
    | none =>
      have h0 : argEscalates name arg = false := by simp [argEscalates, harg]
      simp [h0]
    | some funcObj =>
      rw [lookup_markFunctionPassedAsArgument]
      by_cases h : funcObj.fullName = name
      · have h1 : argEscalates name arg = true := by simp [argEscalates, harg, h]
        cases em.functionRegistry.lookup name <;> simp [h, h1]
      · have h0 : argEscalates name arg = false := by simp [argEscalates, harg, h]
        cases em.functionRegistry.lookup name <;> simp [h, h0]

theorem lookup_checkFunctionParameter (em : ExecutionMetadata) (cc : CallCommon)
    (name : String) :
    (checkFunctionParameter em cc).functionRegistry.lookup name =
      (em.functionRegistry.lookup name).map (fun fe => argsEntry name fe cc.args) :=
  lookup_checkFunctionParameter_args cc.args em name

theorem lookup_retrieve (em : ExecutionMetadata) (cc : CallCommon) (name : String) :
    (retrieveRegisteredFunctionEntry em cc).1.functionRegistry.lookup name =
      (em.functionRegistry.lookup name).map (fun fe => retrieveEntry name fe cc) := by
  unfold retrieveRegisteredFunctionEntry retrieveEntry resolvesTo
  cases hc : calleeName cc with
  | none => simp
  | some funName =>
    cases hl : em.functionRegistry.lookup funName with
    | none =>
      by_cases h : funName = name
      · subst h; simp [hl]
      · simp [h, hl]
    | some fe0 =>
      by_cases h : funName = name
      · subst h; simp [hl, GoMap.lookup_modify]
      · simp [h, hl, GoMap.lookup_modify]

theorem retrieve_snd (em : ExecutionMetadata) (cc : CallCommon) (key : String)
    (h : (retrieveRegisteredFunctionEntry em cc).2 = some key) : calleeName cc = some key := by
  unfold retrieveRegisteredFunctionEntry at h
  cases hc : calleeName cc with
  | none => simp [hc] at h
  | some funName =>
    cases hl : em.functionRegistry.lookup funName with
    | none => simp [hc, hl] at h
    | some fe0 => simp [hc, hl] at h; simp [h]

theorem retrieve_snd_none (em : ExecutionMetadata) (cc : CallCommon) (name : String)
    (h : (retrieveRegisteredFunctionEntry em cc).2 = none) (hc : calleeName cc = some name) :
    em.functionRegistry.lookup name = none := by
  unfold retrieveRegisteredFunctionEntry at h
  simp only [hc] at h
  cases hl : em.functionRegistry.lookup name with
  | none => rfl
  | some fe0 => simp [hl] at h

theorem lookup_removeResults (used : List Nat) (em : ExecutionMetadata) (key name : String) :
    (used.foldl (fun em resIndex =>
        { em with functionRegistry := em.functionRegistry.modify key (fun fe =>
            { fe with unusedResults := fe.unusedResults.erase resIndex }) }) em
      ).functionRegistry.lookup name =
      (em.functionRegistry.lookup name).map
        (fun fe => if key = name then removeResults fe used else fe) := by
  induction used generalizing em with
  | nil => simp [removeResults]
  | cons i rest ih =>
    simp only [List.foldl_cons]
    rw [ih]
    simp only [GoMap.lookup_modify]
    by_cases h : key = name
    · cases em.functionRegistry.lookup name <;> simp [h, removeResults]
    · simp [h]

theorem lookup_checkParams (params : List Parameter) (em : ExecutionMetadata)
    (key name : String) :
    (checkParams em key params).functionRegistry.lookup name =
      (em.functionRegistry.lookup name).map
        (fun fe => if key = name then paramsEntry fe params else fe) := by
  unfold checkParams
  induction params generalizing em with
  | nil => simp [paramsEntry]
  | cons p rest ih =>
    simp only [List.foldl_cons]
    rw [ih]
    by_cases hp : paramUnreferenced p = true
    · simp only [hp, if_true, GoMap.lookup_modify]
      by_cases h : key = name
      · cases em.functionRegistry.lookup name <;> simp [h, paramsEntry, hp]
      · simp [h]
    · rw [if_neg hp]
      by_cases h : key = name
      · cases em.functionRegistry.lookup name <;> simp [h, paramsEntry, hp]
      · simp [h]

theorem lookup_checkUnusedParams (em : ExecutionMetadata) (fnObj : TypesFunc)
    (params : List Parameter) (name : String) :
    (checkUnusedParams em fnObj params).functionRegistry.lookup name =
      (em.functionRegistry.lookup name).map
        (fun fe => stepEntry name fe (.params fnObj params)) := by
  unfold checkUnusedParams
  by_cases h : fnObj.fullName = name
  · subst h
    cases hl : em.functionRegistry.lookup fnObj.fullName with
    | none => simp [hl]
    | some fe =>
      by_cases hp : fe.passedAsArgument = true
      · simp [hl, hp, stepEntry]
      · simp [hp, stepEntry, lookup_checkParams, hl]
  · cases hl : em.functionRegistry.lookup fnObj.fullName with
    | none => simp [stepEntry, h]
    | some fe =>
      by_cases hp : fe.passedAsArgument = true
      · simp [hp, stepEntry, h]
      · simp [hp, stepEntry, h, lookup_checkParams]

theorem lookup_checkInstr (em : ExecutionMetadata) (i : Instr) (name : String) :
    (checkInstr em i).functionRegistry.lookup name =
      (em.functionRegistry.lookup name).map (fun fe => instrEntry name fe i) := by
  cases i with
  | call cc refs =>
    simp only [checkInstr]
    have h1 := lookup_retrieve (checkFunctionParameter em cc) cc name
    rw [lookup_checkFunctionParameter] at h1
    cases hr : retrieveRegisteredFunctionEntry (checkFunctionParameter em cc) cc with
    | mk em1 okey =>
      rw [hr] at h1
      simp only at h1
      cases okey with
      | none =>
        simp only
        rw [h1]
        by_cases hres : resolvesTo name cc = true
        · have hc : calleeName cc = some name := by simpa [resolvesTo] using hres
          have hn := retrieve_snd_none (checkFunctionParameter em cc) cc name (by rw [hr]) hc
          rw [lookup_checkFunctionParameter] at hn
          cases hl : em.functionRegistry.lookup name with
          | none => simp
          | some fe => simp [hl] at hn
        · cases em.functionRegistry.lookup name <;> simp [instrEntry, hres]
      | some key =>
        simp only
        rw [lookup_removeResults, h1]
        have hc := retrieve_snd (checkFunctionParameter em cc) cc key (by rw [hr])
        by_cases hk : key = name
        · subst hk
          have hres : resolvesTo key cc = true := by simp [resolvesTo, hc]
          cases em.functionRegistry.lookup key <;> simp [instrEntry, hres]
        · have hres : resolvesTo name cc = false := by
            simp only [resolvesTo, hc, decide_eq_false_iff_not]
            intro hcc; injection hcc with hcc; exact hk hcc
          cases em.functionRegistry.lookup name <;> simp [instrEntry, hres, hk]
  | defer cc =>
    simp only [checkInstr, lookup_retrieve, lookup_checkFunctionParameter]
    cases em.functionRegistry.lookup name <;> simp [instrEntry]
  | go cc =>
    simp only [checkInstr, lookup_retrieve, lookup_checkFunctionParameter]
    cases em.functionRegistry.lookup name <;> simp [instrEntry]
  | changeType x =>
    cases x with
    | function object =>
      cases object with
      | none => simp [checkInstr, instrEntry]
      | some funcObj => simp [checkInstr, instrEntry, lookup_markFunctionPassedAsArgument]
    | makeClosure fn => simp [checkInstr, instrEntry]
    | other => simp [checkInstr, instrEntry]
  | fieldAddr id xType field refs =>
    simp only [checkInstr]
    cases em.structRegistry.lookup (fieldAddrTypeName xType) with
    | none => simp [instrEntry]
    | some se =>
      cases refs with
      | none => simp [instrEntry]
      | some l =>
        by_cases hu : fieldIsUsed id l = true <;> simp [hu, instrEntry]
  | other => simp [checkInstr, instrEntry]

theorem visit_functionRegistry (em : ExecutionMetadata) (n : Ident) :
    (visit em n).functionRegistry = em.functionRegistry := by
  unfold visit
  split
  · rfl
  · split
    · rfl
    · split
      · split
        · split <;> rfl
        · rfl
      · rfl

theorem lookup_applyStep (em : ExecutionMetadata) (s : Step) (name : String) :
    (applyStep em s).functionRegistry.lookup name =
      (em.functionRegistry.lookup name).map (fun fe => stepEntry name fe s) := by
  cases s with
  | instr i => exact lookup_checkInstr em i name
  | params fnObj ps => exact lookup_checkUnusedParams em fnObj ps name
  | ident n => simp [applyStep, visit_functionRegistry, stepEntry]

/-- The function entry named `name` after a list of steps. -/
theorem lookup_foldl_applyStep (steps : List Step) (em : ExecutionMetadata) (name : String) :
    (steps.foldl applyStep em).functionRegistry.lookup name =
      (em.functionRegistry.lookup name).map (fun fe => steps.foldl (stepEntry name) fe) := by
  induction steps generalizing em with
  | nil => simp
  | cons s rest ih =>
    simp only [List.foldl_cons]
    rw [ih, lookup_applyStep]
    cases em.functionRegistry.lookup name <;> simp

/-! ## No step adds or removes a function entry -/

theorem keys_checkFunctionParameter (em : ExecutionMetadata) (cc : CallCommon) :
    (checkFunctionParameter em cc).functionRegistry.keys = em.functionRegistry.keys := by
  unfold checkFunctionParameter
  induction cc.args generalizing em with
  | nil => rfl
  | cons arg rest ih =>
    simp only [List.foldl_cons]
    rw [ih]
    cases argumentFunction arg with
    | none => rfl
    | some funcObj => simp [markFunctionPassedAsArgument, GoMap.keys_modify]

theorem keys_retrieve (em : ExecutionMetadata) (cc : CallCommon) :
    (retrieveRegisteredFunctionEntry em cc).1.functionRegistry.keys =
      em.functionRegistry.keys := by
  unfold retrieveRegisteredFunctionEntry
  cases calleeName cc with
  | none => rfl
  | some funName =>
    cases hl : em.functionRegistry.lookup funName with
    | none => simp [hl]
    | some fe0 => simp [hl, GoMap.keys_modify]

theorem keys_removeResults (used : List Nat) (em : ExecutionMetadata) (key : String) :
    (used.foldl (fun em resIndex =>
        { em with functionRegistry := em.functionRegistry.modify key (fun fe =>
            { fe with unusedResults := fe.unusedResults.erase resIndex }) }) em
      ).functionRegistry.keys = em.functionRegistry.keys := by
  induction used generalizing em with
  | nil => rfl
  | cons i rest ih =>
    simp only [List.foldl_cons]
    rw [ih, GoMap.keys_modify]

theorem keys_checkInstr (em : ExecutionMetadata) (i : Instr) :
    (checkInstr em i).functionRegistry.keys = em.functionRegistry.keys := by
  cases i with
  | call cc refs =>
    simp only [checkInstr]
    have h1 := keys_retrieve (checkFunctionParameter em cc) cc
    rw [keys_checkFunctionParameter] at h1
    cases hr : retrieveRegisteredFunctionEntry (checkFunctionParameter em cc) cc with
    | mk em1 okey =>
      rw [hr] at h1
      cases okey with
      | none => exact h1
      | some key =>
        simp only
        rw [keys_removeResults]
        exact h1
  | defer cc => simp only [checkInstr, keys_retrieve, keys_checkFunctionParameter]
  | go cc => simp only [checkInstr, keys_retrieve, keys_checkFunctionParameter]
  | changeType x =>
    cases x with
    | function object =>
      cases object with
      | none => rfl
      | some funcObj => simp [checkInstr, markFunctionPassedAsArgument, GoMap.keys_modify]
    | makeClosure fn => rfl
    | other => rfl
  | fieldAddr id xType field refs =>
    simp only [checkInstr]
    cases em.structRegistry.lookup (fieldAddrTypeName xType) with
    | none => rfl
    | some se =>
      cases refs with
      | none => rfl
      | some l => by_cases hu : fieldIsUsed id l = true <;> simp [hu]
  | other => rfl

theorem keys_checkParams (params : List Parameter) (em : ExecutionMetadata) (key : String) :
    (checkParams em key params).functionRegistry.keys = em.functionRegistry.keys := by
  unfold checkParams
  induction params generalizing em with
  | nil => rfl
  | cons p rest ih =>
    simp only [List.foldl_cons]
    rw [ih]
    by_cases hp : paramUnreferenced p = true
    · simp [hp, GoMap.keys_modify]
    · rw [if_neg hp]

theorem keys_applyStep (em : ExecutionMetadata) (s : Step) :
    (applyStep em s).functionRegistry.keys = em.functionRegistry.keys := by
  cases s with
  | instr i => exact keys_checkInstr em i
  | params fnObj ps =>
    simp only [applyStep, checkUnusedParams]
    cases em.functionRegistry.lookup fnObj.fullName with
    | none => rfl
    | some fe =>
      by_cases hp : fe.passedAsArgument = true
      · simp [hp]
      · simp [hp, keys_checkParams]
  | ident n => simp [applyStep, visit_functionRegistry]

theorem keys_foldl_applyStep (steps : List Step) (em : ExecutionMetadata) :
    (steps.foldl applyStep em).functionRegistry.keys = em.functionRegistry.keys := by
  induction steps generalizing em with
  | nil => rfl
  | cons s rest ih => simp only [List.foldl_cons]; rw [ih, keys_applyStep]

/-! ## Fields of an entry that steps keep -/

theorem argsEntry_fullName_pos (name : String) (args : List Value) (fe : FunctionEntry) :
    (argsEntry name fe args).fullName = fe.fullName ∧ (argsEntry name fe args).pos = fe.pos := by
  unfold argsEntry
  induction args generalizing fe with
  | nil => exact ⟨rfl, rfl⟩
  | cons arg rest ih =>
    simp only [List.foldl_cons]
    by_cases h : argEscalates name arg = true
    · rw [if_pos h]; exact ih (escalate fe)
    · rw [if_neg h]; exact ih fe

theorem retrieveEntry_fullName_pos (name : String) (fe : FunctionEntry) (cc : CallCommon) :
    (retrieveEntry name fe cc).fullName = fe.fullName ∧
      (retrieveEntry name fe cc).pos = fe.pos := by
  unfold retrieveEntry
  by_cases h : resolvesTo name cc = true
  · rw [if_pos h]; exact ⟨rfl, rfl⟩
  · rw [if_neg h]; exact ⟨rfl, rfl⟩

theorem removeResults_fields (used : List Nat) (fe : FunctionEntry) :
    (removeResults fe used).fullName = fe.fullName ∧ (removeResults fe used).pos = fe.pos ∧
      (removeResults fe used).referenced = fe.referenced ∧
      (removeResults fe used).passedAsArgument = fe.passedAsArgument ∧
      (removeResults fe used).unusedArguments = fe.unusedArguments ∧
      (removeResults fe used).unusedResults = fe.unusedResults \ used.toFinset := by
  unfold removeResults
  induction used generalizing fe with
  | nil => simp
  | cons i rest ih =>
    simp only [List.foldl_cons]
    obtain ⟨h1, h2, h3, h4, h5, h6⟩ := ih { fe with unusedResults := fe.unusedResults.erase i }
    refine ⟨h1, h2, h3, h4, h5, ?_⟩
    rw [h6]
    ext x
    simp only [Finset.mem_sdiff, Finset.mem_erase, List.toFinset_cons, Finset.mem_insert,
      List.mem_toFinset]
    tauto

theorem paramsEntry_fields (params : List Parameter) (fe : FunctionEntry) :
    (paramsEntry fe params).fullName = fe.fullName ∧ (paramsEntry fe params).pos = fe.pos ∧
      (paramsEntry fe params).referenced = fe.referenced ∧
      (paramsEntry fe params).passedAsArgument = fe.passedAsArgument ∧
      (paramsEntry fe params).unusedResults = fe.unusedResults := by
  unfold paramsEntry
  induction params generalizing fe with
  | nil => simp
  | cons p rest ih =>
    simp only [List.foldl_cons]
    by_cases h : paramUnreferenced p = true
    · rw [if_pos h]; exact ih _
    · rw [if_neg h]; exact ih fe

theorem instrEntry_fullName_pos (name : String) (fe : FunctionEntry) (i : Instr) :
    (instrEntry name fe i).fullName = fe.fullName ∧ (instrEntry name fe i).pos = fe.pos := by
  cases i with
  | call cc refs =>
    simp only [instrEntry]
    have h1 := argsEntry_fullName_pos name cc.args fe
    have h2 := retrieveEntry_fullName_pos name (argsEntry name fe cc.args) cc
    by_cases h : resolvesTo name cc = true
    · rw [if_pos h]
      have h3 := removeResults_fields (findUsedResults cc.numResults refs)
        (retrieveEntry name (argsEntry name fe cc.args) cc)
      exact ⟨h3.1.trans (h2.1.trans h1.1), h3.2.1.trans (h2.2.trans h1.2)⟩
    · rw [if_neg h]
      exact ⟨h2.1.trans h1.1, h2.2.trans h1.2⟩
  | defer cc =>
    have h1 := argsEntry_fullName_pos name cc.args fe
    have h2 := retrieveEntry_fullName_pos name (argsEntry name fe cc.args) cc
    exact ⟨h2.1.trans h1.1, h2.2.trans h1.2⟩
  | go cc =>
    have h1 := argsEntry_fullName_pos name cc.args fe
    have h2 := retrieveEntry_fullName_pos name (argsEntry name fe cc.args) cc
    exact ⟨h2.1.trans h1.1, h2.2.trans h1.2⟩
  | changeType x =>
    cases x with
    | function object =>
      cases object with
      | none => exact ⟨rfl, rfl⟩
      | some funcObj =>
        simp only [instrEntry]
        by_cases h : funcObj.fullName = name
        · rw [if_pos h]; exact ⟨rfl, rfl⟩
        · rw [if_neg h]; exact ⟨rfl, rfl⟩
    | makeClosure fn => exact ⟨rfl, rfl⟩
    | other => exact ⟨rfl, rfl⟩
  | fieldAddr id xType field refs => exact ⟨rfl, rfl⟩
  | other => exact ⟨rfl, rfl⟩

theorem stepEntry_fullName_pos (name : String) (fe : FunctionEntry) (s : Step) :
    (stepEntry name fe s).fullName = fe.fullName ∧ (stepEntry name fe s).pos = fe.pos := by
  cases s with
  | instr i => exact instrEntry_fullName_pos name fe i
  | params fnObj ps =>
    simp only [stepEntry]
    by_cases h : fnObj.fullName = name
    · rw [if_pos h]
      by_cases hp : fe.passedAsArgument = true
      · rw [if_pos hp]; exact ⟨rfl, rfl⟩
      · rw [if_neg hp]
        have := paramsEntry_fields ps fe
        exact ⟨this.1, this.2.1⟩
    · rw [if_neg h]; exact ⟨rfl, rfl⟩
  | ident n => exact ⟨rfl, rfl⟩

theorem foldl_stepEntry_fullName_pos (name : String) (steps : List Step) (fe : FunctionEntry) :
    (steps.foldl (stepEntry name) fe).fullName = fe.fullName ∧
      (steps.foldl (stepEntry name) fe).pos = fe.pos := by
  induction steps generalizing fe with
  | nil => exact ⟨rfl, rfl⟩
  | cons s rest ih =>
    simp only [List.foldl_cons]
    have h1 := ih (stepEntry name fe s)
    have h2 := stepEntry_fullName_pos name fe s
    exact ⟨h1.1.trans h2.1, h1.2.trans h2.2⟩

/-- Steps keep the function registry well formed. -/
theorem wf_foldl_applyStep (steps : List Step) (em : ExecutionMetadata)
    (h : FunctionRegistryWF em.functionRegistry) :
    FunctionRegistryWF (steps.foldl applyStep em).functionRegistry := by
  refine ⟨by rw [keys_foldl_applyStep]; exact h.1, ?_⟩
  intro kv hkv
  have hn : (steps.foldl applyStep em).functionRegistry.keys.Nodup := by
    rw [keys_foldl_applyStep]; exact h.1
  have hl := GoMap.lookup_of_mem _ kv.1 kv.2 hn hkv
  rw [lookup_foldl_applyStep] at hl
  cases h0 : em.functionRegistry.lookup kv.1 with
  | none => simp [h0] at hl
  | some fe =>
    simp only [h0, Option.map_some', Option.some.injEq] at hl
    rw [← hl, (foldl_stepEntry_fullName_pos kv.1 steps fe).1]
    exact h.2 (kv.1, fe) (GoMap.mem_of_lookup _ _ _ h0)

/-! ## An escalated entry is a fixed point of every step -/

theorem escalate_isEscalated (fe : FunctionEntry) : IsEscalated (escalate fe) :=
  ⟨rfl, rfl, rfl, rfl⟩

theorem escalate_of_isEscalated (fe : FunctionEntry) (h : IsEscalated fe) : escalate fe = fe := by
  obtain ⟨h1, h2, h3, h4⟩ := h
  cases fe
  simp only at h1 h2 h3 h4
  subst h1; subst h2; subst h3; subst h4
  rfl

theorem argsEntry_of_isEscalated (name : String) (args : List Value) (fe : FunctionEntry)
    (h : IsEscalated fe) : argsEntry name fe args = fe := by
  unfold argsEntry
  induction args with
  | nil => rfl
  | cons arg rest ih =>
    simp only [List.foldl_cons]
    by_cases ha : argEscalates name arg = true
    · rw [if_pos ha, escalate_of_isEscalated fe h]; exact ih
    · rw [if_neg ha]; exact ih

theorem retrieveEntry_of_isEscalated (name : String) (fe : FunctionEntry) (cc : CallCommon)
    (h : IsEscalated fe) : retrieveEntry name fe cc = fe := by
  unfold retrieveEntry
  obtain ⟨h1, _, _, _⟩ := h
  by_cases hr : resolvesTo name cc = true
  · rw [if_pos hr]; cases fe; simp only at h1; subst h1; rfl
  · rw [if_neg hr]

theorem removeResults_of_isEscalated (used : List Nat) (fe : FunctionEntry)
    (h : IsEscalated fe) : removeResults fe used = fe := by
  unfold removeResults
  induction used with
  | nil => rfl
  | cons i rest ih =>
    simp only [List.foldl_cons]
    have : ({ fe with unusedResults := fe.unusedResults.erase i } : FunctionEntry) = fe := by
      obtain ⟨_, h2, _, _⟩ := h
      cases fe; simp only at h2; subst h2; simp
    rw [this]; exact ih

theorem stepEntry_of_isEscalated (name : String) (fe : FunctionEntry) (s : Step)
    (h : IsEscalated fe) : stepEntry name fe s = fe := by
  cases s with
  | instr i =>
    cases i with
    | call cc refs =>
      simp only [stepEntry, instrEntry, argsEntry_of_isEscalated name cc.args fe h,
        retrieveEntry_of_isEscalated name fe cc h, removeResults_of_isEscalated _ fe h, ite_self]
    | defer cc =>
      simp only [stepEntry, instrEntry, argsEntry_of_isEscalated name cc.args fe h,
        retrieveEntry_of_isEscalated name fe cc h]
    | go cc =>
      simp only [stepEntry, instrEntry, argsEntry_of_isEscalated name cc.args fe h,
        retrieveEntry_of_isEscalated name fe cc h]
    | changeType x =>
      cases x with
      | function object =>
        cases object with
        | none => rfl
        | some funcObj =>
          simp only [stepEntry, instrEntry, escalate_of_isEscalated fe h, ite_self]
      | makeClosure fn => rfl
      | other => rfl
    | fieldAddr id xType field refs => rfl
    | other => rfl
  | params fnObj ps =>
    simp only [stepEntry, h.2.2.2, if_true, ite_self]
  | ident n => rfl

theorem foldl_stepEntry_of_isEscalated (name : String) (steps : List Step) (fe : FunctionEntry)
    (h : IsEscalated fe) : steps.foldl (stepEntry name) fe = fe := by
  induction steps with
  | nil => rfl
  | cons s rest ih => simp only [List.foldl_cons, stepEntry_of_isEscalated name fe s h]; exact ih

/-! ## The diagnostics of `reportErrors` about functions -/

theorem reportFunction_functionName (fe : FunctionEntry) (d : Diagnostic)
    (h : d ∈ reportFunction fe) : d.message.functionName = some fe.fullName ∧ d.pos = fe.pos := by
  unfold reportFunction at h
  split at h
  · simp only [List.mem_singleton] at h; subst h; exact ⟨rfl, rfl⟩
  · split at h
    · simp only [List.mem_singleton] at h; subst h; exact ⟨rfl, rfl⟩
    · split at h
      · simp only [List.mem_singleton] at h; subst h; exact ⟨rfl, rfl⟩
      · simp at h

theorem reportStruct_functionName (se : StructEntry) (d : Diagnostic)
    (h : d ∈ reportStruct se) : d.message.functionName = none := by
  unfold reportStruct at h
  rcases List.mem_append.1 h with h | h
  · split at h
    · simp only [List.mem_singleton] at h; subst h; rfl
    · simp at h
  · obtain ⟨kv, _, rfl⟩ := List.mem_map.1 h; rfl

/-- A diagnostic about a function comes from the entry stored under that function's name. -/
theorem mem_reportErrors_function (em : ExecutionMetadata) (d : Diagnostic) (name : String)
    (hwf : FunctionRegistryWF em.functionRegistry) (hd : d ∈ reportErrors em)
    (hn : d.message.functionName = some name) :
    ∃ fe, em.functionRegistry.lookup name = some fe ∧ d ∈ reportFunction fe := by
  unfold reportErrors at hd
  rcases List.mem_append.1 hd with hd | hd
  · rcases List.mem_append.1 hd with hd | hd
    · obtain ⟨l, hl, hdl⟩ := List.mem_flatten.1 hd
      obtain ⟨kv, _, rfl⟩ := List.mem_map.1 hl
      rw [reportStruct_functionName kv.2 d hdl] at hn
      exact absurd hn (by simp)
    · obtain ⟨l, hl, hdl⟩ := List.mem_flatten.1 hd
      obtain ⟨kv, hkv, rfl⟩ := List.mem_map.1 hl
      have h1 := (reportFunction_functionName kv.2 d hdl).1
      rw [hn] at h1
      have h2 := hwf.2 kv hkv
      have h3 : kv.1 = name := by rw [← h2]; exact (Option.some.inj h1).symm
      refine ⟨kv.2, ?_, hdl⟩
      rw [← h3]
      exact GoMap.lookup_of_mem _ kv.1 kv.2 hwf.1 hkv
  · obtain ⟨kv, _, rfl⟩ := List.mem_map.1 hd
    simp [Message.functionName] at hn

theorem filter_reportFunction_self (fe : FunctionEntry) :
    (reportFunction fe).filter (fun d => decide (d.message.functionName = some fe.fullName)) =
      reportFunction fe := by
  rw [List.filter_eq_self]
  intro d hd
  simp [(reportFunction_functionName fe d hd).1]

theorem filter_reportFunction_other (name : String) (fe : FunctionEntry)
    (h : fe.fullName ≠ name) :
    (reportFunction fe).filter (fun d => decide (d.message.functionName = some name)) = [] := by
  rw [List.filter_eq_nil_iff]
  intro d hd
  simp [(reportFunction_functionName fe d hd).1, h]

theorem filter_function_part (name : String) (m : GoMap String FunctionEntry)
    (hwf : FunctionRegistryWF m) :
    ((m.map (fun kv => reportFunction kv.2)).flatten).filter
        (fun d => decide (d.message.functionName = some name)) =
      match m.lookup name with
      | some fe => reportFunction fe
      | none => [] := by
  induction m with
  | nil => rfl
  | cons p rest ih =>
    obtain ⟨k0, fe0⟩ := p
    have hn : k0 ∉ GoMap.keys rest ∧ (GoMap.keys rest).Nodup := by
      simpa [GoMap.keys] using hwf.1
    have hrest : FunctionRegistryWF rest :=
      ⟨hn.2, fun kv hkv => hwf.2 kv (List.mem_cons_of_mem _ hkv)⟩
    have hk0 : fe0.fullName = k0 := hwf.2 (k0, fe0) (List.mem_cons_self _ _)
    simp only [List.map_cons, List.flatten_cons, List.filter_append, ih hrest, GoMap.lookup]
    by_cases h : k0 = name
    · subst h
      have hl : GoMap.lookup rest k0 = none := (GoMap.lookup_eq_none_iff rest k0).2 hn.1
      rw [if_pos rfl, hl, ← hk0, filter_reportFunction_self]
      simp
    · rw [if_neg h, filter_reportFunction_other name fe0 (by rw [hk0]; exact h)]
      simp

/-- The diagnostics of `reportErrors` about the function `name` are those of its entry. -/
theorem filter_reportErrors_function (em : ExecutionMetadata) (name : String)
    (hwf : FunctionRegistryWF em.functionRegistry) :
    (reportErrors em).filter (fun d => decide (d.message.functionName = some name)) =
      match em.functionRegistry.lookup name with
      | some fe => reportFunction fe
      | none => [] := by
  unfold reportErrors
  rw [List.filter_append, List.filter_append, filter_function_part name _ hwf]
  have h1 : ((em.structRegistry.map (fun kv => reportStruct kv.2)).flatten).filter
      (fun d => decide (d.message.functionName = some name)) = [] := by
    rw [List.filter_eq_nil_iff]
    intro d hd
    obtain ⟨l, hl, hdl⟩ := List.mem_flatten.1 hd
    obtain ⟨kv, _, rfl⟩ := List.mem_map.1 hl
    simp [reportStruct_functionName kv.2 d hdl]
  have h2 : (em.otherUnusedDefinitions.map
      (fun kv => (⟨kv.1, .otherNotUsed kv.2⟩ : Diagnostic))).filter
      (fun d => decide (d.message.functionName = some name)) = [] := by
    rw [List.filter_eq_nil_iff]
    intro d hd
    obtain ⟨kv, _, rfl⟩ := List.mem_map.1 hd
    simp [Message.functionName]
  rw [h1, h2]
  simp

/-! ## Claims -/

/-- C1. Escape is permanent: once `markFunctionPassedAsArgument` has been applied to a
registered function, after every further sequence of steps (instructions of the flow scan,
unused-parameter steps of `run`, identifiers of the syntax scan) the entry still has
`referenced = true`, empty `unusedResults`, empty `unusedArguments` and
`passedAsArgument = true`; `reportErrors` reports nothing for the entry, and no diagnostic
of `reportErrors` is about that function. -/
theorem C1_escape_is_permanent (em : ExecutionMetadata) (funcObj : TypesFunc)
    (hwf : FunctionRegistryWF em.functionRegistry)
    (hreg : (em.functionRegistry.lookup funcObj.fullName).isSome = true) (steps : List Step) :
    (∃ fe,
      (steps.foldl applyStep (markFunctionPassedAsArgument em funcObj)).functionRegistry.lookup
          funcObj.fullName = some fe ∧
        fe.referenced = true ∧ fe.unusedResults = ∅ ∧ fe.unusedArguments = ∅ ∧
        fe.passedAsArgument = true ∧ reportFunction fe = []) ∧
    ∀ d ∈ reportErrors (steps.foldl applyStep (markFunctionPassedAsArgument em funcObj)),
      d.message.functionName ≠ some funcObj.fullName := by
  obtain ⟨fe0, h0⟩ := Option.isSome_iff_exists.1 hreg
  have hl : (steps.foldl applyStep (markFunctionPassedAsArgument em funcObj)
      ).functionRegistry.lookup funcObj.fullName = some (escalate fe0) := by
    rw [lookup_foldl_applyStep, lookup_markFunctionPassedAsArgument, h0]
    simp [foldl_stepEntry_of_isEscalated _ steps _ (escalate_isEscalated fe0)]
  have hrep : reportFunction (escalate fe0) = [] := by
    simp [reportFunction, escalate]
  refine ⟨⟨escalate fe0, hl, rfl, rfl, rfl, rfl, hrep⟩, ?_⟩
  intro d hd hn
  have hwf1 : FunctionRegistryWF (markFunctionPassedAsArgument em funcObj).functionRegistry := by
    have := wf_foldl_applyStep [Step.instr (.changeType (.function (some funcObj)))] em hwf
    simpa [applyStep, checkInstr] using this
  obtain ⟨fe, hfe, hdfe⟩ := mem_reportErrors_function _ d funcObj.fullName
    (wf_foldl_applyStep steps _ hwf1) hd hn
  rw [hl] at hfe
  injection hfe with hfe
  rw [← hfe, hrep] at hdfe
  simp at hdfe

theorem mem_findUsedExtracts (l : List Referrer) (used : List Nat) (i : Nat) :
    i ∈ findUsedExtracts used l ↔
      i ∈ used ∨ ∃ rs, Referrer.extract i (some rs) ∈ l ∧ 0 < rs.length := by
  induction l generalizing used with
  | nil => simp [findUsedExtracts]
  | cons r rest ih =>
    cases r with
    | extract index extractRefs =>
      cases extractRefs with
      | none =>
        simp only [findUsedExtracts, ih, List.mem_cons]
        constructor
        · rintro (h | ⟨rs, h1, h2⟩)
          · exact Or.inl h
          · exact Or.inr ⟨rs, Or.inr h1, h2⟩
        · rintro (h | ⟨rs, h1 | h1, h2⟩)
          · exact Or.inl h
          · simp at h1
          · exact Or.inr ⟨rs, h1, h2⟩
      | some rs0 =>
        by_cases hlen : rs0.length > 0
        · simp only [findUsedExtracts, hlen, if_true, ih, List.mem_append, List.mem_cons,
            List.not_mem_nil, or_false]
          constructor
          · rintro ((h | h) | ⟨rs, h1, h2⟩)
            · exact Or.inl h
            · subst h; exact Or.inr ⟨rs0, Or.inl rfl, hlen⟩
            · exact Or.inr ⟨rs, Or.inr h1, h2⟩
          · rintro (h | ⟨rs, h1 | h1, h2⟩)
            · exact Or.inl (Or.inl h)
            · injection h1 with h1 _; exact Or.inl (Or.inr h1)
            · exact Or.inr ⟨rs, h1, h2⟩
        · simp only [findUsedExtracts, hlen, if_false, ih, List.mem_cons]
          constructor
          · rintro (h | ⟨rs, h1, h2⟩)
            · exact Or.inl h
            · exact Or.inr ⟨rs, Or.inr h1, h2⟩
          · rintro (h | ⟨rs, h1 | h1, h2⟩)
            · exact Or.inl h
            · injection h1 with _ h1; injection h1 with h1; subst h1; exact absurd h2 hlen
            · exact Or.inr ⟨rs, h1, h2⟩
    | store addr =>
      simp only [findUsedExtracts, ih, List.mem_cons]
      constructor
      · rintro (h | ⟨rs, h1, h2⟩)
        · exact Or.inl h
        · exact Or.inr ⟨rs, Or.inr h1, h2⟩
      · rintro (h | ⟨rs, h1 | h1, h2⟩)
        · exact Or.inl h
        · simp at h1
        · exact Or.inr ⟨rs, h1, h2⟩
    | other =>
      simp only [findUsedExtracts, ih, List.mem_cons]
      constructor
      · rintro (h | ⟨rs, h1, h2⟩)
        · exact Or.inl h
        · exact Or.inr ⟨rs, Or.inr h1, h2⟩
      · rintro (h | ⟨rs, h1 | h1, h2⟩)
        · exact Or.inl h
        · simp at h1
        · exact Or.inr ⟨rs, h1, h2⟩

/-- C3. `findUsedResults` returns exactly the consumed result slots of one call: nothing for
a callee with 0 results; index 0, and only it, for a callee with 1 result exactly when the
call has at least one referrer; for a callee with more than one result, index `i` exactly
when some referrer of the call is an `Extract` with `Index = i` that has at least one
referrer itself. -/
theorem C3_findUsedResults_spec (numReturns : Nat) (refs : Option (List Referrer)) (i : Nat) :
    (numReturns = 0 → findUsedResults numReturns refs = []) ∧
    (numReturns = 1 →
      (i ∈ findUsedResults numReturns refs ↔ i = 0 ∧ ∃ l, refs = some l ∧ 0 < l.length)) ∧
    (1 < numReturns →
      (i ∈ findUsedResults numReturns refs ↔
        ∃ l, refs = some l ∧ ∃ rs, Referrer.extract i (some rs) ∈ l ∧ 0 < rs.length)) := by
  refine ⟨?_, ?_, ?_⟩
  · intro h; subst h; rfl
  · intro h; subst h
    cases refs with
    | none => simp [findUsedResults]
    | some l =>
      by_cases hl : l.length > 0
      · simp [findUsedResults, hl]
      · simp [findUsedResults, hl]
  · intro h
    obtain ⟨n, rfl⟩ : ∃ n, numReturns = n + 2 := ⟨numReturns - 2, by omega⟩
    cases refs with
    | none => simp [findUsedResults]
    | some l => simp [findUsedResults, mem_findUsedExtracts]

/-! ## Registration is a fold of events -/

section RegistrationEvents

variable (unicodeIsUpper : Char → Bool) (unicodeToLower : Char → Char)

theorem regPair_append (e1 e2 : List RegEvent) (n1 n2 : List String) (st : RegState) :
    regPair unicodeIsUpper (e1 ++ e2) (n1 ++ n2) st =
      regPair unicodeIsUpper e2 n2 (regPair unicodeIsUpper e1 n1 st) := by
  simp [regPair, List.foldl_append]

theorem foldl_regPair {α : Type} (f : RegState → α → RegState) (ev : α → List RegEvent)
    (nm : α → List String) (h : ∀ st x, f st x = regPair unicodeIsUpper (ev x) (nm x) st)
    (l : List α) (st : RegState) :
    l.foldl f st = regPair unicodeIsUpper (l.map ev).flatten (l.map nm).flatten st := by
  induction l generalizing st with
  | nil => rfl
  | cons x rest ih =>
    simp only [List.foldl_cons, List.map_cons, List.flatten_cons, regPair_append]
    rw [h, ih]

theorem foldl_events {α : Type} (f : ExecutionMetadata → α → ExecutionMetadata)
    (ev : α → List RegEvent)
    (h : ∀ em x, f em x = (ev x).foldl (applyRegEvent unicodeIsUpper) em)
    (l : List α) (em : ExecutionMetadata) :
    l.foldl f em = ((l.map ev).flatten).foldl (applyRegEvent unicodeIsUpper) em := by
  induction l generalizing em with
  | nil => rfl
  | cons x rest ih =>
    simp only [List.foldl_cons, List.map_cons, List.flatten_cons, List.foldl_append]
    rw [h, ih]

theorem registerMethodNames_eq (funcType : FuncType) (names : List Ident) (st : RegState) :
    registerMethodNames unicodeIsUpper funcType names st =
      regPair unicodeIsUpper (names.map (methodNameEvents unicodeIsUpper funcType)).flatten
        (names.map (methodNameNames unicodeIsUpper)).flatten st := by
  unfold registerMethodNames
  apply foldl_regPair
  intro st n
  unfold methodNameEvents methodNameNames
  by_cases h : IsExported unicodeIsUpper n.name = true
  · simp [h, regPair]
  · simp only [h, if_false, Bool.false_eq_true]
    unfold registerInterfaceMethod
    cases n.typesObj with
    | none => rfl
    | some o =>
      cases o with
      | func f => rfl
      | typeName t p => rfl
      | other p => rfl

theorem registerMethods_eq (methods : List Field) (st : RegState) :
    registerMethods unicodeIsUpper methods st =
      regPair unicodeIsUpper (methods.map (methodEvents unicodeIsUpper)).flatten
        (methods.map (methodNames unicodeIsUpper)).flatten st := by
  unfold registerMethods
  apply foldl_regPair
  intro st m
  unfold methodEvents methodNames
  cases m.funcType with
  | none => rfl
  | some funcType => exact registerMethodNames_eq unicodeIsUpper funcType m.names st

theorem registerValueNames_eq (names : List Ident) (em : ExecutionMetadata) :
    registerValueNames unicodeIsUpper names em =
      ((names.map (valueNameEvents unicodeIsUpper)).flatten).foldl
        (applyRegEvent unicodeIsUpper) em := by
  unfold registerValueNames
  apply foldl_events
  intro em name
  unfold valueNameEvents
  by_cases h : (!IsExported unicodeIsUpper name.name && name.name != "_") = true
  · rw [if_pos h, if_pos h]; rfl
  · rw [if_neg h, if_neg h]; rfl

theorem registerSpec_eq (st : RegState) (spec : Spec) :
    registerSpec unicodeIsUpper st spec =
      regPair unicodeIsUpper (specEvents unicodeIsUpper spec) (specNames unicodeIsUpper spec)
        st := by
  cases spec with
  | typeSpec name typ =>
    cases typ with
    | structType fields => rfl
    | interfaceType methods =>
      simp only [registerSpec, specEvents, specNames, registerMethods_eq]
      rw [← List.nil_append ((methods.map (methodNames unicodeIsUpper)).flatten), regPair_append]
      congr 1
      by_cases h : (!IsExported unicodeIsUpper name.name) = true
      · rw [if_pos h, if_pos h]; rfl
      · rw [if_neg h, if_neg h]; rfl
    | other => rfl
  | valueSpec names =>
    simp only [registerSpec, specEvents, specNames, registerValueNames_eq]
    rfl
  | other => rfl

theorem registerGenDecl_eq (st : RegState) (d : Decl) :
    registerGenDecl unicodeIsUpper st d =
      regPair unicodeIsUpper (genDeclEvents unicodeIsUpper d) (genDeclNames unicodeIsUpper d)
        st := by
  cases d with
  | genDecl specs =>
    simp only [registerGenDecl, genDeclEvents, genDeclNames]
    exact foldl_regPair unicodeIsUpper _ _ _ (registerSpec_eq unicodeIsUpper) specs st
  | funcDecl fn => rfl
  | other => rfl

theorem registerGenDecls_eq (files : List File) (st : RegState) :
    registerGenDecls unicodeIsUpper files st =
      regPair unicodeIsUpper (genEvents unicodeIsUpper files)
        (interfaceMethodNames unicodeIsUpper files) st := by
  unfold registerGenDecls genEvents interfaceMethodNames
  apply foldl_regPair
  intro st file
  exact foldl_regPair unicodeIsUpper _ _ _ (registerGenDecl_eq unicodeIsUpper) file.decls st

theorem lookup_foldl_set_true (names : List String) (m : GoMap String Bool) (x : String) :
    ((names.foldl (fun m n => m.set n true) m).lookup x).getD false =
      (decide (x ∈ names) || (m.lookup x).getD false) := by
  induction names generalizing m with
  | nil => simp
  | cons n rest ih =>
    simp only [List.foldl_cons]
    rw [ih, GoMap.lookup_set]
    by_cases h : n = x
    · subst h; simp
    · have h2 : ¬ x = n := fun hc => h hc.symm
      simp [h, h2]

theorem registerFuncDecl_eq (names : List String) (em : ExecutionMetadata) (d : Decl) :
    registerFuncDecl unicodeIsUpper unicodeToLower (names.foldl (fun m n => m.set n true) []) em d
      = (funcDeclEvents unicodeIsUpper unicodeToLower names d).foldl
          (applyRegEvent unicodeIsUpper) em := by
  cases d with
  | genDecl specs => rfl
  | other => rfl
  | funcDecl fn =>
    simp only [registerFuncDecl, funcDeclEvents, isRegistered]
    cases hobj : fn.name.typesObj with
    | none =>
      by_cases h1 : IsExported unicodeIsUpper fn.name.name = true
      · simp [h1]
      · by_cases h2 : shouldSkipFunction unicodeToLower fn = true
        · simp [h1, h2]
        · simp [h1, h2]
    | some o =>
      cases o with
      | typeName t p =>
        by_cases h1 : IsExported unicodeIsUpper fn.name.name = true
        · simp [h1]
        · by_cases h2 : shouldSkipFunction unicodeToLower fn = true
          · simp [h1, h2]
          · simp [h1, h2]
      | other p =>
        by_cases h1 : IsExported unicodeIsUpper fn.name.name = true
        · simp [h1]
        · by_cases h2 : shouldSkipFunction unicodeToLower fn = true
          · simp [h1, h2]
          · simp [h1, h2]
      | func funcObj =>
        by_cases h1 : IsExported unicodeIsUpper fn.name.name = true
        · simp [h1]
        · by_cases h2 : shouldSkipFunction unicodeToLower fn = true
          · simp [h1, h2]
          · have hl := lookup_foldl_set_true names [] funcObj.name
            simp only [GoMap.lookup, Option.getD_none, Bool.or_false] at hl
            simp only [h1, h2, hl, if_false, Bool.false_eq_true, Bool.not_false, Bool.true_and]
            by_cases h3 : (fn.recv.isSome && decide (funcObj.name ∈ names)) = true
            · simp [h3]
            · simp only [h3, if_false, Bool.false_eq_true, Bool.not_false, if_true,
                List.foldl_cons]
              cases fn.recv with
              | none => rfl
              | some l =>
                cases l with
                | nil => rfl
                | cons first rest => rfl

theorem registerFuncDecls_eq (files : List File) (names : List String)
    (em : ExecutionMetadata) :
    registerFuncDecls unicodeIsUpper unicodeToLower files
        (names.foldl (fun m n => m.set n true) []) em =
      ((files.map (fun file =>
          (file.decls.map (funcDeclEvents unicodeIsUpper unicodeToLower names)).flatten)).flatten
        ).foldl (applyRegEvent unicodeIsUpper) em := by
  unfold registerFuncDecls
  apply foldl_events
  intro em file
  exact foldl_events unicodeIsUpper _ _ (registerFuncDecl_eq unicodeIsUpper unicodeToLower names)
    file.decls em

/-- The function `registerPackageUnexportedDefinitions` performs the writes of
`registrationEvents`, in order. -/
theorem register_eq_foldl (files : List File) (em : ExecutionMetadata) :
    registerPackageUnexportedDefinitions unicodeIsUpper unicodeToLower files em =
      (registrationEvents unicodeIsUpper unicodeToLower files).foldl
        (applyRegEvent unicodeIsUpper) em := by
  unfold registerPackageUnexportedDefinitions registrationEvents funcEvents
  rw [registerGenDecls_eq, List.foldl_append]
  simp only [regPair]
  exact registerFuncDecls_eq unicodeIsUpper unicodeToLower files _ _

end RegistrationEvents

/-! ## Steps on an entry that is never escalated -/

theorem argsEntry_of_not_escalates (name : String) (args : List Value) (fe : FunctionEntry)
    (h : args.any (argEscalates name) = false) : argsEntry name fe args = fe := by
  unfold argsEntry
  induction args with
  | nil => rfl
  | cons arg rest ih =>
    simp only [List.any_cons, Bool.or_eq_false_iff] at h
    simp only [List.foldl_cons, h.1, Bool.false_eq_true, if_false]
    exact ih h.2

theorem instrEntry_of_not_escalates (name : String) (fe : FunctionEntry) (i : Instr)
    (h : instrEscalates name i = false) :
    (instrEntry name fe i).passedAsArgument = fe.passedAsArgument ∧
    (instrEntry name fe i).referenced = (fe.referenced || instrReferences name i) ∧
    (∀ x, x ∈ (instrEntry name fe i).unusedResults ↔
      x ∈ fe.unusedResults ∧
        ¬ ∃ cc refs, i = Instr.call cc refs ∧ calleeName cc = some name ∧
            x ∈ findUsedResults cc.numResults refs) := by
  cases i with
  | call cc refs =>
    simp only [instrEscalates] at h
    simp only [instrEntry, argsEntry_of_not_escalates name cc.args fe h, instrReferences,
      retrieveEntry]
    by_cases hr : resolvesTo name cc = true
    · have hc : calleeName cc = some name := by simpa [resolvesTo] using hr
      simp only [hr, if_true]
      have hf := removeResults_fields (findUsedResults cc.numResults refs)
        { fe with referenced := true }
      refine ⟨hf.2.2.2.1, by rw [hf.2.2.1]; simp, ?_⟩
      intro x
      rw [hf.2.2.2.2.2]
      simp only [Finset.mem_sdiff, List.mem_toFinset]
      constructor
      · rintro ⟨h1, h2⟩
        refine ⟨h1, ?_⟩
        rintro ⟨cc1, refs1, he, _, hx⟩
        injection he with he1 he2
        subst he1; subst he2
        exact h2 hx
      · rintro ⟨h1, h2⟩
        exact ⟨h1, fun hx => h2 ⟨cc, refs, rfl, hc, hx⟩⟩
    · have hc : ¬ calleeName cc = some name := by simpa [resolvesTo] using hr
      simp only [hr, if_false, Bool.false_eq_true, Bool.or_false, true_and]
      intro x
      constructor
      · intro h1
        refine ⟨h1, ?_⟩
        rintro ⟨cc1, refs1, he, hc1, _⟩
        injection he with he1 he2
        subst he1
        exact hc hc1
      · exact fun h1 => h1.1
  | defer cc =>
    simp only [instrEscalates] at h
    simp only [instrEntry, argsEntry_of_not_escalates name cc.args fe h, instrReferences,
      retrieveEntry]
    by_cases hr : resolvesTo name cc = true
    · simp [hr]
    · simp [hr]
  | go cc =>
    simp only [instrEscalates] at h
    simp only [instrEntry, argsEntry_of_not_escalates name cc.args fe h, instrReferences,
      retrieveEntry]
    by_cases hr : resolvesTo name cc = true
    · simp [hr]
    · simp [hr]
  | changeType x =>
    cases x with
    | function object =>
      cases object with
      | none => simp [instrEntry, instrReferences]
      | some funcObj =>
        simp only [instrEscalates, decide_eq_false_iff_not] at h
        simp [instrEntry, instrReferences, h]
    | makeClosure fn => simp [instrEntry, instrReferences]
    | other => simp [instrEntry, instrReferences]
  | fieldAddr id xType field refs => simp [instrEntry, instrReferences]
  | other => simp [instrEntry, instrReferences]

/-- The entry named `name` after a list of steps none of which escalates it. -/
theorem foldl_stepEntry_of_not_escalates (name : String) (steps : List Step)
    (fe : FunctionEntry)
    (h : ∀ i, Step.instr i ∈ steps → instrEscalates name i = false)
    (hp : fe.passedAsArgument = false) :
    (steps.foldl (stepEntry name) fe).passedAsArgument = false ∧
    ((steps.foldl (stepEntry name) fe).referenced = true ↔
      fe.referenced = true ∨ ∃ i, Step.instr i ∈ steps ∧ instrReferences name i = true) ∧
    (∀ x, x ∈ (steps.foldl (stepEntry name) fe).unusedResults ↔
      x ∈ fe.unusedResults ∧
        ¬ ∃ cc refs, Step.instr (Instr.call cc refs) ∈ steps ∧ calleeName cc = some name ∧
            x ∈ findUsedResults cc.numResults refs) := by
  induction steps generalizing fe with
  | nil => simp [hp]
  | cons s rest ih =>
    simp only [List.foldl_cons]
    have hrest : ∀ i, Step.instr i ∈ rest → instrEscalates name i = false :=
      fun i hi => h i (List.mem_cons_of_mem _ hi)
    cases s with
    | instr i0 =>
      have h0 := instrEntry_of_not_escalates name fe i0 (h i0 (List.mem_cons_self _ _))
      obtain ⟨a1, a2, a3⟩ := ih (stepEntry name fe (.instr i0)) hrest (by
        simp only [stepEntry]; rw [h0.1]; exact hp)
      refine ⟨a1, ?_, ?_⟩
      · rw [a2]
        simp only [stepEntry, h0.2.1, Bool.or_eq_true, List.mem_cons, Step.instr.injEq]
        constructor
        · rintro ((h1 | h1) | ⟨i, h1, h2⟩)
          · exact Or.inl h1
          · exact Or.inr ⟨i0, Or.inl rfl, h1⟩
          · exact Or.inr ⟨i, Or.inr h1, h2⟩
        · rintro (h1 | ⟨i, h1 | h1, h2⟩)
          · exact Or.inl (Or.inl h1)
          · subst h1; exact Or.inl (Or.inr h2)
          · exact Or.inr ⟨i, h1, h2⟩
      · intro x
        rw [a3]
        simp only [stepEntry, h0.2.2 x, List.mem_cons, Step.instr.injEq]
        constructor
        · rintro ⟨⟨h1, h2⟩, h3⟩
          refine ⟨h1, ?_⟩
          rintro ⟨cc, refs, he | he, hc, hx⟩
          · exact h2 ⟨cc, refs, he.symm, hc, hx⟩
          · exact h3 ⟨cc, refs, he, hc, hx⟩
        · rintro ⟨h1, h2⟩
          refine ⟨⟨h1, ?_⟩, ?_⟩
          · rintro ⟨cc, refs, he, hc, hx⟩
            exact h2 ⟨cc, refs, Or.inl he.symm, hc, hx⟩
          · rintro ⟨cc, refs, he, hc, hx⟩
            exact h2 ⟨cc, refs, Or.inr he, hc, hx⟩
    | params fnObj ps =>
      have hf := paramsEntry_fields ps fe
      have hs : (stepEntry name fe (.params fnObj ps)).passedAsArgument = false ∧
          (stepEntry name fe (.params fnObj ps)).referenced = fe.referenced ∧
          (stepEntry name fe (.params fnObj ps)).unusedResults = fe.unusedResults := by
        simp only [stepEntry, hp, Bool.false_eq_true, if_false]
        by_cases hk : fnObj.fullName = name
        · rw [if_pos hk]; exact ⟨hf.2.2.2.1.trans hp, hf.2.2.1, hf.2.2.2.2⟩
        · rw [if_neg hk]; exact ⟨hp, rfl, rfl⟩
      obtain ⟨a1, a2, a3⟩ := ih (stepEntry name fe (.params fnObj ps)) hrest hs.1
      refine ⟨a1, ?_, ?_⟩
      · rw [a2, hs.2.1]; simp
      · intro x; rw [a3, hs.2.2]; simp
    | ident n =>
      obtain ⟨a1, a2, a3⟩ := ih fe hrest hp
      refine ⟨a1, ?_, ?_⟩
      · simp only [stepEntry]; rw [a2]; simp
      · intro x; simp only [stepEntry]; rw [a3]; simp

/-! ## The steps of `run` and the scanned instructions -/

theorem instr_mem_srcFuncSteps (fn : Function) (i : Instr) :
    Step.instr i ∈ srcFuncSteps fn ↔
      i ∈ (match fn.object with
        | none => []
        | some _ => functionInstrs fn) := by
  unfold srcFuncSteps
  cases fn.object with
  | none => simp
  | some fnObj => simp

theorem instr_mem_flowSteps (pass : Pass) (i : Instr) :
    Step.instr i ∈ flowSteps pass ↔ i ∈ scannedInstrs pass := by
  unfold flowSteps scannedInstrs
  have hinit : Step.instr i ∈ (match pass.initFunc with
      | some initFunc => (functionInstrs initFunc).map Step.instr
      | none => []) ↔ i ∈ (match pass.initFunc with
      | some initFunc => functionInstrs initFunc
      | none => []) := by
    cases pass.initFunc with
    | none => simp
    | some f => simp
  simp only [List.mem_append, List.mem_flatten, List.mem_map]
  constructor
  · rintro (h | ⟨l, ⟨fn, hfn, rfl⟩, hl⟩)
    · exact Or.inl (hinit.1 h)
    · right
      exact ⟨_, ⟨fn, hfn, rfl⟩, (instr_mem_srcFuncSteps fn i).1 hl⟩
  · rintro (h | ⟨l, ⟨fn, hfn, rfl⟩, hl⟩)
    · exact Or.inl (hinit.2 h)
    · right
      exact ⟨_, ⟨fn, hfn, rfl⟩, (instr_mem_srcFuncSteps fn i).2 hl⟩

theorem instr_not_mem_syntaxSteps (pass : Pass) (i : Instr) :
    Step.instr i ∉ syntaxSteps pass := by
  unfold syntaxSteps
  simp only [List.mem_flatten, List.mem_map]
  rintro ⟨l, ⟨f, _, rfl⟩, hl⟩
  simp at hl

theorem instr_mem_allSteps (pass : Pass) (i : Instr) :
    Step.instr i ∈ flowSteps pass ++ syntaxSteps pass ↔ i ∈ scannedInstrs pass := by
  rw [List.mem_append, instr_mem_flowSteps]
  constructor
  · rintro (h | h)
    · exact h
    · exact absurd h (instr_not_mem_syntaxSteps pass i)
  · exact Or.inl

/-! ## The function registry after registration -/

theorem foldl_insert_range (n : Nat) :
    (List.range n).foldl (fun (s : Finset Nat) i => insert i s) ∅ = Finset.range n := by
  induction n with
  | zero => rfl
  | succ n ih =>
    rw [List.range_succ, List.foldl_append, ih, Finset.range_succ]
    rfl

theorem registerFunction_eq (em : ExecutionMetadata) (funcObj : TypesFunc) (numResults : Nat)
    (params : List SigField) :
    registerFunction em funcObj numResults params =
      { em with functionRegistry :=
          em.functionRegistry.set funcObj.fullName (freshEntry funcObj numResults) } := by
  simp only [registerFunction, freshEntry, foldl_insert_range]

section RegistryAfterEvents

variable (unicodeIsUpper : Char → Bool) (unicodeToLower : Char → Char)

theorem registerStruct_functionRegistry (em : ExecutionMetadata) (specName : Ident)
    (fields : Option (List Field)) :
    (registerStruct unicodeIsUpper em specName fields).functionRegistry =
      em.functionRegistry := by
  unfold registerStruct
  cases specName.typesObj with
  | none => rfl
  | some o =>
    cases o with
    | func f => rfl
    | typeName t p => rfl
    | other p => rfl

theorem applyRegEvent_functionRegistry (em : ExecutionMetadata) (e : RegEvent) :
    (applyRegEvent unicodeIsUpper em e).functionRegistry =
      match e with
      | .function funcObj numResults _ =>
        em.functionRegistry.set funcObj.fullName (freshEntry funcObj numResults)
      | _ => em.functionRegistry := by
  cases e with
  | function funcObj numResults params => simp [applyRegEvent, registerFunction_eq]
  | struct specName fields => simp [applyRegEvent, registerStruct_functionRegistry]
  | other pos name => rfl
  | receiver pos => rfl

theorem wf_set_freshEntry (m : GoMap String FunctionEntry) (funcObj : TypesFunc) (n : Nat)
    (h : FunctionRegistryWF m) :
    FunctionRegistryWF (m.set funcObj.fullName (freshEntry funcObj n)) := by
  refine ⟨GoMap.nodup_keys_set m _ _ h.1, ?_⟩
  intro kv hkv
  have hl := GoMap.lookup_of_mem _ kv.1 kv.2 (GoMap.nodup_keys_set m _ _ h.1) hkv
  rw [GoMap.lookup_set] at hl
  by_cases hk : funcObj.fullName = kv.1
  · rw [if_pos hk] at hl
    injection hl with hl
    rw [← hl, ← hk]; rfl
  · rw [if_neg hk] at hl
    exact h.2 (kv.1, kv.2) (GoMap.mem_of_lookup _ _ _ hl)

theorem wf_foldl_applyRegEvent (events : List RegEvent) (em : ExecutionMetadata)
    (h : FunctionRegistryWF em.functionRegistry) :
    FunctionRegistryWF (events.foldl (applyRegEvent unicodeIsUpper) em).functionRegistry := by
  induction events generalizing em with
  | nil => exact h
  | cons e rest ih =>
    simp only [List.foldl_cons]
    apply ih
    rw [applyRegEvent_functionRegistry]
    cases e with
    | function funcObj numResults params => exact wf_set_freshEntry _ _ _ h
    | struct specName fields => exact h
    | other pos name => exact h
    | receiver pos => exact h

/-- An entry of the function registry after a list of writes was there before or is the
fresh entry of one of the writes. -/
theorem lookup_foldl_applyRegEvent (events : List RegEvent) (em : ExecutionMetadata)
    (name : String) (fe : FunctionEntry)
    (h : (events.foldl (applyRegEvent unicodeIsUpper) em).functionRegistry.lookup name = some fe) :
    em.functionRegistry.lookup name = some fe ∨
      ∃ funcObj numResults params, RegEvent.function funcObj numResults params ∈ events ∧
        funcObj.fullName = name ∧ fe = freshEntry funcObj numResults := by
  induction events generalizing em with
  | nil => exact Or.inl h
  | cons e rest ih =>
    simp only [List.foldl_cons] at h
    rcases ih _ h with h1 | ⟨f, n, ps, hm, hn, hfe⟩
    · rw [applyRegEvent_functionRegistry] at h1
      cases e with
      | function funcObj numResults params =>
        simp only [GoMap.lookup_set] at h1
        by_cases hk : funcObj.fullName = name
        · rw [if_pos hk] at h1
          injection h1 with h1
          exact Or.inr ⟨funcObj, numResults, params, List.mem_cons_self _ _, hk, h1.symm⟩
        · rw [if_neg hk] at h1
          exact Or.inl h1
      | struct specName fields => exact Or.inl h1
      | other pos name => exact Or.inl h1
      | receiver pos => exact Or.inl h1
    · exact Or.inr ⟨f, n, ps, List.mem_cons_of_mem _ hm, hn, hfe⟩

/-- A function written by one of the writes, or present before, is in the registry after the
writes. -/
theorem isSome_lookup_foldl_applyRegEvent (events : List RegEvent) (em : ExecutionMetadata)
    (name : String)
    (h : (em.functionRegistry.lookup name).isSome = true ∨
      ∃ funcObj numResults params, RegEvent.function funcObj numResults params ∈ events ∧
        funcObj.fullName = name) :
    ((events.foldl (applyRegEvent unicodeIsUpper) em).functionRegistry.lookup name).isSome
      = true := by
  induction events generalizing em with
  | nil =>
    rcases h with h | ⟨f, n, ps, hm, _⟩
    · exact h
    · simp at hm
  | cons e rest ih =>
    simp only [List.foldl_cons]
    apply ih
    rcases h with h | ⟨f, n, ps, hm, hn⟩
    · left
      rw [applyRegEvent_functionRegistry]
      cases e with
      | function funcObj numResults params =>
        simp only [GoMap.lookup_set]
        by_cases hk : funcObj.fullName = name
        · simp [hk]
        · simp [hk, h]
      | struct specName fields => exact h
      | other pos name => exact h
      | receiver pos => exact h
    · rcases List.mem_cons.1 hm with hm | hm
      · left
        subst hm
        rw [applyRegEvent_functionRegistry]
        simp [GoMap.lookup_set, hn]
      · exact Or.inr ⟨f, n, ps, hm, hn⟩

theorem wf_newExecutionMetadata : FunctionRegistryWF newExecutionMetadata.functionRegistry := by
  refine ⟨List.nodup_nil, ?_⟩
  intro kv hkv
  simp [newExecutionMetadata] at hkv

/-- The function registry that `run` builds is well formed. -/
theorem wf_register (files : List File) :
    FunctionRegistryWF
      (registerPackageUnexportedDefinitions unicodeIsUpper unicodeToLower files
        newExecutionMetadata).functionRegistry := by
  rw [register_eq_foldl]
  exact wf_foldl_applyRegEvent unicodeIsUpper _ _ wf_newExecutionMetadata

/-! ## Where the writes to the function registry come from -/

theorem mem_methodNameNames (n : Ident) (x : String) :
    x ∈ methodNameNames unicodeIsUpper n ↔ IsExported unicodeIsUpper n.name = false ∧ n.name = x := by
  unfold methodNameNames
  by_cases h : IsExported unicodeIsUpper n.name = true
  · simp [h]
  · simp only [h, if_false, Bool.false_eq_true, List.mem_singleton]
    constructor
    · intro hx; exact ⟨by simp [h], hx.symm⟩
    · intro hx; exact hx.2.symm

theorem mem_methodNames (m : Field) (x : String) :
    x ∈ methodNames unicodeIsUpper m ↔
      ∃ p ∈ methodIdents [m], IsExported unicodeIsUpper p.2.name = false ∧ p.2.name = x := by
  unfold methodNames methodIdents
  cases hft : m.funcType with
  | none => simp [hft]
  | some funcType =>
    simp only [List.mem_flatten, List.mem_map, List.map_cons, List.map_nil, List.flatten_cons,
      List.flatten_nil, List.append_nil, hft]
    constructor
    · rintro ⟨l, ⟨n, hn, rfl⟩, hx⟩
      exact ⟨(funcType, n), ⟨n, hn, rfl⟩, (mem_methodNameNames unicodeIsUpper n x).1 hx⟩
    · rintro ⟨p, ⟨n, hn, rfl⟩, hx⟩
      exact ⟨_, ⟨n, hn, rfl⟩, (mem_methodNameNames unicodeIsUpper n x).2 hx⟩

theorem mem_methodIdents (methods : List Field) (p : FuncType × Ident) :
    p ∈ methodIdents methods ↔ ∃ m ∈ methods, p ∈ methodIdents [m] := by
  unfold methodIdents
  simp only [List.mem_flatten, List.mem_map, List.map_cons, List.map_nil, List.flatten_cons,
    List.flatten_nil, List.append_nil]
  constructor
  · rintro ⟨l, ⟨m, hm, rfl⟩, hp⟩
    exact ⟨m, hm, hp⟩
  · rintro ⟨m, hm, hp⟩
    exact ⟨_, ⟨m, hm, rfl⟩, hp⟩

theorem mem_specNames (spec : Spec) (x : String) :
    x ∈ specNames unicodeIsUpper spec ↔
      ∃ p ∈ specMethodIdents spec, IsExported unicodeIsUpper p.2.name = false ∧ p.2.name = x := by
  cases spec with
  | typeSpec name typ =>
    cases typ with
    | structType fields => simp [specNames, specMethodIdents]
    | interfaceType methods =>
      simp only [specNames, specMethodIdents, List.mem_flatten, List.mem_map]
      constructor
      · rintro ⟨l, ⟨m, hm, rfl⟩, hx⟩
        obtain ⟨p, hp, hx⟩ := (mem_methodNames unicodeIsUpper m x).1 hx
        exact ⟨p, (mem_methodIdents methods p).2 ⟨m, hm, hp⟩, hx⟩
      · rintro ⟨p, hp, hx⟩
        obtain ⟨m, hm, hp⟩ := (mem_methodIdents methods p).1 hp
        exact ⟨_, ⟨m, hm, rfl⟩, (mem_methodNames unicodeIsUpper m x).2 ⟨p, hp, hx⟩⟩
    | other => simp [specNames, specMethodIdents]
  | valueSpec names => simp [specNames, specMethodIdents]
  | other => simp [specNames, specMethodIdents]

theorem mem_genDeclNames (d : Decl) (x : String) :
    x ∈ genDeclNames unicodeIsUpper d ↔
      ∃ p ∈ declMethodIdents d, IsExported unicodeIsUpper p.2.name = false ∧ p.2.name = x := by
  cases d with
  | genDecl specs =>
    simp only [genDeclNames, declMethodIdents, List.mem_flatten, List.mem_map]
    constructor
    · rintro ⟨l, ⟨spec, hs, rfl⟩, hx⟩
      obtain ⟨p, hp, hx⟩ := (mem_specNames unicodeIsUpper spec x).1 hx
      exact ⟨p, ⟨_, ⟨spec, hs, rfl⟩, hp⟩, hx⟩
    · rintro ⟨p, ⟨l, ⟨spec, hs, rfl⟩, hp⟩, hx⟩
      exact ⟨_, ⟨spec, hs, rfl⟩, (mem_specNames unicodeIsUpper spec x).2 ⟨p, hp, hx⟩⟩
  | funcDecl fn => simp [genDeclNames, declMethodIdents]
  | other => simp [genDeclNames, declMethodIdents]

/-- The map `interfaceMethods` holds the names of the unexported methods of the interface
types of the package. -/
theorem mem_interfaceMethodNames (files : List File) (x : String) :
    x ∈ interfaceMethodNames unicodeIsUpper files ↔
      ∃ p ∈ interfaceMethodIdents files,
        IsExported unicodeIsUpper p.2.name = false ∧ p.2.name = x := by
  unfold interfaceMethodNames interfaceMethodIdents
  constructor
  · intro hx
    obtain ⟨l, hl, hx⟩ := List.mem_flatten.1 hx
    obtain ⟨file, hf, rfl⟩ := List.mem_map.1 hl
    obtain ⟨l2, hl2, hx⟩ := List.mem_flatten.1 hx
    obtain ⟨d, hd, rfl⟩ := List.mem_map.1 hl2
    obtain ⟨p, hp, hx⟩ := (mem_genDeclNames unicodeIsUpper d x).1 hx
    refine ⟨p, ?_, hx⟩
    exact List.mem_flatten.2 ⟨_, List.mem_map.2 ⟨file, hf, rfl⟩,
      List.mem_flatten.2 ⟨_, List.mem_map.2 ⟨d, hd, rfl⟩, hp⟩⟩
  · rintro ⟨p, hp, hx⟩
    obtain ⟨l, hl, hp⟩ := List.mem_flatten.1 hp
    obtain ⟨file, hf, rfl⟩ := List.mem_map.1 hl
    obtain ⟨l2, hl2, hp⟩ := List.mem_flatten.1 hp
    obtain ⟨d, hd, rfl⟩ := List.mem_map.1 hl2
    exact List.mem_flatten.2 ⟨_, List.mem_map.2 ⟨file, hf, rfl⟩,
      List.mem_flatten.2 ⟨_, List.mem_map.2 ⟨d, hd, rfl⟩,
        (mem_genDeclNames unicodeIsUpper d x).2 ⟨p, hp, hx⟩⟩⟩

end RegistryAfterEvents

section EventSources

variable (unicodeIsUpper : Char → Bool) (unicodeToLower : Char → Char)

theorem mem_flatten_map {α β : Type} (f : α → List β) (l : List α) (b : β) :
    b ∈ (l.map f).flatten ↔ ∃ a ∈ l, b ∈ f a := by
  constructor
  · intro h
    obtain ⟨l2, hl2, hb⟩ := List.mem_flatten.1 h
    obtain ⟨a, ha, rfl⟩ := List.mem_map.1 hl2
    exact ⟨a, ha, hb⟩
  · rintro ⟨a, ha, hb⟩
    exact List.mem_flatten.2 ⟨_, List.mem_map.2 ⟨a, ha, rfl⟩, hb⟩

theorem function_mem_methodNameEvents (funcType : FuncType) (n : Ident) (f : TypesFunc)
    (k : Nat) (ps : List SigField) :
    RegEvent.function f k ps ∈ methodNameEvents unicodeIsUpper funcType n ↔
      IsExported unicodeIsUpper n.name = false ∧ n.typesObj = some (.func f) ∧
        k = interfaceMethodNumResults funcType ∧ ps = [] := by
  unfold methodNameEvents
  by_cases h : IsExported unicodeIsUpper n.name = true
  · simp [h]
  · have h0 : IsExported unicodeIsUpper n.name = false := by simpa using h
    simp only [h0, Bool.false_eq_true, if_false, true_and]
    cases hobj : n.typesObj with
    | none => simp
    | some o =>
      cases o with
      | func f0 =>
        simp only [List.mem_singleton, RegEvent.function.injEq, Option.some.injEq,
          TypesObject.func.injEq]
        constructor
        · rintro ⟨h1, h2, h3⟩; exact ⟨h1.symm, h2, h3⟩
        · rintro ⟨h1, h2, h3⟩; exact ⟨h1.symm, h2, h3⟩
      | typeName t p => simp
      | other p => simp

theorem function_mem_methodEvents (m : Field) (f : TypesFunc) (k : Nat) (ps : List SigField) :
    RegEvent.function f k ps ∈ methodEvents unicodeIsUpper m ↔
      ∃ p ∈ methodIdents [m], IsExported unicodeIsUpper p.2.name = false ∧
        p.2.typesObj = some (.func f) ∧ k = interfaceMethodNumResults p.1 ∧ ps = [] := by
  unfold methodEvents methodIdents
  cases hft : m.funcType with
  | none => simp [hft]
  | some funcType =>
    simp only [List.map_cons, List.map_nil, List.flatten_cons, List.flatten_nil, List.append_nil,
      hft, mem_flatten_map, List.mem_map]
    constructor
    · rintro ⟨n, hn, hx⟩
      exact ⟨(funcType, n), ⟨n, hn, rfl⟩,
        (function_mem_methodNameEvents unicodeIsUpper funcType n f k ps).1 hx⟩
    · rintro ⟨p, ⟨n, hn, rfl⟩, hx⟩
      exact ⟨n, hn, (function_mem_methodNameEvents unicodeIsUpper funcType n f k ps).2 hx⟩

theorem function_not_mem_valueNameEvents (name : Ident) (f : TypesFunc) (k : Nat)
    (ps : List SigField) : RegEvent.function f k ps ∉ valueNameEvents unicodeIsUpper name := by
  unfold valueNameEvents
  split <;> simp

theorem function_mem_specEvents (spec : Spec) (f : TypesFunc) (k : Nat) (ps : List SigField) :
    RegEvent.function f k ps ∈ specEvents unicodeIsUpper spec ↔
      ∃ p ∈ specMethodIdents spec, IsExported unicodeIsUpper p.2.name = false ∧
        p.2.typesObj = some (.func f) ∧ k = interfaceMethodNumResults p.1 ∧ ps = [] := by
  cases spec with
  | typeSpec name typ =>
    cases typ with
    | structType fields => simp [specEvents, specMethodIdents]
    | interfaceType methods =>
      simp only [specEvents, specMethodIdents, List.mem_append, mem_flatten_map]
      constructor
      · rintro (h | ⟨m, hm, hx⟩)
        · split at h <;> simp at h
        · obtain ⟨p, hp, hx⟩ := (function_mem_methodEvents unicodeIsUpper m f k ps).1 hx
          exact ⟨p, (mem_methodIdents methods p).2 ⟨m, hm, hp⟩, hx⟩
      · rintro ⟨p, hp, hx⟩
        obtain ⟨m, hm, hp⟩ := (mem_methodIdents methods p).1 hp
        exact Or.inr ⟨m, hm, (function_mem_methodEvents unicodeIsUpper m f k ps).2 ⟨p, hp, hx⟩⟩
    | other => simp [specEvents, specMethodIdents]
  | valueSpec names =>
    simp only [specEvents, specMethodIdents, mem_flatten_map, List.not_mem_nil, false_and,
      exists_false, iff_false, not_exists, not_and]
    intro name _
    exact function_not_mem_valueNameEvents unicodeIsUpper name f k ps
  | other => simp [specEvents, specMethodIdents]

theorem function_mem_genDeclEvents (d : Decl) (f : TypesFunc) (k : Nat) (ps : List SigField) :
    RegEvent.function f k ps ∈ genDeclEvents unicodeIsUpper d ↔
      ∃ p ∈ declMethodIdents d, IsExported unicodeIsUpper p.2.name = false ∧
        p.2.typesObj = some (.func f) ∧ k = interfaceMethodNumResults p.1 ∧ ps = [] := by
  cases d with
  | genDecl specs =>
    simp only [genDeclEvents, declMethodIdents, mem_flatten_map]
    constructor
    · rintro ⟨spec, hs, hx⟩
      obtain ⟨p, hp, hx⟩ := (function_mem_specEvents unicodeIsUpper spec f k ps).1 hx
      exact ⟨p, ⟨spec, hs, hp⟩, hx⟩
    · rintro ⟨p, ⟨spec, hs, hp⟩, hx⟩
      exact ⟨spec, hs, (function_mem_specEvents unicodeIsUpper spec f k ps).2 ⟨p, hp, hx⟩⟩
  | funcDecl fn => simp [genDeclEvents, declMethodIdents]
  | other => simp [genDeclEvents, declMethodIdents]

/-- The first loop calls `registerFunction` exactly for the unexported interface methods
whose name resolves to a function object, with the length of the result list. -/
theorem function_mem_genEvents (files : List File) (f : TypesFunc) (k : Nat)
    (ps : List SigField) :
    RegEvent.function f k ps ∈ genEvents unicodeIsUpper files ↔
      ∃ p ∈ interfaceMethodIdents files, IsExported unicodeIsUpper p.2.name = false ∧
        p.2.typesObj = some (.func f) ∧ k = interfaceMethodNumResults p.1 ∧ ps = [] := by
  simp only [genEvents, interfaceMethodIdents, mem_flatten_map]
  constructor
  · rintro ⟨file, hf, d, hd, hx⟩
    obtain ⟨p, hp, hx⟩ := (function_mem_genDeclEvents unicodeIsUpper d f k ps).1 hx
    exact ⟨p, ⟨file, hf, d, hd, hp⟩, hx⟩
  · rintro ⟨p, ⟨file, hf, d, hd, hp⟩, hx⟩
    exact ⟨file, hf, d, hd, (function_mem_genDeclEvents unicodeIsUpper d f k ps).2 ⟨p, hp, hx⟩⟩

theorem function_mem_funcDeclEvents (names : List String) (d : Decl) (f : TypesFunc) (k : Nat)
    (ps : List SigField) :
    RegEvent.function f k ps ∈ funcDeclEvents unicodeIsUpper unicodeToLower names d ↔
      ∃ fn, d = Decl.funcDecl fn ∧ fn.name.typesObj = some (.func f) ∧
        isRegistered unicodeIsUpper unicodeToLower names fn f = true ∧
        k = NumFields fn.typ.results ∧ ps = fn.typ.params := by
  cases d with
  | genDecl specs => simp [funcDeclEvents]
  | other => simp [funcDeclEvents]
  | funcDecl fn =>
    simp only [funcDeclEvents, Decl.funcDecl.injEq, exists_eq_left']
    cases hobj : fn.name.typesObj with
    | none => simp
    | some o =>
      cases o with
      | typeName t p => simp
      | other p => simp
      | func f0 =>
        simp only [Option.some.injEq, TypesObject.func.injEq]
        by_cases hreg : isRegistered unicodeIsUpper unicodeToLower names fn f0 = true
        · rw [if_pos hreg]
          have hrecv : RegEvent.function f k ps ∉ (match fn.recv with
              | some (first :: _) => [RegEvent.receiver first.typePos]
              | _ => []) := by
            split <;> simp
          simp only [List.mem_cons, RegEvent.function.injEq]
          constructor
          · rintro (⟨h1, h2, h3⟩ | h)
            · subst h1
              exact ⟨rfl, hreg, h2, h3⟩
            · exact absurd h hrecv
          · rintro ⟨h1, _, h2, h3⟩
            exact Or.inl ⟨h1.symm, h2, h3⟩
        · rw [if_neg hreg]
          simp only [List.not_mem_nil, false_iff, not_and]
          intro h1 h2
          subst h1
          exact absurd h2 hreg

theorem mem_funcDecls (files : List File) (fn : FuncDecl) :
    fn ∈ funcDecls files ↔ ∃ file ∈ files, Decl.funcDecl fn ∈ file.decls := by
  simp only [funcDecls, fileFuncDecls, mem_flatten_map]
  constructor
  · rintro ⟨file, hf, d, hd, hx⟩
    cases d with
    | genDecl specs => simp at hx
    | other => simp at hx
    | funcDecl fn0 =>
      simp only [List.mem_singleton] at hx
      subst hx
      exact ⟨file, hf, hd⟩
  · rintro ⟨file, hf, hd⟩
    exact ⟨file, hf, _, hd, by simp⟩

/-- The second loop calls `registerFunction` exactly for the function declarations that
satisfy `isRegistered`, with the number of declared results. -/
theorem function_mem_funcEvents (files : List File) (f : TypesFunc) (k : Nat)
    (ps : List SigField) :
    RegEvent.function f k ps ∈ funcEvents unicodeIsUpper unicodeToLower files ↔
      ∃ fn ∈ funcDecls files, fn.name.typesObj = some (.func f) ∧
        isRegistered unicodeIsUpper unicodeToLower
          (interfaceMethodNames unicodeIsUpper files) fn f = true ∧
        k = NumFields fn.typ.results ∧ ps = fn.typ.params := by
  simp only [funcEvents, mem_flatten_map, mem_funcDecls]
  constructor
  · rintro ⟨file, hf, d, hd, hx⟩
    obtain ⟨fn, hfn, hprops⟩ :=
      (function_mem_funcDeclEvents unicodeIsUpper unicodeToLower _ d f k ps).1 hx
    subst hfn
    exact ⟨fn, ⟨file, hf, hd⟩, hprops⟩
  · rintro ⟨fn, ⟨file, hf, hd⟩, hx⟩
    exact ⟨file, hf, _, hd,
      (function_mem_funcDeclEvents unicodeIsUpper unicodeToLower _ _ f k ps).2 ⟨fn, rfl, hx⟩⟩

end EventSources

section RunClaims

variable (unicodeIsUpper : Char → Bool) (unicodeToLower : Char → Char)

/-- An entry of the function registry that `run` builds is the fresh entry of one of the
calls of `registerFunction`. -/
theorem registered_is_fresh (files : List File) (name : String) (fe0 : FunctionEntry)
    (hreg : (registerPackageUnexportedDefinitions unicodeIsUpper unicodeToLower files
      newExecutionMetadata).functionRegistry.lookup name = some fe0) :
    ∃ funcObj numResults params,
      RegEvent.function funcObj numResults params ∈
        registrationEvents unicodeIsUpper unicodeToLower files ∧
      funcObj.fullName = name ∧ fe0 = freshEntry funcObj numResults := by
  rw [register_eq_foldl] at hreg
  rcases lookup_foldl_applyRegEvent unicodeIsUpper _ _ name fe0 hreg with h | h
  · simp [newExecutionMetadata, GoMap.lookup] at h
  · exact h

/-- The final metadata of `run` is well formed. -/
theorem wf_finalMetadata (pass : Pass) :
    FunctionRegistryWF (finalMetadata unicodeIsUpper unicodeToLower pass).functionRegistry := by
  rw [finalMetadata_eq_foldl]
  exact wf_foldl_applyStep _ _ (wf_register unicodeIsUpper unicodeToLower pass.files)

/-- C2. Result consumption is a package-wide union: for a registered function that no
scanned instruction escalates, the final `unusedResults` is the seeded set minus the indexes
that `findUsedResults` returns at some scanned `ssa.Call` whose callee resolves to the
function; when every seeded index is consumed by some call, no unused-returns diagnostic is
reported for the function. -/
theorem C2_result_consumption_is_union (pass : Pass) (name : String) (fe0 : FunctionEntry)
    (hreg : (registerPackageUnexportedDefinitions unicodeIsUpper unicodeToLower pass.files
      newExecutionMetadata).functionRegistry.lookup name = some fe0)
    (hnoesc : ∀ i ∈ scannedInstrs pass, instrEscalates name i = false) :
    ∃ fe, (finalMetadata unicodeIsUpper unicodeToLower pass).functionRegistry.lookup name
        = some fe ∧
      (∀ x, x ∈ fe.unusedResults ↔
        x ∈ fe0.unusedResults ∧
          ¬ ∃ cc refs, Instr.call cc refs ∈ scannedInstrs pass ∧ calleeName cc = some name ∧
              x ∈ findUsedResults cc.numResults refs) ∧
      ((∀ x ∈ fe0.unusedResults,
          ∃ cc refs, Instr.call cc refs ∈ scannedInstrs pass ∧ calleeName cc = some name ∧
              x ∈ findUsedResults cc.numResults refs) →
        ∀ d ∈ run unicodeIsUpper unicodeToLower pass, ∀ s,
          d.message ≠ Message.unusedReturns name s) := by
  obtain ⟨f, n, ps, _, _, hfresh⟩ :=
    registered_is_fresh unicodeIsUpper unicodeToLower pass.files name fe0 hreg
  have hp : fe0.passedAsArgument = false := by rw [hfresh]; rfl
  have hsteps : ∀ i, Step.instr i ∈ flowSteps pass ++ syntaxSteps pass →
      instrEscalates name i = false :=
    fun i hi => hnoesc i ((instr_mem_allSteps pass i).1 hi)
  obtain ⟨_, _, h3⟩ := foldl_stepEntry_of_not_escalates name _ fe0 hsteps hp
  have hl : (finalMetadata unicodeIsUpper unicodeToLower pass).functionRegistry.lookup name =
      some ((flowSteps pass ++ syntaxSteps pass).foldl (stepEntry name) fe0) := by
    rw [finalMetadata_eq_foldl, lookup_foldl_applyStep, hreg]; rfl
  have hiff : ∀ x, x ∈ ((flowSteps pass ++ syntaxSteps pass).foldl (stepEntry name)
      fe0).unusedResults ↔
      x ∈ fe0.unusedResults ∧
        ¬ ∃ cc refs, Instr.call cc refs ∈ scannedInstrs pass ∧ calleeName cc = some name ∧
            x ∈ findUsedResults cc.numResults refs := by
    intro x
    rw [h3 x]
    constructor
    · rintro ⟨a, b⟩
      exact ⟨a, fun ⟨cc, refs, hm, hc, hx⟩ =>
        b ⟨cc, refs, (instr_mem_allSteps pass _).2 hm, hc, hx⟩⟩
    · rintro ⟨a, b⟩
      exact ⟨a, fun ⟨cc, refs, hm, hc, hx⟩ =>
        b ⟨cc, refs, (instr_mem_allSteps pass _).1 hm, hc, hx⟩⟩
  refine ⟨_, hl, hiff, ?_⟩
  intro hall d hd s hmsg
  have hempty : ((flowSteps pass ++ syntaxSteps pass).foldl (stepEntry name)
      fe0).unusedResults = ∅ := by
    ext x
    simp only [hiff x, Finset.not_mem_empty, iff_false, not_and, not_not]
    exact fun hx => hall x hx
  obtain ⟨fe, hfe, hdfe⟩ := mem_reportErrors_function _ d name
    (wf_finalMetadata unicodeIsUpper unicodeToLower pass) hd (by rw [hmsg]; rfl)
  rw [hl] at hfe
  injection hfe with hfe
  rw [← hfe] at hdfe
  unfold reportFunction at hdfe
  rw [hempty] at hdfe
  split at hdfe
  · simp only [List.mem_singleton] at hdfe; rw [hdfe] at hmsg; simp at hmsg
  · simp only [decide_True, Bool.not_true, Bool.false_eq_true, if_false] at hdfe
    split at hdfe
    · simp only [List.mem_singleton] at hdfe; rw [hdfe] at hmsg; simp at hmsg
    · simp at hdfe

/-- C5. A registered function that no scanned call, defer or go instruction resolves to and
that no scanned instruction escalates is reported exactly once: the diagnostics of `run`
about the function are the single not-used message at the position stored at
registration. -/
theorem C5_uncalled_function_reported_once (pass : Pass) (name : String) (fe0 : FunctionEntry)
    (hreg : (registerPackageUnexportedDefinitions unicodeIsUpper unicodeToLower pass.files
      newExecutionMetadata).functionRegistry.lookup name = some fe0)
    (hnoref : ∀ i ∈ scannedInstrs pass, instrReferences name i = false)
    (hnoesc : ∀ i ∈ scannedInstrs pass, instrEscalates name i = false) :
    (run unicodeIsUpper unicodeToLower pass).filter
        (fun d => decide (d.message.functionName = some name)) =
      [⟨fe0.pos, Message.functionNotUsed name⟩] := by
  obtain ⟨f, n, ps, _, hname, hfresh⟩ :=
    registered_is_fresh unicodeIsUpper unicodeToLower pass.files name fe0 hreg
  have hp : fe0.passedAsArgument = false := by rw [hfresh]; rfl
  have hr0 : fe0.referenced = false := by rw [hfresh]; rfl
  have hn0 : fe0.fullName = name := by rw [hfresh]; exact hname
  have hsteps : ∀ i, Step.instr i ∈ flowSteps pass ++ syntaxSteps pass →
      instrEscalates name i = false :=
    fun i hi => hnoesc i ((instr_mem_allSteps pass i).1 hi)
  obtain ⟨_, h2, _⟩ := foldl_stepEntry_of_not_escalates name _ fe0 hsteps hp
  have hfp := foldl_stepEntry_fullName_pos name (flowSteps pass ++ syntaxSteps pass) fe0
  have hl : (finalMetadata unicodeIsUpper unicodeToLower pass).functionRegistry.lookup name =
      some ((flowSteps pass ++ syntaxSteps pass).foldl (stepEntry name) fe0) := by
    rw [finalMetadata_eq_foldl, lookup_foldl_applyStep, hreg]; rfl
  have href : ((flowSteps pass ++ syntaxSteps pass).foldl (stepEntry name) fe0).referenced
      = false := by
    rw [← Bool.not_eq_true, h2]
    rintro (h | ⟨i, hi, hri⟩)
    · rw [hr0] at h; exact absurd h (by simp)
    · rw [hnoref i ((instr_mem_allSteps pass i).1 hi)] at hri
      exact absurd hri (by simp)
  unfold run
  rw [filter_reportErrors_function _ name (wf_finalMetadata unicodeIsUpper unicodeToLower pass),
    hl]
  simp only [reportFunction, href, Bool.not_false, if_true, hfp.1, hfp.2, hn0]

end RunClaims

section RegistrationClaims

variable (unicodeIsUpper : Char → Bool) (unicodeToLower : Char → Char)

theorem ignoredFunctions_lookup (s : String) :
    (ignoredFunctions.lookup s).getD false = true ↔ s = "main" ∨ s = "init" := by
  unfold ignoredFunctions
  by_cases h1 : "main" = s
  · subst h1; simp [GoMap.lookup]
  · by_cases h2 : "init" = s
    · subst h2; simp [GoMap.lookup]
    · simp only [GoMap.lookup, h1, h2, if_false, Option.getD_none, Bool.false_eq_true,
        false_iff, not_or]
      exact ⟨fun hc => h1 hc.symm, fun hc => h2 hc.symm⟩

theorem shouldSkipFunction_eq_false (fn : FuncDecl) :
    shouldSkipFunction unicodeToLower fn = false ↔
      fn.name.name ≠ "main" ∧ fn.name.name ≠ "init" ∧
      HasPrefix (ToLower unicodeToLower fn.name.name) "_cgo" = false ∧
      HasPrefix (ToLower unicodeToLower fn.name.name) "_cfunc_" = false := by
  unfold shouldSkipFunction
  simp only []
  by_cases h : (ignoredFunctions.lookup fn.name.name).getD false = true
  · have h2 := (ignoredFunctions_lookup fn.name.name).1 h
    rw [if_pos h]
    simp only [Bool.true_eq_false, false_iff, not_and, ne_eq]
    intro a b
    rcases h2 with h2 | h2
    · exact absurd h2 a
    · exact absurd h2 b
  · have h2 : ¬ (fn.name.name = "main" ∨ fn.name.name = "init") :=
      fun hc => h ((ignoredFunctions_lookup fn.name.name).2 hc)
    rw [if_neg h]
    have h3 : fn.name.name ≠ "main" ∧ fn.name.name ≠ "init" :=
      ⟨fun hc => h2 (Or.inl hc), fun hc => h2 (Or.inr hc)⟩
    cases hp1 : HasPrefix (ToLower unicodeToLower fn.name.name) "_cgo" <;>
      cases hp2 : HasPrefix (ToLower unicodeToLower fn.name.name) "_cfunc_" <;>
      simp [h3]

/-- The condition of the second loop, spelled out. -/
theorem isRegistered_iff (names : List String) (fn : FuncDecl) (funcObj : TypesFunc) :
    isRegistered unicodeIsUpper unicodeToLower names fn funcObj = true ↔
      IsExported unicodeIsUpper fn.name.name = false ∧
      fn.name.name ≠ "main" ∧ fn.name.name ≠ "init" ∧
      HasPrefix (ToLower unicodeToLower fn.name.name) "_cgo" = false ∧
      HasPrefix (ToLower unicodeToLower fn.name.name) "_cfunc_" = false ∧
      ¬ (fn.recv.isSome = true ∧ funcObj.name ∈ names) := by
  unfold isRegistered
  simp only [Bool.and_eq_true, Bool.not_eq_true', Bool.and_eq_false_iff,
    decide_eq_false_iff_not, decide_eq_true_eq, shouldSkipFunction_eq_false]
  constructor
  · rintro ⟨⟨h1, h2, h3, h4, h5⟩, h6⟩
    refine ⟨h1, h2, h3, h4, h5, ?_⟩
    rintro ⟨a, b⟩
    rcases h6 with h6 | h6
    · rw [a] at h6; exact absurd h6 (by simp)
    · exact h6 b
  · rintro ⟨h1, h2, h3, h4, h5, h6⟩
    refine ⟨⟨h1, h2, h3, h4, h5⟩, ?_⟩
    by_cases a : fn.recv.isSome = true
    · exact Or.inr (fun b => h6 ⟨a, b⟩)
    · exact Or.inl (by simpa using a)

/-- C8. A top-level function declaration is in the function registry after registration if
and only if its name is unexported, is not `main` or `init`, its lower-cased name does not
start with `_cgo` or `_cfunc_`, and it is not a method whose name is the name of an
unexported method of an interface type of the package; in particular a function without
receiver that satisfies the first conditions is registered whatever the interface methods
are.  The declarations that share a full name are assumed to share their name and to be
all methods or all functions, and no interface method to have that full name. -/
theorem C8_registration_condition (files : List File) (fn : FuncDecl) (funcObj : TypesFunc)
    (hfn : fn ∈ funcDecls files) (hobj : fn.name.typesObj = some (.func funcObj))
    (hsame : ∀ fn2 ∈ funcDecls files, ∀ f2, fn2.name.typesObj = some (.func f2) →
      f2.fullName = funcObj.fullName →
        fn2.name.name = fn.name.name ∧ f2.name = funcObj.name ∧
          fn2.recv.isSome = fn.recv.isSome)
    (hifc : ∀ p ∈ interfaceMethodIdents files, ∀ f2, p.2.typesObj = some (.func f2) →
      IsExported unicodeIsUpper p.2.name = false → f2.fullName ≠ funcObj.fullName) :
    (((registerPackageUnexportedDefinitions unicodeIsUpper unicodeToLower files
        newExecutionMetadata).functionRegistry.lookup funcObj.fullName).isSome = true ↔
      (IsExported unicodeIsUpper fn.name.name = false ∧
        fn.name.name ≠ "main" ∧ fn.name.name ≠ "init" ∧
        HasPrefix (ToLower unicodeToLower fn.name.name) "_cgo" = false ∧
        HasPrefix (ToLower unicodeToLower fn.name.name) "_cfunc_" = false ∧
        ¬ (fn.recv.isSome = true ∧
            ∃ p ∈ interfaceMethodIdents files,
              IsExported unicodeIsUpper p.2.name = false ∧ p.2.name = funcObj.name))) ∧
    (fn.recv = none → IsExported unicodeIsUpper fn.name.name = false →
      shouldSkipFunction unicodeToLower fn = false →
      ((registerPackageUnexportedDefinitions unicodeIsUpper unicodeToLower files
        newExecutionMetadata).functionRegistry.lookup funcObj.fullName).isSome = true) := by
  have hreg_of : isRegistered unicodeIsUpper unicodeToLower
      (interfaceMethodNames unicodeIsUpper files) fn funcObj = true →
      ((registerPackageUnexportedDefinitions unicodeIsUpper unicodeToLower files
        newExecutionMetadata).functionRegistry.lookup funcObj.fullName).isSome = true := by
    intro hr
    rw [register_eq_foldl]
    apply isSome_lookup_foldl_applyRegEvent
    right
    refine ⟨funcObj, NumFields fn.typ.results, fn.typ.params, ?_, rfl⟩
    unfold registrationEvents
    exact List.mem_append.2 (Or.inr
      ((function_mem_funcEvents unicodeIsUpper unicodeToLower files _ _ _).2
        ⟨fn, hfn, hobj, hr, rfl, rfl⟩))
  have hcond : isRegistered unicodeIsUpper unicodeToLower
      (interfaceMethodNames unicodeIsUpper files) fn funcObj = true ↔
      (IsExported unicodeIsUpper fn.name.name = false ∧
        fn.name.name ≠ "main" ∧ fn.name.name ≠ "init" ∧
        HasPrefix (ToLower unicodeToLower fn.name.name) "_cgo" = false ∧
        HasPrefix (ToLower unicodeToLower fn.name.name) "_cfunc_" = false ∧
        ¬ (fn.recv.isSome = true ∧
            ∃ p ∈ interfaceMethodIdents files,
              IsExported unicodeIsUpper p.2.name = false ∧ p.2.name = funcObj.name)) := by
    rw [isRegistered_iff, mem_interfaceMethodNames]
  refine ⟨⟨?_, fun h => hreg_of (hcond.2 h)⟩, ?_⟩
  · intro hsome
    obtain ⟨fe0, h0⟩ := Option.isSome_iff_exists.1 hsome
    obtain ⟨f, n, ps, hev, hname, _⟩ :=
      registered_is_fresh unicodeIsUpper unicodeToLower files _ fe0 h0
    unfold registrationEvents at hev
    rcases List.mem_append.1 hev with hev | hev
    · obtain ⟨p, hp, hexp, hpobj, _, _⟩ :=
        (function_mem_genEvents unicodeIsUpper files f n ps).1 hev
      exact absurd hname (hifc p hp f hpobj hexp)
    · obtain ⟨fn2, hfn2, hobj2, hr2, _, _⟩ :=
        (function_mem_funcEvents unicodeIsUpper unicodeToLower files f n ps).1 hev
      obtain ⟨e1, e2, e3⟩ := hsame fn2 hfn2 f hobj2 hname
      rw [hcond.symm, isRegistered_iff]
      rw [isRegistered_iff, e1, e2, e3] at hr2
      exact hr2
  · intro hrecv hexp hskip
    apply hreg_of
    rw [isRegistered_iff]
    obtain ⟨a, b, c, d⟩ := (shouldSkipFunction_eq_false unicodeToLower fn).1 hskip
    refine ⟨hexp, a, b, c, d, ?_⟩
    rintro ⟨h, _⟩
    rw [hrecv] at h
    simp at h

/-- C9. A method with a receiver whose name is the name of an unexported method of an
interface type declared anywhere in the package is never registered and never receives a
diagnostic: no diagnostic of `run` is about its full name, whatever calls, results and
parameters it has.  The other declarations that share its full name are assumed to share its
name and to be methods as well, and no interface method to have that full name. -/
theorem C9_interface_named_method_not_reported (pass : Pass) (fn : FuncDecl)
    (funcObj : TypesFunc)
    (hobj : fn.name.typesObj = some (.func funcObj))
    (hrecv : fn.recv.isSome = true)
    (hname : ∃ p ∈ interfaceMethodIdents pass.files,
      IsExported unicodeIsUpper p.2.name = false ∧ p.2.name = funcObj.name)
    (hsame : ∀ fn2 ∈ funcDecls pass.files, fn2 ≠ fn → ∀ f2,
      fn2.name.typesObj = some (.func f2) → f2.fullName = funcObj.fullName →
        f2.name = funcObj.name ∧ fn2.recv.isSome = true)
    (hifc : ∀ p ∈ interfaceMethodIdents pass.files, ∀ f2, p.2.typesObj = some (.func f2) →
      IsExported unicodeIsUpper p.2.name = false → f2.fullName ≠ funcObj.fullName) :
    (registerPackageUnexportedDefinitions unicodeIsUpper unicodeToLower pass.files
        newExecutionMetadata).functionRegistry.lookup funcObj.fullName = none ∧
    ∀ d ∈ run unicodeIsUpper unicodeToLower pass,
      d.message.functionName ≠ some funcObj.fullName := by
  have hnone : (registerPackageUnexportedDefinitions unicodeIsUpper unicodeToLower pass.files
      newExecutionMetadata).functionRegistry.lookup funcObj.fullName = none := by
    cases h0 : (registerPackageUnexportedDefinitions unicodeIsUpper unicodeToLower pass.files
      newExecutionMetadata).functionRegistry.lookup funcObj.fullName with
    | none => rfl
    | some fe0 =>
      exfalso
      obtain ⟨f, n, ps, hev, hfull, _⟩ :=
        registered_is_fresh unicodeIsUpper unicodeToLower pass.files _ fe0 h0
      unfold registrationEvents at hev
      rcases List.mem_append.1 hev with hev | hev
      · obtain ⟨p, hp, hexp, hpobj, _, _⟩ :=
          (function_mem_genEvents unicodeIsUpper pass.files f n ps).1 hev
        exact hifc p hp f hpobj hexp hfull
      · obtain ⟨fn2, hfn2, hobj2, hr2, _, _⟩ :=
          (function_mem_funcEvents unicodeIsUpper unicodeToLower pass.files f n ps).1 hev
        have hboth : f.name = funcObj.name ∧ fn2.recv.isSome = true := by
          by_cases hsame2 : fn2 = fn
          · subst hsame2
            rw [hobj] at hobj2
            injection hobj2 with hobj2
            injection hobj2 with hobj2
            subst hobj2
            exact ⟨rfl, hrecv⟩
          · exact hsame fn2 hfn2 hsame2 f hobj2 hfull
        rw [isRegistered_iff] at hr2
        apply hr2.2.2.2.2.2
        refine ⟨hboth.2, ?_⟩
        rw [hboth.1]
        exact (mem_interfaceMethodNames unicodeIsUpper pass.files funcObj.name).2 hname
  refine ⟨hnone, ?_⟩
  intro d hd hmsg
  obtain ⟨fe, hfe, _⟩ := mem_reportErrors_function _ d funcObj.fullName
    (wf_finalMetadata unicodeIsUpper unicodeToLower pass) hd hmsg
  rw [finalMetadata_eq_foldl, lookup_foldl_applyStep, hnone] at hfe
  simp at hfe

end RegistrationClaims

/-! ## The claims on the example packages -/

/-- C10. The seeding of `unusedResults` at a grouped result list: for the interface method
`m() (a, b int)` the registry entry is seeded with `{0}` although the method declares two
results, while the function `f() (a, b int)` of the same package is seeded with `{0, 1}`. -/
theorem C10_interface_method_grouped_results :
    NumFields (some [⟨[identVar "a" 41, identVar "b" 44]⟩]) = 2 ∧
    (∃ fe, (registerPackageUnexportedDefinitions Char.isUpper Char.toLower groupedResultsFiles
        newExecutionMetadata).functionRegistry.lookup "(p.iface).m" = some fe ∧
      fe.unusedResults = {0} ∧ fe.unusedResults ≠ Finset.range 2) ∧
    (∃ fe, (registerPackageUnexportedDefinitions Char.isUpper Char.toLower groupedResultsFiles
        newExecutionMetadata).functionRegistry.lookup "p.f" = some fe ∧
      fe.unusedResults = Finset.range 2) := by
  refine ⟨rfl, ⟨_, rfl, by decide, by decide⟩, ⟨_, rfl, by decide⟩⟩

theorem example_funcDecls :
    funcDecls examplePass.files = [exTmDecl, exFDecl, exGDecl, exExportedDecl] := rfl

theorem example_interfaceMethodIdents :
    interfaceMethodIdents examplePass.files =
      [(⟨[], some [⟨[]⟩]⟩, ⟨"m", 36, some 36, some (.func exIm)⟩)] := rfl

/-- Witness of C1 on the example package: `g` is escalated after registration and the whole
scan of `run` follows. -/
theorem C1_escape_is_permanent_witness :
    FunctionRegistryWF exampleRegistered.functionRegistry ∧
    (exampleRegistered.functionRegistry.lookup exG.fullName).isSome = true ∧
    ((∃ fe,
      ((flowSteps examplePass ++ syntaxSteps examplePass).foldl applyStep
          (markFunctionPassedAsArgument exampleRegistered exG)).functionRegistry.lookup
          exG.fullName = some fe ∧
        fe.referenced = true ∧ fe.unusedResults = ∅ ∧ fe.unusedArguments = ∅ ∧
        fe.passedAsArgument = true ∧ reportFunction fe = []) ∧
    ∀ d ∈ reportErrors ((flowSteps examplePass ++ syntaxSteps examplePass).foldl applyStep
        (markFunctionPassedAsArgument exampleRegistered exG)),
      d.message.functionName ≠ some exG.fullName) :=
  ⟨wf_register Char.isUpper Char.toLower examplePass.files, rfl,
    C1_escape_is_permanent exampleRegistered exG
      (wf_register Char.isUpper Char.toLower examplePass.files) rfl
      (flowSteps examplePass ++ syntaxSteps examplePass)⟩

/-- Witness of C2 on the example package: `f` has two results, one call consumes only
result 0 and the other only result 1. -/
theorem C2_result_consumption_is_union_witness :
    (registerPackageUnexportedDefinitions Char.isUpper Char.toLower examplePass.files
      newExecutionMetadata).functionRegistry.lookup "p.f" = some exFEntry ∧
    (∀ i ∈ scannedInstrs examplePass, instrEscalates "p.f" i = false) ∧
    ∃ fe, (finalMetadata Char.isUpper Char.toLower examplePass).functionRegistry.lookup "p.f"
        = some fe ∧
      (∀ x, x ∈ fe.unusedResults ↔
        x ∈ exFEntry.unusedResults ∧
          ¬ ∃ cc refs, Instr.call cc refs ∈ scannedInstrs examplePass ∧
              calleeName cc = some "p.f" ∧ x ∈ findUsedResults cc.numResults refs) ∧
      ((∀ x ∈ exFEntry.unusedResults,
          ∃ cc refs, Instr.call cc refs ∈ scannedInstrs examplePass ∧
              calleeName cc = some "p.f" ∧ x ∈ findUsedResults cc.numResults refs) →
        ∀ d ∈ run Char.isUpper Char.toLower examplePass, ∀ s,
          d.message ≠ Message.unusedReturns "p.f" s) :=
  ⟨rfl, by decide,
    C2_result_consumption_is_union Char.isUpper Char.toLower examplePass "p.f" exFEntry rfl
      (by decide)⟩

/-- Witness of C5 on the example package: nothing calls `g`. -/
theorem C5_uncalled_function_reported_once_witness :
    (registerPackageUnexportedDefinitions Char.isUpper Char.toLower examplePass.files
      newExecutionMetadata).functionRegistry.lookup "p.g" = some exGEntry ∧
    (∀ i ∈ scannedInstrs examplePass, instrReferences "p.g" i = false) ∧
    (∀ i ∈ scannedInstrs examplePass, instrEscalates "p.g" i = false) ∧
    (run Char.isUpper Char.toLower examplePass).filter
        (fun d => decide (d.message.functionName = some "p.g")) =
      [⟨exGEntry.pos, Message.functionNotUsed "p.g"⟩] :=
  ⟨rfl, by decide, by decide,
    C5_uncalled_function_reported_once Char.isUpper Char.toLower examplePass "p.g" exGEntry rfl
      (by decide) (by decide)⟩

/-- On the example package the two calls of `f` together consume both results, and the final
entry of `f` has no unused result. -/
theorem example_f_final :
    ∃ fe, (finalMetadata Char.isUpper Char.toLower examplePass).functionRegistry.lookup "p.f"
        = some fe ∧ fe.referenced = true ∧ fe.unusedResults = ∅ :=
  ⟨_, rfl, rfl, by decide⟩

theorem example_hsame_f : ∀ fn2 ∈ funcDecls examplePass.files, ∀ f2,
    fn2.name.typesObj = some (.func f2) → f2.fullName = exF.fullName →
      fn2.name.name = exFDecl.name.name ∧ f2.name = exF.name ∧
        fn2.recv.isSome = exFDecl.recv.isSome := by
  intro fn2 hfn2 f2 hobj hfull
  rw [example_funcDecls] at hfn2
  simp only [List.mem_cons, List.mem_singleton, List.not_mem_nil, or_false] at hfn2
  rcases hfn2 with rfl | rfl | rfl | rfl
  · injection hobj with hobj; injection hobj with hobj; subst hobj
    exact absurd hfull (by decide)
  · injection hobj with hobj; injection hobj with hobj; subst hobj
    exact ⟨rfl, rfl, rfl⟩
  · injection hobj with hobj; injection hobj with hobj; subst hobj
    exact absurd hfull (by decide)
  · injection hobj with hobj; injection hobj with hobj; subst hobj
    exact absurd hfull (by decide)

theorem example_hifc (full : String) (h : full ≠ "(p.iface).m") :
    ∀ p ∈ interfaceMethodIdents examplePass.files, ∀ f2,
      p.2.typesObj = some (.func f2) → IsExported Char.isUpper p.2.name = false →
        f2.fullName ≠ full := by
  intro p hp f2 hobj _ hfull
  rw [example_interfaceMethodIdents] at hp
  simp only [List.mem_singleton] at hp
  subst hp
  injection hobj with hobj; injection hobj with hobj; subst hobj
  exact h hfull.symm

/-- Witness of C8 on the example package, at the declaration of `f`. -/
theorem C8_registration_condition_witness :
    exFDecl ∈ funcDecls examplePass.files ∧
    exFDecl.name.typesObj = some (.func exF) ∧
    (((registerPackageUnexportedDefinitions Char.isUpper Char.toLower examplePass.files
        newExecutionMetadata).functionRegistry.lookup exF.fullName).isSome = true ↔
      (IsExported Char.isUpper exFDecl.name.name = false ∧
        exFDecl.name.name ≠ "main" ∧ exFDecl.name.name ≠ "init" ∧
        HasPrefix (ToLower Char.toLower exFDecl.name.name) "_cgo" = false ∧
        HasPrefix (ToLower Char.toLower exFDecl.name.name) "_cfunc_" = false ∧
        ¬ (exFDecl.recv.isSome = true ∧
            ∃ p ∈ interfaceMethodIdents examplePass.files,
              IsExported Char.isUpper p.2.name = false ∧ p.2.name = exF.name))) ∧
    (exFDecl.recv = none → IsExported Char.isUpper exFDecl.name.name = false →
      shouldSkipFunction Char.toLower exFDecl = false →
      ((registerPackageUnexportedDefinitions Char.isUpper Char.toLower examplePass.files
        newExecutionMetadata).functionRegistry.lookup exF.fullName).isSome = true) :=
  ⟨by rw [example_funcDecls]; simp, rfl,
    C8_registration_condition Char.isUpper Char.toLower examplePass.files exFDecl exF
      (by rw [example_funcDecls]; simp) rfl example_hsame_f
      (example_hifc exF.fullName (by decide))⟩

theorem example_hsame_Tm : ∀ fn2 ∈ funcDecls examplePass.files, fn2 ≠ exTmDecl → ∀ f2,
    fn2.name.typesObj = some (.func f2) → f2.fullName = exTm.fullName →
      f2.name = exTm.name ∧ fn2.recv.isSome = true := by
  intro fn2 hfn2 hne f2 hobj hfull
  rw [example_funcDecls] at hfn2
  simp only [List.mem_cons, List.mem_singleton, List.not_mem_nil, or_false] at hfn2
  rcases hfn2 with rfl | rfl | rfl | rfl
  · exact absurd rfl hne
  · injection hobj with hobj; injection hobj with hobj; subst hobj
    exact absurd hfull (by decide)
  · injection hobj with hobj; injection hobj with hobj; subst hobj
    exact absurd hfull (by decide)
  · injection hobj with hobj; injection hobj with hobj; subst hobj
    exact absurd hfull (by decide)

theorem example_hname : ∃ p ∈ interfaceMethodIdents examplePass.files,
    IsExported Char.isUpper p.2.name = false ∧ p.2.name = exTm.name :=
  ⟨(⟨[], some [⟨[]⟩]⟩, ⟨"m", 36, some 36, some (.func exIm)⟩),
    by rw [example_interfaceMethodIdents]; exact List.mem_singleton.2 rfl, rfl, rfl⟩

/-- Witness of C9 on the example package: the method `T.m` has the name of the method of
`iface`. -/
theorem C9_interface_named_method_not_reported_witness :
    exTmDecl.name.typesObj = some (.func exTm) ∧
    exTmDecl.recv.isSome = true ∧
    (∃ p ∈ interfaceMethodIdents examplePass.files,
      IsExported Char.isUpper p.2.name = false ∧ p.2.name = exTm.name) ∧
    (registerPackageUnexportedDefinitions Char.isUpper Char.toLower examplePass.files
        newExecutionMetadata).functionRegistry.lookup exTm.fullName = none ∧
    ∀ d ∈ run Char.isUpper Char.toLower examplePass,
      d.message.functionName ≠ some exTm.fullName :=
  ⟨rfl, rfl, example_hname,
    C9_interface_named_method_not_reported Char.isUpper Char.toLower examplePass exTmDecl exTm
      rfl rfl example_hname example_hsame_Tm (example_hifc exTm.fullName (by decide))⟩

/-! ## What one step does outside the function registry -/

theorem sameOutside_refl (em : ExecutionMetadata) : SameOutsideFunctions em em :=
  ⟨rfl, rfl, rfl⟩

theorem sameOutside_trans {a b c : ExecutionMetadata} (h1 : SameOutsideFunctions a b)
    (h2 : SameOutsideFunctions b c) : SameOutsideFunctions a c :=
  ⟨h1.1.trans h2.1, h1.2.1.trans h2.2.1, h1.2.2.trans h2.2.2⟩

theorem sameOutside_checkFunctionParameter (em : ExecutionMetadata) (cc : CallCommon) :
    SameOutsideFunctions (checkFunctionParameter em cc) em := by
  unfold checkFunctionParameter
  induction cc.args generalizing em with
  | nil => exact sameOutside_refl em
  | cons arg rest ih =>
    simp only [List.foldl_cons]
    refine sameOutside_trans (ih _) ?_
    cases argumentFunction arg with
    | none => exact sameOutside_refl em
    | some funcObj => exact ⟨rfl, rfl, rfl⟩

theorem sameOutside_retrieve (em : ExecutionMetadata) (cc : CallCommon) :
    SameOutsideFunctions (retrieveRegisteredFunctionEntry em cc).1 em := by
  unfold retrieveRegisteredFunctionEntry
  cases calleeName cc with
  | none => exact sameOutside_refl em
  | some funName =>
    cases hl : em.functionRegistry.lookup funName with
    | none => simp only [hl]; exact sameOutside_refl em
    | some fe0 => simp only [hl]; exact ⟨rfl, rfl, rfl⟩

theorem sameOutside_removeResults (used : List Nat) (em : ExecutionMetadata) (key : String) :
    SameOutsideFunctions (used.foldl (fun em resIndex =>
        { em with functionRegistry := em.functionRegistry.modify key (fun fe =>
            { fe with unusedResults := fe.unusedResults.erase resIndex }) }) em) em := by
  induction used generalizing em with
  | nil => exact sameOutside_refl em
  | cons i rest ih =>
    simp only [List.foldl_cons]
    exact sameOutside_trans (ih _) ⟨rfl, rfl, rfl⟩

theorem sameOutside_checkParams (params : List Parameter) (em : ExecutionMetadata)
    (key : String) : SameOutsideFunctions (checkParams em key params) em := by
  unfold checkParams
  induction params generalizing em with
  | nil => exact sameOutside_refl em
  | cons p rest ih =>
    simp only [List.foldl_cons]
    refine sameOutside_trans (ih _) ?_
    by_cases hp : paramUnreferenced p = true
    · rw [if_pos hp]; exact ⟨rfl, rfl, rfl⟩
    · rw [if_neg hp]; exact sameOutside_refl em

theorem sameOutside_checkUnusedParams (em : ExecutionMetadata) (fnObj : TypesFunc)
    (params : List Parameter) : SameOutsideFunctions (checkUnusedParams em fnObj params) em := by
  unfold checkUnusedParams
  cases em.functionRegistry.lookup fnObj.fullName with
  | none => exact sameOutside_refl em
  | some fe =>
    by_cases hp : fe.passedAsArgument = true
    · simp only [hp, if_true]; exact sameOutside_refl em
    · simp only [hp, if_false]; exact sameOutside_checkParams params em _

theorem sameOutside_call (em : ExecutionMetadata) (cc : CallCommon)
    (refs : Option (List Referrer)) : SameOutsideFunctions (checkInstr em (.call cc refs)) em := by
  simp only [checkInstr]
  have h1 := sameOutside_trans (sameOutside_retrieve (checkFunctionParameter em cc) cc)
    (sameOutside_checkFunctionParameter em cc)
  cases hr : retrieveRegisteredFunctionEntry (checkFunctionParameter em cc) cc with
  | mk em1 okey =>
    rw [hr] at h1
    cases okey with
    | none => exact h1
    | some key => exact sameOutside_trans (sameOutside_removeResults _ em1 key) h1

theorem applyStep_receiverPositions (em : ExecutionMetadata) (s : Step) :
    (applyStep em s).receiverPositions = em.receiverPositions := by
  cases s with
  | instr i =>
    cases i with
    | call cc refs => exact (sameOutside_call em cc refs).2.1
    | defer cc =>
      exact (sameOutside_trans (sameOutside_retrieve (checkFunctionParameter em cc) cc)
        (sameOutside_checkFunctionParameter em cc)).2.1
    | go cc =>
      exact (sameOutside_trans (sameOutside_retrieve (checkFunctionParameter em cc) cc)
        (sameOutside_checkFunctionParameter em cc)).2.1
    | changeType x =>
      cases x with
      | function object =>
        cases object with
        | none => rfl
        | some funcObj => rfl
      | makeClosure fn => rfl
      | other => rfl
    | fieldAddr id xType field refs =>
      simp only [applyStep, checkInstr]
      cases em.structRegistry.lookup (fieldAddrTypeName xType) with
      | none => rfl
      | some se =>
        cases refs with
        | none => rfl
        | some l => by_cases hu : fieldIsUsed id l = true <;> simp [hu]
    | other => rfl
  | params fnObj ps => exact (sameOutside_checkUnusedParams em fnObj ps).2.1
  | ident n =>
    simp only [applyStep, visit]
    split
    · rfl
    · split
      · rfl
      · split
        · split
          · split <;> rfl
          · rfl
        · rfl

theorem foldl_applyStep_receiverPositions (steps : List Step) (em : ExecutionMetadata) :
    (steps.foldl applyStep em).receiverPositions = em.receiverPositions := by
  induction steps generalizing em with
  | nil => rfl
  | cons s rest ih => simp only [List.foldl_cons]; rw [ih, applyStep_receiverPositions]

/-- The struct entry named `name` after one step. -/
theorem lookup_applyStep_struct (em : ExecutionMetadata) (s : Step) (name : String) :
    (applyStep em s).structRegistry.lookup name =
      (em.structRegistry.lookup name).map
        (fun se => stepStruct em.receiverPositions name se s) := by
  cases s with
  | instr i =>
    cases i with
    | call cc refs =>
      simp only [applyStep, (sameOutside_call em cc refs).1, stepStruct]
      cases em.structRegistry.lookup name <;> rfl
    | defer cc =>
      simp only [applyStep, checkInstr,
        (sameOutside_trans (sameOutside_retrieve (checkFunctionParameter em cc) cc)
          (sameOutside_checkFunctionParameter em cc)).1, stepStruct]
      cases em.structRegistry.lookup name <;> rfl
    | go cc =>
      simp only [applyStep, checkInstr,
        (sameOutside_trans (sameOutside_retrieve (checkFunctionParameter em cc) cc)
          (sameOutside_checkFunctionParameter em cc)).1, stepStruct]
      cases em.structRegistry.lookup name <;> rfl
    | changeType x =>
      have h : (applyStep em (.instr (.changeType x))).structRegistry = em.structRegistry := by
        cases x with
        | function object =>
          cases object with
          | none => rfl
          | some funcObj => rfl
        | makeClosure fn => rfl
        | other => rfl
      rw [h]
      simp only [stepStruct]
      cases em.structRegistry.lookup name <;> rfl
    | fieldAddr id xType field refs =>
      cases refs with
      | none =>
        cases hl : em.structRegistry.lookup (fieldAddrTypeName xType) with
        | none =>
          simp only [applyStep, checkInstr, hl, stepStruct]
          cases em.structRegistry.lookup name <;> rfl
        | some se0 =>
          simp only [applyStep, checkInstr, hl, stepStruct]
          cases em.structRegistry.lookup name <;> rfl
      | some l =>
        cases hl : em.structRegistry.lookup (fieldAddrTypeName xType) with
        | none =>
          simp only [applyStep, checkInstr, hl, stepStruct]
          by_cases hk : fieldAddrTypeName xType = name
          · subst hk; simp [hl]
          · cases em.structRegistry.lookup name <;> simp [hk]
        | some se0 =>
          by_cases hu : fieldIsUsed id l = true
          · simp only [applyStep, checkInstr, hl, stepStruct, hu, if_true, GoMap.lookup_modify,
              and_true]
            by_cases hk : fieldAddrTypeName xType = name
            · simp [hk]
            · cases em.structRegistry.lookup name <;> simp [hk]
          · have hu2 : fieldIsUsed id l = false := by simpa using hu
            simp only [applyStep, checkInstr, hl, stepStruct, hu2, Bool.false_eq_true, if_false,
              and_false]
            cases em.structRegistry.lookup name <;> rfl
    | other =>
      simp only [applyStep, checkInstr, stepStruct]
      cases em.structRegistry.lookup name <;> rfl
  | params fnObj ps =>
    simp only [applyStep, (sameOutside_checkUnusedParams em fnObj ps).1, stepStruct]
    cases em.structRegistry.lookup name <;> rfl
  | ident n =>
    simp only [applyStep, visit, stepStruct]
    by_cases h0 : n.astObj = some n.pos
    · simp only [h0, if_true]
      cases em.structRegistry.lookup name <;> rfl
    · simp only [h0, if_false]
      cases n.typesObj with
      | none => cases em.structRegistry.lookup name <;> rfl
      | some o =>
        cases o with
        | func f => cases em.structRegistry.lookup name <;> rfl
        | other p => cases em.structRegistry.lookup name <;> rfl
        | typeName typeString p =>
          simp only
          cases hl : em.structRegistry.lookup typeString with
          | none =>
            simp only
            by_cases hk : typeString = name
            · subst hk; simp [hl]
            · cases em.structRegistry.lookup name <;> simp [hk]
          | some se0 =>
            simp only
            by_cases hr : (em.receiverPositions.lookup n.pos).getD false = true
            · simp only [hr, if_true]
              cases em.structRegistry.lookup name <;> simp
            · have hr2 : (em.receiverPositions.lookup n.pos).getD false = false := by
                simpa using hr
              rw [if_neg hr]
              simp only [GoMap.lookup_modify]
              by_cases hk : typeString = name
              · have hc : typeString = name ∧
                    (em.receiverPositions.lookup n.pos).getD false = false := ⟨hk, hr2⟩
                rw [if_pos hk]
                simp only [hc, and_self, if_true]
              · have hc : ¬ (typeString = name ∧
                    (em.receiverPositions.lookup n.pos).getD false = false) := fun h => hk h.1
                rw [if_neg hk]
                simp only [hk, false_and, if_false]
                cases em.structRegistry.lookup name <;> rfl

theorem keys_applyStep_struct (em : ExecutionMetadata) (s : Step) :
    (applyStep em s).structRegistry.keys = em.structRegistry.keys := by
  cases s with
  | instr i =>
    cases i with
    | call cc refs => rw [applyStep, (sameOutside_call em cc refs).1]
    | defer cc =>
      rw [applyStep, checkInstr,
        (sameOutside_trans (sameOutside_retrieve (checkFunctionParameter em cc) cc)
          (sameOutside_checkFunctionParameter em cc)).1]
    | go cc =>
      rw [applyStep, checkInstr,
        (sameOutside_trans (sameOutside_retrieve (checkFunctionParameter em cc) cc)
          (sameOutside_checkFunctionParameter em cc)).1]
    | changeType x =>
      cases x with
      | function object =>
        cases object with
        | none => rfl
        | some funcObj => rfl
      | makeClosure fn => rfl
      | other => rfl
    | fieldAddr id xType field refs =>
      simp only [applyStep, checkInstr]
      cases em.structRegistry.lookup (fieldAddrTypeName xType) with
      | none => rfl
      | some se =>
        cases refs with
        | none => rfl
        | some l =>
          by_cases hu : fieldIsUsed id l = true
          · simp [hu, GoMap.keys_modify]
          · simp [hu]
    | other => rfl
  | params fnObj ps => rw [applyStep, (sameOutside_checkUnusedParams em fnObj ps).1]
  | ident n =>
    simp only [applyStep, visit]
    split
    · rfl
    · split
      · rfl
      · split
        · split
          · split
            · rfl
            · simp [GoMap.keys_modify]
          · rfl
        · rfl

theorem keys_foldl_applyStep_struct (steps : List Step) (em : ExecutionMetadata) :
    (steps.foldl applyStep em).structRegistry.keys = em.structRegistry.keys := by
  induction steps generalizing em with
  | nil => rfl
  | cons s rest ih => simp only [List.foldl_cons]; rw [ih, keys_applyStep_struct]

/-- The struct entry named `name` after a list of steps. -/
theorem lookup_foldl_applyStep_struct (steps : List Step) (em : ExecutionMetadata)
    (name : String) :
    (steps.foldl applyStep em).structRegistry.lookup name =
      (em.structRegistry.lookup name).map
        (fun se => steps.foldl (stepStruct em.receiverPositions name) se) := by
  induction steps generalizing em with
  | nil => simp
  | cons s rest ih =>
    simp only [List.foldl_cons]
    rw [ih, lookup_applyStep_struct, applyStep_receiverPositions]
    cases em.structRegistry.lookup name <;> simp

/-! ## Fields of a struct entry along the steps -/

theorem GoMap.mem_erase {κ ν : Type} [DecidableEq κ] (m : GoMap κ ν) (k : κ) (kv : κ × ν)
    (h : kv ∈ m.erase k) : kv ∈ m := by
  induction m with
  | nil => simp [GoMap.erase] at h
  | cons p rest ih =>
    obtain ⟨k0, v0⟩ := p
    by_cases h0 : k0 = k
    · simp only [GoMap.erase, h0, if_true] at h
      exact List.mem_cons_of_mem _ (ih h)
    · simp only [GoMap.erase, h0, if_false, List.mem_cons] at h
      rcases h with h | h
      · exact h ▸ List.mem_cons_self _ _
      · exact List.mem_cons_of_mem _ (ih h)

/-- The loop at lines 217-224 deletes nothing exactly when every referrer is a store to the
field address itself. -/
theorem fieldIsUsed_eq_false_iff (id : Nat) (l : List Referrer) :
    fieldIsUsed id l = false ↔ ∀ r ∈ l, r = Referrer.store id := by
  induction l with
  | nil => simp [fieldIsUsed]
  | cons r rest ih =>
    cases r with
    | extract index refs => simp [fieldIsUsed]
    | other => simp [fieldIsUsed]
    | store addr =>
      by_cases h : addr = id
      · subst h; simp [fieldIsUsed, ih]
      · simp [fieldIsUsed, h]

theorem stepStruct_fields (rp : GoMap Pos Bool) (name : String) (se : StructEntry) (s : Step) :
    (stepStruct rp name se s).fullName = se.fullName ∧
    (stepStruct rp name se s).pos = se.pos ∧
    (stepStruct rp name se s).exported = se.exported ∧
    (∀ f ∈ (stepStruct rp name se s).unusedFields, f ∈ se.unusedFields) ∧
    (∀ idx pos, (stepStruct rp name se s).unusedFields.lookup idx = some pos ↔
      se.unusedFields.lookup idx = some pos ∧
        ¬ ∃ id xType l, s = Step.instr (Instr.fieldAddr id xType idx (some l)) ∧
            fieldAddrTypeName xType = name ∧ fieldIsUsed id l = true) := by
  have hsame : ∀ se1 : StructEntry, se1.fullName = se.fullName → se1.pos = se.pos →
      se1.exported = se.exported → se1.unusedFields = se.unusedFields →
      (¬ ∃ id xType l idx, s = Step.instr (Instr.fieldAddr id xType idx (some l)) ∧
            fieldAddrTypeName xType = name ∧ fieldIsUsed id l = true) →
      se1.fullName = se.fullName ∧ se1.pos = se.pos ∧ se1.exported = se.exported ∧
      (∀ f ∈ se1.unusedFields, f ∈ se.unusedFields) ∧
      (∀ idx pos, se1.unusedFields.lookup idx = some pos ↔
        se.unusedFields.lookup idx = some pos ∧
          ¬ ∃ id xType l, s = Step.instr (Instr.fieldAddr id xType idx (some l)) ∧
              fieldAddrTypeName xType = name ∧ fieldIsUsed id l = true) := by
    intro se1 h1 h2 h3 h4 h5
    refine ⟨h1, h2, h3, by rw [h4]; exact fun f hf => hf, ?_⟩
    intro idx pos
    rw [h4]
    constructor
    · intro h
      exact ⟨h, fun ⟨id, xType, l, hs, hn, hu⟩ => h5 ⟨id, xType, l, idx, hs, hn, hu⟩⟩
    · exact fun h => h.1
  cases s with
  | params fnObj ps =>
    exact hsame _ rfl rfl rfl rfl (by rintro ⟨_, _, _, _, hs, _⟩; cases hs)
  | ident n =>
    have hno : ¬ ∃ id xType l idx,
        Step.ident n = Step.instr (Instr.fieldAddr id xType idx (some l)) ∧
          fieldAddrTypeName xType = name ∧ fieldIsUsed id l = true := by
      rintro ⟨_, _, _, _, hs, _⟩; cases hs
    simp only [stepStruct]
    split
    · exact hsame _ rfl rfl rfl rfl hno
    · split
      · split
        · exact hsame _ rfl rfl rfl rfl hno
        · exact hsame _ rfl rfl rfl rfl hno
      · exact hsame _ rfl rfl rfl rfl hno
  | instr i =>
    cases i with
    | call cc refs =>
      exact hsame _ rfl rfl rfl rfl (by rintro ⟨_, _, _, _, hs, _⟩; cases hs)
    | defer cc =>
      exact hsame _ rfl rfl rfl rfl (by rintro ⟨_, _, _, _, hs, _⟩; cases hs)
    | go cc =>
      exact hsame _ rfl rfl rfl rfl (by rintro ⟨_, _, _, _, hs, _⟩; cases hs)
    | changeType x =>
      exact hsame _ rfl rfl rfl rfl (by rintro ⟨_, _, _, _, hs, _⟩; cases hs)
    | other =>
      exact hsame _ rfl rfl rfl rfl (by rintro ⟨_, _, _, _, hs, _⟩; cases hs)
    | fieldAddr id0 xType0 field0 refs0 =>
      cases refs0 with
      | none =>
        exact hsame _ rfl rfl rfl rfl (by rintro ⟨_, _, _, _, hs, _⟩; cases hs)
      | some l0 =>
        simp only [stepStruct]
        by_cases hc : fieldAddrTypeName xType0 = name ∧ fieldIsUsed id0 l0 = true
        · rw [if_pos hc]
          refine ⟨rfl, rfl, rfl, fun f hf => GoMap.mem_erase _ _ f hf, ?_⟩
          intro idx pos
          simp only [GoMap.lookup_erase]
          by_cases hf : field0 = idx
          · subst hf
            simp only [if_true]
            constructor
            · intro h; cases h
            · rintro ⟨_, h⟩
              exact absurd ⟨id0, xType0, l0, rfl, hc.1, hc.2⟩ h
          · rw [if_neg hf]
            constructor
            · intro h
              refine ⟨h, ?_⟩
              rintro ⟨id, xType, l, hs, _, _⟩
              injection hs with hs
              injection hs with _ _ h3 _
              exact hf h3
            · exact fun h => h.1
        · rw [if_neg hc]
          refine hsame _ rfl rfl rfl rfl ?_
          rintro ⟨id, xType, l, idx, hs, hn, hu⟩
          injection hs with hs
          injection hs with h1 h2 h3 h4
          injection h4 with h4
          subst h1; subst h2; subst h4
          exact hc ⟨hn, hu⟩

theorem foldl_stepStruct_fields (rp : GoMap Pos Bool) (name : String) (steps : List Step)
    (se : StructEntry) :
    (steps.foldl (stepStruct rp name) se).fullName = se.fullName ∧
    (steps.foldl (stepStruct rp name) se).pos = se.pos ∧
    (steps.foldl (stepStruct rp name) se).exported = se.exported ∧
    (∀ f ∈ (steps.foldl (stepStruct rp name) se).unusedFields, f ∈ se.unusedFields) ∧
    (∀ idx pos, (steps.foldl (stepStruct rp name) se).unusedFields.lookup idx = some pos ↔
      se.unusedFields.lookup idx = some pos ∧
        ¬ ∃ id xType l, Step.instr (Instr.fieldAddr id xType idx (some l)) ∈ steps ∧
            fieldAddrTypeName xType = name ∧ fieldIsUsed id l = true) := by
  induction steps generalizing se with
  | nil => simp
  | cons s rest ih =>
    simp only [List.foldl_cons]
    obtain ⟨a1, a2, a3, a4, a5⟩ := ih (stepStruct rp name se s)
    obtain ⟨b1, b2, b3, b4, b5⟩ := stepStruct_fields rp name se s
    refine ⟨a1.trans b1, a2.trans b2, a3.trans b3, fun f hf => b4 f (a4 f hf), ?_⟩
    intro idx pos
    rw [a5, b5]
    constructor
    · rintro ⟨⟨h1, h2⟩, h3⟩
      refine ⟨h1, ?_⟩
      rintro ⟨id, xType, l, hm, hn, hu⟩
      rcases List.mem_cons.1 hm with hm | hm
      · exact h2 ⟨id, xType, l, hm.symm, hn, hu⟩
      · exact h3 ⟨id, xType, l, hm, hn, hu⟩
    · rintro ⟨h1, h2⟩
      refine ⟨⟨h1, ?_⟩, ?_⟩
      · rintro ⟨id, xType, l, hs, hn, hu⟩
        exact h2 ⟨id, xType, l, hs ▸ List.mem_cons_self _ _, hn, hu⟩
      · rintro ⟨id, xType, l, hm, hn, hu⟩
        exact h2 ⟨id, xType, l, List.mem_cons_of_mem _ hm, hn, hu⟩

/-! ## The struct registry after registration -/

section StructRegistration

variable (unicodeIsUpper : Char → Bool) (unicodeToLower : Char → Char)

theorem applyRegEvent_structRegistry (em : ExecutionMetadata) (e : RegEvent) :
    (applyRegEvent unicodeIsUpper em e).structRegistry =
      match e with
      | .struct specName fields =>
        match specName.typesObj with
        | some (.typeName fullName _) =>
          em.structRegistry.set fullName (freshStruct unicodeIsUpper specName fields fullName)
        | _ => em.structRegistry
      | _ => em.structRegistry := by
  cases e with
  | function funcObj numResults params => rfl
  | struct specName fields =>
    simp only [applyRegEvent, registerStruct]
    cases specName.typesObj with
    | none => rfl
    | some o =>
      cases o with
      | func f => rfl
      | typeName t p => rfl
      | other p => rfl
  | other pos name => rfl
  | receiver pos => rfl

theorem nodup_struct_foldl_applyRegEvent (events : List RegEvent) (em : ExecutionMetadata)
    (h : em.structRegistry.keys.Nodup) :
    (events.foldl (applyRegEvent unicodeIsUpper) em).structRegistry.keys.Nodup := by
  induction events generalizing em with
  | nil => exact h
  | cons e rest ih =>
    simp only [List.foldl_cons]
    apply ih
    rw [applyRegEvent_structRegistry]
    cases e with
    | function funcObj numResults params => exact h
    | struct specName fields =>
      simp only
      cases specName.typesObj with
      | none => exact h
      | some o =>
        cases o with
        | func f => exact h
        | typeName t p => exact GoMap.nodup_keys_set _ _ _ h
        | other p => exact h
    | other pos name => exact h
    | receiver pos => exact h

/-- A struct entry after a list of writes was there before or is the fresh entry of one of
the writes. -/
theorem lookup_struct_foldl_applyRegEvent (events : List RegEvent) (em : ExecutionMetadata)
    (name : String) (se : StructEntry)
    (h : (events.foldl (applyRegEvent unicodeIsUpper) em).structRegistry.lookup name = some se) :
    em.structRegistry.lookup name = some se ∨
      ∃ specName fields p, RegEvent.struct specName fields ∈ events ∧
        specName.typesObj = some (.typeName name p) ∧
        se = freshStruct unicodeIsUpper specName fields name := by
  induction events generalizing em with
  | nil => exact Or.inl h
  | cons e rest ih =>
    simp only [List.foldl_cons] at h
    rcases ih _ h with h1 | ⟨sn, fs, p, hm, hobj, hse⟩
    · rw [applyRegEvent_structRegistry] at h1
      cases e with
      | function funcObj numResults params => exact Or.inl h1
      | other pos name => exact Or.inl h1
      | receiver pos => exact Or.inl h1
      | struct specName fields =>
        simp only at h1
        cases hobj : specName.typesObj with
        | none => rw [hobj] at h1; exact Or.inl h1
        | some o =>
          cases o with
          | func f => rw [hobj] at h1; exact Or.inl h1
          | other p => rw [hobj] at h1; exact Or.inl h1
          | typeName t p =>
            rw [hobj] at h1
            simp only [GoMap.lookup_set] at h1
            by_cases hk : t = name
            · rw [if_pos hk] at h1
              injection h1 with h1
              subst hk
              exact Or.inr ⟨specName, fields, p, List.mem_cons_self _ _, hobj, h1.symm⟩
            · rw [if_neg hk] at h1
              exact Or.inl h1
    · exact Or.inr ⟨sn, fs, p, List.mem_cons_of_mem _ hm, hobj, hse⟩

theorem nodup_struct_register (files : List File) :
    (registerPackageUnexportedDefinitions unicodeIsUpper unicodeToLower files
      newExecutionMetadata).structRegistry.keys.Nodup := by
  rw [register_eq_foldl]
  exact nodup_struct_foldl_applyRegEvent unicodeIsUpper _ _ List.nodup_nil

theorem nodup_struct_finalMetadata (pass : Pass) :
    (finalMetadata unicodeIsUpper unicodeToLower pass).structRegistry.keys.Nodup := by
  rw [finalMetadata_eq_foldl, keys_foldl_applyStep_struct]
  exact nodup_struct_register unicodeIsUpper unicodeToLower pass.files

end StructRegistration

/-- The field diagnostics of `reportErrors` are the surviving entries of the maps
`unusedFields`. -/
theorem fieldNotUsed_mem_reportErrors (em : ExecutionMetadata) (pos : Pos) :
    (⟨pos, Message.fieldNotUsed⟩ : Diagnostic) ∈ reportErrors em ↔
      ∃ kv ∈ em.structRegistry, ∃ f ∈ kv.2.unusedFields, f.2 = pos := by
  unfold reportErrors
  simp only [List.mem_append, List.mem_flatten, List.mem_map]
  constructor
  · rintro ((⟨l, ⟨kv, hkv, rfl⟩, hd⟩ | ⟨l, ⟨kv, hkv, rfl⟩, hd⟩) | ⟨kv, _, hd⟩)
    · unfold reportStruct at hd
      rcases List.mem_append.1 hd with hd | hd
      · split at hd
        · simp at hd
        · simp at hd
      · obtain ⟨f, hf, hfd⟩ := List.mem_map.1 hd
        injection hfd with h1 _
        exact ⟨kv, hkv, f, hf, h1⟩
    · have := (reportFunction_functionName kv.2 _ hd).1
      simp [Message.functionName] at this
    · injection hd with _ h2
      cases h2
  · rintro ⟨kv, hkv, f, hf, rfl⟩
    left; left
    refine ⟨_, ⟨kv, hkv, rfl⟩, ?_⟩
    unfold reportStruct
    exact List.mem_append.2 (Or.inr (List.mem_map.2 ⟨f, hf, rfl⟩))

section FieldClaim

variable (unicodeIsUpper : Char → Bool) (unicodeToLower : Char → Char)

/-- A tracked field (an entry `idx ↦ pos` of `unusedFields` of the struct `name` after
registration) is reported as unused if and only if every scanned `FieldAddr` of the field
index that the analyzer attributes to the struct (`fieldAddrTypeName` of the type of `X` is
`name`) has only referrers that are stores to that very address, which includes having no
such `FieldAddr` at all.  The position `pos` is assumed to be the position of no other
tracked field. -/
theorem field_reported_iff_attributed (pass : Pass) (name : String)
    (se0 : StructEntry) (idx : Nat) (pos : Pos)
    (hreg : (registerPackageUnexportedDefinitions unicodeIsUpper unicodeToLower pass.files
      newExecutionMetadata).structRegistry.lookup name = some se0)
    (hfield : se0.unusedFields.lookup idx = some pos)
    (hpos : ∀ name2 se2 idx2,
      (registerPackageUnexportedDefinitions unicodeIsUpper unicodeToLower pass.files
        newExecutionMetadata).structRegistry.lookup name2 = some se2 →
      (idx2, pos) ∈ se2.unusedFields → name2 = name ∧ idx2 = idx) :
    (⟨pos, Message.fieldNotUsed⟩ : Diagnostic) ∈ run unicodeIsUpper unicodeToLower pass ↔
      ∀ id xType l, Instr.fieldAddr id xType idx (some l) ∈ scannedInstrs pass →
        fieldAddrTypeName xType = name → ∀ r ∈ l, r = Referrer.store id := by
  have hfinal : ∀ name2, (finalMetadata unicodeIsUpper unicodeToLower pass).structRegistry.lookup
      name2 = ((registerPackageUnexportedDefinitions unicodeIsUpper unicodeToLower pass.files
        newExecutionMetadata).structRegistry.lookup name2).map (fun se =>
          (flowSteps pass ++ syntaxSteps pass).foldl
            (stepStruct (registerPackageUnexportedDefinitions unicodeIsUpper unicodeToLower
              pass.files newExecutionMetadata).receiverPositions name2) se) := by
    intro name2
    rw [finalMetadata_eq_foldl, lookup_foldl_applyStep_struct]
  have hsurv : ∀ q, ((flowSteps pass ++ syntaxSteps pass).foldl
      (stepStruct (registerPackageUnexportedDefinitions unicodeIsUpper unicodeToLower
        pass.files newExecutionMetadata).receiverPositions name) se0).unusedFields.lookup idx
        = some q ↔
      (q = pos ∧ ∀ id xType l, Instr.fieldAddr id xType idx (some l) ∈ scannedInstrs pass →
        fieldAddrTypeName xType = name → ∀ r ∈ l, r = Referrer.store id) := by
    intro q
    rw [(foldl_stepStruct_fields _ name _ se0).2.2.2.2 idx q, hfield]
    constructor
    · rintro ⟨h1, h2⟩
      injection h1 with h1
      refine ⟨h1.symm, ?_⟩
      intro id xType l hm hn
      apply (fieldIsUsed_eq_false_iff id l).1
      cases hu : fieldIsUsed id l with
      | false => rfl
      | true => exact absurd ⟨id, xType, l, (instr_mem_allSteps pass _).2 hm, hn, hu⟩ h2
    · rintro ⟨h1, h2⟩
      refine ⟨by rw [h1], ?_⟩
      rintro ⟨id, xType, l, hm, hn, hu⟩
      have := (fieldIsUsed_eq_false_iff id l).2
        (h2 id xType l ((instr_mem_allSteps pass _).1 hm) hn)
      rw [this] at hu
      exact absurd hu (by simp)
  unfold run
  rw [fieldNotUsed_mem_reportErrors]
  constructor
  · rintro ⟨kv, hkv, f, hf, hfp⟩
    have hl := GoMap.lookup_of_mem _ kv.1 kv.2
      (nodup_struct_finalMetadata unicodeIsUpper unicodeToLower pass) hkv
    rw [hfinal] at hl
    cases h2 : (registerPackageUnexportedDefinitions unicodeIsUpper unicodeToLower pass.files
        newExecutionMetadata).structRegistry.lookup kv.1 with
    | none => rw [h2] at hl; simp at hl
    | some se2 =>
      rw [h2] at hl
      simp only [Option.map_some', Option.some.injEq] at hl
      have hmem : f ∈ se2.unusedFields := by
        apply (foldl_stepStruct_fields _ kv.1 _ se2).2.2.2.1
        rw [hl]; exact hf
      have hf2 : f = (f.1, pos) := by rw [← hfp]
      rw [hf2] at hmem
      obtain ⟨e1, e2⟩ := hpos kv.1 se2 f.1 h2 hmem
      rw [e1] at h2 hl
      rw [hreg] at h2
      injection h2 with h2
      subst h2
      have hne : kv.2.unusedFields.lookup idx ≠ none := by
        rw [Ne, GoMap.lookup_eq_none_iff]
        intro hc
        apply hc
        exact List.mem_map.2 ⟨f, hf, e2⟩
      rw [← hl] at hne
      cases hq : ((flowSteps pass ++ syntaxSteps pass).foldl
        (stepStruct (registerPackageUnexportedDefinitions unicodeIsUpper unicodeToLower
          pass.files newExecutionMetadata).receiverPositions name) se0).unusedFields.lookup idx
        with
      | none => exact absurd hq hne
      | some q => exact ((hsurv q).1 hq).2
  · intro h
    have hq := (hsurv pos).2 ⟨rfl, h⟩
    have hl := hfinal name
    rw [hreg] at hl
    simp only [Option.map_some'] at hl
    exact ⟨_, GoMap.mem_of_lookup _ _ _ hl, (idx, pos), GoMap.mem_of_lookup _ _ _ hq, rfl⟩

/-- The type name to which the analyzer attributes a field address is the type string of the
struct that the instruction addresses, unless the type of `X` is a defined type whose
underlying type is a pointer. -/
theorem fieldAddrTypeName_eq_specAddressedStruct (t : GoType)
    (h : ∀ s elem, t ≠ .named s (.pointer elem)) :
    fieldAddrTypeName t = specAddressedStruct t := by
  cases t with
  | pointer elem => rfl
  | other s => rfl
  | named s u =>
    cases u with
    | pointer elem => exact absurd rfl (h s elem)
    | named s2 u2 => rfl
    | other s2 => rfl

/-- For a defined type whose underlying type is a pointer the analyzer keeps the name of the
defined type, while the struct addressed is the element type of the pointer. -/
theorem fieldAddrTypeName_defined_pointer (s : String) (elem : GoType) :
    fieldAddrTypeName (.named s (.pointer elem)) = s ∧
      specAddressedStruct (.named s (.pointer elem)) = elem.String :=
  ⟨rfl, rfl⟩

/-- In a package where no scanned `FieldAddr` of the field index has an `X` of a defined
pointer type, a tracked field is reported as unused if and only if every scanned `FieldAddr`
that addresses that field of that struct (`specAddressedStruct` of the type of `X` is the
struct: directly or through one pointer level) has only referrers that are stores to that
very address, which includes having no such `FieldAddr` at all. -/
theorem field_reported_iff_only_overwritten (pass : Pass) (name : String)
    (se0 : StructEntry) (idx : Nat) (pos : Pos)
    (hreg : (registerPackageUnexportedDefinitions unicodeIsUpper unicodeToLower pass.files
      newExecutionMetadata).structRegistry.lookup name = some se0)
    (hfield : se0.unusedFields.lookup idx = some pos)
    (hpos : ∀ name2 se2 idx2,
      (registerPackageUnexportedDefinitions unicodeIsUpper unicodeToLower pass.files
        newExecutionMetadata).structRegistry.lookup name2 = some se2 →
      (idx2, pos) ∈ se2.unusedFields → name2 = name ∧ idx2 = idx)
    (hplain : ∀ id xType l, Instr.fieldAddr id xType idx (some l) ∈ scannedInstrs pass →
      ∀ s elem, xType ≠ .named s (.pointer elem)) :
    (⟨pos, Message.fieldNotUsed⟩ : Diagnostic) ∈ run unicodeIsUpper unicodeToLower pass ↔
      ∀ id xType l, Instr.fieldAddr id xType idx (some l) ∈ scannedInstrs pass →
        specAddressedStruct xType = name → ∀ r ∈ l, r = Referrer.store id := by
  rw [field_reported_iff_attributed unicodeIsUpper unicodeToLower pass name se0 idx pos hreg
    hfield hpos]
  constructor
  · intro h id xType l hm hn
    apply h id xType l hm
    rw [fieldAddrTypeName_eq_specAddressedStruct xType (hplain id xType l hm)]
    exact hn
  · intro h id xType l hm hn
    apply h id xType l hm
    rw [← fieldAddrTypeName_eq_specAddressedStruct xType (hplain id xType l hm)]
    exact hn

end FieldClaim

/-! ## Where the writes of the registration come from -/

section EventProvenance

variable (unicodeIsUpper : Char → Bool) (unicodeToLower : Char → Char)

theorem eventFrom_mono (ids1 ids2 : List Ident) (h : ∀ n ∈ ids1, n ∈ ids2) (e : RegEvent)
    (he : EventFrom unicodeIsUpper ids1 e) : EventFrom unicodeIsUpper ids2 e := by
  cases e with
  | function funcObj numResults params =>
    obtain ⟨n, hn, h1, h2⟩ := he
    exact ⟨n, h n hn, h1, h2⟩
  | struct specName fields =>
    exact ⟨h _ he.1, fun list hl field hf name hname => h _ (he.2 list hl field hf name hname)⟩
  | other pos name =>
    obtain ⟨n, hn, h1, h2⟩ := he
    exact ⟨n, h n hn, h1, h2⟩
  | receiver pos => trivial

theorem eventFrom_methodEvents (m : Field) (e : RegEvent)
    (he : e ∈ methodEvents unicodeIsUpper m) : EventFrom unicodeIsUpper m.names e := by
  unfold methodEvents at he
  cases hft : m.funcType with
  | none => rw [hft] at he; simp at he
  | some funcType =>
    rw [hft] at he
    obtain ⟨n, hn, he⟩ := (mem_flatten_map _ _ _).1 he
    unfold methodNameEvents at he
    by_cases hexp : IsExported unicodeIsUpper n.name = true
    · rw [if_pos hexp] at he; simp at he
    · rw [if_neg hexp] at he
      cases hobj : n.typesObj with
      | none => rw [hobj] at he; simp at he
      | some o =>
        cases o with
        | typeName t p => rw [hobj] at he; simp at he
        | other p => rw [hobj] at he; simp at he
        | func f =>
          rw [hobj] at he
          simp only [List.mem_singleton] at he
          subst he
          exact ⟨n, hn, by simpa using hexp, hobj⟩

theorem eventFrom_specEvents (spec : Spec) (e : RegEvent)
    (he : e ∈ specEvents unicodeIsUpper spec) : EventFrom unicodeIsUpper (specIdents spec) e := by
  cases spec with
  | other => simp [specEvents] at he
  | valueSpec names =>
    simp only [specEvents] at he
    obtain ⟨n, hn, he⟩ := (mem_flatten_map _ _ _).1 he
    unfold valueNameEvents at he
    by_cases hc : (!IsExported unicodeIsUpper n.name && n.name != "_") = true
    · rw [if_pos hc] at he
      simp only [List.mem_singleton] at he
      subst he
      simp only [Bool.and_eq_true, Bool.not_eq_true'] at hc
      exact ⟨n, hn, hc.1, rfl⟩
    · rw [if_neg hc] at he; simp at he
  | typeSpec name typ =>
    cases typ with
    | other => simp [specEvents] at he
    | structType fields =>
      simp only [specEvents, List.mem_singleton] at he
      subst he
      cases fields with
      | none =>
        refine ⟨by simp [specIdents], ?_⟩
        intro list hl; cases hl
      | some list0 =>
        refine ⟨by simp [specIdents], ?_⟩
        intro list hl field hf n hn
        injection hl with hl
        subst hl
        simp only [specIdents, List.mem_cons]
        exact Or.inr ((mem_flatten_map _ _ _).2 ⟨field, hf, hn⟩)
    | interfaceType methods =>
      simp only [specEvents, List.mem_append] at he
      rcases he with he | he
      · by_cases hc : (!IsExported unicodeIsUpper name.name) = true
        · rw [if_pos hc] at he
          simp only [List.mem_singleton] at he
          subst he
          exact ⟨name, by simp [specIdents], by simpa using hc, rfl⟩
        · rw [if_neg hc] at he; simp at he
      · obtain ⟨m, hm, he⟩ := (mem_flatten_map _ _ _).1 he
        apply eventFrom_mono unicodeIsUpper m.names _ _ e
          (eventFrom_methodEvents unicodeIsUpper m e he)
        intro n hn
        simp only [specIdents, List.mem_cons]
        exact Or.inr ((mem_flatten_map _ _ _).2 ⟨m, hm, hn⟩)

theorem eventFrom_genDeclEvents (d : Decl) (e : RegEvent)
    (he : e ∈ genDeclEvents unicodeIsUpper d) : EventFrom unicodeIsUpper (declIdents d) e := by
  cases d with
  | funcDecl fn => simp [genDeclEvents] at he
  | other => simp [genDeclEvents] at he
  | genDecl specs =>
    simp only [genDeclEvents] at he
    obtain ⟨spec, hs, he⟩ := (mem_flatten_map _ _ _).1 he
    apply eventFrom_mono unicodeIsUpper (specIdents spec) _ _ e
      (eventFrom_specEvents unicodeIsUpper spec e he)
    intro n hn
    simp only [declIdents]
    exact (mem_flatten_map _ _ _).2 ⟨spec, hs, hn⟩

theorem mem_declaredIdents (files : List File) (file : File) (d : Decl) (n : Ident)
    (hf : file ∈ files) (hd : d ∈ file.decls) (hn : n ∈ declIdents d) :
    n ∈ declaredIdents files := by
  unfold declaredIdents
  exact (mem_flatten_map _ _ _).2 ⟨file, hf, (mem_flatten_map _ _ _).2 ⟨d, hd, hn⟩⟩

/-- Every write of the registration comes from a declared identifier of the package. -/
theorem eventFrom_registrationEvents (files : List File) (e : RegEvent)
    (he : e ∈ registrationEvents unicodeIsUpper unicodeToLower files) :
    EventFrom unicodeIsUpper (declaredIdents files) e := by
  unfold registrationEvents at he
  rcases List.mem_append.1 he with he | he
  · unfold genEvents at he
    obtain ⟨file, hf, he⟩ := (mem_flatten_map _ _ _).1 he
    obtain ⟨d, hd, he⟩ := (mem_flatten_map _ _ _).1 he
    apply eventFrom_mono unicodeIsUpper (declIdents d) _ _ e
      (eventFrom_genDeclEvents unicodeIsUpper d e he)
    exact fun n hn => mem_declaredIdents files file d n hf hd hn
  · cases e with
    | function funcObj numResults params =>
      obtain ⟨fn, hfn, hobj, hreg, _, _⟩ :=
        (function_mem_funcEvents unicodeIsUpper unicodeToLower files _ _ _).1 he
      obtain ⟨file, hf, hd⟩ := (mem_funcDecls files fn).1 hfn
      refine ⟨fn.name, mem_declaredIdents files file _ _ hf hd (by simp [declIdents]), ?_, hobj⟩
      unfold isRegistered at hreg
      simp only [Bool.and_eq_true, Bool.not_eq_true'] at hreg
      exact hreg.1.1
    | receiver pos => trivial
    | struct specName fields =>
      exfalso
      unfold funcEvents at he
      obtain ⟨file, _, he⟩ := (mem_flatten_map _ _ _).1 he
      obtain ⟨d, _, he⟩ := (mem_flatten_map _ _ _).1 he
      cases d with
      | genDecl specs => simp [funcDeclEvents] at he
      | other => simp [funcDeclEvents] at he
      | funcDecl fn =>
        simp only [funcDeclEvents] at he
        split at he
        · split at he
          · simp only [List.mem_cons, false_or] at he
            split at he <;> simp at he
          · simp at he
        · simp at he
    | other pos name =>
      exfalso
      unfold funcEvents at he
      obtain ⟨file, _, he⟩ := (mem_flatten_map _ _ _).1 he
      obtain ⟨d, _, he⟩ := (mem_flatten_map _ _ _).1 he
      cases d with
      | genDecl specs => simp [funcDeclEvents] at he
      | other => simp [funcDeclEvents] at he
      | funcDecl fn =>
        simp only [funcDeclEvents] at he
        split at he
        · split at he
          · simp only [List.mem_cons, false_or] at he
            split at he <;> simp at he
          · simp at he
        · simp at he

end EventProvenance

/-! ## The positions of the diagnostics -/

theorem GoMap.mem_set {κ ν : Type} [DecidableEq κ] (m : GoMap κ ν) (k : κ) (v : ν) (kv : κ × ν)
    (h : kv ∈ m.set k v) : kv ∈ m ∨ kv = (k, v) := by
  induction m with
  | nil => simp only [GoMap.set, List.mem_singleton] at h; exact Or.inr h
  | cons p rest ih =>
    obtain ⟨k0, v0⟩ := p
    by_cases h0 : k0 = k
    · simp only [GoMap.set, h0, if_true, List.mem_cons] at h
      rcases h with h | h
      · exact Or.inr h
      · exact Or.inl (List.mem_cons_of_mem _ h)
    · simp only [GoMap.set, h0, if_false, List.mem_cons] at h
      rcases h with h | h
      · exact Or.inl (h ▸ List.mem_cons_self _ _)
      · rcases ih h with h | h
        · exact Or.inl (List.mem_cons_of_mem _ h)
        · exact Or.inr h

section Positions

variable (unicodeIsUpper : Char → Bool) (unicodeToLower : Char → Char)

theorem mem_registerFieldNames (names : List Ident) (st : Nat × GoMap Nat Pos) (f : Nat × Pos)
    (h : f ∈ (registerFieldNames unicodeIsUpper names st).2) :
    f ∈ st.2 ∨ ∃ name ∈ names, IsExported unicodeIsUpper name.name = false ∧ f.2 = name.pos := by
  unfold registerFieldNames at h
  induction names generalizing st with
  | nil => exact Or.inl h
  | cons n rest ih =>
    simp only [List.foldl_cons] at h
    rcases ih _ h with h1 | ⟨name, hn, h2⟩
    · by_cases hexp : IsExported unicodeIsUpper n.name = true
      · rw [if_pos hexp] at h1
        exact Or.inl h1
      · rw [if_neg hexp] at h1
        rcases GoMap.mem_set _ _ _ _ h1 with h1 | h1
        · exact Or.inl h1
        · exact Or.inr ⟨n, List.mem_cons_self _ _, by simpa using hexp, by rw [h1]⟩
    · exact Or.inr ⟨name, List.mem_cons_of_mem _ hn, h2⟩

theorem mem_registerFields (fields : List Field) (st : Nat × GoMap Nat Pos) (f : Nat × Pos)
    (h : f ∈ (registerFields unicodeIsUpper fields st).2) :
    f ∈ st.2 ∨ ∃ field ∈ fields, ∃ name ∈ field.names,
      IsExported unicodeIsUpper name.name = false ∧ f.2 = name.pos := by
  unfold registerFields at h
  induction fields generalizing st with
  | nil => exact Or.inl h
  | cons fd rest ih =>
    simp only [List.foldl_cons] at h
    rcases ih _ h with h1 | ⟨field, hfd, name, hn, h2⟩
    · cases hnames : fd.names with
      | nil =>
        rw [hnames] at h1
        exact Or.inl h1
      | cons n0 ns =>
        rw [hnames] at h1
        rcases mem_registerFieldNames unicodeIsUpper _ st f h1 with h1 | ⟨name, hn, h2⟩
        · exact Or.inl h1
        · exact Or.inr ⟨fd, List.mem_cons_self _ _, name, by rw [hnames]; exact hn, h2⟩
    · exact Or.inr ⟨field, List.mem_cons_of_mem _ hfd, name, hn, h2⟩

theorem applyRegEvent_otherUnusedDefinitions (em : ExecutionMetadata) (e : RegEvent) :
    (applyRegEvent unicodeIsUpper em e).otherUnusedDefinitions =
      match e with
      | .other pos name => em.otherUnusedDefinitions.set pos name
      | _ => em.otherUnusedDefinitions := by
  cases e with
  | function funcObj numResults params => rfl
  | struct specName fields =>
    simp only [applyRegEvent, registerStruct]
    cases specName.typesObj with
    | none => rfl
    | some o =>
      cases o with
      | func f => rfl
      | typeName t p => rfl
      | other p => rfl
  | other pos name => rfl
  | receiver pos => rfl

theorem mem_other_foldl_applyRegEvent (events : List RegEvent) (em : ExecutionMetadata)
    (kv : Pos × String)
    (h : kv ∈ (events.foldl (applyRegEvent unicodeIsUpper) em).otherUnusedDefinitions) :
    kv ∈ em.otherUnusedDefinitions ∨ RegEvent.other kv.1 kv.2 ∈ events := by
  induction events generalizing em with
  | nil => exact Or.inl h
  | cons e rest ih =>
    simp only [List.foldl_cons] at h
    rcases ih _ h with h1 | h1
    · rw [applyRegEvent_otherUnusedDefinitions] at h1
      cases e with
      | function funcObj numResults params => exact Or.inl h1
      | struct specName fields => exact Or.inl h1
      | receiver pos => exact Or.inl h1
      | other pos name =>
        rcases GoMap.mem_set _ _ _ _ h1 with h1 | h1
        · exact Or.inl h1
        · exact Or.inr (by rw [h1]; exact List.mem_cons_self _ _)
    · exact Or.inr (List.mem_cons_of_mem _ h1)

theorem mem_other_applyStep (em : ExecutionMetadata) (s : Step) (kv : Pos × String)
    (h : kv ∈ (applyStep em s).otherUnusedDefinitions) : kv ∈ em.otherUnusedDefinitions := by
  cases s with
  | params fnObj ps =>
    rw [applyStep, (sameOutside_checkUnusedParams em fnObj ps).2.2] at h; exact h
  | ident n =>
    simp only [applyStep, visit] at h
    split at h
    · exact h
    · split at h
      · exact h
      · split at h
        · split at h
          · split at h
            · exact h
            · exact h
          · exact GoMap.mem_erase _ _ _ h
        · exact GoMap.mem_erase _ _ _ h
  | instr i =>
    cases i with
    | call cc refs => rw [applyStep, (sameOutside_call em cc refs).2.2] at h; exact h
    | defer cc =>
      rw [applyStep, checkInstr,
        (sameOutside_trans (sameOutside_retrieve (checkFunctionParameter em cc) cc)
          (sameOutside_checkFunctionParameter em cc)).2.2] at h
      exact h
    | go cc =>
      rw [applyStep, checkInstr,
        (sameOutside_trans (sameOutside_retrieve (checkFunctionParameter em cc) cc)
          (sameOutside_checkFunctionParameter em cc)).2.2] at h
      exact h
    | changeType x =>
      cases x with
      | function object =>
        cases object with
        | none => exact h
        | some funcObj => exact h
      | makeClosure fn => exact h
      | other => exact h
    | other => exact h
    | fieldAddr id xType field refs =>
      simp only [applyStep, checkInstr] at h
      split at h
      · exact h
      · split at h
        · exact h
        · split at h
          · exact h
          · exact h

theorem mem_other_foldl_applyStep (steps : List Step) (em : ExecutionMetadata)
    (kv : Pos × String) (h : kv ∈ (steps.foldl applyStep em).otherUnusedDefinitions) :
    kv ∈ em.otherUnusedDefinitions := by
  induction steps generalizing em with
  | nil => exact h
  | cons s rest ih =>
    simp only [List.foldl_cons] at h
    exact mem_other_applyStep em s kv (ih _ h)

/-- Every diagnostic of `run` is at the position of an unexported declared identifier, or of
the function object that such an identifier resolves to. -/
theorem run_positions (pass : Pass) (d : Diagnostic)
    (hd : d ∈ run unicodeIsUpper unicodeToLower pass) :
    UnexportedDeclPos unicodeIsUpper (declaredIdents pass.files) d.pos := by
  unfold run reportErrors at hd
  rcases List.mem_append.1 hd with hd | hd
  · rcases List.mem_append.1 hd with hd | hd
    · -- a struct or a field
      obtain ⟨kv, hkv, hd⟩ := (mem_flatten_map _ _ _).1 hd
      have hl := GoMap.lookup_of_mem _ kv.1 kv.2
        (nodup_struct_finalMetadata unicodeIsUpper unicodeToLower pass) hkv
      rw [finalMetadata_eq_foldl, lookup_foldl_applyStep_struct] at hl
      cases h0 : (registerPackageUnexportedDefinitions unicodeIsUpper unicodeToLower pass.files
          newExecutionMetadata).structRegistry.lookup kv.1 with
      | none => rw [h0] at hl; simp at hl
      | some se0 =>
        rw [h0] at hl
        simp only [Option.map_some', Option.some.injEq] at hl
        obtain ⟨_, b2, b3, b4, _⟩ := foldl_stepStruct_fields
          (registerPackageUnexportedDefinitions unicodeIsUpper unicodeToLower pass.files
            newExecutionMetadata).receiverPositions kv.1
          (flowSteps pass ++ syntaxSteps pass) se0
        rw [hl] at b2 b3 b4
        rw [register_eq_foldl] at h0
        rcases lookup_struct_foldl_applyRegEvent unicodeIsUpper _ _ _ _ h0 with h1 | h1
        · simp [newExecutionMetadata, GoMap.lookup] at h1
        · obtain ⟨specName, fields, p, hev, _, hse⟩ := h1
          have hfrom := eventFrom_registrationEvents unicodeIsUpper unicodeToLower pass.files _ hev
          unfold reportStruct at hd
          rcases List.mem_append.1 hd with hd | hd
          · split at hd
            · rename_i hcond
              simp only [List.mem_singleton] at hd
              subst hd
              simp only [Bool.and_eq_true, Bool.not_eq_true'] at hcond
              refine ⟨specName, hfrom.1, ?_, Or.inl ?_⟩
              · have : se0.exported = IsExported unicodeIsUpper specName.name := by rw [hse]; rfl
                rw [← this, ← b3]; exact hcond.2
              · have : se0.pos = specName.pos := by rw [hse]; rfl
                rw [← this, ← b2]
            · simp at hd
          · obtain ⟨f, hf, hfd⟩ := List.mem_map.1 hd
            subst hfd
            have hf0 : f ∈ se0.unusedFields := b4 f hf
            rw [hse] at hf0
            simp only [freshStruct] at hf0
            cases hfields : fields with
            | none => rw [hfields] at hf0; simp at hf0
            | some list =>
              rw [hfields] at hf0
              rcases mem_registerFields unicodeIsUpper list (0, []) f hf0 with h2 | h2
              · simp at h2
              · obtain ⟨field, hfield, name, hname, hexp, hpos⟩ := h2
                exact ⟨name, hfrom.2 list hfields field hfield name hname, hexp, Or.inl hpos⟩
    · -- a function
      obtain ⟨kv, hkv, hd⟩ := (mem_flatten_map _ _ _).1 hd
      have hwf := wf_finalMetadata unicodeIsUpper unicodeToLower pass
      have hl := GoMap.lookup_of_mem _ kv.1 kv.2 hwf.1 hkv
      rw [finalMetadata_eq_foldl, lookup_foldl_applyStep] at hl
      cases h0 : (registerPackageUnexportedDefinitions unicodeIsUpper unicodeToLower pass.files
          newExecutionMetadata).functionRegistry.lookup kv.1 with
      | none => rw [h0] at hl; simp at hl
      | some fe0 =>
        rw [h0] at hl
        simp only [Option.map_some', Option.some.injEq] at hl
        have hp := (foldl_stepEntry_fullName_pos kv.1 (flowSteps pass ++ syntaxSteps pass) fe0).2
        rw [hl] at hp
        obtain ⟨f, k, ps, hev, _, hfe⟩ :=
          registered_is_fresh unicodeIsUpper unicodeToLower pass.files _ fe0 h0
        obtain ⟨n, hn, hexp, hobj⟩ :=
          eventFrom_registrationEvents unicodeIsUpper unicodeToLower pass.files _ hev
        refine ⟨n, hn, hexp, Or.inr ⟨f, hobj, ?_⟩⟩
        rw [(reportFunction_functionName kv.2 d hd).2, hp, hfe]
        rfl
  · -- another definition
    obtain ⟨kv, hkv, hd⟩ := List.mem_map.1 hd
    subst hd
    rw [finalMetadata_eq_foldl] at hkv
    have h1 := mem_other_foldl_applyStep _ _ kv hkv
    rw [register_eq_foldl] at h1
    rcases mem_other_foldl_applyRegEvent unicodeIsUpper _ _ kv h1 with h2 | h2
    · simp [newExecutionMetadata] at h2
    · obtain ⟨n, hn, hexp, hpos⟩ :=
        eventFrom_registrationEvents unicodeIsUpper unicodeToLower pass.files _ h2
      exact ⟨n, hn, hexp, Or.inl hpos⟩

/-- C6. No diagnostic is reported at the position of an exported declared identifier: the
name of an exported function or method, struct type, struct field, interface type, interface
method, package-level variable or constant.  Positions are assumed to identify declared
identifiers (two declared identifiers at one position have one name) and a function object
to be positioned at the identifier that declares it. -/
theorem C6_exported_never_reported (pass : Pass)
    (hobj : ∀ n ∈ declaredIdents pass.files, ∀ f, n.typesObj = some (.func f) → f.pos = n.pos)
    (hpos : ∀ n ∈ declaredIdents pass.files, ∀ m ∈ declaredIdents pass.files,
      n.pos = m.pos → n.name = m.name)
    (q : Ident) (hq : q ∈ declaredIdents pass.files)
    (hexp : IsExported unicodeIsUpper q.name = true) :
    ∀ d ∈ run unicodeIsUpper unicodeToLower pass, d.pos ≠ q.pos := by
  intro d hd hdq
  obtain ⟨n, hn, hnexp, hnpos⟩ := run_positions unicodeIsUpper unicodeToLower pass d hd
  have hnq : n.pos = q.pos := by
    rcases hnpos with h | ⟨f, hf, h⟩
    · rw [← h]; exact hdq
    · rw [← hobj n hn f hf, ← h]; exact hdq
  rw [hpos n hn q hq hnq, hexp] at hnexp
  exact absurd hnexp (by simp)

end Positions

theorem example_structRegistry :
    (registerPackageUnexportedDefinitions Char.isUpper Char.toLower examplePass.files
      newExecutionMetadata).structRegistry = [("p.T", exTEntry)] := rfl

theorem plainPointer_structRegistry :
    (registerPackageUnexportedDefinitions Char.isUpper Char.toLower plainPointerPass.files
      newExecutionMetadata).structRegistry = [("p.T", exStructTEntry)] := rfl

theorem plainPointer_hpos_field : ∀ name2 se2 idx2,
    (registerPackageUnexportedDefinitions Char.isUpper Char.toLower plainPointerPass.files
      newExecutionMetadata).structRegistry.lookup name2 = some se2 →
    (idx2, 29) ∈ se2.unusedFields → name2 = "p.T" ∧ idx2 = 0 := by
  intro name2 se2 idx2 h hm
  rw [plainPointer_structRegistry] at h
  by_cases hk : "p.T" = name2
  · simp only [GoMap.lookup, hk, if_true, Option.some.injEq] at h
    subst h
    simp only [exStructTEntry, List.mem_singleton, Prod.mk.injEq] at hm
    exact ⟨hk.symm, hm.1⟩
  · simp [GoMap.lookup, hk] at h

theorem plainPointer_hplain : ∀ id xType l,
    Instr.fieldAddr id xType 0 (some l) ∈ scannedInstrs plainPointerPass →
      ∀ s elem, xType ≠ .named s (.pointer elem) := by
  intro id xType l hm s elem he
  subst he
  simp [scannedInstrs, plainPointerPass, functionInstrs, anonInstrs, Function.object] at hm

/-- The field `x` of the package `plainPointerPass` is read through `*T`: it is not reported,
and the scanned `FieldAddr` that addresses it has a referrer that is not a store. -/
theorem field_reported_iff_only_overwritten_example :
    (⟨29, Message.fieldNotUsed⟩ : Diagnostic) ∉ run Char.isUpper Char.toLower plainPointerPass ∧
    ((⟨29, Message.fieldNotUsed⟩ : Diagnostic) ∈ run Char.isUpper Char.toLower plainPointerPass ↔
      ∀ id xType l, Instr.fieldAddr id xType 0 (some l) ∈ scannedInstrs plainPointerPass →
        specAddressedStruct xType = "p.T" → ∀ r ∈ l, r = Referrer.store id) :=
  ⟨by rw [show run Char.isUpper Char.toLower plainPointerPass = [] from rfl]; simp,
    field_reported_iff_only_overwritten Char.isUpper Char.toLower plainPointerPass "p.T"
      exStructTEntry 0 29 rfl rfl plainPointer_hpos_field plainPointer_hplain⟩

/-- C4 (a defect of the code). In the package

    package p; type T struct { x int }; type PT *T; func Read(p PT) int { return p.x }

the field `x` of `T` is tracked at position 29 under the struct `p.T`.  The one scanned
`FieldAddr` addresses that field of that struct through one pointer level (the type `PT` of
its `X` is a defined type whose underlying type is `*T`, so `specAddressedStruct` is `p.T`)
and its referrer is not a store (it is the load of `p.x`), so the field is read and the
claim requires that it is not reported.  The analyzer attributes the access to the type
name `p.PT` (line 206 tests the type of `X` itself for `*types.Pointer`, not its underlying
type), finds no struct registered under that name, and `run` reports `x` as not used.  With
the parameter declared as `p *T` the same access is attributed to `p.T` and nothing is
reported. -/
theorem C4_field_read_through_defined_pointer_reported :
    ((registerPackageUnexportedDefinitions Char.isUpper Char.toLower namedPointerPass.files
      newExecutionMetadata).structRegistry.lookup "p.T").map (fun se => se.unusedFields)
        = some [(0, 29)] ∧
    (scannedInstrs namedPointerPass).filter
        (fun i => match i with
          | .fieldAddr _ _ _ _ => true
          | _ => false) =
      [.fieldAddr 1 (.named "p.PT" (.pointer exStructT)) 0 (some [.other])] ∧
    specAddressedStruct (.named "p.PT" (.pointer exStructT)) = "p.T" ∧
    fieldIsUsed 1 [Referrer.other] = true ∧
    fieldAddrTypeName (.named "p.PT" (.pointer exStructT)) = "p.PT" ∧
    (registerPackageUnexportedDefinitions Char.isUpper Char.toLower namedPointerPass.files
      newExecutionMetadata).structRegistry.lookup "p.PT" = none ∧
    run Char.isUpper Char.toLower namedPointerPass = [⟨29, .fieldNotUsed⟩] ∧
    (scannedInstrs plainPointerPass).filter
        (fun i => match i with
          | .fieldAddr _ _ _ _ => true
          | _ => false) =
      [.fieldAddr 1 (.pointer exStructT) 0 (some [.other])] ∧
    fieldAddrTypeName (.pointer exStructT) = "p.T" ∧
    run Char.isUpper Char.toLower plainPointerPass = [] :=
  ⟨rfl, rfl, rfl, rfl, rfl, rfl, rfl, rfl, rfl, rfl⟩

theorem example_declaredIdents :
    declaredIdents examplePass.files =
      [⟨"iface", 17, some 17, some (.typeName "p.iface" 17)⟩,
       ⟨"m", 36, some 36, some (.func exIm)⟩,
       identT 52, identVar "x" 64, identVar "Y" 71,
       exTmDecl.name, exFDecl.name, exGDecl.name, exExportedDecl.name] := rfl

theorem example_hobj : ∀ n ∈ declaredIdents examplePass.files, ∀ f,
    n.typesObj = some (.func f) → f.pos = n.pos := by
  intro n hn f hf
  rw [example_declaredIdents] at hn
  simp only [List.mem_cons, List.mem_singleton, List.not_mem_nil, or_false] at hn
  rcases hn with rfl | rfl | rfl | rfl | rfl | rfl | rfl | rfl | rfl
  · simp at hf
  · injection hf with hf; injection hf with hf; subst hf; rfl
  · simp [identT] at hf
  · simp [identVar] at hf
  · simp [identVar] at hf
  · injection hf with hf; injection hf with hf; subst hf; rfl
  · injection hf with hf; injection hf with hf; subst hf; rfl
  · injection hf with hf; injection hf with hf; subst hf; rfl
  · injection hf with hf; injection hf with hf; subst hf; rfl

/-- Witness of C6 on the example package, at the exported function `Exported`. -/
theorem C6_exported_never_reported_witness :
    (∀ n ∈ declaredIdents examplePass.files, ∀ f,
      n.typesObj = some (.func f) → f.pos = n.pos) ∧
    (∀ n ∈ declaredIdents examplePass.files, ∀ m ∈ declaredIdents examplePass.files,
      n.pos = m.pos → n.name = m.name) ∧
    exExportedDecl.name ∈ declaredIdents examplePass.files ∧
    IsExported Char.isUpper exExportedDecl.name.name = true ∧
    ∀ d ∈ run Char.isUpper Char.toLower examplePass, d.pos ≠ exExportedDecl.name.pos :=
  ⟨example_hobj, by decide, by rw [example_declaredIdents]; simp, rfl,
    C6_exported_never_reported Char.isUpper Char.toLower examplePass example_hobj (by decide)
      exExportedDecl.name (by rw [example_declaredIdents]; simp) rfl⟩

/-! ## The seeding of the struct registry -/

section FieldSeeding

variable (unicodeIsUpper : Char → Bool)

theorem registerFieldNames_eq (names : List Ident) (st : Nat × GoMap Nat Pos) :
    registerFieldNames unicodeIsUpper names st =
      (names.map some).foldl (slotStep unicodeIsUpper) st := by
  unfold registerFieldNames
  rw [List.foldl_map]
  rfl

theorem registerFields_eq (fields : List Field) (st : Nat × GoMap Nat Pos) :
    registerFields unicodeIsUpper fields st =
      (fieldSlots (some fields)).foldl (slotStep unicodeIsUpper) st := by
  unfold registerFields fieldSlots
  induction fields generalizing st with
  | nil => rfl
  | cons f rest ih =>
    simp only [List.foldl_cons, List.map_cons, List.flatten_cons, List.foldl_append]
    rw [ih]
    congr 1
    cases hn : f.names with
    | nil => rfl
    | cons n ns => exact registerFieldNames_eq unicodeIsUpper (n :: ns) st

theorem slotStep_eq (i0 : Nat) (m0 : GoMap Nat Pos) (s : Option Ident) :
    slotStep unicodeIsUpper (i0, m0) s =
      (i0 + 1, match trackedPos unicodeIsUpper (some s) with
        | some p => m0.set i0 p
        | none => m0) := by
  cases s with
  | none => rfl
  | some name =>
    simp only [slotStep, trackedPos]
    split <;> rfl

theorem foldl_slotStep_fst (slots : List (Option Ident)) (i0 : Nat) (m0 : GoMap Nat Pos) :
    (slots.foldl (slotStep unicodeIsUpper) (i0, m0)).1 = i0 + slots.length := by
  induction slots generalizing i0 m0 with
  | nil => rfl
  | cons s rest ih =>
    simp only [List.foldl_cons, slotStep_eq, List.length_cons]
    rw [ih]
    omega

theorem foldl_slotStep_nodup (slots : List (Option Ident)) (i0 : Nat) (m0 : GoMap Nat Pos)
    (h : m0.keys.Nodup) :
    (slots.foldl (slotStep unicodeIsUpper) (i0, m0)).2.keys.Nodup := by
  induction slots generalizing i0 m0 with
  | nil => exact h
  | cons s rest ih =>
    simp only [List.foldl_cons, slotStep_eq]
    apply ih
    split
    · exact GoMap.nodup_keys_set _ _ _ h
    · exact h

theorem foldl_slotStep_below (slots : List (Option Ident)) (i0 : Nat) (m0 : GoMap Nat Pos)
    (k : Nat) (hk : k < i0) :
    (slots.foldl (slotStep unicodeIsUpper) (i0, m0)).2.lookup k = m0.lookup k := by
  induction slots generalizing i0 m0 with
  | nil => rfl
  | cons s rest ih =>
    simp only [List.foldl_cons, slotStep_eq]
    rw [ih _ _ (by omega)]
    split
    · rw [GoMap.lookup_set, if_neg (by omega)]
    · rfl

theorem foldl_slotStep_lookup (slots : List (Option Ident)) (i0 : Nat) (m0 : GoMap Nat Pos)
    (j : Nat) :
    (slots.foldl (slotStep unicodeIsUpper) (i0, m0)).2.lookup (i0 + j) =
      match trackedPos unicodeIsUpper (slots[j]?) with
      | some p => some p
      | none => m0.lookup (i0 + j) := by
  induction slots generalizing i0 m0 j with
  | nil => simp [trackedPos]
  | cons s rest ih =>
    simp only [List.foldl_cons, slotStep_eq]
    cases j with
    | zero =>
      rw [Nat.add_zero, foldl_slotStep_below _ _ _ _ _ (by omega)]
      simp only [List.getElem?_cons_zero]
      cases trackedPos unicodeIsUpper (some s) with
      | none => rfl
      | some p => simp [GoMap.lookup_set]
    | succ j =>
      have e : i0 + (j + 1) = i0 + 1 + j := by omega
      rw [e, ih]
      simp only [List.getElem?_cons_succ]
      cases trackedPos unicodeIsUpper (rest[j]?) with
      | some p => rfl
      | none =>
        simp only
        split
        · rw [GoMap.lookup_set, if_neg (by omega)]
        · rfl

theorem trackedPos_eq_some (slot : Option (Option Ident)) (q : Pos) :
    trackedPos unicodeIsUpper slot = some q ↔
      ∃ name, slot = some (some name) ∧ IsExported unicodeIsUpper name.name = false ∧
        q = name.pos := by
  cases slot with
  | none => simp [trackedPos]
  | some s =>
    cases s with
    | none => simp [trackedPos]
    | some name =>
      simp only [trackedPos]
      cases h : IsExported unicodeIsUpper name.name
      · simp only [Bool.false_eq_true, if_false, Option.some.injEq]
        constructor
        · intro hq
          exact ⟨name, rfl, h, hq.symm⟩
        · rintro ⟨n2, hn, _, hq⟩
          cases hn
          exact hq.symm
      · simp only [if_true]
        constructor
        · intro hq
          cases hq
        · rintro ⟨n2, hn, hexp, _⟩
          cases hn
          rw [h] at hexp
          cases hexp

/-- The map `unusedFields` that `registerStruct` builds: slot `k` is tracked exactly when it
is a named unexported field, under the position of its name. -/
theorem freshStruct_unusedFields (specName : Ident) (fields : Option (List Field))
    (fullName : String) :
    (freshStruct unicodeIsUpper specName fields fullName).unusedFields.keys.Nodup ∧
    ∀ k, (freshStruct unicodeIsUpper specName fields fullName).unusedFields.lookup k =
      trackedPos unicodeIsUpper ((fieldSlots fields)[k]?) := by
  cases fields with
  | none =>
    refine ⟨List.nodup_nil, fun k => ?_⟩
    simp [freshStruct, fieldSlots, trackedPos, GoMap.lookup]
  | some list =>
    simp only [freshStruct, registerFields_eq]
    refine ⟨foldl_slotStep_nodup _ _ _ _ List.nodup_nil, fun k => ?_⟩
    have h := foldl_slotStep_lookup unicodeIsUpper (fieldSlots (some list)) 0 [] k
    rw [Nat.zero_add] at h
    rw [h]
    cases trackedPos unicodeIsUpper ((fieldSlots (some list))[k]?) <;> rfl

theorem registerStruct_eq (em : ExecutionMetadata) (specName : Ident)
    (fields : Option (List Field)) (fullName : String) (p : Pos)
    (hobj : specName.typesObj = some (.typeName fullName p)) :
    registerStruct unicodeIsUpper em specName fields =
      { em with structRegistry :=
          em.structRegistry.set fullName (freshStruct unicodeIsUpper specName fields fullName) } := by
  simp only [registerStruct, hobj, freshStruct]

end FieldSeeding

section StructEvents

variable (unicodeIsUpper : Char → Bool) (unicodeToLower : Char → Char)

theorem struct_not_mem_methodEvents (m : Field) (sn : Ident) (fs : Option (List Field)) :
    RegEvent.struct sn fs ∉ methodEvents unicodeIsUpper m := by
  unfold methodEvents
  cases m.funcType with
  | none => simp
  | some ft =>
    simp only [List.mem_flatten, List.mem_map, not_exists, not_and]
    rintro l ⟨n, _, rfl⟩
    unfold methodNameEvents
    split
    · simp
    · split <;> simp

theorem struct_mem_specEvents (spec : Spec) (sn : Ident) (fs : Option (List Field)) :
    RegEvent.struct sn fs ∈ specEvents unicodeIsUpper spec ↔
      spec = .typeSpec sn (.structType fs) := by
  cases spec with
  | typeSpec name te =>
    cases te with
    | structType fields =>
      simp only [specEvents, List.mem_singleton, RegEvent.struct.injEq, Spec.typeSpec.injEq,
        TypeExpr.structType.injEq]
      constructor
      · rintro ⟨h1, h2⟩
        exact ⟨h1.symm, h2.symm⟩
      · rintro ⟨h1, h2⟩
        exact ⟨h1.symm, h2.symm⟩
    | interfaceType methods =>
      simp only [specEvents, List.mem_append, List.mem_flatten, List.mem_map]
      constructor
      · rintro (h | ⟨l, ⟨m, _, rfl⟩, h⟩)
        · split at h <;> simp at h
        · exact absurd h (struct_not_mem_methodEvents unicodeIsUpper m sn fs)
      · intro h
        cases h
    | other => simp [specEvents]
  | valueSpec names =>
    simp only [specEvents, List.mem_flatten, List.mem_map]
    constructor
    · rintro ⟨l, ⟨n, _, rfl⟩, h⟩
      unfold valueNameEvents at h
      split at h <;> simp at h
    · intro h
      cases h
  | other => simp [specEvents]

theorem struct_mem_genDeclEvents (decl : Decl) (sn : Ident) (fs : Option (List Field)) :
    RegEvent.struct sn fs ∈ genDeclEvents unicodeIsUpper decl ↔ (sn, fs) ∈ declStructSpecs decl := by
  cases decl with
  | genDecl specs =>
    simp only [genDeclEvents, declStructSpecs, List.mem_flatten, List.mem_map]
    constructor
    · rintro ⟨l, ⟨spec, hs, rfl⟩, h⟩
      rw [struct_mem_specEvents] at h
      subst h
      exact ⟨_, ⟨_, hs, rfl⟩, by simp⟩
    · rintro ⟨l, ⟨spec, hs, rfl⟩, h⟩
      refine ⟨_, ⟨spec, hs, rfl⟩, ?_⟩
      rw [struct_mem_specEvents]
      cases spec with
      | typeSpec name te =>
        cases te with
        | structType fields =>
          simp only [List.mem_singleton, Prod.mk.injEq] at h
          rw [h.1, h.2]
        | interfaceType methods => simp at h
        | other => simp at h
      | valueSpec names => simp at h
      | other => simp at h
  | funcDecl fn => simp [genDeclEvents, declStructSpecs]
  | other => simp [genDeclEvents, declStructSpecs]

theorem struct_mem_genEvents (files : List File) (sn : Ident) (fs : Option (List Field)) :
    RegEvent.struct sn fs ∈ genEvents unicodeIsUpper files ↔ (sn, fs) ∈ structSpecs files := by
  simp only [genEvents, structSpecs, mem_flatten_map]
  constructor
  · rintro ⟨file, hf, decl, hd, h⟩
    exact ⟨file, hf, decl, hd, (struct_mem_genDeclEvents unicodeIsUpper decl sn fs).1 h⟩
  · rintro ⟨file, hf, decl, hd, h⟩
    exact ⟨file, hf, decl, hd, (struct_mem_genDeclEvents unicodeIsUpper decl sn fs).2 h⟩

theorem struct_not_mem_funcEvents (files : List File) (sn : Ident) (fs : Option (List Field)) :
    RegEvent.struct sn fs ∉ funcEvents unicodeIsUpper unicodeToLower files := by
  simp only [funcEvents, mem_flatten_map, not_exists, not_and]
  intro file _ decl _
  cases decl with
  | genDecl specs => simp [funcDeclEvents]
  | funcDecl fn =>
    simp only [funcDeclEvents]
    split
    · split
      · intro h
        rcases List.mem_cons.1 h with h | h
        · cases h
        · split at h <;> simp at h
      · simp
    · simp
  | other => simp [funcDeclEvents]

theorem struct_mem_registrationEvents (files : List File) (sn : Ident)
    (fs : Option (List Field)) :
    RegEvent.struct sn fs ∈ registrationEvents unicodeIsUpper unicodeToLower files ↔
      (sn, fs) ∈ structSpecs files := by
  unfold registrationEvents
  rw [List.mem_append, struct_mem_genEvents]
  constructor
  · rintro (h | h)
    · exact h
    · exact absurd h (struct_not_mem_funcEvents unicodeIsUpper unicodeToLower files sn fs)
  · exact Or.inl

theorem isSome_struct_applyRegEvent (em : ExecutionMetadata) (e : RegEvent) (name : String)
    (h : (em.structRegistry.lookup name).isSome = true) :
    ((applyRegEvent unicodeIsUpper em e).structRegistry.lookup name).isSome = true := by
  rw [applyRegEvent_structRegistry]
  cases e with
  | struct specName fields =>
    simp only
    split
    · rw [GoMap.lookup_set]
      split
      · rfl
      · exact h
    · exact h
  | function funcObj numResults params => exact h
  | other pos nm => exact h
  | receiver pos => exact h

theorem isSome_struct_foldl_of_isSome (events : List RegEvent) (em : ExecutionMetadata)
    (name : String) (h : (em.structRegistry.lookup name).isSome = true) :
    ((events.foldl (applyRegEvent unicodeIsUpper) em).structRegistry.lookup name).isSome
      = true := by
  induction events generalizing em with
  | nil => exact h
  | cons e rest ih =>
    simp only [List.foldl_cons]
    exact ih _ (isSome_struct_applyRegEvent unicodeIsUpper em e name h)

theorem isSome_struct_foldl_applyRegEvent (events : List RegEvent) (em : ExecutionMetadata)
    (sn : Ident) (fs : Option (List Field)) (name : String) (p : Pos)
    (hm : RegEvent.struct sn fs ∈ events) (hobj : sn.typesObj = some (.typeName name p)) :
    ((events.foldl (applyRegEvent unicodeIsUpper) em).structRegistry.lookup name).isSome
      = true := by
  induction events generalizing em with
  | nil => simp at hm
  | cons e rest ih =>
    simp only [List.foldl_cons]
    rcases List.mem_cons.1 hm with h | h
    · subst h
      apply isSome_struct_foldl_of_isSome
      rw [applyRegEvent_structRegistry]
      simp only [hobj, GoMap.lookup_set, if_true, Option.isSome_some]
    · exact ih _ h

/-- The entry of a declared struct after registration, when its type string is that of no
other struct declaration. -/
theorem registered_struct_is_fresh (files : List File) (specName : Ident)
    (fields : Option (List Field)) (fullName : String) (p : Pos)
    (hspec : (specName, fields) ∈ structSpecs files)
    (hobj : specName.typesObj = some (.typeName fullName p))
    (huniq : ∀ sn fs q, (sn, fs) ∈ structSpecs files →
      sn.typesObj = some (.typeName fullName q) → sn = specName ∧ fs = fields) :
    (registerPackageUnexportedDefinitions unicodeIsUpper unicodeToLower files
      newExecutionMetadata).structRegistry.lookup fullName =
        some (freshStruct unicodeIsUpper specName fields fullName) := by
  rw [register_eq_foldl]
  have hm := (struct_mem_registrationEvents unicodeIsUpper unicodeToLower files
    specName fields).2 hspec
  have hsome := isSome_struct_foldl_applyRegEvent unicodeIsUpper _ newExecutionMetadata
    specName fields fullName p hm hobj
  obtain ⟨se, hse⟩ := Option.isSome_iff_exists.1 hsome
  rcases lookup_struct_foldl_applyRegEvent unicodeIsUpper _ _ _ _ hse with h | h
  · simp [newExecutionMetadata, GoMap.lookup] at h
  · obtain ⟨sn, fs, q, hmem, hq, hfresh⟩ := h
    obtain ⟨e1, e2⟩ := huniq sn fs q
      ((struct_mem_registrationEvents unicodeIsUpper unicodeToLower files sn fs).1 hmem) hq
    rw [hse, hfresh, e1, e2]

end StructEvents

section StructSeedingClaim

variable (unicodeIsUpper : Char → Bool) (unicodeToLower : Char → Char)

/-- C11. `registerStruct` stores an entry under the type string of the declared struct,
exported or not, and every struct type declaration at package level has that entry after
registration.  The entry has `referenced = false`, and its map `unusedFields` holds exactly
the unexported named fields: slot `k` of the field list (one slot per name of a field line
and one per embedded field, the numbering of the type checker) is a key if and only if it
is a named field that is not exported, and the value is the position of that name.
Exported and embedded fields take their slot and are not added.  The type string is assumed
to be that of no other struct declaration. -/
theorem C11_struct_fields_seeded_by_index (files : List File) (specName : Ident)
    (fields : Option (List Field)) (fullName : String) (p : Pos)
    (hspec : (specName, fields) ∈ structSpecs files)
    (hobj : specName.typesObj = some (.typeName fullName p))
    (huniq : ∀ sn fs q, (sn, fs) ∈ structSpecs files →
      sn.typesObj = some (.typeName fullName q) → sn = specName ∧ fs = fields) :
    ∃ se,
      (∀ em : ExecutionMetadata,
        (registerStruct unicodeIsUpper em specName fields).structRegistry.lookup fullName
          = some se) ∧
      (registerPackageUnexportedDefinitions unicodeIsUpper unicodeToLower files
        newExecutionMetadata).structRegistry.lookup fullName = some se ∧
      se.fullName = fullName ∧ se.pos = specName.pos ∧ se.referenced = false ∧
      se.exported = IsExported unicodeIsUpper specName.name ∧
      se.unusedFields.keys.Nodup ∧
      ∀ k q, se.unusedFields.lookup k = some q ↔
        ∃ name, (fieldSlots fields)[k]? = some (some name) ∧
          IsExported unicodeIsUpper name.name = false ∧ q = name.pos := by
  refine ⟨freshStruct unicodeIsUpper specName fields fullName,
    fun em => by
      rw [registerStruct_eq unicodeIsUpper em specName fields fullName p hobj]
      simp only [GoMap.lookup_set, if_true],
    registered_struct_is_fresh unicodeIsUpper unicodeToLower files specName fields fullName p
      hspec hobj huniq, rfl, rfl, rfl, rfl,
    (freshStruct_unusedFields unicodeIsUpper specName fields fullName).1, ?_⟩
  intro k q
  rw [(freshStruct_unusedFields unicodeIsUpper specName fields fullName).2 k]
  exact trackedPos_eq_some unicodeIsUpper _ q

end StructSeedingClaim

theorem example_structSpecs :
    structSpecs [exSFile] =
      [(⟨"Base", 17, some 17, some (.typeName "p.Base" 17)⟩, some []),
       (exSName, some exSFields)] := rfl

theorem example_huniq_S : ∀ sn fs q, (sn, fs) ∈ structSpecs [exSFile] →
    sn.typesObj = some (.typeName "p.S" q) → sn = exSName ∧ fs = some exSFields := by
  intro sn fs q hm hq
  rw [example_structSpecs] at hm
  simp only [List.mem_cons, List.mem_singleton, List.not_mem_nil, or_false,
    Prod.mk.injEq] at hm
  rcases hm with ⟨rfl, rfl⟩ | ⟨rfl, rfl⟩
  · simp at hq
  · exact ⟨rfl, rfl⟩

/-- Witness of C11 on the struct `S` with the field lines `a, B int`, `Base` and `c int`:
the slots are `a`, `B`, the embedded `Base` and `c`, and the tracked keys are 0 and 3. -/
theorem C11_struct_fields_seeded_by_index_witness :
    fieldSlots (some exSFields) =
      [some (identVar "a" 49), some (identVar "B" 52), none, some (identVar "c" 65)] ∧
    ∃ se,
      (∀ em : ExecutionMetadata,
        (registerStruct Char.isUpper em exSName (some exSFields)).structRegistry.lookup "p.S"
          = some se) ∧
      (registerPackageUnexportedDefinitions Char.isUpper Char.toLower [exSFile]
        newExecutionMetadata).structRegistry.lookup "p.S" = some se ∧
      se.fullName = "p.S" ∧ se.pos = exSName.pos ∧ se.referenced = false ∧
      se.exported = IsExported Char.isUpper exSName.name ∧
      se.unusedFields.keys.Nodup ∧
      ∀ k q, se.unusedFields.lookup k = some q ↔
        ∃ name, (fieldSlots (some exSFields))[k]? = some (some name) ∧
          IsExported Char.isUpper name.name = false ∧ q = name.pos :=
  ⟨rfl,
    C11_struct_fields_seeded_by_index Char.isUpper Char.toLower [exSFile] exSName
      (some exSFields) "p.S" 37
      (by rw [example_structSpecs]; exact List.mem_cons_of_mem _ (List.mem_singleton.2 rfl))
      rfl example_huniq_S⟩

/-! ## The struct and field diagnostics of `reportErrors` -/

theorem filter_structName_reportStruct (name : String) (se : StructEntry) :
    (reportStruct se).filter (fun d => decide (d.message.structName = some name)) =
      if se.fullName = name ∧ se.exported = false ∧ se.referenced = false then
        [⟨se.pos, .structNotUsed se.fullName⟩]
      else [] := by
  unfold reportStruct
  rw [List.filter_append]
  have hf : (se.unusedFields.map (fun kv => (⟨kv.2, .fieldNotUsed⟩ : Diagnostic))).filter
      (fun d => decide (d.message.structName = some name)) = [] := by
    rw [List.filter_eq_nil_iff]
    intro d hd
    obtain ⟨kv, _, rfl⟩ := List.mem_map.1 hd
    simp [Message.structName]
  rw [hf, List.append_nil]
  cases hr : se.referenced <;> cases he : se.exported <;>
    by_cases hn : se.fullName = name <;>
    simp [Message.structName, hn]

theorem filter_isField_reportStruct (se : StructEntry) :
    (reportStruct se).filter (fun d => d.message.isField) =
      se.unusedFields.map (fun f => (⟨f.2, .fieldNotUsed⟩ : Diagnostic)) := by
  unfold reportStruct
  rw [List.filter_append]
  have h1 : (if (!se.referenced && !se.exported) = true then
      [(⟨se.pos, .structNotUsed se.fullName⟩ : Diagnostic)] else []).filter
      (fun d => d.message.isField) = [] := by
    split <;> simp [Message.isField]
  have h2 : (se.unusedFields.map (fun kv => (⟨kv.2, .fieldNotUsed⟩ : Diagnostic))).filter
      (fun d => d.message.isField) =
      se.unusedFields.map (fun kv => (⟨kv.2, .fieldNotUsed⟩ : Diagnostic)) := by
    rw [List.filter_eq_self]
    intro d hd
    obtain ⟨kv, _, rfl⟩ := List.mem_map.1 hd
    rfl
  rw [h1, h2, List.nil_append]

theorem filter_struct_part (name : String) (m : GoMap String StructEntry)
    (hwf : StructRegistryWF m) :
    ((m.map (fun kv => reportStruct kv.2)).flatten).filter
        (fun d => decide (d.message.structName = some name)) =
      match m.lookup name with
      | some se =>
        if se.exported = false ∧ se.referenced = false then
          [⟨se.pos, .structNotUsed name⟩]
        else []
      | none => [] := by
  induction m with
  | nil => rfl
  | cons p rest ih =>
    obtain ⟨k0, se0⟩ := p
    have hn : k0 ∉ GoMap.keys rest ∧ (GoMap.keys rest).Nodup := by
      simpa [GoMap.keys] using hwf.1
    have hrest : StructRegistryWF rest :=
      ⟨hn.2, fun kv hkv => hwf.2 kv (List.mem_cons_of_mem _ hkv)⟩
    have hk0 : se0.fullName = k0 := hwf.2 (k0, se0) (List.mem_cons_self _ _)
    simp only [List.map_cons, List.flatten_cons, List.filter_append, ih hrest, GoMap.lookup,
      filter_structName_reportStruct, hk0]
    by_cases h : k0 = name
    · subst h
      have hl : GoMap.lookup rest k0 = none := (GoMap.lookup_eq_none_iff rest k0).2 hn.1
      simp [hl]
    · simp [h]

theorem filter_isField_struct_part (m : GoMap String StructEntry) :
    ((m.map (fun kv => reportStruct kv.2)).flatten).filter (fun d => d.message.isField) =
      (m.map (fun kv =>
        kv.2.unusedFields.map (fun f => (⟨f.2, .fieldNotUsed⟩ : Diagnostic)))).flatten := by
  induction m with
  | nil => rfl
  | cons p rest ih =>
    simp only [List.map_cons, List.flatten_cons, List.filter_append, ih,
      filter_isField_reportStruct]

theorem reportFunction_structName (fe : FunctionEntry) (d : Diagnostic)
    (h : d ∈ reportFunction fe) : d.message.structName = none ∧ d.message.isField = false := by
  unfold reportFunction at h
  split at h
  · simp only [List.mem_singleton] at h; subst h; exact ⟨rfl, rfl⟩
  · split at h
    · simp only [List.mem_singleton] at h; subst h; exact ⟨rfl, rfl⟩
    · split at h
      · simp only [List.mem_singleton] at h; subst h; exact ⟨rfl, rfl⟩
      · simp at h

theorem filter_function_other_parts (em : ExecutionMetadata) (q : Diagnostic → Bool)
    (hq1 : ∀ fe, ∀ d ∈ reportFunction fe, q d = false)
    (hq2 : ∀ pos name, q ⟨pos, .otherNotUsed name⟩ = false) :
    (reportErrors em).filter q =
      ((em.structRegistry.map (fun kv => reportStruct kv.2)).flatten).filter q := by
  unfold reportErrors
  rw [List.filter_append, List.filter_append]
  have h1 : ((em.functionRegistry.map (fun kv => reportFunction kv.2)).flatten).filter q
      = [] := by
    rw [List.filter_eq_nil_iff]
    intro d hd
    obtain ⟨l, hl, hdl⟩ := List.mem_flatten.1 hd
    obtain ⟨kv, _, rfl⟩ := List.mem_map.1 hl
    simp [hq1 kv.2 d hdl]
  have h2 : (em.otherUnusedDefinitions.map
      (fun kv => (⟨kv.1, .otherNotUsed kv.2⟩ : Diagnostic))).filter q = [] := by
    rw [List.filter_eq_nil_iff]
    intro d hd
    obtain ⟨kv, _, rfl⟩ := List.mem_map.1 hd
    simp [hq2]
  rw [h1, h2, List.append_nil, List.append_nil]

/-- The struct diagnostics of `reportErrors` about the struct `name`. -/
theorem filter_reportErrors_struct (em : ExecutionMetadata) (name : String)
    (hwf : StructRegistryWF em.structRegistry) :
    (reportErrors em).filter (fun d => decide (d.message.structName = some name)) =
      match em.structRegistry.lookup name with
      | some se =>
        if se.exported = false ∧ se.referenced = false then
          [⟨se.pos, .structNotUsed name⟩]
        else []
      | none => [] := by
  rw [filter_function_other_parts em _
    (fun fe d hd => by simp [(reportFunction_structName fe d hd).1])
    (fun pos nm => by simp [Message.structName])]
  exact filter_struct_part name _ hwf

/-- The field diagnostics of `reportErrors`. -/
theorem filter_reportErrors_isField (em : ExecutionMetadata) :
    (reportErrors em).filter (fun d => d.message.isField) =
      (em.structRegistry.map (fun kv =>
        kv.2.unusedFields.map (fun f => (⟨f.2, .fieldNotUsed⟩ : Diagnostic)))).flatten := by
  rw [filter_function_other_parts em _
    (fun fe d hd => (reportFunction_structName fe d hd).2)
    (fun pos nm => rfl)]
  exact filter_isField_struct_part _

section StructWF

variable (unicodeIsUpper : Char → Bool) (unicodeToLower : Char → Char)

theorem wf_struct_foldl_applyRegEvent (events : List RegEvent) (em : ExecutionMetadata)
    (h : StructRegistryWF em.structRegistry) :
    StructRegistryWF (events.foldl (applyRegEvent unicodeIsUpper) em).structRegistry := by
  refine ⟨nodup_struct_foldl_applyRegEvent unicodeIsUpper events em h.1, ?_⟩
  intro kv hkv
  have hl := GoMap.lookup_of_mem _ kv.1 kv.2
    (nodup_struct_foldl_applyRegEvent unicodeIsUpper events em h.1) hkv
  rcases lookup_struct_foldl_applyRegEvent unicodeIsUpper _ _ _ _ hl with h1 | h1
  · exact h.2 (kv.1, kv.2) (GoMap.mem_of_lookup _ _ _ h1)
  · obtain ⟨sn, fs, p, _, _, hfresh⟩ := h1
    rw [hfresh]
    rfl

theorem wf_struct_foldl_applyStep (steps : List Step) (em : ExecutionMetadata)
    (h : StructRegistryWF em.structRegistry) :
    StructRegistryWF (steps.foldl applyStep em).structRegistry := by
  have hnd : (steps.foldl applyStep em).structRegistry.keys.Nodup := by
    rw [keys_foldl_applyStep_struct]
    exact h.1
  refine ⟨hnd, ?_⟩
  intro kv hkv
  have hl := GoMap.lookup_of_mem _ kv.1 kv.2 hnd hkv
  rw [lookup_foldl_applyStep_struct] at hl
  cases h0 : em.structRegistry.lookup kv.1 with
  | none => rw [h0] at hl; cases hl
  | some se0 =>
    rw [h0] at hl
    injection hl with hl
    rw [← hl, (foldl_stepStruct_fields _ kv.1 steps se0).1]
    exact h.2 (kv.1, se0) (GoMap.mem_of_lookup _ _ _ h0)

/-- The struct registry that `run` hands to `reportErrors` is well formed. -/
theorem wf_struct_finalMetadata (pass : Pass) :
    StructRegistryWF (finalMetadata unicodeIsUpper unicodeToLower pass).structRegistry := by
  rw [finalMetadata_eq_foldl, register_eq_foldl]
  apply wf_struct_foldl_applyStep
  apply wf_struct_foldl_applyRegEvent
  exact ⟨List.nodup_nil, fun kv hkv => by simp [newExecutionMetadata] at hkv⟩

end StructWF

/-- C12. For a struct entry of a well-formed registry, `reportErrors` emits the struct
diagnostic exactly when the entry is unexported and not referenced (once, at its position),
and, independently of both flags, the field diagnostics of `reportErrors` are exactly one per
entry that remains in `unusedFields` of every struct entry, at the position stored in that
entry.  So an exported struct with a remaining field yields the field diagnostic and no
struct diagnostic, and an unreferenced unexported struct yields both. -/
theorem C12_struct_and_field_diagnostics (em : ExecutionMetadata) (name : String)
    (se : StructEntry) (hwf : StructRegistryWF em.structRegistry)
    (hse : em.structRegistry.lookup name = some se) :
    ((reportErrors em).filter (fun d => decide (d.message.structName = some name)) =
      if se.exported = false ∧ se.referenced = false then [⟨se.pos, .structNotUsed name⟩]
      else []) ∧
    ((reportErrors em).filter (fun d => d.message.isField) =
      (em.structRegistry.map (fun kv =>
        kv.2.unusedFields.map (fun f => (⟨f.2, .fieldNotUsed⟩ : Diagnostic)))).flatten) ∧
    (∀ f ∈ se.unusedFields, (⟨f.2, .fieldNotUsed⟩ : Diagnostic) ∈ reportErrors em) ∧
    (se.exported = true → ∀ pos, (⟨pos, .structNotUsed name⟩ : Diagnostic) ∉ reportErrors em) ∧
    (se.exported = false → se.referenced = false →
      (⟨se.pos, .structNotUsed name⟩ : Diagnostic) ∈ reportErrors em) := by
  have h1 := filter_reportErrors_struct em name hwf
  rw [hse] at h1
  simp only at h1
  refine ⟨h1, filter_reportErrors_isField em, ?_, ?_, ?_⟩
  · intro f hf
    rw [fieldNotUsed_mem_reportErrors]
    exact ⟨(name, se), GoMap.mem_of_lookup _ _ _ hse, f, hf, rfl⟩
  · intro hexp pos hmem
    have hm : (⟨pos, .structNotUsed name⟩ : Diagnostic) ∈
        (reportErrors em).filter (fun d => decide (d.message.structName = some name)) := by
      rw [List.mem_filter]
      exact ⟨hmem, by simp [Message.structName]⟩
    rw [h1, if_neg (by simp [hexp])] at hm
    cases hm
  · intro hexp href
    have hm : (⟨se.pos, .structNotUsed name⟩ : Diagnostic) ∈
        (reportErrors em).filter (fun d => decide (d.message.structName = some name)) := by
      rw [h1, if_pos ⟨hexp, href⟩]
      exact List.mem_singleton.2 rfl
    exact (List.mem_filter.1 hm).1

/-- Witness of C12 on the example package: the exported struct `T` keeps its field `x`, so
the field diagnostic is reported and no struct diagnostic is. -/
theorem C12_struct_and_field_diagnostics_witness :
    (finalMetadata Char.isUpper Char.toLower examplePass).structRegistry.lookup "p.T" =
      some { exTEntry with referenced := true } ∧
    (((reportErrors (finalMetadata Char.isUpper Char.toLower examplePass)).filter
        (fun d => decide (d.message.structName = some "p.T")) =
      if ({ exTEntry with referenced := true } : StructEntry).exported = false ∧
          ({ exTEntry with referenced := true } : StructEntry).referenced = false then
        [⟨({ exTEntry with referenced := true } : StructEntry).pos, .structNotUsed "p.T"⟩]
      else []) ∧
    ((reportErrors (finalMetadata Char.isUpper Char.toLower examplePass)).filter
        (fun d => d.message.isField) =
      ((finalMetadata Char.isUpper Char.toLower examplePass).structRegistry.map (fun kv =>
        kv.2.unusedFields.map (fun f => (⟨f.2, .fieldNotUsed⟩ : Diagnostic)))).flatten) ∧
    (∀ f ∈ ({ exTEntry with referenced := true } : StructEntry).unusedFields,
      (⟨f.2, .fieldNotUsed⟩ : Diagnostic) ∈
        reportErrors (finalMetadata Char.isUpper Char.toLower examplePass)) ∧
    (({ exTEntry with referenced := true } : StructEntry).exported = true →
      ∀ pos, (⟨pos, .structNotUsed "p.T"⟩ : Diagnostic) ∉
        reportErrors (finalMetadata Char.isUpper Char.toLower examplePass)) ∧
    (({ exTEntry with referenced := true } : StructEntry).exported = false →
      ({ exTEntry with referenced := true } : StructEntry).referenced = false →
      (⟨({ exTEntry with referenced := true } : StructEntry).pos,
        .structNotUsed "p.T"⟩ : Diagnostic) ∈
        reportErrors (finalMetadata Char.isUpper Char.toLower examplePass))) :=
  ⟨rfl,
    C12_struct_and_field_diagnostics (finalMetadata Char.isUpper Char.toLower examplePass)
      "p.T" { exTEntry with referenced := true }
      (wf_struct_finalMetadata Char.isUpper Char.toLower examplePass) rfl⟩

/-! ## The flag `referenced` of a struct entry -/

theorem identMarksStruct_iff (rp : GoMap Pos Bool) (name : String) (n : Ident) :
    identMarksStruct rp name n = true ↔
      n.astObj ≠ some n.pos ∧ (∃ p, n.typesObj = some (.typeName name p)) ∧
        (rp.lookup n.pos).getD false = false := by
  unfold identMarksStruct
  simp only [Bool.and_eq_true, Bool.not_eq_true', decide_eq_false_iff_not]
  constructor
  · rintro ⟨⟨h1, h2⟩, h3⟩
    refine ⟨h1, ?_, h3⟩
    split at h2
    · rename_i ts p heq
      exact ⟨p, by rw [heq, of_decide_eq_true h2]⟩
    · cases h2
  · rintro ⟨h1, ⟨p, h2⟩, h3⟩
    refine ⟨⟨h1, ?_⟩, h3⟩
    rw [h2]
    simp

theorem stepStruct_referenced_ident (rp : GoMap Pos Bool) (name : String) (se : StructEntry)
    (n : Ident) :
    (stepStruct rp name se (.ident n)).referenced =
      (se.referenced || identMarksStruct rp name n) := by
  simp only [stepStruct, identMarksStruct]
  by_cases h1 : n.astObj = some n.pos
  · simp [h1]
  · rw [if_neg h1]
    cases hobj : n.typesObj with
    | none => simp
    | some o =>
      cases o with
      | func f => simp
      | other p => simp
      | typeName ts p =>
        simp only
        by_cases h2 : ts = name ∧ (rp.lookup n.pos).getD false = false
        · rw [if_pos h2]
          simp [h1, h2.1, h2.2]
        · rw [if_neg h2]
          by_cases h3 : ts = name
          · have h4 : (rp.lookup n.pos).getD false = true := by
              cases h5 : (rp.lookup n.pos).getD false
              · exact absurd ⟨h3, h5⟩ h2
              · rfl
            simp [h4]
          · simp [h3]

theorem stepStruct_referenced_other (rp : GoMap Pos Bool) (name : String) (se : StructEntry)
    (s : Step) (hs : ∀ n, s ≠ Step.ident n) :
    (stepStruct rp name se s).referenced = se.referenced := by
  cases s with
  | ident n => exact absurd rfl (hs n)
  | params fnObj ps => rfl
  | instr i =>
    cases i with
    | fieldAddr id xType field refs =>
      cases refs with
      | none => rfl
      | some l =>
        simp only [stepStruct]
        split <;> rfl
    | call cc refs => rfl
    | defer cc => rfl
    | go cc => rfl
    | changeType x => rfl
    | other ops => rfl

theorem foldl_stepStruct_referenced (rp : GoMap Pos Bool) (name : String) (steps : List Step)
    (se : StructEntry) :
    (steps.foldl (stepStruct rp name) se).referenced = true ↔
      se.referenced = true ∨
        ∃ n, Step.ident n ∈ steps ∧ identMarksStruct rp name n = true := by
  induction steps generalizing se with
  | nil => simp
  | cons s rest ih =>
    simp only [List.foldl_cons, List.mem_cons]
    rw [ih]
    cases s with
    | ident n =>
      rw [stepStruct_referenced_ident, Bool.or_eq_true]
      constructor
      · rintro ((h | h) | ⟨n2, h2, h3⟩)
        · exact Or.inl h
        · exact Or.inr ⟨n, Or.inl rfl, h⟩
        · exact Or.inr ⟨n2, Or.inr h2, h3⟩
      · rintro (h | ⟨n2, h2 | h2, h3⟩)
        · exact Or.inl (Or.inl h)
        · injection h2 with h2
          subst h2
          exact Or.inl (Or.inr h3)
        · exact Or.inr ⟨n2, h2, h3⟩
    | instr i =>
      rw [stepStruct_referenced_other rp name se _ (fun n h => by cases h)]
      constructor
      · rintro (h | ⟨n2, h2, h3⟩)
        · exact Or.inl h
        · exact Or.inr ⟨n2, Or.inr h2, h3⟩
      · rintro (h | ⟨n2, h2 | h2, h3⟩)
        · exact Or.inl h
        · cases h2
        · exact Or.inr ⟨n2, h2, h3⟩
    | params fnObj ps =>
      rw [stepStruct_referenced_other rp name se _ (fun n h => by cases h)]
      constructor
      · rintro (h | ⟨n2, h2, h3⟩)
        · exact Or.inl h
        · exact Or.inr ⟨n2, Or.inr h2, h3⟩
      · rintro (h | ⟨n2, h2 | h2, h3⟩)
        · exact Or.inl h
        · cases h2
        · exact Or.inr ⟨n2, h2, h3⟩

theorem ident_not_mem_flowSteps (pass : Pass) (n : Ident) : Step.ident n ∉ flowSteps pass := by
  unfold flowSteps
  rw [List.mem_append, mem_flatten_map]
  rintro (h | ⟨fn, _, h⟩)
  · revert h
    cases pass.initFunc <;> simp
  · unfold srcFuncSteps at h
    revert h
    cases fn.object <;> simp

theorem ident_mem_syntaxSteps (pass : Pass) (n : Ident) :
    Step.ident n ∈ syntaxSteps pass ↔ n ∈ packageIdents pass := by
  unfold syntaxSteps packageIdents
  rw [mem_flatten_map, mem_flatten_map]
  constructor
  · rintro ⟨f, hf, h⟩
    obtain ⟨n2, hn2, h2⟩ := List.mem_map.1 h
    injection h2 with h2
    subst h2
    exact ⟨f, hf, hn2⟩
  · rintro ⟨f, hf, h⟩
    exact ⟨f, hf, List.mem_map.2 ⟨n, h, rfl⟩⟩

theorem ident_mem_allSteps (pass : Pass) (n : Ident) :
    Step.ident n ∈ flowSteps pass ++ syntaxSteps pass ↔ n ∈ packageIdents pass := by
  rw [List.mem_append, ident_mem_syntaxSteps]
  constructor
  · rintro (h | h)
    · exact absurd h (ident_not_mem_flowSteps pass n)
    · exact h
  · exact Or.inr

section StructReferencedClaim

variable (unicodeIsUpper : Char → Bool) (unicodeToLower : Char → Char)

theorem registered_struct_unreferenced (files : List File) (name : String) (se0 : StructEntry)
    (hreg : (registerPackageUnexportedDefinitions unicodeIsUpper unicodeToLower files
      newExecutionMetadata).structRegistry.lookup name = some se0) :
    se0.referenced = false := by
  rw [register_eq_foldl] at hreg
  rcases lookup_struct_foldl_applyRegEvent unicodeIsUpper _ _ _ _ hreg with h | h
  · simp [newExecutionMetadata, GoMap.lookup] at h
  · obtain ⟨sn, fs, p, _, _, hfresh⟩ := h
    rw [hfresh]
    rfl

/-- C13. For a struct registered under `name`, the entry that `run` hands to `reportErrors`
has `referenced = true` if and only if some identifier of the files that is not a declaring
occurrence resolves to a type name whose type string is `name` and whose position is not in
`receiverPositions`.  After the flow scan alone the flag is still false, and no step of the
flow scan (the `switch` on an instruction, the unused-parameter step) changes the flag of any
struct entry. -/
theorem C13_struct_referenced_iff_identifier (pass : Pass) (name : String) (se0 : StructEntry)
    (hreg : (registerPackageUnexportedDefinitions unicodeIsUpper unicodeToLower pass.files
      newExecutionMetadata).structRegistry.lookup name = some se0) :
    (∃ se, (finalMetadata unicodeIsUpper unicodeToLower pass).structRegistry.lookup name
        = some se ∧
      (se.referenced = true ↔
        ∃ n ∈ packageIdents pass, n.astObj ≠ some n.pos ∧
          (∃ p, n.typesObj = some (.typeName name p)) ∧
          ((registerPackageUnexportedDefinitions unicodeIsUpper unicodeToLower pass.files
            newExecutionMetadata).receiverPositions.lookup n.pos).getD false = false)) ∧
    (∃ se1, (runFlow pass (registerPackageUnexportedDefinitions unicodeIsUpper unicodeToLower
        pass.files newExecutionMetadata)).structRegistry.lookup name = some se1 ∧
      se1.referenced = false) ∧
    (∀ (em : ExecutionMetadata) (i : Instr) (nm : String) (se : StructEntry),
      em.structRegistry.lookup nm = some se →
      ∃ se2, (checkInstr em i).structRegistry.lookup nm = some se2 ∧
        se2.referenced = se.referenced) ∧
    (∀ (em : ExecutionMetadata) (fnObj : TypesFunc) (ps : List Parameter) (nm : String)
      (se : StructEntry), em.structRegistry.lookup nm = some se →
      ∃ se2, (checkUnusedParams em fnObj ps).structRegistry.lookup nm = some se2 ∧
        se2.referenced = se.referenced) := by
  have href := registered_struct_unreferenced unicodeIsUpper unicodeToLower pass.files name
    se0 hreg
  refine ⟨?_, ?_, ?_, ?_⟩
  · refine ⟨_, by rw [finalMetadata_eq_foldl, lookup_foldl_applyStep_struct, hreg]; rfl, ?_⟩
    rw [foldl_stepStruct_referenced, href]
    constructor
    · rintro (h | ⟨n, hn, hm⟩)
      · cases h
      · exact ⟨n, (ident_mem_allSteps pass n).1 hn, (identMarksStruct_iff _ name n).1 hm⟩
    · rintro ⟨n, hn, hm⟩
      exact Or.inr ⟨n, (ident_mem_allSteps pass n).2 hn, (identMarksStruct_iff _ name n).2 hm⟩
  · refine ⟨_, by rw [runFlow_eq_foldl, lookup_foldl_applyStep_struct, hreg]; rfl, ?_⟩
    cases hr : ((flowSteps pass).foldl (stepStruct _ name) se0).referenced with
    | false => rfl
    | true =>
      rcases (foldl_stepStruct_referenced _ name _ se0).1 hr with h | ⟨n, hn, _⟩
      · rw [href] at h
        cases h
      · exact absurd hn (ident_not_mem_flowSteps pass n)
  · intro em i nm se hse
    refine ⟨_, by
      rw [show checkInstr em i = applyStep em (.instr i) from rfl, lookup_applyStep_struct,
        hse]; rfl, ?_⟩
    exact stepStruct_referenced_other _ nm se _ (fun n h => by cases h)
  · intro em fnObj ps nm se hse
    refine ⟨_, by
      rw [show checkUnusedParams em fnObj ps = applyStep em (.params fnObj ps) from rfl,
        lookup_applyStep_struct, hse]; rfl, ?_⟩
    exact stepStruct_referenced_other _ nm se _ (fun n h => by cases h)

end StructReferencedClaim

/-- Witness of C13 on the example package, for the struct `T`. -/
theorem C13_struct_referenced_iff_identifier_witness :
    (∃ se, (finalMetadata Char.isUpper Char.toLower examplePass).structRegistry.lookup "p.T"
        = some se ∧
      (se.referenced = true ↔
        ∃ n ∈ packageIdents examplePass, n.astObj ≠ some n.pos ∧
          (∃ p, n.typesObj = some (.typeName "p.T" p)) ∧
          ((registerPackageUnexportedDefinitions Char.isUpper Char.toLower examplePass.files
            newExecutionMetadata).receiverPositions.lookup n.pos).getD false = false)) ∧
    (∃ se1, (runFlow examplePass (registerPackageUnexportedDefinitions Char.isUpper
        Char.toLower examplePass.files newExecutionMetadata)).structRegistry.lookup "p.T"
          = some se1 ∧
      se1.referenced = false) ∧
    (∀ (em : ExecutionMetadata) (i : Instr) (nm : String) (se : StructEntry),
      em.structRegistry.lookup nm = some se →
      ∃ se2, (checkInstr em i).structRegistry.lookup nm = some se2 ∧
        se2.referenced = se.referenced) ∧
    (∀ (em : ExecutionMetadata) (fnObj : TypesFunc) (ps : List Parameter) (nm : String)
      (se : StructEntry), em.structRegistry.lookup nm = some se →
      ∃ se2, (checkUnusedParams em fnObj ps).structRegistry.lookup nm = some se2 ∧
        se2.referenced = se.referenced) :=
  C13_struct_referenced_iff_identifier Char.isUpper Char.toLower examplePass "p.T" exTEntry rfl

/-- C14. The receiver clause of a registered method with a value receiver does not mark the
struct: in `package p; type t struct{}; func (u t) m() {}` the struct `t` is reported.  With
a pointer receiver it does: in `package p; type t struct{}; func (u *t) m() {}` the method is
registered, `receiverPositions` holds the position 37 of the star (`Type.Pos()` of `*t`),
the identifier `t` of the receiver clause is at position 38, `visit` sets `referenced` of
`p.t` there, and `run` reports the method only, not the struct. -/
theorem C14_pointer_receiver_marks_struct :
    run Char.isUpper Char.toLower valueReceiverPass =
      [⟨17, .structNotUsed "p.t"⟩, ⟨40, .functionNotUsed "(p.t).m"⟩] ∧
    ((registerPackageUnexportedDefinitions Char.isUpper Char.toLower pointerReceiverPass.files
      newExecutionMetadata).functionRegistry.lookup "(*p.t).m").isSome = true ∧
    (registerPackageUnexportedDefinitions Char.isUpper Char.toLower pointerReceiverPass.files
      newExecutionMetadata).receiverPositions = [(37, true)] ∧
    ((packageIdents pointerReceiverPass).filter
        (fun n => identMarksStruct [(37, true)] "p.t" n)).map (fun n => n.pos) = [38] ∧
    ((finalMetadata Char.isUpper Char.toLower pointerReceiverPass).structRegistry.lookup
      "p.t").map (fun se => (se.referenced, se.exported)) = some (true, false) ∧
    run Char.isUpper Char.toLower pointerReceiverPass =
      [⟨41, .functionNotUsed "(*p.t).m"⟩] :=
  ⟨rfl, rfl, rfl, rfl, rfl, rfl⟩

/-! ## The map `otherUnusedDefinitions` through the scans -/

theorem GoMap.keys_erase_sublist {κ ν : Type} [DecidableEq κ] (m : GoMap κ ν) (k : κ) :
    (m.erase k).keys.Sublist m.keys := by
  induction m with
  | nil => exact List.Sublist.refl _
  | cons p rest ih =>
    obtain ⟨k0, v0⟩ := p
    by_cases h0 : k0 = k
    · simp only [GoMap.erase, h0, if_true]
      exact List.Sublist.cons _ ih
    · simp only [GoMap.erase, h0, if_false]
      exact List.Sublist.cons₂ _ ih

theorem GoMap.nodup_keys_erase {κ ν : Type} [DecidableEq κ] (m : GoMap κ ν) (k : κ)
    (h : m.keys.Nodup) : (m.erase k).keys.Nodup :=
  List.Nodup.sublist (GoMap.keys_erase_sublist m k) h

theorem identErases_eq_some (structKeys : List String) (n : Ident) (pos : Pos)
    (h : identErases structKeys n = some pos) :
    n.astObj ≠ some n.pos ∧ ∃ o, n.typesObj = some o ∧ o.Pos = pos := by
  unfold identErases at h
  by_cases h1 : n.astObj = some n.pos
  · rw [if_pos h1] at h
    cases h
  · rw [if_neg h1] at h
    refine ⟨h1, ?_⟩
    cases hobj : n.typesObj with
    | none => rw [hobj] at h; cases h
    | some o =>
      rw [hobj] at h
      refine ⟨o, rfl, ?_⟩
      cases o with
      | func f => simp only [Option.some.injEq] at h; exact h
      | other p => simp only [Option.some.injEq] at h; exact h
      | typeName ts p =>
        simp only at h
        split at h
        · cases h
        · simp only [Option.some.injEq] at h
          exact h

theorem identErases_of_resolves (structKeys : List String) (n : Ident) (o : TypesObject)
    (h1 : n.astObj ≠ some n.pos) (h2 : n.typesObj = some o)
    (h3 : ∀ ts p, o = .typeName ts p → ts ∉ structKeys) :
    identErases structKeys n = some o.Pos := by
  unfold identErases
  rw [if_neg h1, h2]
  cases o with
  | func f => rfl
  | other p => rfl
  | typeName ts p =>
    simp only
    rw [if_neg (h3 ts p rfl)]
    rfl

theorem visit_otherUnusedDefinitions (em : ExecutionMetadata) (n : Ident) :
    (visit em n).otherUnusedDefinitions =
      match identErases em.structRegistry.keys n with
      | some pos => em.otherUnusedDefinitions.erase pos
      | none => em.otherUnusedDefinitions := by
  unfold visit identErases
  by_cases h1 : n.astObj = some n.pos
  · simp only [h1, if_true]
  · simp only [h1, if_false]
    cases hobj : n.typesObj with
    | none => rfl
    | some o =>
      cases o with
      | func f => rfl
      | other p => rfl
      | typeName ts p =>
        simp only
        cases hl : em.structRegistry.lookup ts with
        | none =>
          have hk : ts ∉ em.structRegistry.keys := (GoMap.lookup_eq_none_iff _ _).1 hl
          simp only [hk, if_false]
          rfl
        | some se =>
          have hk : ts ∈ em.structRegistry.keys := by
            by_contra hc
            rw [(GoMap.lookup_eq_none_iff _ _).2 hc] at hl
            cases hl
          simp only [hk, if_true]
          split <;> rfl

theorem applyStep_otherUnusedDefinitions (em : ExecutionMetadata) (s : Step) :
    (applyStep em s).otherUnusedDefinitions =
      match s with
      | .ident n =>
        (match identErases em.structRegistry.keys n with
          | some pos => em.otherUnusedDefinitions.erase pos
          | none => em.otherUnusedDefinitions)
      | _ => em.otherUnusedDefinitions := by
  cases s with
  | params fnObj ps => exact (sameOutside_checkUnusedParams em fnObj ps).2.2
  | ident n => exact visit_otherUnusedDefinitions em n
  | instr i =>
    cases i with
    | call cc refs => exact (sameOutside_call em cc refs).2.2
    | defer cc =>
      exact (sameOutside_trans (sameOutside_retrieve (checkFunctionParameter em cc) cc)
        (sameOutside_checkFunctionParameter em cc)).2.2
    | go cc =>
      exact (sameOutside_trans (sameOutside_retrieve (checkFunctionParameter em cc) cc)
        (sameOutside_checkFunctionParameter em cc)).2.2
    | changeType x =>
      cases x with
      | function object =>
        cases object with
        | none => rfl
        | some funcObj => rfl
      | makeClosure fn => rfl
      | other => rfl
    | fieldAddr id xType field refs =>
      simp only [applyStep, checkInstr]
      cases em.structRegistry.lookup (fieldAddrTypeName xType) with
      | none => rfl
      | some se =>
        cases refs with
        | none => rfl
        | some l => by_cases hu : fieldIsUsed id l = true <;> simp [hu]
    | other ops => rfl

theorem nodup_other_foldl_applyStep (steps : List Step) (em : ExecutionMetadata)
    (h : em.otherUnusedDefinitions.keys.Nodup) :
    (steps.foldl applyStep em).otherUnusedDefinitions.keys.Nodup := by
  induction steps generalizing em with
  | nil => exact h
  | cons s rest ih =>
    simp only [List.foldl_cons]
    apply ih
    rw [applyStep_otherUnusedDefinitions]
    cases s with
    | ident n =>
      simp only
      split
      · exact GoMap.nodup_keys_erase _ _ h
      · exact h
    | instr i => exact h
    | params fnObj ps => exact h

/-- The entry of `otherUnusedDefinitions` at a position after a list of steps: it is the
entry before them unless `visit` deleted the position at some identifier. -/
theorem lookup_other_foldl_applyStep (steps : List Step) (em : ExecutionMetadata) (pos : Pos)
    (nm : String) :
    (steps.foldl applyStep em).otherUnusedDefinitions.lookup pos = some nm ↔
      em.otherUnusedDefinitions.lookup pos = some nm ∧
        ¬ ∃ n, Step.ident n ∈ steps ∧ identErases em.structRegistry.keys n = some pos := by
  induction steps generalizing em with
  | nil => simp
  | cons s rest ih =>
    simp only [List.foldl_cons, List.mem_cons]
    rw [ih, keys_applyStep_struct, applyStep_otherUnusedDefinitions]
    cases s with
    | ident n =>
      simp only
      cases he : identErases em.structRegistry.keys n with
      | none =>
        simp only
        constructor
        · rintro ⟨h1, h2⟩
          refine ⟨h1, ?_⟩
          rintro ⟨n2, h3 | h3, h4⟩
          · injection h3 with h3
            subst h3
            rw [he] at h4
            cases h4
          · exact h2 ⟨n2, h3, h4⟩
        · rintro ⟨h1, h2⟩
          exact ⟨h1, fun ⟨n2, h3, h4⟩ => h2 ⟨n2, Or.inr h3, h4⟩⟩
      | some q =>
        simp only
        rw [GoMap.lookup_erase]
        by_cases hq : q = pos
        · subst hq
          simp only [if_true]
          constructor
          · rintro ⟨h1, _⟩
            cases h1
          · rintro ⟨_, h2⟩
            exact absurd ⟨n, Or.inl rfl, he⟩ h2
        · rw [if_neg hq]
          constructor
          · rintro ⟨h1, h2⟩
            refine ⟨h1, ?_⟩
            rintro ⟨n2, h3 | h3, h4⟩
            · injection h3 with h3
              subst h3
              rw [he] at h4
              injection h4 with h4
              exact hq h4
            · exact h2 ⟨n2, h3, h4⟩
          · rintro ⟨h1, h2⟩
            exact ⟨h1, fun ⟨n2, h3, h4⟩ => h2 ⟨n2, Or.inr h3, h4⟩⟩
    | instr i =>
      simp only
      constructor
      · rintro ⟨h1, h2⟩
        refine ⟨h1, ?_⟩
        rintro ⟨n2, h3 | h3, h4⟩
        · cases h3
        · exact h2 ⟨n2, h3, h4⟩
      · rintro ⟨h1, h2⟩
        exact ⟨h1, fun ⟨n2, h3, h4⟩ => h2 ⟨n2, Or.inr h3, h4⟩⟩
    | params fnObj ps =>
      simp only
      constructor
      · rintro ⟨h1, h2⟩
        refine ⟨h1, ?_⟩
        rintro ⟨n2, h3 | h3, h4⟩
        · cases h3
        · exact h2 ⟨n2, h3, h4⟩
      · rintro ⟨h1, h2⟩
        exact ⟨h1, fun ⟨n2, h3, h4⟩ => h2 ⟨n2, Or.inr h3, h4⟩⟩

/-- The diagnostics of `reportErrors` with the other-definition message are the entries of
`otherUnusedDefinitions`. -/
theorem otherNotUsed_mem_reportErrors (em : ExecutionMetadata) (pos : Pos) (nm : String) :
    (⟨pos, Message.otherNotUsed nm⟩ : Diagnostic) ∈ reportErrors em ↔
      (pos, nm) ∈ em.otherUnusedDefinitions := by
  unfold reportErrors
  simp only [List.mem_append, mem_flatten_map]
  constructor
  · rintro ((⟨kv, _, hd⟩ | ⟨kv, _, hd⟩) | hd)
    · unfold reportStruct at hd
      rcases List.mem_append.1 hd with hd | hd
      · split at hd <;> simp at hd
      · obtain ⟨f, _, hfd⟩ := List.mem_map.1 hd
        cases hfd
    · have := (reportFunction_functionName kv.2 _ hd).1
      cases this
    · obtain ⟨kv, hkv, hd⟩ := List.mem_map.1 hd
      injection hd with h1 h2
      injection h2 with h2
      rw [← h1, ← h2]
      exact hkv
  · intro h
    exact Or.inr (List.mem_map.2 ⟨(pos, nm), h, rfl⟩)

/-! ## Where the entries of `otherUnusedDefinitions` come from -/

section OtherEvents

variable (unicodeIsUpper : Char → Bool) (unicodeToLower : Char → Char)

theorem other_not_mem_methodEvents (m : Field) (pos : Pos) (nm : String) :
    RegEvent.other pos nm ∉ methodEvents unicodeIsUpper m := by
  unfold methodEvents
  cases m.funcType with
  | none => simp
  | some ft =>
    rw [mem_flatten_map]
    rintro ⟨n, _, h⟩
    unfold methodNameEvents at h
    split at h
    · simp at h
    · split at h <;> simp at h

theorem other_mem_valueNameEvents (n : Ident) (pos : Pos) (nm : String) :
    RegEvent.other pos nm ∈ valueNameEvents unicodeIsUpper n ↔
      IsExported unicodeIsUpper n.name = false ∧ n.name ≠ "_" ∧ pos = n.pos ∧ nm = n.name := by
  unfold valueNameEvents
  by_cases h : (!IsExported unicodeIsUpper n.name && n.name != "_") = true
  · rw [if_pos h]
    simp only [Bool.and_eq_true, Bool.not_eq_true', bne_iff_ne, ne_eq] at h
    simp only [List.mem_singleton, RegEvent.other.injEq]
    constructor
    · rintro ⟨h1, h2⟩
      exact ⟨h.1, h.2, h1, h2⟩
    · rintro ⟨_, _, h1, h2⟩
      exact ⟨h1, h2⟩
  · rw [if_neg h]
    simp only [Bool.and_eq_true, Bool.not_eq_true', bne_iff_ne, ne_eq] at h
    simp only [List.not_mem_nil, false_iff]
    rintro ⟨h1, h2, _, _⟩
    exact h ⟨h1, h2⟩

/-- The writes to `otherUnusedDefinitions` for one declaration. -/
theorem other_mem_genDeclEvents (decl : Decl) (pos : Pos) (nm : String) :
    RegEvent.other pos nm ∈ genDeclEvents unicodeIsUpper decl ↔
      ∃ n, ((n ∈ declValueIdents decl ∧ n.name ≠ "_") ∨ n ∈ declInterfaceIdents decl) ∧
        IsExported unicodeIsUpper n.name = false ∧ pos = n.pos ∧ nm = n.name := by
  cases decl with
  | funcDecl fn => simp [genDeclEvents, declValueIdents, declInterfaceIdents]
  | other => simp [genDeclEvents, declValueIdents, declInterfaceIdents]
  | genDecl specs =>
    simp only [genDeclEvents, declValueIdents, declInterfaceIdents, mem_flatten_map]
    constructor
    · rintro ⟨spec, hs, h⟩
      cases spec with
      | other => simp [specEvents] at h
      | valueSpec names =>
        simp only [specEvents, mem_flatten_map] at h
        obtain ⟨n, hn, h⟩ := h
        obtain ⟨h1, h2, h3, h4⟩ := (other_mem_valueNameEvents unicodeIsUpper n pos nm).1 h
        exact ⟨n, Or.inl ⟨⟨_, hs, hn⟩, h2⟩, h1, h3, h4⟩
      | typeSpec name te =>
        cases te with
        | structType fields => simp [specEvents] at h
        | other => simp [specEvents] at h
        | interfaceType methods =>
          simp only [specEvents, List.mem_append, mem_flatten_map] at h
          rcases h with h | ⟨m, _, h⟩
          · by_cases hexp : IsExported unicodeIsUpper name.name = true
            · simp [hexp] at h
            · have hexp2 : IsExported unicodeIsUpper name.name = false := by
                simpa using hexp
              simp only [hexp2, Bool.not_false, if_true, List.mem_singleton,
                RegEvent.other.injEq] at h
              exact ⟨name, Or.inr ⟨_, hs, List.mem_singleton.2 rfl⟩, hexp2, h.1, h.2⟩
          · exact absurd h (other_not_mem_methodEvents unicodeIsUpper m pos nm)
    · rintro ⟨n, (⟨⟨spec, hs, hn⟩, hblank⟩ | ⟨spec, hs, hn⟩), hexp, hpos, hnm⟩
      · refine ⟨spec, hs, ?_⟩
        cases spec with
        | other => simp at hn
        | typeSpec name te => simp at hn
        | valueSpec names =>
          simp only [specEvents, mem_flatten_map]
          exact ⟨n, hn, (other_mem_valueNameEvents unicodeIsUpper n pos nm).2
            ⟨hexp, hblank, hpos, hnm⟩⟩
      · refine ⟨spec, hs, ?_⟩
        cases spec with
        | other => simp at hn
        | valueSpec names => simp at hn
        | typeSpec name te =>
          cases te with
          | structType fields => simp at hn
          | other => simp at hn
          | interfaceType methods =>
            simp only [List.mem_singleton] at hn
            subst hn
            simp only [specEvents, List.mem_append]
            left
            simp [hexp, hpos, hnm]

theorem other_not_mem_funcEvents (files : List File) (pos : Pos) (nm : String) :
    RegEvent.other pos nm ∉ funcEvents unicodeIsUpper unicodeToLower files := by
  simp only [funcEvents, mem_flatten_map, not_exists, not_and]
  intro file _ decl _
  cases decl with
  | genDecl specs => simp [funcDeclEvents]
  | funcDecl fn =>
    simp only [funcDeclEvents]
    split
    · split
      · intro h
        rcases List.mem_cons.1 h with h | h
        · cases h
        · split at h <;> simp at h
      · simp
    · simp
  | other => simp [funcDeclEvents]

/-- The writes to `otherUnusedDefinitions` of the registration: one for every unexported
name of a package-level variable or constant that is not blank, and one for every
unexported interface type name. -/
theorem other_mem_registrationEvents (files : List File) (pos : Pos) (nm : String) :
    RegEvent.other pos nm ∈ registrationEvents unicodeIsUpper unicodeToLower files ↔
      ∃ n, ((n ∈ valueIdents files ∧ n.name ≠ "_") ∨ n ∈ interfaceIdents files) ∧
        IsExported unicodeIsUpper n.name = false ∧ pos = n.pos ∧ nm = n.name := by
  unfold registrationEvents
  rw [List.mem_append]
  simp only [genEvents, valueIdents, interfaceIdents, mem_flatten_map]
  constructor
  · rintro (⟨file, hf, decl, hd, h⟩ | h)
    · obtain ⟨n, hn, hrest⟩ := (other_mem_genDeclEvents unicodeIsUpper decl pos nm).1 h
      rcases hn with ⟨hn, hb⟩ | hn
      · exact ⟨n, Or.inl ⟨⟨file, hf, decl, hd, hn⟩, hb⟩, hrest⟩
      · exact ⟨n, Or.inr ⟨file, hf, decl, hd, hn⟩, hrest⟩
    · exact absurd h (other_not_mem_funcEvents unicodeIsUpper unicodeToLower files pos nm)
  · rintro ⟨n, (⟨⟨file, hf, decl, hd, hn⟩, hb⟩ | ⟨file, hf, decl, hd, hn⟩), hrest⟩
    · exact Or.inl ⟨file, hf, decl, hd,
        (other_mem_genDeclEvents unicodeIsUpper decl pos nm).2 ⟨n, Or.inl ⟨hn, hb⟩, hrest⟩⟩
    · exact Or.inl ⟨file, hf, decl, hd,
        (other_mem_genDeclEvents unicodeIsUpper decl pos nm).2 ⟨n, Or.inr hn, hrest⟩⟩

theorem nodup_other_foldl_applyRegEvent (events : List RegEvent) (em : ExecutionMetadata)
    (h : em.otherUnusedDefinitions.keys.Nodup) :
    (events.foldl (applyRegEvent unicodeIsUpper) em).otherUnusedDefinitions.keys.Nodup := by
  induction events generalizing em with
  | nil => exact h
  | cons e rest ih =>
    simp only [List.foldl_cons]
    apply ih
    rw [applyRegEvent_otherUnusedDefinitions]
    cases e with
    | other pos name => exact GoMap.nodup_keys_set _ _ _ h
    | function funcObj numResults params => exact h
    | struct specName fields => exact h
    | receiver pos => exact h

theorem isSome_other_foldl_of_isSome (events : List RegEvent) (em : ExecutionMetadata)
    (pos : Pos) (h : (em.otherUnusedDefinitions.lookup pos).isSome = true) :
    ((events.foldl (applyRegEvent unicodeIsUpper) em).otherUnusedDefinitions.lookup pos).isSome
      = true := by
  induction events generalizing em with
  | nil => exact h
  | cons e rest ih =>
    simp only [List.foldl_cons]
    apply ih
    rw [applyRegEvent_otherUnusedDefinitions]
    cases e with
    | other pos2 name =>
      simp only
      rw [GoMap.lookup_set]
      split
      · rfl
      · exact h
    | function funcObj numResults params => exact h
    | struct specName fields => exact h
    | receiver pos2 => exact h

theorem isSome_other_foldl_applyRegEvent (events : List RegEvent) (em : ExecutionMetadata)
    (pos : Pos) (nm : String) (hm : RegEvent.other pos nm ∈ events) :
    ((events.foldl (applyRegEvent unicodeIsUpper) em).otherUnusedDefinitions.lookup pos).isSome
      = true := by
  induction events generalizing em with
  | nil => simp at hm
  | cons e rest ih =>
    simp only [List.foldl_cons]
    rcases List.mem_cons.1 hm with h | h
    · subst h
      apply isSome_other_foldl_of_isSome
      rw [applyRegEvent_otherUnusedDefinitions]
      simp only [GoMap.lookup_set, if_true, Option.isSome_some]
    · exact ih _ h

/-- The entry of `otherUnusedDefinitions` after registration at the position of a write,
when every write at that position carries the same name. -/
theorem registered_other_lookup (files : List File) (pos : Pos) (nm : String)
    (hm : RegEvent.other pos nm ∈ registrationEvents unicodeIsUpper unicodeToLower files)
    (huniq : ∀ nm2, RegEvent.other pos nm2 ∈
      registrationEvents unicodeIsUpper unicodeToLower files → nm2 = nm) :
    (registerPackageUnexportedDefinitions unicodeIsUpper unicodeToLower files
      newExecutionMetadata).otherUnusedDefinitions.lookup pos = some nm := by
  rw [register_eq_foldl]
  have hsome := isSome_other_foldl_applyRegEvent unicodeIsUpper _ newExecutionMetadata pos nm hm
  obtain ⟨v, hv⟩ := Option.isSome_iff_exists.1 hsome
  rcases mem_other_foldl_applyRegEvent unicodeIsUpper _ _ _ (GoMap.mem_of_lookup _ _ _ hv)
    with h | h
  · simp [newExecutionMetadata] at h
  · rw [hv, huniq v h]

end OtherEvents

section OtherDefinitionsClaim

variable (unicodeIsUpper : Char → Bool) (unicodeToLower : Char → Char)

/-- C15. The name `n` of an unexported package-level variable or constant that is not the
blank identifier, or of an unexported interface type, is recorded in
`otherUnusedDefinitions` at its position, and the diagnostic for it is reported by `run` if
and only if no identifier of the files other than a declaring occurrence resolves to an
object declared at that position, whatever the identifier is used for.  Positions are
assumed to identify the declared names, and the identifiers that resolve to a type name at
that position are assumed not to name a registered struct. -/
theorem C15_other_definition_reported_iff_unreferenced (pass : Pass) (n : Ident)
    (hdecl : (n ∈ valueIdents pass.files ∧ n.name ≠ "_") ∨ n ∈ interfaceIdents pass.files)
    (hexp : IsExported unicodeIsUpper n.name = false)
    (hpos : ∀ m, ((m ∈ valueIdents pass.files ∧ m.name ≠ "_") ∨ m ∈ interfaceIdents pass.files) →
      IsExported unicodeIsUpper m.name = false → m.pos = n.pos → m.name = n.name)
    (hstruct : ∀ m ∈ packageIdents pass, ∀ ts, m.typesObj = some (.typeName ts n.pos) →
      (registerPackageUnexportedDefinitions unicodeIsUpper unicodeToLower pass.files
        newExecutionMetadata).structRegistry.lookup ts = none) :
    (registerPackageUnexportedDefinitions unicodeIsUpper unicodeToLower pass.files
      newExecutionMetadata).otherUnusedDefinitions.lookup n.pos = some n.name ∧
    ((⟨n.pos, Message.otherNotUsed n.name⟩ : Diagnostic) ∈
        run unicodeIsUpper unicodeToLower pass ↔
      ¬ ∃ m ∈ packageIdents pass, m.astObj ≠ some m.pos ∧
          ∃ o, m.typesObj = some o ∧ o.Pos = n.pos) := by
  have hreg : (registerPackageUnexportedDefinitions unicodeIsUpper unicodeToLower pass.files
      newExecutionMetadata).otherUnusedDefinitions.lookup n.pos = some n.name := by
    apply registered_other_lookup
    · exact (other_mem_registrationEvents unicodeIsUpper unicodeToLower pass.files _ _).2
        ⟨n, hdecl, hexp, rfl, rfl⟩
    · intro nm2 h2
      obtain ⟨m, hm, hmexp, hmpos, hmnm⟩ :=
        (other_mem_registrationEvents unicodeIsUpper unicodeToLower pass.files _ _).1 h2
      rw [hmnm]
      exact hpos m hm hmexp hmpos.symm
  refine ⟨hreg, ?_⟩
  have hnd : (finalMetadata unicodeIsUpper unicodeToLower pass).otherUnusedDefinitions.keys.Nodup
      := by
    rw [finalMetadata_eq_foldl, register_eq_foldl]
    apply nodup_other_foldl_applyStep
    apply nodup_other_foldl_applyRegEvent
    exact List.nodup_nil
  unfold run
  rw [otherNotUsed_mem_reportErrors]
  have hiff : (n.pos, n.name) ∈
      (finalMetadata unicodeIsUpper unicodeToLower pass).otherUnusedDefinitions ↔
      (finalMetadata unicodeIsUpper unicodeToLower pass).otherUnusedDefinitions.lookup n.pos
        = some n.name :=
    ⟨GoMap.lookup_of_mem _ _ _ hnd, GoMap.mem_of_lookup _ _ _⟩
  rw [hiff, finalMetadata_eq_foldl, lookup_other_foldl_applyStep]
  constructor
  · rintro ⟨_, h2⟩ ⟨m, hm, hm1, o, hm2, hm3⟩
    apply h2
    refine ⟨m, (ident_mem_allSteps pass m).2 hm, ?_⟩
    rw [← hm3]
    apply identErases_of_resolves _ m o hm1 hm2
    intro ts p ho
    subst ho
    have hp : p = n.pos := hm3
    subst hp
    exact (GoMap.lookup_eq_none_iff _ _).1 (hstruct m hm ts hm2)
  · intro h
    refine ⟨hreg, ?_⟩
    rintro ⟨m, hm, he⟩
    obtain ⟨h1, o, h2, h3⟩ := identErases_eq_some _ m n.pos he
    exact h ⟨m, (ident_mem_allSteps pass m).1 hm, h1, o, h2, h3⟩

end OtherDefinitionsClaim

theorem example_packageIdents : packageIdents examplePass = exampleFile.idents := by
  simp [packageIdents, examplePass]

theorem example_otherIdents :
    valueIdents examplePass.files = [] ∧
    interfaceIdents examplePass.files =
      [⟨"iface", 17, some 17, some (.typeName "p.iface" 17)⟩] := ⟨rfl, rfl⟩

theorem example_hpos_iface : ∀ m : Ident,
    ((m ∈ valueIdents examplePass.files ∧ m.name ≠ "_") ∨
      m ∈ interfaceIdents examplePass.files) →
    IsExported Char.isUpper m.name = false → m.pos = 17 → m.name = "iface" := by
  intro m hm _ _
  rw [example_otherIdents.1, example_otherIdents.2] at hm
  rcases hm with ⟨hm, _⟩ | hm
  · cases hm
  · rw [List.mem_singleton.1 hm]

theorem example_hstruct_iface : ∀ m ∈ packageIdents examplePass, ∀ ts,
    m.typesObj = some (.typeName ts 17) →
    (registerPackageUnexportedDefinitions Char.isUpper Char.toLower examplePass.files
      newExecutionMetadata).structRegistry.lookup ts = none := by
  intro m hm ts hts
  rw [example_structRegistry]
  have hne : ts ≠ "p.T" := by
    rintro rfl
    rw [example_packageIdents] at hm
    simp only [exampleFile, List.mem_cons, List.mem_singleton, List.not_mem_nil,
      or_false] at hm
    rcases hm with rfl | rfl | rfl | rfl | rfl | rfl | rfl | rfl | rfl | rfl | rfl | rfl |
      rfl | rfl | rfl | rfl | rfl | rfl | rfl | rfl | rfl | rfl | rfl | rfl | rfl | rfl |
      rfl | rfl | rfl | rfl | rfl <;>
      simp [identT, identInt, identVar] at hts
  simp [GoMap.lookup, Ne.symm hne]

/-- Witness of C15 on the example package: the unexported interface type `iface` is
recorded at position 17. -/
theorem C15_other_definition_reported_iff_unreferenced_witness :
    (registerPackageUnexportedDefinitions Char.isUpper Char.toLower examplePass.files
      newExecutionMetadata).otherUnusedDefinitions.lookup 17 = some "iface" ∧
    ((⟨17, Message.otherNotUsed "iface"⟩ : Diagnostic) ∈
        run Char.isUpper Char.toLower examplePass ↔
      ¬ ∃ m ∈ packageIdents examplePass, m.astObj ≠ some m.pos ∧
          ∃ o, m.typesObj = some o ∧ o.Pos = 17) :=
  C15_other_definition_reported_iff_unreferenced Char.isUpper Char.toLower examplePass
    ⟨"iface", 17, some 17, some (.typeName "p.iface" 17)⟩
    (Or.inr (by rw [example_otherIdents.2]; exact List.mem_singleton.2 rfl))
    rfl example_hpos_iface example_hstruct_iface

/-! ## Normal form of the effect of a step on a function entry -/

theorem argsEntry_eq (name : String) (args : List Value) (fe : FunctionEntry) :
    argsEntry name fe args =
      if args.any (argEscalates name) = true then escalate fe else fe := by
  unfold argsEntry
  induction args generalizing fe with
  | nil => simp
  | cons a rest ih =>
    simp only [List.foldl_cons, List.any_cons, Bool.or_eq_true]
    by_cases ha : argEscalates name a = true
    · rw [if_pos ha, ih, if_pos (Or.inl ha)]
      split <;> rfl
    · rw [if_neg ha, ih]
      by_cases hr : rest.any (argEscalates name) = true
      · rw [if_pos hr, if_pos (Or.inr hr)]
      · rw [if_neg hr, if_neg (by rintro (h | h); exact ha h; exact hr h)]

theorem removeResults_eq (used : List Nat) (fe : FunctionEntry) :
    removeResults fe used = { fe with unusedResults := fe.unusedResults \ used.toFinset } := by
  unfold removeResults
  induction used generalizing fe with
  | nil => simp
  | cons i rest ih =>
    simp only [List.foldl_cons, List.toFinset_cons]
    rw [ih]
    congr 1
    ext x
    simp only [Finset.mem_sdiff, Finset.mem_erase, Finset.mem_insert, List.mem_toFinset]
    tauto

theorem unreferencedNames_cons (p : Parameter) (rest : List Parameter) :
    unreferencedNames (p :: rest) =
      if paramUnreferenced p = true then insert p.name (unreferencedNames rest)
      else unreferencedNames rest := by
  unfold unreferencedNames
  by_cases hp : paramUnreferenced p = true
  · simp [List.filter_cons, hp]
  · simp [List.filter_cons, hp]

theorem paramsEntry_eq (ps : List Parameter) (fe : FunctionEntry) :
    paramsEntry fe ps =
      { fe with unusedArguments := fe.unusedArguments ∪ unreferencedNames ps } := by
  unfold paramsEntry
  induction ps generalizing fe with
  | nil => simp [unreferencedNames]
  | cons p rest ih =>
    simp only [List.foldl_cons]
    rw [unreferencedNames_cons]
    by_cases hp : paramUnreferenced p = true
    · rw [if_pos hp, if_pos hp, ih]
      congr 1
      ext x
      simp only [Finset.mem_union, Finset.mem_insert]
      tauto
    · rw [if_neg hp, if_neg hp, ih]

theorem actEntry_true (r : Bool) (used : Finset Nat) (ps : Option (Finset String))
    (fe : FunctionEntry) : actEntry true r used ps fe = escalate fe := rfl

theorem actEntry_idle (fe : FunctionEntry) : actEntry false false ∅ none fe = fe := by
  cases fe
  simp [actEntry]

theorem retrieve_remove_eq (name : String) (fe : FunctionEntry) (cc : CallCommon)
    (used : List Nat) :
    (if resolvesTo name cc = true then removeResults (retrieveEntry name fe cc) used
      else retrieveEntry name fe cc) =
      actEntry false (resolvesTo name cc)
        (if resolvesTo name cc = true then used.toFinset else ∅) none fe := by
  unfold retrieveEntry
  by_cases hr : resolvesTo name cc = true
  · simp only [hr, if_true, removeResults_eq, actEntry, Bool.or_true]
    rfl
  · have hr2 : resolvesTo name cc = false := by simpa using hr
    simp only [hr2, Bool.false_eq_true, if_false]
    exact (actEntry_idle fe).symm

theorem retrieveEntry_eq (name : String) (fe : FunctionEntry) (cc : CallCommon) :
    retrieveEntry name fe cc = actEntry false (resolvesTo name cc) ∅ none fe := by
  unfold retrieveEntry
  by_cases hr : resolvesTo name cc = true
  · cases fe
    simp [hr, actEntry]
  · have hr2 : resolvesTo name cc = false := by simpa using hr
    simp only [hr2, Bool.false_eq_true, if_false]
    exact (actEntry_idle fe).symm

/-- The effect of an instruction on the entry named `name` in normal form. -/
theorem instrEntry_eq_actEntry (name : String) (fe : FunctionEntry) (i : Instr) :
    instrEntry name fe i =
      actEntry (instrEscalates name i) (instrReferences name i) (instrConsumes name i) none
        fe := by
  cases i with
  | call cc refs =>
    simp only [instrEntry, instrEscalates, instrReferences, instrConsumes, argsEntry_eq]
    by_cases he : cc.args.any (argEscalates name) = true
    · rw [if_pos he, he, actEntry_true,
        retrieveEntry_of_isEscalated name _ cc (escalate_isEscalated fe),
        removeResults_of_isEscalated _ _ (escalate_isEscalated fe), ite_self]
    · have he2 : cc.args.any (argEscalates name) = false := by simpa using he
      rw [if_neg he, he2]
      exact retrieve_remove_eq name fe cc _
  | defer cc =>
    simp only [instrEntry, instrEscalates, instrReferences, instrConsumes, argsEntry_eq]
    by_cases he : cc.args.any (argEscalates name) = true
    · rw [if_pos he, he, actEntry_true,
        retrieveEntry_of_isEscalated name _ cc (escalate_isEscalated fe)]
    · have he2 : cc.args.any (argEscalates name) = false := by simpa using he
      rw [if_neg he, he2]
      exact retrieveEntry_eq name fe cc
  | go cc =>
    simp only [instrEntry, instrEscalates, instrReferences, instrConsumes, argsEntry_eq]
    by_cases he : cc.args.any (argEscalates name) = true
    · rw [if_pos he, he, actEntry_true,
        retrieveEntry_of_isEscalated name _ cc (escalate_isEscalated fe)]
    · have he2 : cc.args.any (argEscalates name) = false := by simpa using he
      rw [if_neg he, he2]
      exact retrieveEntry_eq name fe cc
  | changeType x =>
    cases x with
    | function object =>
      cases object with
      | none => exact (actEntry_idle fe).symm
      | some funcObj =>
        simp only [instrEntry, instrEscalates, instrReferences, instrConsumes]
        by_cases hn : funcObj.fullName = name
        · simp [hn, actEntry]
        · simp only [hn, if_false, decide_False]
          exact (actEntry_idle fe).symm
    | makeClosure fn => exact (actEntry_idle fe).symm
    | other => exact (actEntry_idle fe).symm
  | fieldAddr id xType field refs => exact (actEntry_idle fe).symm
  | other ops => exact (actEntry_idle fe).symm

/-- The effect of a step on the entry named `name` in normal form. -/
theorem stepEntry_eq_actEntry (name : String) (fe : FunctionEntry) (s : Step) :
    stepEntry name fe s =
      actEntry (stepAct name s).1 (stepAct name s).2.1 (stepAct name s).2.2.1
        (stepAct name s).2.2.2 fe := by
  cases s with
  | instr i => exact instrEntry_eq_actEntry name fe i
  | ident n => exact (actEntry_idle fe).symm
  | params fnObj ps =>
    simp only [stepEntry, stepAct]
    by_cases hn : fnObj.fullName = name
    · rw [if_pos hn, if_pos hn]
      by_cases hp : fe.passedAsArgument = true
      · rw [if_pos hp]
        cases fe
        simp only at hp
        simp [actEntry, hp]
      · rw [if_neg hp, paramsEntry_eq]
        have hp2 : fe.passedAsArgument = false := by simpa using hp
        cases fe
        simp only at hp2
        simp [actEntry, hp2]
    · rw [if_neg hn, if_neg hn]
      exact (actEntry_idle fe).symm

/-! ## Functions passed as arguments -/

theorem GoMap.modify_of_lookup_none {κ ν : Type} [DecidableEq κ] (m : GoMap κ ν) (k : κ)
    (f : ν → ν) (h : m.lookup k = none) : m.modify k f = m := by
  induction m with
  | nil => rfl
  | cons p rest ih =>
    obtain ⟨k0, v0⟩ := p
    by_cases h0 : k0 = k
    · simp [GoMap.lookup, h0] at h
    · simp only [GoMap.lookup, h0, if_false] at h
      simp only [GoMap.modify, h0, if_false, ih h]

theorem markFunctionPassedAsArgument_of_unregistered (em : ExecutionMetadata)
    (funcObj : TypesFunc) (h : em.functionRegistry.lookup funcObj.fullName = none) :
    markFunctionPassedAsArgument em funcObj = em := by
  unfold markFunctionPassedAsArgument
  rw [GoMap.modify_of_lookup_none _ _ _ h]

theorem argumentFunction_eq_some (arg : Value) (f : TypesFunc) :
    argumentFunction arg = some f ↔
      arg = .function (some f) ∨ arg = .makeClosure (.function (some f)) := by
  cases arg with
  | function object => simp [argumentFunction]
  | other => simp [argumentFunction]
  | makeClosure fn =>
    cases fn with
    | function object => simp [argumentFunction]
    | other => simp [argumentFunction]
    | makeClosure fn2 => simp [argumentFunction]

theorem checkFunctionParameter_eq_foldl (em : ExecutionMetadata) (cc : CallCommon) :
    checkFunctionParameter em cc =
      (cc.args.filterMap argumentFunction).foldl markFunctionPassedAsArgument em := by
  unfold checkFunctionParameter
  generalize cc.args = args
  induction args generalizing em with
  | nil => rfl
  | cons a rest ih =>
    simp only [List.foldl_cons]
    rw [ih]
    cases ha : argumentFunction a with
    | none => simp [List.filterMap_cons, ha]
    | some f => simp [List.filterMap_cons, ha]

theorem instrEscalates_of_arg (name : String) (cc : CallCommon) (i : Instr) (arg : Value)
    (harg : arg ∈ cc.args) (hesc : argEscalates name arg = true)
    (hi : (∃ refs, i = .call cc refs) ∨ i = .defer cc ∨ i = .go cc) :
    instrEscalates name i = true := by
  have hany : cc.args.any (argEscalates name) = true := List.any_eq_true.2 ⟨arg, harg, hesc⟩
  rcases hi with ⟨refs, rfl⟩ | rfl | rfl <;> exact hany

/-- C16. `checkFunctionParameter` is the composition of `markFunctionPassedAsArgument` over
the arguments that are a function with a declared function object or a closure made
directly over such a function, in order, whatever the callee is.  So after a call, defer or
go instruction with such an argument whose full name is in the registry, the entry of that
function is escalated; `markFunctionPassedAsArgument` changes nothing for a function that
is not in the registry, and an instruction none of whose arguments is such a registered
function leaves the metadata as `checkFunctionParameter` found it. -/
theorem C16_function_arguments_escalated (em : ExecutionMetadata) (cc : CallCommon) :
    checkFunctionParameter em cc =
      (cc.args.filterMap argumentFunction).foldl markFunctionPassedAsArgument em ∧
    (∀ arg f, argumentFunction arg = some f ↔
      arg = .function (some f) ∨ arg = .makeClosure (.function (some f))) ∧
    (∀ arg ∈ cc.args, ∀ f,
      arg = .function (some f) ∨ arg = .makeClosure (.function (some f)) →
      ∀ fe, em.functionRegistry.lookup f.fullName = some fe →
      ∀ i, (∃ refs, i = Instr.call cc refs) ∨ i = Instr.defer cc ∨ i = Instr.go cc →
        (∃ fe1, (checkFunctionParameter em cc).functionRegistry.lookup f.fullName = some fe1 ∧
          IsEscalated fe1) ∧
        ∃ fe2, (checkInstr em i).functionRegistry.lookup f.fullName = some fe2 ∧
          IsEscalated fe2 ∧ fe2.fullName = fe.fullName ∧ fe2.pos = fe.pos) ∧
    (∀ f, em.functionRegistry.lookup f.fullName = none →
      markFunctionPassedAsArgument em f = em) ∧
    ((∀ arg ∈ cc.args, ∀ f, argumentFunction arg = some f →
        em.functionRegistry.lookup f.fullName = none) →
      checkFunctionParameter em cc = em) := by
  refine ⟨checkFunctionParameter_eq_foldl em cc, argumentFunction_eq_some, ?_,
    markFunctionPassedAsArgument_of_unregistered em, ?_⟩
  · intro arg harg f hf fe hfe i hi
    have hesc : argEscalates f.fullName arg = true := by
      unfold argEscalates
      rw [(argumentFunction_eq_some arg f).2 hf]
      simp
    constructor
    · refine ⟨_, by rw [lookup_checkFunctionParameter, hfe]; rfl, ?_⟩
      show IsEscalated (argsEntry f.fullName fe cc.args)
      rw [argsEntry_eq, if_pos (List.any_eq_true.2 ⟨arg, harg, hesc⟩)]
      exact escalate_isEscalated fe
    · refine ⟨_, by rw [lookup_checkInstr, hfe]; rfl, ?_⟩
      show IsEscalated (instrEntry f.fullName fe i) ∧
        (instrEntry f.fullName fe i).fullName = fe.fullName ∧
        (instrEntry f.fullName fe i).pos = fe.pos
      rw [instrEntry_eq_actEntry, instrEscalates_of_arg f.fullName cc i arg harg hesc hi,
        actEntry_true]
      exact ⟨escalate_isEscalated fe, rfl, rfl⟩
  · intro hnone
    unfold checkFunctionParameter
    generalize cc.args = args at hnone
    induction args with
    | nil => rfl
    | cons a rest ih =>
      simp only [List.foldl_cons]
      have hrest := ih (fun arg harg => hnone arg (List.mem_cons_of_mem _ harg))
      cases ha : argumentFunction a with
      | none => exact hrest
      | some f =>
        simp only
        rw [markFunctionPassedAsArgument_of_unregistered em f
          (hnone a (List.mem_cons_self _ _) f ha)]
        exact hrest

/-- Witness of C16 on the example package: a `go` instruction that passes `g` as an
argument to an unknown callee escalates the entry of `g`. -/
theorem C16_function_arguments_escalated_witness :
    (∃ fe1, (checkFunctionParameter exampleRegistered
        { value := .other, method := none, args := [.other, .function (some exG)],
          numResults := 0 }).functionRegistry.lookup exG.fullName = some fe1 ∧
      IsEscalated fe1) ∧
    ∃ fe2, (checkInstr exampleRegistered
        (.go { value := .other, method := none, args := [.other, .function (some exG)],
               numResults := 0 })).functionRegistry.lookup exG.fullName = some fe2 ∧
      IsEscalated fe2 ∧ fe2.fullName = exGEntry.fullName ∧ fe2.pos = exGEntry.pos :=
  (C16_function_arguments_escalated exampleRegistered
    { value := .other, method := none, args := [.other, .function (some exG)],
      numResults := 0 }).2.2.1 (.function (some exG))
    (List.mem_cons_of_mem _ (List.mem_singleton.2 rfl)) exG (Or.inl rfl) exGEntry rfl
    (.go { value := .other, method := none, args := [.other, .function (some exG)],
           numResults := 0 }) (Or.inr (Or.inr rfl))

/-! ## Which instructions escalate a function -/

theorem actEntry_passedAsArgument (e r : Bool) (used : Finset Nat)
    (ps : Option (Finset String)) (fe : FunctionEntry) :
    (actEntry e r used ps fe).passedAsArgument = (fe.passedAsArgument || e) := by
  cases e <;> simp [actEntry, escalate]

theorem stepEntry_keeps_escalation (name : String) (fe : FunctionEntry) (s : Step)
    (h : fe.passedAsArgument = true → IsEscalated fe) :
    (stepEntry name fe s).passedAsArgument = true → IsEscalated (stepEntry name fe s) := by
  intro hp
  by_cases hfe : fe.passedAsArgument = true
  · rw [stepEntry_of_isEscalated name fe s (h hfe)]
    exact h hfe
  · rw [stepEntry_eq_actEntry] at hp ⊢
    rw [actEntry_passedAsArgument, Bool.or_eq_true] at hp
    have he : (stepAct name s).1 = true := by
      rcases hp with h1 | h1
      · exact absurd h1 hfe
      · exact h1
    rw [he, actEntry_true]
    exact escalate_isEscalated fe

theorem foldl_stepEntry_keeps_escalation (name : String) (steps : List Step)
    (fe : FunctionEntry) (h : fe.passedAsArgument = true → IsEscalated fe) :
    (steps.foldl (stepEntry name) fe).passedAsArgument = true →
      IsEscalated (steps.foldl (stepEntry name) fe) := by
  induction steps generalizing fe with
  | nil => exact h
  | cons s rest ih =>
    simp only [List.foldl_cons]
    exact ih _ (stepEntry_keeps_escalation name fe s h)

theorem stepAct_fst (name : String) (s : Step) :
    (stepAct name s).1 = true ↔ ∃ i, s = Step.instr i ∧ instrEscalates name i = true := by
  cases s with
  | instr i => simp [stepAct]
  | params fnObj ps => simp [stepAct]
  | ident n => simp [stepAct]

theorem foldl_stepEntry_passedAsArgument (name : String) (steps : List Step)
    (fe : FunctionEntry) :
    (steps.foldl (stepEntry name) fe).passedAsArgument = true ↔
      fe.passedAsArgument = true ∨
        ∃ i, Step.instr i ∈ steps ∧ instrEscalates name i = true := by
  induction steps generalizing fe with
  | nil => simp
  | cons s rest ih =>
    simp only [List.foldl_cons, List.mem_cons]
    rw [ih, stepEntry_eq_actEntry, actEntry_passedAsArgument, Bool.or_eq_true, stepAct_fst]
    constructor
    · rintro ((h | ⟨i, rfl, h⟩) | ⟨i, h1, h2⟩)
      · exact Or.inl h
      · exact Or.inr ⟨i, Or.inl rfl, h⟩
      · exact Or.inr ⟨i, Or.inr h1, h2⟩
    · rintro (h | ⟨i, h1 | h1, h2⟩)
      · exact Or.inl (Or.inl h)
      · exact Or.inl (Or.inr ⟨i, h1.symm, h2⟩)
      · exact Or.inr ⟨i, h1, h2⟩

section EscalationClaim

variable (unicodeIsUpper : Char → Bool) (unicodeToLower : Char → Char)

/-- The final entry of a registered function is escalated exactly when some scanned
instruction escalates it. -/
theorem final_escalated_iff (pass : Pass) (name : String) (fe0 : FunctionEntry)
    (hreg : (registerPackageUnexportedDefinitions unicodeIsUpper unicodeToLower pass.files
      newExecutionMetadata).functionRegistry.lookup name = some fe0) :
    ∃ fe, (finalMetadata unicodeIsUpper unicodeToLower pass).functionRegistry.lookup name
        = some fe ∧
      fe.fullName = name ∧ fe.pos = fe0.pos ∧
      (fe.passedAsArgument = true ↔ ∃ i ∈ scannedInstrs pass, instrEscalates name i = true) ∧
      (fe.passedAsArgument = true → IsEscalated fe) := by
  obtain ⟨f, n, ps, _, hname, hfresh⟩ :=
    registered_is_fresh unicodeIsUpper unicodeToLower pass.files name fe0 hreg
  have hp : fe0.passedAsArgument = false := by rw [hfresh]; rfl
  have hn0 : fe0.fullName = name := by rw [hfresh]; exact hname
  have hfp := foldl_stepEntry_fullName_pos name (flowSteps pass ++ syntaxSteps pass) fe0
  refine ⟨(flowSteps pass ++ syntaxSteps pass).foldl (stepEntry name) fe0,
    by rw [finalMetadata_eq_foldl, lookup_foldl_applyStep, hreg]; rfl,
    by rw [hfp.1, hn0], hfp.2, ?_, ?_⟩
  · rw [foldl_stepEntry_passedAsArgument, hp]
    constructor
    · rintro (h | ⟨i, hi, he⟩)
      · cases h
      · exact ⟨i, (instr_mem_allSteps pass i).1 hi, he⟩
    · rintro ⟨i, hi, he⟩
      exact Or.inr ⟨i, (instr_mem_allSteps pass i).2 hi, he⟩
  · apply foldl_stepEntry_keeps_escalation
    intro h
    rw [hp] at h
    cases h

end EscalationClaim

theorem GoMap.eq_of_keys_of_lookup {κ ν : Type} [DecidableEq κ] (m1 m2 : GoMap κ ν)
    (hk : m1.keys = m2.keys) (hn : m1.keys.Nodup) (hl : ∀ k, m1.lookup k = m2.lookup k) :
    m1 = m2 := by
  induction m1 generalizing m2 with
  | nil =>
    cases m2 with
    | nil => rfl
    | cons p rest => simp [GoMap.keys] at hk
  | cons p rest ih =>
    obtain ⟨k0, v0⟩ := p
    cases m2 with
    | nil => simp [GoMap.keys] at hk
    | cons q rest2 =>
      obtain ⟨k1, v1⟩ := q
      simp only [GoMap.keys, List.map_cons, List.cons.injEq] at hk
      obtain ⟨hk0, hkr⟩ := hk
      subst hk0
      have hnd : k0 ∉ GoMap.keys rest ∧ (GoMap.keys rest).Nodup := by
        simpa [GoMap.keys] using hn
      have hv : v0 = v1 := by
        have := hl k0
        simpa [GoMap.lookup] using this
      subst hv
      have hrest : rest = rest2 := by
        apply ih rest2 hkr hnd.2
        intro k
        by_cases h : k0 = k
        · subst h
          rw [(GoMap.lookup_eq_none_iff rest k0).2 hnd.1,
            (GoMap.lookup_eq_none_iff rest2 k0).2 (by
              have : GoMap.keys rest2 = GoMap.keys rest := hkr.symm
              rw [this]; exact hnd.1)]
        · have := hl k
          simpa [GoMap.lookup, h] using this
      rw [hrest]

theorem GoMap.erase_comm {κ ν : Type} [DecidableEq κ] (m : GoMap κ ν) (a b : κ) :
    (m.erase a).erase b = (m.erase b).erase a := by
  induction m with
  | nil => rfl
  | cons p rest ih =>
    obtain ⟨k0, v0⟩ := p
    by_cases ha : k0 = a
    · subst ha
      by_cases hb : k0 = b
      · subst hb
        rfl
      · simp only [GoMap.erase, if_true, if_neg hb, ih]
    · by_cases hb : k0 = b
      · subst hb
        simp only [GoMap.erase, if_true, if_neg ha, ih]
      · simp only [GoMap.erase, if_neg ha, if_neg hb, ih]

theorem actEntry_comm (e1 r1 : Bool) (u1 : Finset Nat) (p1 : Option (Finset String))
    (e2 r2 : Bool) (u2 : Finset Nat) (p2 : Option (Finset String)) (fe : FunctionEntry) :
    actEntry e2 r2 u2 p2 (actEntry e1 r1 u1 p1 fe) =
      actEntry e1 r1 u1 p1 (actEntry e2 r2 u2 p2 fe) := by
  cases fe with
  | mk fullName referenced pos unusedResults unusedArguments passedAsArgument =>
    cases e1 <;> cases e2
    · simp only [actEntry, Bool.false_eq_true, if_false, FunctionEntry.mk.injEq, true_and,
        and_true]
      refine ⟨?_, ?_, ?_⟩
      · cases referenced <;> cases r1 <;> cases r2 <;> rfl
      · ext x
        simp only [Finset.mem_sdiff]
        tauto
      · cases p1 <;> cases p2 <;> cases passedAsArgument <;>
          simp [Finset.union_comm, Finset.union_left_comm, Finset.union_assoc]
    · cases p1 <;> simp [actEntry, escalate]
    · cases p2 <;> simp [actEntry, escalate]
    · rfl

theorem stepEntry_comm (name : String) (fe : FunctionEntry) (s1 s2 : Step) :
    stepEntry name (stepEntry name fe s1) s2 = stepEntry name (stepEntry name fe s2) s1 := by
  simp only [stepEntry_eq_actEntry]
  exact actEntry_comm _ _ _ _ _ _ _ _ fe

/-- The effect of a step on a struct entry in normal form: it sets `referenced` or not and
deletes one key of `unusedFields` or none, independently of the entry. -/
theorem stepStruct_normal (rp : GoMap Pos Bool) (name : String) (s : Step) :
    ∃ (m : Bool) (e : Option Nat), ∀ se : StructEntry,
      stepStruct rp name se s =
        { se with
          referenced := se.referenced || m
          unusedFields := match e with
            | some k => se.unusedFields.erase k
            | none => se.unusedFields } := by
  have hidle : ∀ se : StructEntry, se =
      { se with referenced := se.referenced || false, unusedFields := se.unusedFields } := by
    intro se
    cases se
    simp
  cases s with
  | params fnObj ps => exact ⟨false, none, fun se => hidle se⟩
  | ident n =>
    refine ⟨identMarksStruct rp name n, none, fun se => ?_⟩
    have h := stepStruct_referenced_ident rp name se n
    have hf := stepStruct_fields rp name se (.ident n)
    have hu : (stepStruct rp name se (.ident n)).unusedFields = se.unusedFields := by
      simp only [stepStruct]
      split
      · rfl
      · split
        · split <;> rfl
        · rfl
    cases hs : stepStruct rp name se (.ident n) with
    | mk a b c d e =>
      rw [hs] at h hf hu
      simp only at h hf hu
      cases se
      simp only at h hf hu ⊢
      simp [h, hf.1, hf.2.1, hf.2.2.1, hu]
  | instr i =>
    cases i with
    | fieldAddr id xType field refs =>
      cases refs with
      | none => exact ⟨false, none, fun se => hidle se⟩
      | some l =>
        by_cases hc : fieldAddrTypeName xType = name ∧ fieldIsUsed id l = true
        · refine ⟨false, some field, fun se => ?_⟩
          simp only [stepStruct, if_pos hc]
          cases se
          simp
        · refine ⟨false, none, fun se => ?_⟩
          simp only [stepStruct, if_neg hc]
          exact hidle se
    | call cc refs => exact ⟨false, none, fun se => hidle se⟩
    | defer cc => exact ⟨false, none, fun se => hidle se⟩
    | go cc => exact ⟨false, none, fun se => hidle se⟩
    | changeType x => exact ⟨false, none, fun se => hidle se⟩
    | other ops => exact ⟨false, none, fun se => hidle se⟩

theorem stepStruct_comm (rp : GoMap Pos Bool) (name : String) (se : StructEntry)
    (s1 s2 : Step) :
    stepStruct rp name (stepStruct rp name se s1) s2 =
      stepStruct rp name (stepStruct rp name se s2) s1 := by
  obtain ⟨m1, e1, h1⟩ := stepStruct_normal rp name s1
  obtain ⟨m2, e2, h2⟩ := stepStruct_normal rp name s2
  rw [h1 se, h2 se, h2, h1]
  cases se with
  | mk fullName referenced exported pos unusedFields =>
    simp only [StructEntry.mk.injEq, true_and]
    refine ⟨?_, ?_⟩
    · cases referenced <;> cases m1 <;> cases m2 <;> rfl
    · cases e1 <;> cases e2 <;> simp only
      exact GoMap.erase_comm _ _ _

/-- The effect of a step on `otherUnusedDefinitions`: it deletes one key or none, and which
one depends on the step and on the keys of the struct registry only. -/
theorem applyStep_other_normal (structKeys : List String) (s : Step) :
    ∃ e : Option Pos, ∀ em : ExecutionMetadata, em.structRegistry.keys = structKeys →
      (applyStep em s).otherUnusedDefinitions =
        match e with
        | some pos => em.otherUnusedDefinitions.erase pos
        | none => em.otherUnusedDefinitions := by
  cases s with
  | ident n =>
    refine ⟨identErases structKeys n, fun em hk => ?_⟩
    have h := applyStep_otherUnusedDefinitions em (.ident n)
    rw [hk] at h
    exact h
  | instr i =>
    exact ⟨none, fun em _ => by rw [applyStep_otherUnusedDefinitions]⟩
  | params fnObj ps =>
    exact ⟨none, fun em _ => by rw [applyStep_otherUnusedDefinitions]⟩

theorem ExecutionMetadata.eq_of_fields (a b : ExecutionMetadata)
    (h1 : a.functionRegistry = b.functionRegistry) (h2 : a.structRegistry = b.structRegistry)
    (h3 : a.receiverPositions = b.receiverPositions)
    (h4 : a.otherUnusedDefinitions = b.otherUnusedDefinitions) : a = b := by
  cases a
  cases b
  simp only at h1 h2 h3 h4
  subst h1
  subst h2
  subst h3
  subst h4
  rfl

/-- Two steps applied to a metadata whose registries are Go maps give the same metadata in
either order. -/
theorem applyStep_comm (em : ExecutionMetadata) (hf : em.functionRegistry.keys.Nodup)
    (hs : em.structRegistry.keys.Nodup) (s1 s2 : Step) :
    applyStep (applyStep em s1) s2 = applyStep (applyStep em s2) s1 := by
  apply ExecutionMetadata.eq_of_fields
  · apply GoMap.eq_of_keys_of_lookup
    · simp only [keys_applyStep]
    · simp only [keys_applyStep]
      exact hf
    · intro k
      simp only [lookup_applyStep]
      cases em.functionRegistry.lookup k with
      | none => rfl
      | some fe =>
        simp only [Option.map_some']
        rw [stepEntry_comm]
  · apply GoMap.eq_of_keys_of_lookup
    · simp only [keys_applyStep_struct]
    · simp only [keys_applyStep_struct]
      exact hs
    · intro k
      simp only [lookup_applyStep_struct, applyStep_receiverPositions]
      cases em.structRegistry.lookup k with
      | none => rfl
      | some se =>
        simp only [Option.map_some']
        rw [stepStruct_comm]
  · simp only [applyStep_receiverPositions]
  · obtain ⟨e1, h1⟩ := applyStep_other_normal em.structRegistry.keys s1
    obtain ⟨e2, h2⟩ := applyStep_other_normal em.structRegistry.keys s2
    rw [h2 (applyStep em s1) (keys_applyStep_struct em s1), h1 em rfl,
      h1 (applyStep em s2) (keys_applyStep_struct em s2), h2 em rfl]
    cases e1 <;> cases e2 <;> simp only
    exact GoMap.erase_comm _ _ _

/-- A permutation of the steps gives the same metadata. -/
theorem foldl_applyStep_perm {l1 l2 : List Step} (p : l1.Perm l2) :
    ∀ em : ExecutionMetadata, em.functionRegistry.keys.Nodup → em.structRegistry.keys.Nodup →
      l1.foldl applyStep em = l2.foldl applyStep em := by
  induction p with
  | nil => intro em _ _; rfl
  | cons x _ ih =>
    intro em hf hs
    simp only [List.foldl_cons]
    exact ih _ (by rw [keys_applyStep]; exact hf) (by rw [keys_applyStep_struct]; exact hs)
  | swap x y l =>
    intro em hf hs
    simp only [List.foldl_cons]
    rw [applyStep_comm em hf hs]
  | trans _ _ ih1 ih2 =>
    intro em hf hs
    exact (ih1 em hf hs).trans (ih2 em hf hs)

theorem flowSteps_perm_of_srcFuncs (pass : Pass) (srcFuncs2 : List Function)
    (h : pass.srcFuncs.Perm srcFuncs2) :
    (flowSteps pass).Perm (flowSteps { pass with srcFuncs := srcFuncs2 }) := by
  unfold flowSteps
  exact List.Perm.append_left _ (List.Perm.flatten (List.Perm.map _ h))

section OrderClaim

variable (unicodeIsUpper : Char → Bool) (unicodeToLower : Char → Char)

/-- C18. On a metadata whose registries are Go maps (no key twice), any two steps of the
scans (the `switch` on one instruction, the unused-parameter step of one function, `visit`
on one identifier) give the same metadata in either order, and so does any permutation of a
list of steps.  Hence, for every package: a package with the same files whose flow steps are
a permutation of those of `pass` (its functions, blocks or instructions permuted) gets the
same diagnostics, in particular when the source functions are permuted, and running the
syntax scan before the flow scan gives the same diagnostics too. -/
theorem C18_traversal_order_irrelevant (em : ExecutionMetadata)
    (hf : em.functionRegistry.keys.Nodup) (hs : em.structRegistry.keys.Nodup) :
    (∀ s1 s2, applyStep (applyStep em s1) s2 = applyStep (applyStep em s2) s1) ∧
    (∀ steps1 steps2 : List Step, steps1.Perm steps2 →
      steps1.foldl applyStep em = steps2.foldl applyStep em) ∧
    (∀ pass pass2 : Pass, pass2.files = pass.files →
      (flowSteps pass2).Perm (flowSteps pass) →
      run unicodeIsUpper unicodeToLower pass2 = run unicodeIsUpper unicodeToLower pass) ∧
    (∀ (pass : Pass) (srcFuncs2 : List Function), pass.srcFuncs.Perm srcFuncs2 →
      run unicodeIsUpper unicodeToLower { pass with srcFuncs := srcFuncs2 } =
        run unicodeIsUpper unicodeToLower pass) ∧
    (∀ pass : Pass,
      reportErrors (runFlow pass (runSyntax pass
        (registerPackageUnexportedDefinitions unicodeIsUpper unicodeToLower pass.files
          newExecutionMetadata))) = run unicodeIsUpper unicodeToLower pass) := by
  have hregf : ∀ files : List File,
      (registerPackageUnexportedDefinitions unicodeIsUpper unicodeToLower files
        newExecutionMetadata).functionRegistry.keys.Nodup :=
    fun files => (wf_register unicodeIsUpper unicodeToLower files).1
  have hregs := nodup_struct_register unicodeIsUpper unicodeToLower
  have hperm : ∀ pass pass2 : Pass, pass2.files = pass.files →
      (flowSteps pass2).Perm (flowSteps pass) →
      run unicodeIsUpper unicodeToLower pass2 = run unicodeIsUpper unicodeToLower pass := by
    intro pass pass2 hfiles hp
    unfold run
    rw [finalMetadata_eq_foldl, finalMetadata_eq_foldl, hfiles]
    have hsyn : syntaxSteps pass2 = syntaxSteps pass := by
      unfold syntaxSteps
      rw [hfiles]
    rw [hsyn]
    rw [foldl_applyStep_perm (List.Perm.append_right (syntaxSteps pass) hp) _
      (hregf pass.files) (hregs pass.files)]
  refine ⟨applyStep_comm em hf hs, fun steps1 steps2 p => foldl_applyStep_perm p em hf hs,
    hperm, ?_, ?_⟩
  · intro pass srcFuncs2 hp
    exact hperm pass { pass with srcFuncs := srcFuncs2 } rfl
      (flowSteps_perm_of_srcFuncs pass srcFuncs2 hp).symm
  · intro pass
    unfold run
    rw [finalMetadata_eq_foldl, runFlow_eq_foldl, runSyntax_eq_foldl, ← List.foldl_append]
    rw [foldl_applyStep_perm List.perm_append_comm _ (hregf pass.files) (hregs pass.files)]

end OrderClaim

/-- Witness of C18 on the registered metadata of the example package. -/
theorem C18_traversal_order_irrelevant_witness :
    (∀ s1 s2, applyStep (applyStep exampleRegistered s1) s2 =
      applyStep (applyStep exampleRegistered s2) s1) ∧
    (∀ steps1 steps2 : List Step, steps1.Perm steps2 →
      steps1.foldl applyStep exampleRegistered = steps2.foldl applyStep exampleRegistered) ∧
    (∀ pass pass2 : Pass, pass2.files = pass.files →
      (flowSteps pass2).Perm (flowSteps pass) →
      run Char.isUpper Char.toLower pass2 = run Char.isUpper Char.toLower pass) ∧
    (∀ (pass : Pass) (srcFuncs2 : List Function), pass.srcFuncs.Perm srcFuncs2 →
      run Char.isUpper Char.toLower { pass with srcFuncs := srcFuncs2 } =
        run Char.isUpper Char.toLower pass) ∧
    (∀ pass : Pass,
      reportErrors (runFlow pass (runSyntax pass
        (registerPackageUnexportedDefinitions Char.isUpper Char.toLower pass.files
          newExecutionMetadata))) = run Char.isUpper Char.toLower pass) :=
  C18_traversal_order_irrelevant Char.isUpper Char.toLower exampleRegistered
    (wf_register Char.isUpper Char.toLower examplePass.files).1
    (nodup_struct_register Char.isUpper Char.toLower examplePass.files)

/-! ## The unused parameters of a function -/

theorem mem_unreferencedNames (ps : List Parameter) (x : String) :
    x ∈ unreferencedNames ps ↔
      ∃ p ∈ ps, (p.referrers = none ∨ p.referrers = some []) ∧ p.name = x := by
  unfold unreferencedNames
  simp only [List.mem_toFinset, List.mem_map, List.mem_filter]
  have hu : ∀ p : Parameter, paramUnreferenced p = true ↔
      (p.referrers = none ∨ p.referrers = some []) := by
    intro p
    unfold paramUnreferenced
    cases p.referrers with
    | none => simp
    | some l => cases l <;> simp
  constructor
  · rintro ⟨p, ⟨hp, hr⟩, hn⟩
    exact ⟨p, hp, (hu p).1 hr, hn⟩
  · rintro ⟨p, hp, hr, hn⟩
    exact ⟨p, ⟨hp, (hu p).2 hr⟩, hn⟩

theorem params_mem_allSteps (pass : Pass) (fnObj : TypesFunc) (ps : List Parameter) :
    Step.params fnObj ps ∈ flowSteps pass ++ syntaxSteps pass ↔
      ∃ fn ∈ pass.srcFuncs, fn.object = some fnObj ∧ fn.params = ps := by
  have hsyn : Step.params fnObj ps ∉ syntaxSteps pass := by
    unfold syntaxSteps
    rw [mem_flatten_map]
    rintro ⟨f, _, h⟩
    simp at h
  have hinit : Step.params fnObj ps ∉ (match pass.initFunc with
      | some initFunc => (functionInstrs initFunc).map Step.instr
      | none => []) := by
    cases pass.initFunc <;> simp
  rw [List.mem_append]
  unfold flowSteps
  rw [List.mem_append, mem_flatten_map]
  constructor
  · rintro ((h | ⟨fn, hfn, h⟩) | h)
    · exact absurd h hinit
    · unfold srcFuncSteps at h
      cases ho : fn.object with
      | none => rw [ho] at h; simp at h
      | some o =>
        rw [ho] at h
        simp only [List.mem_append, List.mem_map, List.mem_singleton, Step.params.injEq] at h
        rcases h with ⟨i, _, hi⟩ | ⟨h1, h2⟩
        · cases hi
        · exact ⟨fn, hfn, by rw [ho, h1], h2.symm⟩
    · exact absurd h hsyn
  · rintro ⟨fn, hfn, ho, hps⟩
    refine Or.inl (Or.inr ⟨fn, hfn, ?_⟩)
    unfold srcFuncSteps
    rw [ho, hps]
    simp

theorem foldl_stepEntry_unusedArguments (name : String) (steps : List Step)
    (fe : FunctionEntry)
    (h : ∀ i, Step.instr i ∈ steps → instrEscalates name i = false)
    (hp : fe.passedAsArgument = false) (x : String) :
    x ∈ (steps.foldl (stepEntry name) fe).unusedArguments ↔
      x ∈ fe.unusedArguments ∨
        ∃ fnObj ps, Step.params fnObj ps ∈ steps ∧ fnObj.fullName = name ∧
          x ∈ unreferencedNames ps := by
  induction steps generalizing fe with
  | nil => simp
  | cons s rest ih =>
    simp only [List.foldl_cons, List.mem_cons]
    have hrest : ∀ i, Step.instr i ∈ rest → instrEscalates name i = false :=
      fun i hi => h i (List.mem_cons_of_mem _ hi)
    have he : (stepAct name s).1 = false := by
      cases hs : (stepAct name s).1 with
      | false => rfl
      | true =>
        obtain ⟨i, hi, hesc⟩ := (stepAct_fst name s).1 hs
        rw [h i (by rw [hi]; exact List.mem_cons_self _ _)] at hesc
        cases hesc
    have hp1 : (stepEntry name fe s).passedAsArgument = false := by
      rw [stepEntry_eq_actEntry, actEntry_passedAsArgument, hp, he]
      rfl
    rw [ih _ hrest hp1]
    have hargs : x ∈ (stepEntry name fe s).unusedArguments ↔
        x ∈ fe.unusedArguments ∨
          ∃ fnObj ps, s = Step.params fnObj ps ∧ fnObj.fullName = name ∧
            x ∈ unreferencedNames ps := by
      rw [stepEntry_eq_actEntry, he]
      cases s with
      | instr i => simp [actEntry, stepAct]
      | ident n => simp [actEntry, stepAct]
      | params fnObj ps =>
        by_cases hn : fnObj.fullName = name
        · simp only [actEntry, stepAct, hn, hp, if_true, Bool.false_eq_true, if_false,
            Finset.mem_union, Step.params.injEq]
          constructor
          · rintro (h1 | h1)
            · exact Or.inl h1
            · exact Or.inr ⟨fnObj, ps, ⟨rfl, rfl⟩, hn, h1⟩
          · rintro (h1 | ⟨f2, ps2, ⟨hf2, hps2⟩, _, h3⟩)
            · exact Or.inl h1
            · rw [hps2]
              exact Or.inr h3
        · simp only [actEntry, stepAct, hn, if_false, Bool.false_eq_true, Step.params.injEq]
          constructor
          · exact Or.inl
          · rintro (h1 | ⟨f2, ps2, ⟨hf2, _⟩, h2, _⟩)
            · exact h1
            · rw [hf2] at hn
              exact absurd h2 hn
    rw [hargs]
    constructor
    · rintro ((h1 | ⟨fnObj, ps, h1, h2, h3⟩) | ⟨fnObj, ps, h1, h2, h3⟩)
      · exact Or.inl h1
      · exact Or.inr ⟨fnObj, ps, Or.inl h1.symm, h2, h3⟩
      · exact Or.inr ⟨fnObj, ps, Or.inr h1, h2, h3⟩
    · rintro (h1 | ⟨fnObj, ps, h1 | h1, h2, h3⟩)
      · exact Or.inl (Or.inl h1)
      · exact Or.inl (Or.inr ⟨fnObj, ps, h1.symm, h2, h3⟩)
      · exact Or.inr ⟨fnObj, ps, h1, h2, h3⟩

section UnusedArgumentsClaim

variable (unicodeIsUpper : Char → Bool) (unicodeToLower : Char → Char)

/-- C19. For a registered function that no scanned instruction escalates, the final
`unusedArguments` is exactly the set of the names of the parameters, of the source functions
that have its function object, whose referrer list is nil or empty (which is what a
parameter that is only shadowed or only overwritten has in the flow graph).  For a function
that some scanned instruction escalates, wherever that instruction is scanned, the final
`unusedArguments` is empty; and it is empty for an entry that no source function has (an
interface method).  The diagnostics of `run` about the function are those of
`reportFunction` for the final entry. -/
theorem C19_unused_arguments_are_unreferenced_parameters (pass : Pass) (name : String)
    (fe0 : FunctionEntry)
    (hreg : (registerPackageUnexportedDefinitions unicodeIsUpper unicodeToLower pass.files
      newExecutionMetadata).functionRegistry.lookup name = some fe0) :
    ∃ fe, (finalMetadata unicodeIsUpper unicodeToLower pass).functionRegistry.lookup name
        = some fe ∧
      ((∀ i ∈ scannedInstrs pass, instrEscalates name i = false) →
        ∀ x, x ∈ fe.unusedArguments ↔
          ∃ fn ∈ pass.srcFuncs, ∃ fnObj, fn.object = some fnObj ∧ fnObj.fullName = name ∧
            ∃ p ∈ fn.params, (p.referrers = none ∨ p.referrers = some []) ∧ p.name = x) ∧
      ((∃ i ∈ scannedInstrs pass, instrEscalates name i = true) → fe.unusedArguments = ∅) ∧
      ((∀ fn ∈ pass.srcFuncs, ∀ fnObj, fn.object = some fnObj → fnObj.fullName ≠ name) →
        fe.unusedArguments = ∅) ∧
      (run unicodeIsUpper unicodeToLower pass).filter
        (fun d => decide (d.message.functionName = some name)) = reportFunction fe := by
  obtain ⟨f, n, ps0, _, hname, hfresh⟩ :=
    registered_is_fresh unicodeIsUpper unicodeToLower pass.files name fe0 hreg
  have hp : fe0.passedAsArgument = false := by rw [hfresh]; rfl
  have ha0 : fe0.unusedArguments = ∅ := by rw [hfresh]; rfl
  obtain ⟨fe, hfe, _, _, hiff, hesc⟩ :=
    final_escalated_iff unicodeIsUpper unicodeToLower pass name fe0 hreg
  have hfe2 : fe = (flowSteps pass ++ syntaxSteps pass).foldl (stepEntry name) fe0 := by
    have : (finalMetadata unicodeIsUpper unicodeToLower pass).functionRegistry.lookup name =
        some ((flowSteps pass ++ syntaxSteps pass).foldl (stepEntry name) fe0) := by
      rw [finalMetadata_eq_foldl, lookup_foldl_applyStep, hreg]; rfl
    rw [hfe] at this
    injection this
  have hnone : (∀ i ∈ scannedInstrs pass, instrEscalates name i = false) →
      ∀ x, x ∈ fe.unusedArguments ↔
        ∃ fn ∈ pass.srcFuncs, ∃ fnObj, fn.object = some fnObj ∧ fnObj.fullName = name ∧
          ∃ p ∈ fn.params, (p.referrers = none ∨ p.referrers = some []) ∧ p.name = x := by
    intro hno x
    rw [hfe2, foldl_stepEntry_unusedArguments name _ fe0
      (fun i hi => hno i ((instr_mem_allSteps pass i).1 hi)) hp x, ha0]
    constructor
    · rintro (h | ⟨fnObj, ps, h1, h2, h3⟩)
      · simp at h
      · obtain ⟨fn, hfn, ho, hps⟩ := (params_mem_allSteps pass fnObj ps).1 h1
        rw [← hps] at h3
        exact ⟨fn, hfn, fnObj, ho, h2, (mem_unreferencedNames _ x).1 h3⟩
    · rintro ⟨fn, hfn, fnObj, ho, h2, h3⟩
      exact Or.inr ⟨fnObj, fn.params, (params_mem_allSteps pass fnObj fn.params).2
        ⟨fn, hfn, ho, rfl⟩, h2, (mem_unreferencedNames _ x).2 h3⟩
  have hsome : (∃ i ∈ scannedInstrs pass, instrEscalates name i = true) →
      fe.unusedArguments = ∅ := fun h => (hesc (hiff.2 h)).2.2.1
  refine ⟨fe, hfe, hnone, hsome, ?_, ?_⟩
  · intro hnofn
    by_cases hex : ∃ i ∈ scannedInstrs pass, instrEscalates name i = true
    · exact hsome hex
    · have hno : ∀ i ∈ scannedInstrs pass, instrEscalates name i = false := by
        intro i hi
        cases hc : instrEscalates name i with
        | false => rfl
        | true => exact absurd ⟨i, hi, hc⟩ hex
      ext x
      rw [hnone hno x]
      simp only [Finset.not_mem_empty, iff_false]
      rintro ⟨fn, hfn, fnObj, ho, h2, _⟩
      exact hnofn fn hfn fnObj ho h2
  · unfold run
    rw [filter_reportErrors_function _ name
      (wf_finalMetadata unicodeIsUpper unicodeToLower pass), hfe]

end UnusedArgumentsClaim

/-- Witness of C19 on the package `func q(a int, b int) int { return b }` with one call of
`q`: the entry of `q` is registered. -/
theorem C19_unused_arguments_are_unreferenced_parameters_witness :
    ∃ fe, (finalMetadata Char.isUpper Char.toLower parameterPass).functionRegistry.lookup "p.q"
        = some fe ∧
      ((∀ i ∈ scannedInstrs parameterPass, instrEscalates "p.q" i = false) →
        ∀ x, x ∈ fe.unusedArguments ↔
          ∃ fn ∈ parameterPass.srcFuncs, ∃ fnObj, fn.object = some fnObj ∧
            fnObj.fullName = "p.q" ∧
            ∃ p ∈ fn.params, (p.referrers = none ∨ p.referrers = some []) ∧ p.name = x) ∧
      ((∃ i ∈ scannedInstrs parameterPass, instrEscalates "p.q" i = true) →
        fe.unusedArguments = ∅) ∧
      ((∀ fn ∈ parameterPass.srcFuncs, ∀ fnObj, fn.object = some fnObj →
          fnObj.fullName ≠ "p.q") →
        fe.unusedArguments = ∅) ∧
      (run Char.isUpper Char.toLower parameterPass).filter
        (fun d => decide (d.message.functionName = some "p.q")) = reportFunction fe :=
  C19_unused_arguments_are_unreferenced_parameters Char.isUpper Char.toLower parameterPass
    "p.q" exQEntry rfl

/-! ## Interface methods -/

theorem actEntry_referenced (e r : Bool) (used : Finset Nat) (ps : Option (Finset String))
    (fe : FunctionEntry) :
    (actEntry e r used ps fe).referenced = (fe.referenced || r || e) := by
  cases e <;> simp [actEntry, escalate]

theorem stepAct_snd (name : String) (s : Step) :
    (stepAct name s).2.1 = true ↔ ∃ i, s = Step.instr i ∧ instrReferences name i = true := by
  cases s with
  | instr i => simp [stepAct]
  | params fnObj ps => simp [stepAct]
  | ident n => simp [stepAct]

theorem foldl_stepEntry_referenced (name : String) (steps : List Step) (fe : FunctionEntry) :
    (steps.foldl (stepEntry name) fe).referenced = true ↔
      fe.referenced = true ∨
        ∃ i, Step.instr i ∈ steps ∧
          (instrReferences name i = true ∨ instrEscalates name i = true) := by
  induction steps generalizing fe with
  | nil => simp
  | cons s rest ih =>
    simp only [List.foldl_cons, List.mem_cons]
    rw [ih, stepEntry_eq_actEntry, actEntry_referenced, Bool.or_eq_true, Bool.or_eq_true,
      stepAct_fst, stepAct_snd]
    constructor
    · rintro (((h | ⟨i, rfl, h⟩) | ⟨i, rfl, h⟩) | ⟨i, h1, h2⟩)
      · exact Or.inl h
      · exact Or.inr ⟨i, Or.inl rfl, Or.inl h⟩
      · exact Or.inr ⟨i, Or.inl rfl, Or.inr h⟩
      · exact Or.inr ⟨i, Or.inr h1, h2⟩
    · rintro (h | ⟨i, h1 | h1, h2 | h2⟩)
      · exact Or.inl (Or.inl (Or.inl h))
      · exact Or.inl (Or.inl (Or.inr ⟨i, h1.symm, h2⟩))
      · exact Or.inl (Or.inr ⟨i, h1.symm, h2⟩)
      · exact Or.inr ⟨i, h1, Or.inl h2⟩
      · exact Or.inr ⟨i, h1, Or.inr h2⟩

theorem functionNotUsed_mem_reportFunction (fe : FunctionEntry) (pos : Pos) (name : String) :
    (⟨pos, Message.functionNotUsed name⟩ : Diagnostic) ∈ reportFunction fe ↔
      fe.referenced = false ∧ pos = fe.pos ∧ name = fe.fullName := by
  unfold reportFunction
  cases hr : fe.referenced
  · simp
  · simp only [Bool.not_true, Bool.false_eq_true, if_false]
    constructor
    · intro h
      split at h
      · simp at h
      · split at h <;> simp at h
    · rintro ⟨h, _⟩
      cases h

/-- Counterexample to C20 as stated: in the package with `type iface interface { m() int }`
and `func Use(i iface) { i.m() }` the identifier `m` of the call resolves to the interface
method and is not its declaration, the method is no entry of `otherUnusedDefinitions`
(only `iface` is), and `run` still reports a diagnostic at the position 36 of the method:
its result is never used. -/
theorem C20_interface_method_reference_does_not_clear :
    (packageIdents interfaceCallPass).filter
        (fun n => !decide (n.astObj = some n.pos) &&
          (match n.typesObj with
            | some (.func f) => decide (f.fullName = "(p.iface).m")
            | _ => false)) =
      [⟨"m", 70, none, some (.func exIm)⟩] ∧
    (registerPackageUnexportedDefinitions Char.isUpper Char.toLower interfaceCallPass.files
      newExecutionMetadata).otherUnusedDefinitions = [(17, "iface")] ∧
    run Char.isUpper Char.toLower interfaceCallPass =
      [⟨36, .unusedReturns "(p.iface).m" (insert 0 ∅)⟩] :=
  ⟨rfl, rfl, rfl⟩

/-! ## Monotonicity of the usage state -/

theorem actEntry_unusedResults (e r : Bool) (used : Finset Nat) (ps : Option (Finset String))
    (fe : FunctionEntry) (x : Nat) :
    x ∈ (actEntry e r used ps fe).unusedResults ↔
      e = false ∧ x ∈ fe.unusedResults ∧ x ∉ used := by
  cases e <;> simp [actEntry, escalate]

theorem stepStruct_referenced_mono (rp : GoMap Pos Bool) (name : String) (se : StructEntry)
    (s : Step) (h : se.referenced = true) : (stepStruct rp name se s).referenced = true := by
  cases s with
  | ident n => rw [stepStruct_referenced_ident, h]; rfl
  | instr i => rw [stepStruct_referenced_other rp name se _ (fun n hn => by cases hn)]; exact h
  | params fnObj ps =>
    rw [stepStruct_referenced_other rp name se _ (fun n hn => by cases hn)]; exact h

theorem usageMonotone_refl (em : ExecutionMetadata) : UsageMonotone em em :=
  ⟨fun _ fe h => ⟨fe, h, id, id, Finset.Subset.refl _⟩,
    fun _ se h => ⟨se, h, id, fun _ hf => hf⟩, fun _ h => h⟩

theorem usageMonotone_trans {a b c : ExecutionMetadata} (h1 : UsageMonotone a b)
    (h2 : UsageMonotone b c) : UsageMonotone a c := by
  refine ⟨?_, ?_, ?_⟩
  · intro name fe hfe
    obtain ⟨fe2, hfe2, a1, a2, a3⟩ := h1.1 name fe hfe
    obtain ⟨fe3, hfe3, b1, b2, b3⟩ := h2.1 name fe2 hfe2
    exact ⟨fe3, hfe3, fun h => b1 (a1 h), fun h => b2 (a2 h), Finset.Subset.trans b3 a3⟩
  · intro name se hse
    obtain ⟨se2, hse2, a1, a2⟩ := h1.2.1 name se hse
    obtain ⟨se3, hse3, b1, b2⟩ := h2.2.1 name se2 hse2
    exact ⟨se3, hse3, fun h => b1 (a1 h), fun f hf => a2 f (b2 f hf)⟩
  · intro kv hkv
    exact h1.2.2 kv (h2.2.2 kv hkv)

/-- One step moves the usage state forward only. -/
theorem usageMonotone_applyStep (em : ExecutionMetadata) (s : Step) :
    UsageMonotone em (applyStep em s) := by
  refine ⟨?_, ?_, fun kv hkv => mem_other_applyStep em s kv hkv⟩
  · intro name fe hfe
    refine ⟨stepEntry name fe s, by rw [lookup_applyStep, hfe]; rfl, ?_, ?_, ?_⟩
    · intro h
      rw [stepEntry_eq_actEntry, actEntry_referenced, h]
      rfl
    · intro h
      rw [stepEntry_eq_actEntry, actEntry_passedAsArgument, h]
      rfl
    · intro x hx
      rw [stepEntry_eq_actEntry, actEntry_unusedResults] at hx
      exact hx.2.1
  · intro name se hse
    refine ⟨stepStruct em.receiverPositions name se s,
      by rw [lookup_applyStep_struct, hse]; rfl, ?_, ?_⟩
    · exact stepStruct_referenced_mono _ name se s
    · exact (stepStruct_fields _ name se s).2.2.2.1

theorem usageMonotone_foldl (steps : List Step) (em : ExecutionMetadata) :
    UsageMonotone em (steps.foldl applyStep em) := by
  induction steps generalizing em with
  | nil => exact usageMonotone_refl em
  | cons s rest ih =>
    simp only [List.foldl_cons]
    exact usageMonotone_trans (usageMonotone_applyStep em s) (ih _)

section MonotoneClaim

variable (unicodeIsUpper : Char → Bool) (unicodeToLower : Char → Char)

/-- C21. Every step of the scans (the `switch` on one instruction, the unused-parameter step
of one function, `visit` on one identifier) moves the usage state forward only: each
function entry keeps `referenced = true` and `passedAsArgument = true` once set and its
`unusedResults` becomes a subset of what it was, each struct entry keeps `referenced = true`
once set and its `unusedFields` becomes a subset of what it was, and
`otherUnusedDefinitions` becomes a subset of what it was; no entry disappears.  The same
holds for `checkInstr`, the unused-parameter step and `visit` taken one by one, for every
sequence of steps, for the flow scan and the syntax scan of `run`, and from the registered
metadata to the metadata that `run` hands to `reportErrors`. -/
theorem C21_usage_state_monotone (em : ExecutionMetadata) :
    (∀ s : Step, UsageMonotone em (applyStep em s)) ∧
    (∀ i : Instr, UsageMonotone em (checkInstr em i)) ∧
    (∀ (fnObj : TypesFunc) (ps : List Parameter),
      UsageMonotone em (checkUnusedParams em fnObj ps)) ∧
    (∀ n : Ident, UsageMonotone em (visit em n)) ∧
    (∀ steps : List Step, UsageMonotone em (steps.foldl applyStep em)) ∧
    (∀ pass : Pass, UsageMonotone em (runFlow pass em) ∧ UsageMonotone em (runSyntax pass em)) ∧
    (∀ pass : Pass,
      UsageMonotone
        (registerPackageUnexportedDefinitions unicodeIsUpper unicodeToLower pass.files
          newExecutionMetadata)
        (finalMetadata unicodeIsUpper unicodeToLower pass)) := by
  refine ⟨usageMonotone_applyStep em, fun i => usageMonotone_applyStep em (.instr i),
    fun fnObj ps => usageMonotone_applyStep em (.params fnObj ps),
    fun n => usageMonotone_applyStep em (.ident n), fun steps => usageMonotone_foldl steps em,
    ?_, ?_⟩
  · intro pass
    rw [runFlow_eq_foldl, runSyntax_eq_foldl]
    exact ⟨usageMonotone_foldl _ em, usageMonotone_foldl _ em⟩
  · intro pass
    rw [finalMetadata_eq_foldl]
    exact usageMonotone_foldl _ _

end MonotoneClaim

/-- Witness of C21 on the example package: the entry of `f` from registration to the end of
the scans. -/
theorem C21_usage_state_monotone_witness :
    ∃ fe2, (finalMetadata Char.isUpper Char.toLower examplePass).functionRegistry.lookup "p.f"
        = some fe2 ∧
      (exFEntry.referenced = true → fe2.referenced = true) ∧
      (exFEntry.passedAsArgument = true → fe2.passedAsArgument = true) ∧
      fe2.unusedResults ⊆ exFEntry.unusedResults :=
  ((C21_usage_state_monotone Char.isUpper Char.toLower exampleRegistered).2.2.2.2.2.2
    examplePass).1 "p.f" exFEntry rfl

/-! ## Call sites -/

theorem foldl_stepEntry_unusedResults (name : String) (steps : List Step)
    (fe : FunctionEntry) (x : Nat)
    (h : x ∈ (steps.foldl (stepEntry name) fe).unusedResults) :
    x ∈ fe.unusedResults ∧ ∀ s ∈ steps, x ∉ (stepAct name s).2.2.1 := by
  induction steps generalizing fe with
  | nil => exact ⟨h, fun s hs => by cases hs⟩
  | cons s rest ih =>
    simp only [List.foldl_cons] at h
    obtain ⟨h1, h2⟩ := ih _ h
    rw [stepEntry_eq_actEntry, actEntry_unusedResults] at h1
    refine ⟨h1.2.1, ?_⟩
    intro s2 hs2
    rcases List.mem_cons.1 hs2 with hs2 | hs2
    · rw [hs2]
      exact h1.2.2
    · exact h2 s2 hs2

theorem instrReferences_call (name : String) (cc : CallCommon)
    (refs : Option (List Referrer)) :
    instrReferences name (.call cc refs) = true ↔ calleeName cc = some name := by
  simp [instrReferences, resolvesTo]

theorem mem_scannedInstrs_of_init (pass : Pass) (initFunc : Function)
    (hinit : pass.initFunc = some initFunc) (i : Instr) (hi : i ∈ functionInstrs initFunc) :
    i ∈ scannedInstrs pass := by
  unfold scannedInstrs
  rw [hinit]
  exact List.mem_append_left _ hi

theorem mem_scannedInstrs_of_srcFunc (pass : Pass) (fn : Function) (fnObj : TypesFunc)
    (hfn : fn ∈ pass.srcFuncs) (hobj : fn.object = some fnObj) (i : Instr)
    (hi : i ∈ functionInstrs fn) : i ∈ scannedInstrs pass := by
  unfold scannedInstrs
  refine List.mem_append_right _ ((mem_flatten_map _ _ _).2 ⟨fn, hfn, ?_⟩)
  rw [hobj]
  exact hi

section CallSites

variable (unicodeIsUpper : Char → Bool) (unicodeToLower : Char → Char)

/-- The final entry of a registered function: it is referenced exactly when some scanned
instruction references or escalates it, and an index that is still in `unusedResults` was
seeded and is consumed by no scanned instruction. -/
theorem final_entry (pass : Pass) (name : String) (fe0 : FunctionEntry)
    (hreg : (registerPackageUnexportedDefinitions unicodeIsUpper unicodeToLower pass.files
      newExecutionMetadata).functionRegistry.lookup name = some fe0) :
    ∃ fe, (finalMetadata unicodeIsUpper unicodeToLower pass).functionRegistry.lookup name
        = some fe ∧
      fe.fullName = name ∧ fe.pos = fe0.pos ∧
      (fe.referenced = true ↔
        ∃ i ∈ scannedInstrs pass,
          instrReferences name i = true ∨ instrEscalates name i = true) ∧
      (∀ x ∈ fe.unusedResults,
        x ∈ fe0.unusedResults ∧ ∀ i ∈ scannedInstrs pass, x ∉ instrConsumes name i) ∧
      (run unicodeIsUpper unicodeToLower pass).filter
        (fun d => decide (d.message.functionName = some name)) = reportFunction fe := by
  obtain ⟨f, n, ps0, _, hname, hfresh⟩ :=
    registered_is_fresh unicodeIsUpper unicodeToLower pass.files name fe0 hreg
  have hr0 : fe0.referenced = false := by rw [hfresh]; rfl
  have hn0 : fe0.fullName = name := by rw [hfresh]; exact hname
  have hfp := foldl_stepEntry_fullName_pos name (flowSteps pass ++ syntaxSteps pass) fe0
  have hl : (finalMetadata unicodeIsUpper unicodeToLower pass).functionRegistry.lookup name =
      some ((flowSteps pass ++ syntaxSteps pass).foldl (stepEntry name) fe0) := by
    rw [finalMetadata_eq_foldl, lookup_foldl_applyStep, hreg]; rfl
  refine ⟨_, hl, by rw [hfp.1, hn0], hfp.2, ?_, ?_, ?_⟩
  · rw [foldl_stepEntry_referenced, hr0]
    constructor
    · rintro (h | ⟨i, hi, hri⟩)
      · cases h
      · exact ⟨i, (instr_mem_allSteps pass i).1 hi, hri⟩
    · rintro ⟨i, hi, hri⟩
      exact Or.inr ⟨i, (instr_mem_allSteps pass i).2 hi, hri⟩
  · intro x hx
    obtain ⟨h1, h2⟩ := foldl_stepEntry_unusedResults name _ fe0 x hx
    exact ⟨h1, fun i hi => h2 (.instr i) ((instr_mem_allSteps pass i).2 hi)⟩
  · unfold run
    rw [filter_reportErrors_function _ name
      (wf_finalMetadata unicodeIsUpper unicodeToLower pass), hl]

/-- No not-used diagnostic of `run` names a function whose final entry is referenced. -/
theorem not_reported_of_referenced (pass : Pass) (name : String) (fe : FunctionEntry)
    (hfilter : (run unicodeIsUpper unicodeToLower pass).filter
      (fun d => decide (d.message.functionName = some name)) = reportFunction fe)
    (href : fe.referenced = true) (pos : Pos) :
    (⟨pos, Message.functionNotUsed name⟩ : Diagnostic) ∉
      run unicodeIsUpper unicodeToLower pass := by
  intro hmem
  have hm : (⟨pos, Message.functionNotUsed name⟩ : Diagnostic) ∈
      (run unicodeIsUpper unicodeToLower pass).filter
        (fun d => decide (d.message.functionName = some name)) := by
    rw [List.mem_filter]
    exact ⟨hmem, by simp [Message.functionName]⟩
  rw [hfilter, functionNotUsed_mem_reportFunction, href] at hm
  cases hm.1

/-- C22. `run` scans the body of the package initializer, when there is one, as it scans
the source functions: every instruction of the initializer is a scanned instruction.  So a
registered function that a call of the initializer resolves to (a call in the initializer of
a package-level variable) ends with `referenced = true`, none of the result indexes that the
call consumes is left in its `unusedResults`, and it is not reported as not used; nothing
about the variable is assumed, whether it is read or reported. -/
theorem C22_initializer_calls_count (pass : Pass) (name : String) (fe0 : FunctionEntry)
    (hreg : (registerPackageUnexportedDefinitions unicodeIsUpper unicodeToLower pass.files
      newExecutionMetadata).functionRegistry.lookup name = some fe0)
    (initFunc : Function) (hinit : pass.initFunc = some initFunc)
    (cc : CallCommon) (refs : Option (List Referrer))
    (hcall : Instr.call cc refs ∈ functionInstrs initFunc)
    (hres : calleeName cc = some name) :
    (∀ i ∈ functionInstrs initFunc, i ∈ scannedInstrs pass) ∧
    ∃ fe, (finalMetadata unicodeIsUpper unicodeToLower pass).functionRegistry.lookup name
        = some fe ∧
      fe.referenced = true ∧
      (∀ x ∈ findUsedResults cc.numResults refs, x ∉ fe.unusedResults) ∧
      ∀ pos, (⟨pos, Message.functionNotUsed name⟩ : Diagnostic) ∉
        run unicodeIsUpper unicodeToLower pass := by
  have hscan := mem_scannedInstrs_of_init pass initFunc hinit
  obtain ⟨fe, hfe, _, _, href, hres2, hfilter⟩ :=
    final_entry unicodeIsUpper unicodeToLower pass name fe0 hreg
  have hr : fe.referenced = true :=
    href.2 ⟨_, hscan _ hcall, Or.inl ((instrReferences_call name cc refs).2 hres)⟩
  refine ⟨hscan, fe, hfe, hr, ?_,
    not_reported_of_referenced unicodeIsUpper unicodeToLower pass name fe hfilter hr⟩
  intro x hx hmem
  have := (hres2 x hmem).2 _ (hscan _ hcall)
  apply this
  simp only [instrConsumes, resolvesTo, hres, decide_True, if_true, List.mem_toFinset]
  exact hx

end CallSites

/-- Witness of C22 on the package `func compute() int { return 1 }; var v = compute()`: the
variable `v` is reported and the function `compute` is not. -/
theorem C22_initializer_calls_count_witness :
    run Char.isUpper Char.toLower initializerPass = [⟨49, .otherNotUsed "v"⟩] ∧
    (∀ i ∈ functionInstrs (.mk none []
        [[.other [],
          .call { value := .function (some exCompute), method := none, args := [],
                  numResults := 1 } (some [.store 1]),
          .other [.other, .other],
          .other []]] []), i ∈ scannedInstrs initializerPass) ∧
    ∃ fe, (finalMetadata Char.isUpper Char.toLower initializerPass).functionRegistry.lookup
        "p.compute" = some fe ∧
      fe.referenced = true ∧
      (∀ x ∈ findUsedResults 1 (some [Referrer.store 1]), x ∉ fe.unusedResults) ∧
      ∀ pos, (⟨pos, Message.functionNotUsed "p.compute"⟩ : Diagnostic) ∉
        run Char.isUpper Char.toLower initializerPass :=
  ⟨rfl,
    C22_initializer_calls_count Char.isUpper Char.toLower initializerPass "p.compute"
      { fullName := "p.compute", referenced := false, pos := 17, unusedResults := insert 0 ∅,
        unusedArguments := ∅, passedAsArgument := false } rfl
      (.mk none []
        [[.other [],
          .call { value := .function (some exCompute), method := none, args := [],
                  numResults := 1 } (some [.store 1]),
          .other [.other, .other],
          .other []]] []) rfl
      { value := .function (some exCompute), method := none, args := [], numResults := 1 }
      (some [.store 1])
      (by simp [functionInstrs, anonInstrs]) rfl⟩

/-! ## Defer and go -/

section DeferGo

variable (unicodeIsUpper : Char → Bool) (unicodeToLower : Char → Char)

/-- The unused arguments of the final entry of a registered function that no scanned
instruction escalates. -/
theorem final_unusedArguments (pass : Pass) (name : String) (fe0 fe : FunctionEntry)
    (hreg : (registerPackageUnexportedDefinitions unicodeIsUpper unicodeToLower pass.files
      newExecutionMetadata).functionRegistry.lookup name = some fe0)
    (hfe : (finalMetadata unicodeIsUpper unicodeToLower pass).functionRegistry.lookup name
      = some fe)
    (hnoesc : ∀ i ∈ scannedInstrs pass, instrEscalates name i = false) (x : String) :
    x ∈ fe.unusedArguments ↔
      ∃ fn ∈ pass.srcFuncs, ∃ fnObj, fn.object = some fnObj ∧ fnObj.fullName = name ∧
        ∃ p ∈ fn.params, (p.referrers = none ∨ p.referrers = some []) ∧ p.name = x := by
  obtain ⟨f, n, ps0, _, hname, hfresh⟩ :=
    registered_is_fresh unicodeIsUpper unicodeToLower pass.files name fe0 hreg
  have hp : fe0.passedAsArgument = false := by rw [hfresh]; rfl
  have ha0 : fe0.unusedArguments = ∅ := by rw [hfresh]; rfl
  have hl : (finalMetadata unicodeIsUpper unicodeToLower pass).functionRegistry.lookup name =
      some ((flowSteps pass ++ syntaxSteps pass).foldl (stepEntry name) fe0) := by
    rw [finalMetadata_eq_foldl, lookup_foldl_applyStep, hreg]; rfl
  rw [hfe] at hl
  injection hl with hl
  rw [hl, foldl_stepEntry_unusedArguments name _ fe0
    (fun i hi => hnoesc i ((instr_mem_allSteps pass i).1 hi)) hp x, ha0]
  constructor
  · rintro (h | ⟨fnObj, ps, h1, h2, h3⟩)
    · simp at h
    · obtain ⟨fn, hfn, ho, hps⟩ := (params_mem_allSteps pass fnObj ps).1 h1
      rw [← hps] at h3
      exact ⟨fn, hfn, fnObj, ho, h2, (mem_unreferencedNames _ x).1 h3⟩
  · rintro ⟨fn, hfn, fnObj, ho, h2, h3⟩
    exact Or.inr ⟨fnObj, fn.params, (params_mem_allSteps pass fnObj fn.params).2
      ⟨fn, hfn, ho, rfl⟩, h2, (mem_unreferencedNames _ x).2 h3⟩

/-- The unused results of the final entry of a registered function that no scanned
instruction escalates and no scanned `ssa.Call` resolves to: the seeded set. -/
theorem final_unusedResults_of_no_call (pass : Pass) (name : String) (fe0 fe : FunctionEntry)
    (hreg : (registerPackageUnexportedDefinitions unicodeIsUpper unicodeToLower pass.files
      newExecutionMetadata).functionRegistry.lookup name = some fe0)
    (hfe : (finalMetadata unicodeIsUpper unicodeToLower pass).functionRegistry.lookup name
      = some fe)
    (hnoesc : ∀ i ∈ scannedInstrs pass, instrEscalates name i = false)
    (hnocall : ∀ cc refs, Instr.call cc refs ∈ scannedInstrs pass →
      calleeName cc ≠ some name) :
    fe.unusedResults = fe0.unusedResults := by
  obtain ⟨f, n, ps0, _, hname, hfresh⟩ :=
    registered_is_fresh unicodeIsUpper unicodeToLower pass.files name fe0 hreg
  have hp : fe0.passedAsArgument = false := by rw [hfresh]; rfl
  have hl : (finalMetadata unicodeIsUpper unicodeToLower pass).functionRegistry.lookup name =
      some ((flowSteps pass ++ syntaxSteps pass).foldl (stepEntry name) fe0) := by
    rw [finalMetadata_eq_foldl, lookup_foldl_applyStep, hreg]; rfl
  rw [hfe] at hl
  injection hl with hl
  obtain ⟨_, _, h3⟩ := foldl_stepEntry_of_not_escalates name
    (flowSteps pass ++ syntaxSteps pass) fe0
    (fun i hi => hnoesc i ((instr_mem_allSteps pass i).1 hi)) hp
  ext x
  rw [hl, h3 x]
  constructor
  · exact fun h => h.1
  · intro h
    refine ⟨h, ?_⟩
    rintro ⟨cc, refs, hmem, hcallee, _⟩
    exact hnocall cc refs ((instr_mem_allSteps pass _).1 hmem) hcallee

theorem instrEntry_defer_go_unusedResults (name : String) (fe : FunctionEntry) (i : Instr)
    (hi : ∃ cc, i = Instr.defer cc ∨ i = Instr.go cc)
    (hesc : instrEscalates name i = false) :
    (instrEntry name fe i).unusedResults = fe.unusedResults := by
  rw [instrEntry_eq_actEntry, hesc]
  obtain ⟨cc, rfl | rfl⟩ := hi <;> simp [actEntry, instrConsumes]

/-- C23, as amended. A defer or go instruction removes nothing from the `unusedResults` of
an entry it does not escalate.  So a registered function that no scanned instruction
escalates, that no scanned `ssa.Call` resolves to and that some scanned defer or go
instruction resolves to ends with `referenced = true` and with `unusedResults` equal to its
seeded set `{0, ..., n-1}`.  With at least one result the only diagnostic about it is the
unused-returns message with that set; with no result it gets no not-used and no
unused-returns diagnostic, and it gets the unused-arguments diagnostic exactly when one of
the parameters of its source function has no referrer. -/
theorem C23_defer_go_consume_no_result (pass : Pass) (name : String) (fe0 : FunctionEntry)
    (hreg : (registerPackageUnexportedDefinitions unicodeIsUpper unicodeToLower pass.files
      newExecutionMetadata).functionRegistry.lookup name = some fe0)
    (hnoesc : ∀ i ∈ scannedInstrs pass, instrEscalates name i = false)
    (hnocall : ∀ cc refs, Instr.call cc refs ∈ scannedInstrs pass →
      calleeName cc ≠ some name)
    (hdg : ∃ cc, (Instr.defer cc ∈ scannedInstrs pass ∨ Instr.go cc ∈ scannedInstrs pass) ∧
      calleeName cc = some name) :
    (∀ (em : ExecutionMetadata) (cc : CallCommon) (i : Instr) (nm : String)
      (fe : FunctionEntry), i = Instr.defer cc ∨ i = Instr.go cc →
      em.functionRegistry.lookup nm = some fe → instrEscalates nm i = false →
      ∃ fe2, (checkInstr em i).functionRegistry.lookup nm = some fe2 ∧
        fe2.unusedResults = fe.unusedResults) ∧
    ∃ fe, (finalMetadata unicodeIsUpper unicodeToLower pass).functionRegistry.lookup name
        = some fe ∧
      fe.referenced = true ∧
      (∃ n, fe0.unusedResults = Finset.range n) ∧
      fe.unusedResults = fe0.unusedResults ∧
      (fe0.unusedResults ≠ ∅ →
        (run unicodeIsUpper unicodeToLower pass).filter
          (fun d => decide (d.message.functionName = some name)) =
            [⟨fe0.pos, Message.unusedReturns name fe0.unusedResults⟩]) ∧
      (fe0.unusedResults = ∅ →
        (run unicodeIsUpper unicodeToLower pass).filter
          (fun d => decide (d.message.functionName = some name)) =
            if fe.unusedArguments = ∅ then []
            else [⟨fe0.pos, Message.unusedArguments name fe.unusedArguments⟩]) ∧
      ∀ x, x ∈ fe.unusedArguments ↔
        ∃ fn ∈ pass.srcFuncs, ∃ fnObj, fn.object = some fnObj ∧ fnObj.fullName = name ∧
          ∃ p ∈ fn.params, (p.referrers = none ∨ p.referrers = some []) ∧ p.name = x := by
  constructor
  · intro em cc i nm fe hi hfe hesc
    refine ⟨instrEntry nm fe i, by rw [lookup_checkInstr, hfe]; rfl, ?_⟩
    exact instrEntry_defer_go_unusedResults nm fe i ⟨cc, hi⟩ hesc
  · obtain ⟨fe, hfe, hname, hpos, href, _, hfilter⟩ :=
      final_entry unicodeIsUpper unicodeToLower pass name fe0 hreg
    obtain ⟨f, n, ps0, _, _, hfresh⟩ :=
      registered_is_fresh unicodeIsUpper unicodeToLower pass.files name fe0 hreg
    have hr : fe.referenced = true := by
      obtain ⟨cc, hmem, hcallee⟩ := hdg
      rcases hmem with hmem | hmem
      · exact href.2 ⟨_, hmem, Or.inl (by simp [instrReferences, resolvesTo, hcallee])⟩
      · exact href.2 ⟨_, hmem, Or.inl (by simp [instrReferences, resolvesTo, hcallee])⟩
    have hres := final_unusedResults_of_no_call unicodeIsUpper unicodeToLower pass name fe0 fe
      hreg hfe hnoesc hnocall
    refine ⟨fe, hfe, hr, ⟨n, by rw [hfresh]; rfl⟩, hres, ?_, ?_,
      final_unusedArguments unicodeIsUpper unicodeToLower pass name fe0 fe hreg hfe hnoesc⟩
    · intro hne
      rw [hfilter]
      simp only [reportFunction, hr, Bool.not_true, Bool.false_eq_true, if_false, hres,
        hname, hpos]
      simp [hne]
    · intro he
      rw [hfilter]
      simp only [reportFunction, hr, Bool.not_true, Bool.false_eq_true, if_false, hres,
        hname, hpos, he]
      by_cases ha : fe.unusedArguments = ∅
      · simp [ha]
      · simp [ha]

end DeferGo

theorem example_deferGo_scanned :
    scannedInstrs deferGoPass =
      [.other [], .other [], .other [.other],
       .defer { value := .function (some exD), method := none, args := [.other],
                numResults := 0 },
       .go { value := .function (some exR), method := none, args := [], numResults := 1 },
       .other [], .other []] := rfl

/-- Counterexample to C23 as stated: in the package with `func d(x int) {}` called only by
`defer d(1)`, the function `d` has no result, the only scanned instruction that resolves to
it is the defer, nothing escalates it, and `run` reports a diagnostic about it: its
parameter `x` is unused. -/
theorem C23_deferred_function_with_unused_parameter :
    (registerPackageUnexportedDefinitions Char.isUpper Char.toLower deferGoPass.files
      newExecutionMetadata).functionRegistry.lookup "p.d" = some exDEntry ∧
    exDEntry.unusedResults = ∅ ∧
    (scannedInstrs deferGoPass).filter (instrReferences "p.d") =
      [.defer { value := .function (some exD), method := none, args := [.other],
                numResults := 0 }] ∧
    (scannedInstrs deferGoPass).any (instrEscalates "p.d") = false ∧
    (run Char.isUpper Char.toLower deferGoPass).filter
        (fun d => decide (d.message.functionName = some "p.d")) =
      [⟨17, .unusedArguments "p.d" (insert "x" ∅)⟩] :=
  ⟨rfl, rfl, rfl, rfl, rfl⟩

theorem example_deferGo_hnoesc :
    ∀ i ∈ scannedInstrs deferGoPass, instrEscalates "p.r" i = false := by
  intro i hi
  rw [example_deferGo_scanned] at hi
  simp only [List.mem_cons, List.mem_singleton, List.not_mem_nil, or_false] at hi
  rcases hi with rfl | rfl | rfl | rfl | rfl | rfl | rfl <;> rfl

theorem example_deferGo_hnocall : ∀ cc refs, Instr.call cc refs ∈ scannedInstrs deferGoPass →
    calleeName cc ≠ some "p.r" := by
  intro cc refs hi
  rw [example_deferGo_scanned] at hi
  simp at hi

/-- Witness of the amended C23 on the same package, for the function `r` with one result
that is called only by `go r()`. -/
theorem C23_defer_go_consume_no_result_witness :
    ∃ fe, (finalMetadata Char.isUpper Char.toLower deferGoPass).functionRegistry.lookup "p.r"
        = some fe ∧
      fe.referenced = true ∧
      (∃ n, exREntry.unusedResults = Finset.range n) ∧
      fe.unusedResults = exREntry.unusedResults ∧
      (exREntry.unusedResults ≠ ∅ →
        (run Char.isUpper Char.toLower deferGoPass).filter
          (fun d => decide (d.message.functionName = some "p.r")) =
            [⟨exREntry.pos, Message.unusedReturns "p.r" exREntry.unusedResults⟩]) ∧
      (exREntry.unusedResults = ∅ →
        (run Char.isUpper Char.toLower deferGoPass).filter
          (fun d => decide (d.message.functionName = some "p.r")) =
            if fe.unusedArguments = ∅ then []
            else [⟨exREntry.pos, Message.unusedArguments "p.r" fe.unusedArguments⟩]) ∧
      ∀ x, x ∈ fe.unusedArguments ↔
        ∃ fn ∈ deferGoPass.srcFuncs, ∃ fnObj, fn.object = some fnObj ∧
          fnObj.fullName = "p.r" ∧
          ∃ p ∈ fn.params, (p.referrers = none ∨ p.referrers = some []) ∧ p.name = x :=
  (C23_defer_go_consume_no_result Char.isUpper Char.toLower deferGoPass "p.r" exREntry rfl
    example_deferGo_hnoesc example_deferGo_hnocall
    ⟨{ value := .function (some exR), method := none, args := [], numResults := 1 },
      Or.inr (by rw [example_deferGo_scanned]; simp), rfl⟩).2

/-! ## The resolution of a callee -/

theorem calleeName_of_static (cc : CallCommon) (f : TypesFunc)
    (h : StaticCallee cc = some (some f)) : calleeName cc = some f.fullName := by
  unfold calleeName
  rw [h]

theorem calleeName_of_not_static (cc : CallCommon)
    (h : ∀ f, StaticCallee cc ≠ some (some f)) :
    calleeName cc = cc.method.map (fun m => m.fullName) := by
  unfold calleeName
  cases hs : StaticCallee cc with
  | none => cases cc.method <;> rfl
  | some o =>
    cases o with
    | none => cases cc.method <;> rfl
    | some f => exact absurd hs (h f)

theorem lookup_retrieve_eq (em : ExecutionMetadata) (cc : CallCommon) (name : String) :
    (retrieveRegisteredFunctionEntry em cc).1.functionRegistry.lookup name =
      if calleeName cc = some name then
        (em.functionRegistry.lookup name).map (fun fe => { fe with referenced := true })
      else em.functionRegistry.lookup name := by
  rw [lookup_retrieve]
  unfold retrieveEntry resolvesTo
  by_cases h : calleeName cc = some name
  · simp [h]
  · simp only [h, decide_False, Bool.false_eq_true, if_false]
    cases em.functionRegistry.lookup name <;> rfl

theorem retrieve_snd_eq (em : ExecutionMetadata) (cc : CallCommon) (name : String) :
    (retrieveRegisteredFunctionEntry em cc).2 = some name ↔
      calleeName cc = some name ∧ (em.functionRegistry.lookup name).isSome = true := by
  constructor
  · intro h
    have hc := retrieve_snd em cc name h
    refine ⟨hc, ?_⟩
    cases hl : em.functionRegistry.lookup name with
    | some fe0 => rfl
    | none =>
      unfold retrieveRegisteredFunctionEntry at h
      simp only [hc, hl] at h
      cases h
  · rintro ⟨hc, hsome⟩
    obtain ⟨fe0, hl⟩ := Option.isSome_iff_exists.1 hsome
    unfold retrieveRegisteredFunctionEntry
    simp only [hc, hl]

theorem instrReferences_iff (name : String) (i : Instr) :
    instrReferences name i = true ↔
      ∃ cc, ((∃ refs, i = Instr.call cc refs) ∨ i = Instr.defer cc ∨ i = Instr.go cc) ∧
        calleeName cc = some name := by
  cases i with
  | call cc refs =>
    simp only [instrReferences, resolvesTo, decide_eq_true_eq]
    constructor
    · exact fun h => ⟨cc, Or.inl ⟨refs, rfl⟩, h⟩
    · rintro ⟨cc2, (⟨refs2, h⟩ | h | h), hc⟩
      · injection h with h1 _
        rw [h1]
        exact hc
      · cases h
      · cases h
  | defer cc =>
    simp only [instrReferences, resolvesTo, decide_eq_true_eq]
    constructor
    · exact fun h => ⟨cc, Or.inr (Or.inl rfl), h⟩
    · rintro ⟨cc2, (⟨refs2, h⟩ | h | h), hc⟩
      · cases h
      · injection h with h1
        rw [h1]
        exact hc
      · cases h
  | go cc =>
    simp only [instrReferences, resolvesTo, decide_eq_true_eq]
    constructor
    · exact fun h => ⟨cc, Or.inr (Or.inr rfl), h⟩
    · rintro ⟨cc2, (⟨refs2, h⟩ | h | h), hc⟩
      · cases h
      · cases h
      · injection h with h1
        rw [h1]
        exact hc
  | changeType x =>
    simp only [instrReferences, Bool.false_eq_true, false_iff]
    rintro ⟨cc2, (⟨refs2, h⟩ | h | h), _⟩ <;> cases h
  | fieldAddr id xType field refs =>
    simp only [instrReferences, Bool.false_eq_true, false_iff]
    rintro ⟨cc2, (⟨refs2, h⟩ | h | h), _⟩ <;> cases h
  | other ops =>
    simp only [instrReferences, Bool.false_eq_true, false_iff]
    rintro ⟨cc2, (⟨refs2, h⟩ | h | h), _⟩ <;> cases h

section InterfaceCallClaim

variable (unicodeIsUpper : Char → Bool) (unicodeToLower : Char → Char)

/-- An unexported method of an interface declared at package level has an entry in the
function registry after registration. -/
theorem interface_method_registered (files : List File) (p : FuncType × Ident)
    (funcObj : TypesFunc) (hmem : p ∈ interfaceMethodIdents files)
    (hexp : IsExported unicodeIsUpper p.2.name = false)
    (hobj : p.2.typesObj = some (.func funcObj)) :
    ∃ fe0, (registerPackageUnexportedDefinitions unicodeIsUpper unicodeToLower files
      newExecutionMetadata).functionRegistry.lookup funcObj.fullName = some fe0 := by
  apply Option.isSome_iff_exists.1
  rw [register_eq_foldl]
  apply isSome_lookup_foldl_applyRegEvent
  refine Or.inr ⟨funcObj, interfaceMethodNumResults p.1, [], ?_, rfl⟩
  unfold registrationEvents
  exact List.mem_append_left _
    ((function_mem_genEvents unicodeIsUpper files funcObj _ _).2
      ⟨p, hmem, hexp, hobj, rfl, rfl⟩)

/-- C24. `retrieveRegisteredFunctionEntry` resolves a call to the full name of its static
callee when that has a function object, otherwise to the full name of the invoked interface
method when there is one, otherwise to nothing; it returns an entry exactly when that name
is in the registry, sets `referenced` of that entry and leaves every other entry, and
everything outside the function registry, as it was.  Consequently, for an unexported
interface method: a scanned call, defer or go instruction through the interface (no static
callee, the method as `Method`) resolves to it, its final entry is then referenced and it is
not reported as not used; and when no scanned call, defer or go instruction resolves to its
full name and nothing escalates it, it is reported as not used, whatever calls of methods
with other full names (the concrete methods of the same name) are scanned. -/
theorem C24_callee_resolution (pass : Pass) (p : FuncType × Ident) (funcObj : TypesFunc)
    (hmem : p ∈ interfaceMethodIdents pass.files)
    (hexp : IsExported unicodeIsUpper p.2.name = false)
    (hobj : p.2.typesObj = some (.func funcObj)) :
    (∀ (cc : CallCommon) (f : TypesFunc), StaticCallee cc = some (some f) →
      calleeName cc = some f.fullName) ∧
    (∀ cc : CallCommon, (∀ f, StaticCallee cc ≠ some (some f)) →
      calleeName cc = cc.method.map (fun m => m.fullName)) ∧
    (∀ (em : ExecutionMetadata) (cc : CallCommon) (name : String),
      ((retrieveRegisteredFunctionEntry em cc).2 = some name ↔
        calleeName cc = some name ∧ (em.functionRegistry.lookup name).isSome = true) ∧
      (retrieveRegisteredFunctionEntry em cc).1.functionRegistry.lookup name =
        (if calleeName cc = some name then
          (em.functionRegistry.lookup name).map (fun fe => { fe with referenced := true })
        else em.functionRegistry.lookup name) ∧
      (retrieveRegisteredFunctionEntry em cc).1.functionRegistry.keys =
        em.functionRegistry.keys ∧
      SameOutsideFunctions (retrieveRegisteredFunctionEntry em cc).1 em) ∧
    ∃ fe0 fe,
      (registerPackageUnexportedDefinitions unicodeIsUpper unicodeToLower pass.files
        newExecutionMetadata).functionRegistry.lookup funcObj.fullName = some fe0 ∧
      (finalMetadata unicodeIsUpper unicodeToLower pass).functionRegistry.lookup
        funcObj.fullName = some fe ∧
      ((∃ cc, ((∃ refs, Instr.call cc refs ∈ scannedInstrs pass) ∨
            Instr.defer cc ∈ scannedInstrs pass ∨ Instr.go cc ∈ scannedInstrs pass) ∧
          (∀ f, StaticCallee cc ≠ some (some f)) ∧ cc.method = some funcObj) →
        fe.referenced = true ∧
        ∀ pos, (⟨pos, Message.functionNotUsed funcObj.fullName⟩ : Diagnostic) ∉
          run unicodeIsUpper unicodeToLower pass) ∧
      ((∀ cc, ((∃ refs, Instr.call cc refs ∈ scannedInstrs pass) ∨
            Instr.defer cc ∈ scannedInstrs pass ∨ Instr.go cc ∈ scannedInstrs pass) →
          calleeName cc ≠ some funcObj.fullName) →
        (∀ i ∈ scannedInstrs pass, instrEscalates funcObj.fullName i = false) →
        fe.referenced = false ∧
        (⟨fe0.pos, Message.functionNotUsed funcObj.fullName⟩ : Diagnostic) ∈
          run unicodeIsUpper unicodeToLower pass) := by
  refine ⟨calleeName_of_static, calleeName_of_not_static,
    fun em cc name => ⟨retrieve_snd_eq em cc name, lookup_retrieve_eq em cc name,
      keys_retrieve em cc, sameOutside_retrieve em cc⟩, ?_⟩
  obtain ⟨fe0, hreg⟩ := interface_method_registered unicodeIsUpper unicodeToLower pass.files
    p funcObj hmem hexp hobj
  obtain ⟨fe, hfe, hname, hpos, href, _, hfilter⟩ :=
    final_entry unicodeIsUpper unicodeToLower pass funcObj.fullName fe0 hreg
  refine ⟨fe0, fe, hreg, hfe, ?_, ?_⟩
  · rintro ⟨cc, hscan, hstatic, hmethod⟩
    have hcallee : calleeName cc = some funcObj.fullName := by
      rw [calleeName_of_not_static cc hstatic, hmethod]
      rfl
    have hr : fe.referenced = true := by
      rcases hscan with ⟨refs, h⟩ | h | h
      · exact href.2 ⟨_, h, Or.inl ((instrReferences_iff _ _).2
          ⟨cc, Or.inl ⟨refs, rfl⟩, hcallee⟩)⟩
      · exact href.2 ⟨_, h, Or.inl ((instrReferences_iff _ _).2
          ⟨cc, Or.inr (Or.inl rfl), hcallee⟩)⟩
      · exact href.2 ⟨_, h, Or.inl ((instrReferences_iff _ _).2
          ⟨cc, Or.inr (Or.inr rfl), hcallee⟩)⟩
    exact ⟨hr, not_reported_of_referenced unicodeIsUpper unicodeToLower pass _ fe hfilter hr⟩
  · intro hnone hnoesc
    have hr : fe.referenced = false := by
      cases hc : fe.referenced with
      | false => rfl
      | true =>
        exfalso
        obtain ⟨i, hi, hri | hri⟩ := href.1 hc
        · obtain ⟨cc, hcc, hcallee⟩ := (instrReferences_iff _ _).1 hri
          refine hnone cc ?_ hcallee
          rcases hcc with ⟨refs, rfl⟩ | rfl | rfl
          · exact Or.inl ⟨refs, hi⟩
          · exact Or.inr (Or.inl hi)
          · exact Or.inr (Or.inr hi)
        · rw [hnoesc i hi] at hri
          cases hri
    refine ⟨hr, ?_⟩
    have hm : (⟨fe0.pos, Message.functionNotUsed funcObj.fullName⟩ : Diagnostic) ∈
        (run unicodeIsUpper unicodeToLower pass).filter
          (fun d => decide (d.message.functionName = some funcObj.fullName)) := by
      rw [hfilter, functionNotUsed_mem_reportFunction]
      exact ⟨hr, hpos.symm, hname.symm⟩
    exact (List.mem_filter.1 hm).1

end InterfaceCallClaim

theorem example_concrete_methods :
    interfaceMethodIdents concreteMethodPass.files =
      [({ params := [], results := some [⟨[]⟩] }, ⟨"m", 36, some 36, some (.func exIm)⟩)] :=
  rfl

/-- Witness of C24 on the package in which the interface method `m` is never invoked
through the interface and the concrete method `T.m` is called: the diagnostics of `run` are
the not-used messages of the interface method and of the interface. -/
theorem C24_callee_resolution_witness :
    run Char.isUpper Char.toLower concreteMethodPass =
      [⟨36, .functionNotUsed "(p.iface).m"⟩, ⟨17, .otherNotUsed "iface"⟩] ∧
    ∃ fe0 fe,
      (registerPackageUnexportedDefinitions Char.isUpper Char.toLower concreteMethodPass.files
        newExecutionMetadata).functionRegistry.lookup exIm.fullName = some fe0 ∧
      (finalMetadata Char.isUpper Char.toLower concreteMethodPass).functionRegistry.lookup
        exIm.fullName = some fe ∧
      ((∃ cc, ((∃ refs, Instr.call cc refs ∈ scannedInstrs concreteMethodPass) ∨
            Instr.defer cc ∈ scannedInstrs concreteMethodPass ∨
            Instr.go cc ∈ scannedInstrs concreteMethodPass) ∧
          (∀ f, StaticCallee cc ≠ some (some f)) ∧ cc.method = some exIm) →
        fe.referenced = true ∧
        ∀ pos, (⟨pos, Message.functionNotUsed exIm.fullName⟩ : Diagnostic) ∉
          run Char.isUpper Char.toLower concreteMethodPass) ∧
      ((∀ cc, ((∃ refs, Instr.call cc refs ∈ scannedInstrs concreteMethodPass) ∨
            Instr.defer cc ∈ scannedInstrs concreteMethodPass ∨
            Instr.go cc ∈ scannedInstrs concreteMethodPass) →
          calleeName cc ≠ some exIm.fullName) →
        (∀ i ∈ scannedInstrs concreteMethodPass, instrEscalates exIm.fullName i = false) →
        fe.referenced = false ∧
        (⟨fe0.pos, Message.functionNotUsed exIm.fullName⟩ : Diagnostic) ∈
          run Char.isUpper Char.toLower concreteMethodPass) :=
  ⟨rfl,
    (C24_callee_resolution Char.isUpper Char.toLower concreteMethodPass
      ({ params := [], results := some [⟨[]⟩] }, ⟨"m", 36, some 36, some (.func exIm)⟩) exIm
      (by rw [example_concrete_methods]; exact List.mem_singleton.2 rfl) rfl rfl).2.2.2⟩

section RecursionClaim

variable (unicodeIsUpper : Char → Bool) (unicodeToLower : Char → Char)

/-- C25. A call site marks its callee referenced wherever it occurs: if a call, defer or go
instruction in the body of any source function with a function object (or of a function
literal nested in it) resolves to a registered function, the final entry of that function has
`referenced = true` and `run` does not report it as not used.  Nothing is assumed about the
enclosing function: it may be the function itself (self-recursion), a function that the
function calls in turn (mutual recursion), or a function that is itself reported as not
used. -/
theorem C25_call_site_anywhere_marks_referenced (pass : Pass) (name : String)
    (fe0 : FunctionEntry)
    (hreg : (registerPackageUnexportedDefinitions unicodeIsUpper unicodeToLower pass.files
      newExecutionMetadata).functionRegistry.lookup name = some fe0)
    (fn : Function) (fnObj : TypesFunc) (hfn : fn ∈ pass.srcFuncs)
    (hobj : fn.object = some fnObj)
    (cc : CallCommon) (i : Instr) (hi : i ∈ functionInstrs fn)
    (hkind : (∃ refs, i = Instr.call cc refs) ∨ i = Instr.defer cc ∨ i = Instr.go cc)
    (hres : calleeName cc = some name) :
    ∃ fe, (finalMetadata unicodeIsUpper unicodeToLower pass).functionRegistry.lookup name
        = some fe ∧
      fe.referenced = true ∧
      ∀ pos, (⟨pos, Message.functionNotUsed name⟩ : Diagnostic) ∉
        run unicodeIsUpper unicodeToLower pass := by
  obtain ⟨fe, hfe, _, _, href, _, hfilter⟩ :=
    final_entry unicodeIsUpper unicodeToLower pass name fe0 hreg
  have hr : fe.referenced = true :=
    href.2 ⟨i, mem_scannedInstrs_of_srcFunc pass fn fnObj hfn hobj i hi,
      Or.inl ((instrReferences_iff name i).2 ⟨cc, hkind, hres⟩)⟩
  exact ⟨fe, hfe, hr,
    not_reported_of_referenced unicodeIsUpper unicodeToLower pass name fe hfilter hr⟩

end RecursionClaim

/-- Witness of C25 on the package `func c() { c() }; func e() { f() }; func f() {}`: the
function `f` is called only from `e`, and `run` reports `e` only, neither `f` nor the
self-recursive `c`. -/
theorem C25_call_site_anywhere_marks_referenced_witness :
    run Char.isUpper Char.toLower recursionPass = [⟨35, .functionNotUsed "p.e"⟩] ∧
    ∃ fe, (finalMetadata Char.isUpper Char.toLower recursionPass).functionRegistry.lookup "p.f"
        = some fe ∧
      fe.referenced = true ∧
      ∀ pos, (⟨pos, Message.functionNotUsed "p.f"⟩ : Diagnostic) ∉
        run Char.isUpper Char.toLower recursionPass :=
  ⟨rfl,
    C25_call_site_anywhere_marks_referenced Char.isUpper Char.toLower recursionPass "p.f"
      { fullName := "p.f", referenced := false, pos := 53, unusedResults := ∅,
        unusedArguments := ∅, passedAsArgument := false } rfl
      (.mk (some (exRec "e" 35)) [] [[exRecCall "f" 53, .other []]] []) (exRec "e" 35)
      (List.mem_cons_of_mem _ (List.mem_cons_self _ _)) rfl
      { value := .function (some (exRec "f" 53)), method := none, args := [],
        numResults := 0 }
      (exRecCall "f" 53) (by simp [functionInstrs, anonInstrs])
      (Or.inl ⟨some [], rfl⟩) rfl⟩

section ParameterExemptionClaim

variable (unicodeIsUpper : Char → Bool) (unicodeToLower : Char → Char)

/-- C26. The unused-parameter step looks at the referrers of a parameter only, not at its
name or position: applied to an entry that is not escalated it adds the name of every entry
of the parameter list whose referrer list is nil or empty.  So for a registered function
that no scanned instruction escalates, the name of every such parameter of its source
function, the blank identifier and the receiver included, is in the final
`unusedArguments`; and when some scanned call, defer or go instruction resolves to the
function and it has no result, the diagnostic about it is the unused-arguments message with
that set. -/
theorem C26_no_parameter_exempt (pass : Pass) (name : String) (fe0 : FunctionEntry)
    (hreg : (registerPackageUnexportedDefinitions unicodeIsUpper unicodeToLower pass.files
      newExecutionMetadata).functionRegistry.lookup name = some fe0)
    (hnoesc : ∀ i ∈ scannedInstrs pass, instrEscalates name i = false)
    (fn : Function) (fnObj : TypesFunc) (hfn : fn ∈ pass.srcFuncs)
    (hobj : fn.object = some fnObj) (hname : fnObj.fullName = name)
    (p : Parameter) (hp : p ∈ fn.params)
    (hrefs : p.referrers = none ∨ p.referrers = some []) :
    (∀ (em : ExecutionMetadata) (obj : TypesFunc) (ps : List Parameter) (fe : FunctionEntry),
      em.functionRegistry.lookup obj.fullName = some fe → fe.passedAsArgument = false →
      ∃ fe2, (checkUnusedParams em obj ps).functionRegistry.lookup obj.fullName = some fe2 ∧
        ∀ x, x ∈ fe2.unusedArguments ↔
          x ∈ fe.unusedArguments ∨
            ∃ q ∈ ps, (q.referrers = none ∨ q.referrers = some []) ∧ q.name = x) ∧
    ∃ fe, (finalMetadata unicodeIsUpper unicodeToLower pass).functionRegistry.lookup name
        = some fe ∧
      p.name ∈ fe.unusedArguments ∧
      ((∃ i ∈ scannedInstrs pass, instrReferences name i = true) →
        fe0.unusedResults = ∅ →
        (run unicodeIsUpper unicodeToLower pass).filter
          (fun d => decide (d.message.functionName = some name)) =
            [⟨fe0.pos, Message.unusedArguments name fe.unusedArguments⟩]) := by
  constructor
  · intro em obj ps fe hfe hpass
    refine ⟨stepEntry obj.fullName fe (.params obj ps), by
      rw [show checkUnusedParams em obj ps = applyStep em (.params obj ps) from rfl,
        lookup_applyStep, hfe]; rfl, ?_⟩
    intro x
    simp only [stepEntry, if_true, hpass, Bool.false_eq_true, if_false]
    rw [paramsEntry_eq]
    simp only [Finset.mem_union, mem_unreferencedNames]
  · obtain ⟨fe, hfe, hfull, hpos, href, hres, hfilter⟩ :=
      final_entry unicodeIsUpper unicodeToLower pass name fe0 hreg
    have hargs := final_unusedArguments unicodeIsUpper unicodeToLower pass name fe0 fe hreg
      hfe hnoesc
    have hmem : p.name ∈ fe.unusedArguments :=
      (hargs p.name).2 ⟨fn, hfn, fnObj, hobj, hname, p, hp, hrefs, rfl⟩
    refine ⟨fe, hfe, hmem, ?_⟩
    intro hcall hzero
    have hr : fe.referenced = true := by
      obtain ⟨i, hi, hri⟩ := hcall
      exact href.2 ⟨i, hi, Or.inl hri⟩
    have hempty : fe.unusedResults = ∅ := by
      ext x
      simp only [Finset.not_mem_empty, iff_false]
      intro hx
      have := (hres x hx).1
      rw [hzero] at this
      simp at this
    have hne : fe.unusedArguments ≠ ∅ := by
      intro h
      rw [h] at hmem
      simp at hmem
    rw [hfilter]
    simp only [reportFunction, hr, Bool.not_true, Bool.false_eq_true, if_false, hempty,
      hfull, hpos]
    simp [hne]

end ParameterExemptionClaim

theorem example_blank_hnoesc :
    ∀ i ∈ scannedInstrs blankParameterPass, instrEscalates "p.f" i = false := by
  intro i hi
  rw [show scannedInstrs blankParameterPass =
    [.other [], .other [],
     .call { value := .function (some exBlankF), method := none, args := [.other],
             numResults := 0 } (some []),
     .other []] from rfl] at hi
  simp only [List.mem_cons, List.mem_singleton, List.not_mem_nil, or_false] at hi
  rcases hi with rfl | rfl | rfl | rfl <;> rfl

/-- Witness of C26 on the package `func f(_ int) {}; func Use() { f(1) }`: the directly
called function `f` is reported as having the unused argument `_`. -/
theorem C26_no_parameter_exempt_witness :
    run Char.isUpper Char.toLower blankParameterPass =
      [⟨17, .unusedArguments "p.f" (insert "_" ∅)⟩] ∧
    ∃ fe, (finalMetadata Char.isUpper Char.toLower blankParameterPass).functionRegistry.lookup
        "p.f" = some fe ∧
      "_" ∈ fe.unusedArguments ∧
      ((∃ i ∈ scannedInstrs blankParameterPass, instrReferences "p.f" i = true) →
        exBlankFEntry.unusedResults = ∅ →
        (run Char.isUpper Char.toLower blankParameterPass).filter
          (fun d => decide (d.message.functionName = some "p.f")) =
            [⟨exBlankFEntry.pos, Message.unusedArguments "p.f" fe.unusedArguments⟩]) :=
  ⟨rfl,
    (C26_no_parameter_exempt Char.isUpper Char.toLower blankParameterPass "p.f" exBlankFEntry
      rfl example_blank_hnoesc
      (.mk (some exBlankF) [⟨"_", some []⟩] [[.other []]] []) exBlankF
      (List.mem_cons_self _ _) rfl rfl ⟨"_", some []⟩ (List.mem_singleton.2 rfl)
      (Or.inr rfl)).2⟩

/-! ## Interface method stubs -/

section InterfaceMethodClaim

variable (unicodeIsUpper : Char → Bool) (unicodeToLower : Char → Char)

/-- C20, as amended. An unexported interface method stub is tracked as an entry of the
function registry, not of `otherUnusedDefinitions` (whose entries are names of variables,
constants and interface types only), and `visit` never changes the function registry, so
identifier references do not clear it.  What clears the not-used diagnostic is a scanned
instruction: the diagnostic is reported at the position of the entry if and only if no
scanned call, defer or go instruction resolves to the method and no scanned instruction
escalates it, and the final entry is referenced exactly when there is such an instruction.
In that case the diagnostics of `run` about the method are decided by the final entry: the
unused-returns diagnostic if a result index is left in `unusedResults` (every index left
was seeded at registration and is consumed by no scanned instruction), otherwise the
unused-arguments diagnostic if a name is left in `unusedArguments`, otherwise none. -/
theorem C20_interface_method_cleared_by_call_only (pass : Pass) (p : FuncType × Ident)
    (funcObj : TypesFunc)
    (hmem : p ∈ interfaceMethodIdents pass.files)
    (hexp : IsExported unicodeIsUpper p.2.name = false)
    (hobj : p.2.typesObj = some (.func funcObj)) :
    (∃ fe0 fe,
      (registerPackageUnexportedDefinitions unicodeIsUpper unicodeToLower pass.files
        newExecutionMetadata).functionRegistry.lookup funcObj.fullName = some fe0 ∧
      (finalMetadata unicodeIsUpper unicodeToLower pass).functionRegistry.lookup
        funcObj.fullName = some fe ∧
      ((⟨fe0.pos, Message.functionNotUsed funcObj.fullName⟩ : Diagnostic) ∈
          run unicodeIsUpper unicodeToLower pass ↔
        ¬ ∃ i ∈ scannedInstrs pass,
            instrReferences funcObj.fullName i = true ∨
              instrEscalates funcObj.fullName i = true) ∧
      (fe.referenced = true ↔
        ∃ i ∈ scannedInstrs pass,
          instrReferences funcObj.fullName i = true ∨
            instrEscalates funcObj.fullName i = true) ∧
      ((∃ i ∈ scannedInstrs pass,
          instrReferences funcObj.fullName i = true ∨
            instrEscalates funcObj.fullName i = true) →
        (run unicodeIsUpper unicodeToLower pass).filter
            (fun d => decide (d.message.functionName = some funcObj.fullName)) =
          if fe.unusedResults ≠ ∅ then
            [⟨fe0.pos, .unusedReturns funcObj.fullName fe.unusedResults⟩]
          else if fe.unusedArguments ≠ ∅ then
            [⟨fe0.pos, .unusedArguments funcObj.fullName fe.unusedArguments⟩]
          else []) ∧
      (∀ x ∈ fe.unusedResults,
        x ∈ fe0.unusedResults ∧
          ∀ i ∈ scannedInstrs pass, x ∉ instrConsumes funcObj.fullName i)) ∧
    (∀ kv ∈ (registerPackageUnexportedDefinitions unicodeIsUpper unicodeToLower pass.files
        newExecutionMetadata).otherUnusedDefinitions,
      ∃ n, ((n ∈ valueIdents pass.files ∧ n.name ≠ "_") ∨ n ∈ interfaceIdents pass.files) ∧
        IsExported unicodeIsUpper n.name = false ∧ kv.1 = n.pos ∧ kv.2 = n.name) ∧
    (∀ (em : ExecutionMetadata) (n : Ident),
      (visit em n).functionRegistry = em.functionRegistry) := by
  refine ⟨?_, ?_, visit_functionRegistry⟩
  · have hsome : ((registerPackageUnexportedDefinitions unicodeIsUpper unicodeToLower pass.files
        newExecutionMetadata).functionRegistry.lookup funcObj.fullName).isSome = true := by
      rw [register_eq_foldl]
      apply isSome_lookup_foldl_applyRegEvent
      refine Or.inr ⟨funcObj, interfaceMethodNumResults p.1, [], ?_, rfl⟩
      unfold registrationEvents
      exact List.mem_append_left _
        ((function_mem_genEvents unicodeIsUpper pass.files funcObj _ _).2
          ⟨p, hmem, hexp, hobj, rfl, rfl⟩)
    obtain ⟨fe0, hreg⟩ := Option.isSome_iff_exists.1 hsome
    obtain ⟨fe, hfe, hname, hpos, href, hres, hfilter⟩ :=
      final_entry unicodeIsUpper unicodeToLower pass funcObj.fullName fe0 hreg
    refine ⟨fe0, fe, hreg, hfe, ?_, href, ?_, hres⟩
    · have hmem2 : (⟨fe0.pos, Message.functionNotUsed funcObj.fullName⟩ : Diagnostic) ∈
          run unicodeIsUpper unicodeToLower pass ↔
          (⟨fe0.pos, Message.functionNotUsed funcObj.fullName⟩ : Diagnostic) ∈
            reportFunction fe := by
        rw [← hfilter, List.mem_filter]
        simp [Message.functionName]
      rw [hmem2, functionNotUsed_mem_reportFunction, hpos, hname, ← href]
      simp
    · intro hex
      have hr : fe.referenced = true := href.2 hex
      rw [hfilter]
      unfold reportFunction
      rw [hr, hname, hpos]
      by_cases h1 : fe.unusedResults = ∅
      · by_cases h2 : fe.unusedArguments = ∅
        · simp [h1, h2]
        · simp [h1, h2]
      · simp [h1]
  · intro kv hkv
    rw [register_eq_foldl] at hkv
    rcases mem_other_foldl_applyRegEvent unicodeIsUpper _ _ kv hkv with h | h
    · simp [newExecutionMetadata] at h
    · exact (other_mem_registrationEvents unicodeIsUpper unicodeToLower pass.files _ _).1 h

end InterfaceMethodClaim

theorem example_interfaceCall_methods :
    interfaceMethodIdents interfaceCallPass.files =
      [({ params := [], results := some [⟨[]⟩] }, ⟨"m", 36, some 36, some (.func exIm)⟩)] :=
  rfl

/-- Witness of the amended C20 on the package of the counterexample, `package p; type iface
interface { m() int }; func Use(i iface) { i.m() }`: the method `m` is an unexported method
of a declared interface, the scanned call `i.m()` resolves to it, so the premise of the
third part holds and the diagnostics about the method are the unused-returns diagnostic
of the final entry. -/
theorem C20_interface_method_cleared_by_call_only_witness :
    (({ params := [], results := some [⟨[]⟩] }, ⟨"m", 36, some 36, some (.func exIm)⟩) :
        FuncType × Ident) ∈ interfaceMethodIdents interfaceCallPass.files ∧
    IsExported Char.isUpper "m" = false ∧
    (scannedInstrs interfaceCallPass).filter
        (fun i => instrReferences exIm.fullName i || instrEscalates exIm.fullName i) =
      [.call { value := .other, method := some exIm, args := [], numResults := 1 }
        (some [])] ∧
    ((finalMetadata Char.isUpper Char.toLower interfaceCallPass).functionRegistry.lookup
      exIm.fullName).map (fun fe => (fe.referenced, fe.unusedResults, fe.unusedArguments))
        = some (true, insert 0 ∅, ∅) ∧
    ((∃ fe0 fe,
      (registerPackageUnexportedDefinitions Char.isUpper Char.toLower interfaceCallPass.files
        newExecutionMetadata).functionRegistry.lookup exIm.fullName = some fe0 ∧
      (finalMetadata Char.isUpper Char.toLower interfaceCallPass).functionRegistry.lookup
        exIm.fullName = some fe ∧
      ((⟨fe0.pos, Message.functionNotUsed exIm.fullName⟩ : Diagnostic) ∈
          run Char.isUpper Char.toLower interfaceCallPass ↔
        ¬ ∃ i ∈ scannedInstrs interfaceCallPass,
            instrReferences exIm.fullName i = true ∨
              instrEscalates exIm.fullName i = true) ∧
      (fe.referenced = true ↔
        ∃ i ∈ scannedInstrs interfaceCallPass,
          instrReferences exIm.fullName i = true ∨
            instrEscalates exIm.fullName i = true) ∧
      ((∃ i ∈ scannedInstrs interfaceCallPass,
          instrReferences exIm.fullName i = true ∨
            instrEscalates exIm.fullName i = true) →
        (run Char.isUpper Char.toLower interfaceCallPass).filter
            (fun d => decide (d.message.functionName = some exIm.fullName)) =
          if fe.unusedResults ≠ ∅ then
            [⟨fe0.pos, .unusedReturns exIm.fullName fe.unusedResults⟩]
          else if fe.unusedArguments ≠ ∅ then
            [⟨fe0.pos, .unusedArguments exIm.fullName fe.unusedArguments⟩]
          else []) ∧
      (∀ x ∈ fe.unusedResults,
        x ∈ fe0.unusedResults ∧
          ∀ i ∈ scannedInstrs interfaceCallPass, x ∉ instrConsumes exIm.fullName i)) ∧
    (∀ kv ∈ (registerPackageUnexportedDefinitions Char.isUpper Char.toLower
        interfaceCallPass.files newExecutionMetadata).otherUnusedDefinitions,
      ∃ n, ((n ∈ valueIdents interfaceCallPass.files ∧ n.name ≠ "_") ∨
          n ∈ interfaceIdents interfaceCallPass.files) ∧
        IsExported Char.isUpper n.name = false ∧ kv.1 = n.pos ∧ kv.2 = n.name) ∧
    (∀ (em : ExecutionMetadata) (n : Ident),
      (visit em n).functionRegistry = em.functionRegistry)) :=
  ⟨by rw [example_interfaceCall_methods]; exact List.mem_singleton.2 rfl, rfl, rfl, rfl,
    C20_interface_method_cleared_by_call_only Char.isUpper Char.toLower interfaceCallPass
      ({ params := [], results := some [⟨[]⟩] }, ⟨"m", 36, some 36, some (.func exIm)⟩) exIm
      (by rw [example_interfaceCall_methods]; exact List.mem_singleton.2 rfl) rfl rfl⟩

end Unusedunexport
